import Mathlib

/-!
# MuseScore score reader: `src/engraving/rw/400/tread.cpp`

A shallow embedding of the entity readers of `TRead` and the proofs of the
properties that the specification states about them.

The readers drive a forward-only XML cursor (`XmlReader`).  The cursor is
embedded as the list of tokens that are still to be read, the head of the
list being the token the cursor stands on; every cursor operation of the
readers (`readNext`, `readNextStartElement`, `skipCurrentElement`,
`readText`, `readInt`, the attribute accessors, `unknown`) is a function on
that list.  Documents are serialised from element trees (`Node`) by
`Node.toks`, so that statements can speak about children of an element.

Code of the repository that the readers call but that is not part of the
translated file (string conversions, the text and property layers, the
mutators of the fretboard diagram) is taken as a parameter.
-/

namespace MuseScore

/-! ## The token cursor -/

/-- Modelled from the spec: one token of the forward-only XML cursor of the
spec (section 2, Token Cursor): the start tag of an element with its
attributes, a run of character data, or the end tag of an element. -/
inductive Token where
  | startElement (name : String) (attrs : List (String × String))
  | characters (text : String)
  | endElement (name : String)
  deriving DecidableEq, Repr

/-- Modelled from the spec: the cursor `XmlReader`, as the list of tokens not
yet left behind; the head is the current token, the empty list is the
exhausted (invalid) cursor. -/
abbrev XmlReader := List Token

/-- An element tree of a document: character data or an element with
attributes and children. -/
inductive Node where
  | text (s : String)
  | elem (name : String) (attrs : List (String × String)) (kids : List Node)

mutual
/-- The token sequence of a node, in document order. -/
def Node.toks : Node → List Token
  | .text s => [.characters s]
  | .elem n a ks => .startElement n a :: (Node.toksList ks ++ [.endElement n])
/-- The token sequence of a list of sibling nodes. -/
def Node.toksList : List Node → List Token
  | [] => []
  | k :: ks => k.toks ++ Node.toksList ks
end

/-- Whether a list of nodes is empty can be decided. -/
instance Node.decidableEqNil (l : List Node) : Decidable (l = []) :=
  match l with
  | [] => isTrue rfl
  | _ :: _ => isFalse (fun h => List.noConfusion h)

/-- Tag name of a node (empty for character data). -/
def Node.name : Node → String
  | .text _ => ""
  | .elem n _ _ => n

/-- Attributes of a node. -/
def Node.attrs : Node → List (String × String)
  | .text _ => []
  | .elem _ a _ => a

/-- Children of a node. -/
def Node.kids : Node → List Node
  | .text _ => []
  | .elem _ _ ks => ks

/-- The character data carried by a token sequence, concatenated. -/
def Token.text : List Token → String
  | [] => ""
  | .characters s :: r => s ++ Token.text r
  | _ :: r => Token.text r

/-- The character data inside a node. -/
def Node.innerText (n : Node) : String := Token.text (Node.toksList n.kids)

/-- String conversions of the cursor and of `TConv` that the readers use and
that are not part of the translated file; they are parameters. -/
structure Conv where
  /-- Conversion `String::toInt`, `none` when the text is no integer. -/
  toInt : String → Option Int
  /-- Conversion behind `XmlReader::readBool`. -/
  toBool : String → Bool

namespace XmlReader

/-- Modelled from the spec: `name()`, the tag name of the current token. -/
def name : XmlReader → String
  | .startElement n _ :: _ => n
  | .endElement n :: _ => n
  | _ => ""

/-- Modelled from the spec: the attributes of the current start tag (read
attribute); none on any other token. -/
def attributes : XmlReader → List (String × String)
  | .startElement _ a :: _ => a
  | _ => []

/-- Modelled from the spec: `attribute(name)`, the attribute value or the
empty string when the attribute is absent. -/
def attr (e : XmlReader) (n : String) : String :=
  (e.attributes.lookup n).getD ""

/-- Modelled from the spec: `intAttribute(name, def)`, the attribute as an
integer, `def` when it is absent or does not convert. -/
def intAttribute (C : Conv) (e : XmlReader) (n : String) (d : Int) : Int :=
  match e.attributes.lookup n with
  | none => d
  | some v => (C.toInt v).getD d

/-- Modelled from the spec: `readNext()`, advance by one token. -/
def readNext (e : XmlReader) : XmlReader := e.tail

/-- Modelled from the spec: the loop of `readNextStartElement` over the
tokens after the current one: character data is passed over, an end tag
stops with `false`, a start tag with `true`. -/
def scanStart : List Token → Bool × XmlReader
  | [] => (false, [])
  | .characters _ :: r => scanStart r
  | .startElement n a :: r => (true, .startElement n a :: r)
  | .endElement n :: r => (false, .endElement n :: r)

/-- Modelled from the spec: `readNextStartElement()` (advance to next start
element): reads on until the next start tag inside the current element and
answers `true`, or until an end tag (or the end of input) and answers
`false`. -/
def readNextStartElement (e : XmlReader) : Bool × XmlReader := scanStart e.tail

/-- Modelled from the spec: the loop of `skipCurrentElement` at nesting depth
`d` (1 at the start): a start tag opens one more level, an end tag closes one,
and the end tag that closes the last level is where the cursor stops. -/
def skipAux : Nat → List Token → XmlReader
  | _, [] => []
  | d, .characters _ :: r => skipAux d r
  | d, .startElement _ _ :: r => skipAux (d + 1) r
  | d, .endElement n :: r => if d ≤ 1 then .endElement n :: r else skipAux (d - 1) r

/-- Modelled from the spec: `skipCurrentElement()` (skip current subtree):
reads on to the end tag that closes the current element. -/
def skipCurrentElement (e : XmlReader) : XmlReader := skipAux 1 e.tail

/-- Modelled from the spec: the tokens passed by `skipCurrentElement` at
depth `d`, the closing tag excluded. -/
def bodyAux : Nat → List Token → List Token
  | _, [] => []
  | d, .characters s :: r => .characters s :: bodyAux d r
  | d, .startElement n a :: r => .startElement n a :: bodyAux (d + 1) r
  | d, .endElement n :: r => if d ≤ 1 then [] else .endElement n :: bodyAux (d - 1) r

/-- Modelled from the spec: the tokens strictly inside the current element,
which a reader of the whole element consumes. -/
def body (e : XmlReader) : List Token := bodyAux 1 e.tail

/-- Modelled from the spec: `readText()`: on a start tag, the character data
of the element, the cursor being left on its end tag; elsewhere the empty
string and no move. -/
def readText (e : XmlReader) : String × XmlReader :=
  match e with
  | .startElement _ _ :: _ => (Token.text e.body, e.skipCurrentElement)
  | _ => ("", e)

/-- Modelled from the spec: `readInt()`, the text of the element as an
integer, 0 when it does not convert. -/
def readInt (C : Conv) (e : XmlReader) : Int × XmlReader :=
  ((C.toInt e.readText.1).getD 0, e.readText.2)

/-- Modelled from the spec: `readBool()`. -/
def readBool (C : Conv) (e : XmlReader) : Bool × XmlReader :=
  (C.toBool e.readText.1, e.readText.2)

/-- The loop `while (e.readNextStartElement()) body` with the loop state
`s`, bounded by `fuel` iterations; `none` when the bound is hit. -/
def whileStart {σ : Type} (body : σ → XmlReader → Option (σ × XmlReader)) :
    Nat → σ → XmlReader → Option (σ × XmlReader)
  | 0, _, _ => none
  | fuel + 1, s, e =>
    match e.readNextStartElement with
    | (false, e1) => some (s, e1)
    | (true, e1) =>
      match body s e1 with
      | none => none
      | some (s2, e2) => whileStart body fuel s2 e2

/-- The loop `while (e.readNextStartElement()) body`: every iteration leaves
at least one token behind, so one more iteration than there are tokens is
never reached. -/
def forEachStartElement {σ : Type} (body : σ → XmlReader → Option (σ × XmlReader))
    (s : σ) (e : XmlReader) : Option (σ × XmlReader) :=
  whileStart body (e.length + 1) s e

/-- The effect of one run of a loop body on the loop state, when the body is
started on the start tag of the element `k` standing alone; character data
between elements has no effect. -/
def stepOf {σ : Type} (body : σ → XmlReader → Option (σ × XmlReader)) (s : σ) : Node → σ
  | .text _ => s
  | .elem n a ks => ((body s (Node.elem n a ks).toks).map Prod.fst).getD s

/-- A loop body that always returns and never moves the cursor backwards. -/
def Progress {σ : Type} (body : σ → XmlReader → Option (σ × XmlReader)) : Prop :=
  ∀ s e, ∃ s1 e1, body s e = some (s1, e1) ∧ e1.length ≤ e.length

end XmlReader

/-- A diagnostic written to the log. -/
inductive Diag where
  /-- Diagnostic of `XmlReader::unknown()` for the tag of that name. -/
  | unknownElement (tag : String)
  /-- Diagnostic `incorrect degree` of the Harmony reader. -/
  | incorrectDegree (degreeValue degreeAlter : Int) (degreeType : String)
  deriving DecidableEq, Repr

/-- The diagnostics log. -/
abbrev Log := List Diag

/-- Modelled from the spec: `XmlReader::unknown()`: the unknown element is
diagnosed and skipped. -/
def XmlReader.unknown (e : XmlReader) (log : Log) : XmlReader × Log :=
  (e.skipCurrentElement, log ++ [Diag.unknownElement e.name])

/-! ## Entities and the layers outside the translated file -/

/-- Modelled from the spec: the state of a text-bearing entity (`TextBase`
with its `EngravingItem` part) as far as the readers of this file observe
it: the display text, the visibility flag and the track; `other` stands for
everything else the text and item layers keep. -/
structure TextBase where
  xmlText : String
  visible : Bool
  track : Int
  other : List (String × String)
  deriving DecidableEq, Repr

/-- Modelled from the spec: the property identifiers `Pid` (a closed
enumeration) that the readers of this file name. -/
inductive Pid where
  | POS_ABOVE | HARMONY_TYPE | PLAY | HARMONY_VOICE_LITERAL | HARMONY_VOICING
  | HARMONY_DURATION | FRET_NUT | ORIENTATION | FRET_STRINGS | FRET_FRETS | FRET_OFFSET
  | MAG | PLAY_TECH_TYPE | LINE_WIDTH
  deriving DecidableEq, Repr

/-- Modelled from the spec: the duration kinds `DurationType` behind the
duration-to-ticks table of the swing tag (eighth, sixteenth, zero; every
other kind, the invalid one included, is handled alike). -/
inductive DurationType where
  | V_LONG | V_BREVE | V_WHOLE | V_HALF | V_QUARTER | V_EIGHTH | V_16TH | V_32ND | V_64TH
  | V_128TH | V_256TH | V_512TH | V_1024TH | V_ZERO | V_MEASURE | V_INVALID
  deriving DecidableEq, Repr

/-- Modelled from the spec: one entry `ChannelActions` of the Channel Action
List, a channel number with its list of action names. -/
structure ChannelActions where
  channel : Int
  midiActionNames : List String
  deriving DecidableEq, Repr

/-- Modelled from the spec: the staff-text state `StaffTextBase`: the text
state, the Channel Action List, the per-voice channel names, the four aeolus
stops with their flag, the swing parameters and the capo. -/
structure StaffTextBase extends TextBase where
  channelActions : List ChannelActions
  channelNames : List String
  aeolusStops : List Int
  setAeolusStops : Bool
  swing : Bool
  swingUnit : Int
  swingRatio : Int
  capo : Int
  deriving DecidableEq, Repr

/-- Modelled from the spec: the setter `setChannelName(voice, name)` of the
Per-Voice Channel Name Map. -/
def StaffTextBase.setChannelName (t : StaffTextBase) (voice : Nat) (name : String) :
    StaffTextBase :=
  { t with channelNames := t.channelNames.set voice name }

/-- Modelled from the spec: the setter `setAeolusStop(group, val)` of one of
the four stop slots. -/
def StaffTextBase.setAeolusStop (t : StaffTextBase) (group : Int) (val : Int) : StaffTextBase :=
  { t with aeolusStops := t.aeolusStops.set group.toNat val }

/-- Modelled from the spec: the index `mu::nidx`, the marker of an
unspecified voice: the largest value of the 64-bit unsigned `size_t`. -/
def nidx : Nat := 2 ^ 64 - 1

/-- The conversion `static_cast<voice_idx_t>(int)`, to the 64-bit unsigned
`size_t`. -/
def toVoiceIdx (v : Int) : Nat := (v % (2 ^ 64 : Int)).toNat

/-- Modelled from the spec: the kinds `HDegreeType` of a harmony degree. -/
inductive HDegreeType where
  | UNDEF | ADD | ALTER | SUBTRACT
  deriving DecidableEq, Repr

/-- Modelled from the spec: a harmony degree `HDegree(value, alter, type)`,
a triple of the Harmony Degree List. -/
structure HDegree where
  value : Int
  alter : Int
  type : HDegreeType
  deriving DecidableEq, Repr

/-- Modelled from the spec: the chord-symbol state `Harmony`: the text state,
the fields the Harmony reader sets by name, the Degree List, and the keyed
property slots in the order in which they were assigned. -/
structure Harmony extends TextBase where
  baseTpc : Int
  baseCase : Int
  id : Int
  textName : String
  rootTpc : Int
  rootCase : Int
  function : String
  degreeList : List HDegree
  leftParen : Bool
  rightParen : Bool
  properties : List (Pid × String)
  deriving DecidableEq, Repr

/-- Modelled from the spec: the mutator `addDegree`, which appends to the
ordered Degree List. -/
def Harmony.addDegree (h : Harmony) (d : HDegree) : Harmony :=
  { h with degreeList := h.degreeList ++ [d] }

/-- Modelled from the spec: `setProperty(pid, value)` on a chord symbol for
the keyed properties of the reader (position-above, harmony type, play,
voice-literal, voicing, duration): the slot is assigned, the fields read by
name and the Degree List are not touched. -/
def Harmony.setProperty (pid : Pid) (v : String) (h : Harmony) : Harmony :=
  { h with properties := h.properties ++ [(pid, v)] }

/-- Modelled from the spec: the dot-type enumeration `FretDotType`. -/
inductive FretDotType where
  | NORMAL | CROSS | SQUARE | TRIANGLE
  deriving DecidableEq, Repr

/-- Modelled from the spec: the marker kinds `FretMarkerType`. -/
inductive FretMarkerType where
  | NONE | CIRCLE | CROSS
  deriving DecidableEq, Repr

/-- Modelled from the spec: a dot `FretItem::Dot` of a fretboard diagram,
with its fret and dot type. -/
structure Dot where
  fret : Int
  dtype : FretDotType
  deriving DecidableEq, Repr

/-- The fretboard diagram `FretDiagram` is not part of the translated file:
its state `D`, the two accessors and the mutators that the reader calls are
parameters. -/
structure FretOps (D : Type) where
  /-- Accessor `strings()`. -/
  strings : D → Int
  /-- Accessor `dot(s)`, the dots of string `s`. -/
  dot : D → Int → List Dot
  /-- Test `Dot::exists()`. -/
  dotExists : Dot → Bool
  /-- Mutator `setDot(string, fret, add, dtype)`. -/
  setDot : D → Int → Int → Bool → FretDotType → D
  /-- Mutator `setMarker(string, mtype)`. -/
  setMarker : D → Int → FretMarkerType → D
  /-- Mutator `setBarre(startString, endString, fret)`. -/
  setBarre : D → Int → Int → Int → D
  /-- Mutator `setProperty(pid, value)` behind `PropertyRW::readProperty`. -/
  setProperty : Pid → String → D → D
  /-- Mutator `add(h)` for a nested chord symbol. -/
  add : D → Harmony → D
  /-- The chord symbol `new Harmony(d->score()->dummy()->segment())`. -/
  newHarmony : D → Harmony
  /-- The item layer `EngravingItemRW::readProperties` on a tag given by
  name, attributes and body: `none` when the tag is not recognised. -/
  itemReadProperties : D → String → List (String × String) → List Token → Option D
  /-- Conversion `FretItem::nameToDotType`. -/
  nameToDotType : String → FretDotType
  /-- Conversion `FretItem::nameToMarkerType`. -/
  nameToMarkerType : String → FretMarkerType

/-- Modelled from the spec: the tempo marking `TempoText`: the text state,
the tempo (of a type `R` of beats per second, a floating-point number in the
program) and the follow-text flag. -/
structure TempoText (R : Type) extends TextBase where
  tempo : R
  followText : Bool
  deriving DecidableEq, Repr

/-- The floating-point side of the tempo reader, as parameters. -/
structure TempoConv (R : Type) where
  /-- Conversion `TConv::fromXml(_, Constants::defaultTempo)`. -/
  fromXml : String → R
  /-- The number `int(lrint(tempo.toBPM().val))`. -/
  roundedBPM : R → Int

/-- Modelled from the spec: one item `FiguredBassItem` of a figured bass:
its index, its track and what the item-level parser has read. -/
structure FiguredBassItem where
  idx : Int
  track : Int
  content : List Token
  deriving DecidableEq, Repr

/-- Modelled from the spec: the figured-bass state `FiguredBass`: the text
state, the duration, the on-note flag and the Item List. -/
structure FiguredBass extends TextBase where
  ticks : Int × Int
  onNote : Bool
  items : List FiguredBassItem
  deriving DecidableEq, Repr

/-- Code of the repository that the readers call and that is not part of the
translated file, as parameters of the embedding. -/
structure Ext where
  /-- String conversions of the cursor. -/
  conv : Conv
  /-- The text layer `TextBaseRW::readProperties` on a tag given by name,
  attributes and body: `none` when the layer does not recognise the tag (it
  answers `false` and leaves the cursor alone), the new text state when it
  does (the element is then consumed up to its end tag). -/
  textBaseReadProperties : TextBase → String → List (String × String) → List Token → Option TextBase
  /-- Table `propertyName(pid)`, the tag under which a property is stored. -/
  propertyName : Pid → String
  /-- The constant `VOICES`. -/
  VOICES : Nat
  /-- The constant `Constants::division`. -/
  division : Int
  /-- Conversion `TConv::fromXml(_, DurationType::V_INVALID)`. -/
  durationTypeFromXml : String → DurationType
  /-- The finalization step `Harmony::afterRead()`. -/
  afterRead : Harmony → Harmony
  /-- Conversion behind `XmlReader::readFraction`. -/
  toFraction : String → Int × Int
  /-- The item-level parser `FiguredBassItem::read` on the attributes and
  the body of the item element. -/
  figuredBassItemRead : FiguredBassItem → List (String × String) → List Token → FiguredBassItem
  /-- The text `FiguredBassItem::normalizedText()`. -/
  normalizedText : FiguredBassItem → String

/-- Modelled from the spec: the call `TextBaseRW::readProperties(t, e, ctx)`
of the text layer, which is handed the entity as a `TextBase` and so acts on
the text state only: `none` stands for the answer `false` (tag not
recognised, cursor not moved); a recognised element is consumed up to its
end tag. -/
def TextBaseRW.readProperties (X : Ext) (t : TextBase) (e : XmlReader) :
    Option (TextBase × XmlReader) :=
  match X.textBaseReadProperties t e.name e.attributes e.body with
  | none => none
  | some t1 => some (t1, e.skipCurrentElement)

/-- Modelled from the spec: the call `PropertyRW::readProperty(item, xml,
ctx, pid)` of the property parser: the value of the element is read (the
cursor ends on its end tag) and set on the item under the identifier. -/
def PropertyRW.readProperty {α : Type} (setProperty : Pid → String → α → α) (item : α)
    (e : XmlReader) (pid : Pid) : α × XmlReader :=
  (setProperty pid e.readText.1 item, e.readText.2)

/-- Modelled from the spec: the call `PropertyRW::readProperty(item, tag,
xml, ctx, pid)`: when the tag is the name of the property the value is read
and set; `none` stands for the answer `false`. -/
def PropertyRW.readPropertyTag {α : Type} (X : Ext) (setProperty : Pid → String → α → α)
    (item : α) (tag : String) (e : XmlReader) (pid : Pid) : Option (α × XmlReader) :=
  if tag = X.propertyName pid then some (PropertyRW.readProperty setProperty item e pid)
  else none

/-! ## Staff-text family: `TRead::readProperties(StaffTextBase*)` -/

namespace TRead

/-- The `for` loop of the MidiAction branch over the Channel Action List
(tread.cpp, lines 133 to 140): the name is appended to the first entry with
the channel and the loop breaks; the flag is `found`. -/
def midiActionLoop (channel : Int) (name : String) : List ChannelActions → List ChannelActions × Bool
  | [] => ([], false)
  | a :: as =>
    if a.channel = channel then
      ({ a with midiActionNames := a.midiActionNames ++ [name] } :: as, true)
    else
      ((a :: (midiActionLoop channel name as).1), (midiActionLoop channel name as).2)

/-- The MidiAction branch on the Channel Action List (tread.cpp, lines 131
to 146): the loop, then a new entry at the end when the channel was not
found. -/
def midiAction (channel : Int) (name : String) (l : List ChannelActions) : List ChannelActions :=
  if (midiActionLoop channel name l).2 then (midiActionLoop channel name l).1
  else (midiActionLoop channel name l).1 ++ [{ channel := channel, midiActionNames := [name] }]

/-- The function `TRead::readProperties(StaffTextBase*, XmlReader&, ReadContext&)`
(tread.cpp, lines 124 to 190): the answer, the entity and the cursor after
the call. -/
def readProperties (X : Ext) (t : StaffTextBase) (e : XmlReader) :
    Bool × StaffTextBase × XmlReader :=
  let tag := e.name
  if tag = "MidiAction" then
    let channel := e.intAttribute X.conv "channel" 0
    let name := e.attr "name"
    (true, { t with channelActions := midiAction channel name t.channelActions }, e.readNext)
  else if tag = "channelSwitch" ∨ tag = "articulationChange" then
    let voice := toVoiceIdx (e.intAttribute X.conv "voice" (-1))
    if voice < X.VOICES then
      (true, t.setChannelName voice (e.attr "name"), e.readNext)
    else if voice = nidx then
      (true, (List.range X.VOICES).foldl (fun t1 i => t1.setChannelName i (e.attr "name")) t,
        e.readNext)
    else
      (true, t, e.readNext)
  else if tag = "aeolus" then
    let group := e.intAttribute X.conv "group" (-1)
    if group ≥ 0 ∧ group < 4 then
      (true, { t.setAeolusStop group (e.readInt X.conv).1 with setAeolusStops := true },
        (e.readInt X.conv).2)
    else
      (true, { t with setAeolusStops := true }, e.readNext)
  else if tag = "swing" then
    let swingUnit := X.durationTypeFromXml (e.attr "unit")
    let unit : Int :=
      if swingUnit = DurationType.V_EIGHTH then Int.tdiv X.division 2
      else if swingUnit = DurationType.V_16TH then Int.tdiv X.division 4
      else if swingUnit = DurationType.V_ZERO then 0
      else 0
    let ratio := e.intAttribute X.conv "ratio" 60
    (true, { t with swing := true, swingUnit := unit, swingRatio := ratio }, e.readNext)
  else if tag = "capo" then
    let fretId := e.intAttribute X.conv "fretId" 0
    (true, { t with capo := fretId }, e.readNext)
  else
    match TextBaseRW.readProperties X t.toTextBase e with
    | none => (false, t, e)
    | some (tb, e1) => (true, { t with toTextBase := tb }, e1)

/-! ## Chord symbols: `TRead::read(Harmony*)` -/

/-- The three locals of the degree branch. -/
structure DegreeFields where
  degreeValue : Int
  degreeAlter : Int
  degreeType : String
  deriving DecidableEq, Repr

/-- Body of the inner loop of the degree branch (tread.cpp, lines 234 to
245). -/
def readDegreeBody (X : Ext) (s : DegreeFields × Log) (e : XmlReader) :
    Option ((DegreeFields × Log) × XmlReader) :=
  let t := e.name
  if t = "degree-value" then
    some (({ s.1 with degreeValue := (e.readInt X.conv).1 }, s.2), (e.readInt X.conv).2)
  else if t = "degree-alter" then
    some (({ s.1 with degreeAlter := (e.readInt X.conv).1 }, s.2), (e.readInt X.conv).2)
  else if t = "degree-type" then
    some (({ s.1 with degreeType := e.readText.1 }, s.2), e.readText.2)
  else
    some ((s.1, (e.unknown s.2).2), (e.unknown s.2).1)

/-- The test of the degree branch that sends a degree to the diagnostic. -/
def incorrectDegree (d : DegreeFields) : Prop :=
  d.degreeValue ≤ 0 ∨ d.degreeValue > 13 ∨ d.degreeAlter < -2 ∨ d.degreeAlter > 2
    ∨ (d.degreeType ≠ "add" ∧ d.degreeType ≠ "alter" ∧ d.degreeType ≠ "subtract")

instance (d : DegreeFields) : Decidable (incorrectDegree d) := by
  unfold incorrectDegree
  infer_instance

/-- The degree branch after its inner loop (tread.cpp, lines 246 to 259):
the diagnostic, or the degree added with the kind of its type token. -/
def addReadDegree (h : Harmony) (log : Log) (d : DegreeFields) : Harmony × Log :=
  if incorrectDegree d then
    (h, log ++ [Diag.incorrectDegree d.degreeValue d.degreeAlter d.degreeType])
  else if d.degreeType = "add" then
    (h.addDegree ⟨d.degreeValue, d.degreeAlter, HDegreeType.ADD⟩, log)
  else if d.degreeType = "alter" then
    (h.addDegree ⟨d.degreeValue, d.degreeAlter, HDegreeType.ALTER⟩, log)
  else if d.degreeType = "subtract" then
    (h.addDegree ⟨d.degreeValue, d.degreeAlter, HDegreeType.SUBTRACT⟩, log)
  else
    (h, log)

/-- Body of the loop of `TRead::read(Harmony*)` (tread.cpp, lines 214 to
275); the loop state is the chord symbol and the log. -/
def readHarmonyBody (X : Ext) (s : Harmony × Log) (e : XmlReader) :
    Option ((Harmony × Log) × XmlReader) :=
  let h := s.1
  let log := s.2
  let tag := e.name
  if tag = "base" then
    some (({ h with baseTpc := (e.readInt X.conv).1 }, log), (e.readInt X.conv).2)
  else if tag = "baseCase" then
    some (({ h with baseCase := (e.readInt X.conv).1 }, log), (e.readInt X.conv).2)
  else if tag = "extension" then
    some (({ h with id := (e.readInt X.conv).1 }, log), (e.readInt X.conv).2)
  else if tag = "name" then
    some (({ h with textName := e.readText.1 }, log), e.readText.2)
  else if tag = "root" then
    some (({ h with rootTpc := (e.readInt X.conv).1 }, log), (e.readInt X.conv).2)
  else if tag = "rootCase" then
    some (({ h with rootCase := (e.readInt X.conv).1 }, log), (e.readInt X.conv).2)
  else if tag = "function" then
    some (({ h with function := e.readText.1 }, log), e.readText.2)
  else if tag = "degree" then
    match XmlReader.forEachStartElement (readDegreeBody X) (⟨0, 0, ""⟩, log) e with
    | none => none
    | some ((d, log1), e1) => some (addReadDegree h log1 d, e1)
  else if tag = "leftParen" then
    some (({ h with leftParen := true }, log), e.readNext)
  else if tag = "rightParen" then
    some (({ h with rightParen := true }, log), e.readNext)
  else
    match PropertyRW.readPropertyTag X Harmony.setProperty h tag e Pid.POS_ABOVE with
    | some (h1, e1) => some ((h1, log), e1)
    | none =>
    match PropertyRW.readPropertyTag X Harmony.setProperty h tag e Pid.HARMONY_TYPE with
    | some (h1, e1) => some ((h1, log), e1)
    | none =>
    match PropertyRW.readPropertyTag X Harmony.setProperty h tag e Pid.PLAY with
    | some (h1, e1) => some ((h1, log), e1)
    | none =>
    match PropertyRW.readPropertyTag X Harmony.setProperty h tag e Pid.HARMONY_VOICE_LITERAL with
    | some (h1, e1) => some ((h1, log), e1)
    | none =>
    match PropertyRW.readPropertyTag X Harmony.setProperty h tag e Pid.HARMONY_VOICING with
    | some (h1, e1) => some ((h1, log), e1)
    | none =>
    match PropertyRW.readPropertyTag X Harmony.setProperty h tag e Pid.HARMONY_DURATION with
    | some (h1, e1) => some ((h1, log), e1)
    | none =>
    match TextBaseRW.readProperties X h.toTextBase e with
    | some (tb, e1) => some (({ h with toTextBase := tb }, log), e1)
    | none => some ((h, (e.unknown log).2), (e.unknown log).1)

/-- The function `TRead::read(Harmony*, XmlReader&, ReadContext&)` (tread.cpp,
lines 212 to 278): the loop, then `afterRead`; the result is the chord symbol,
the cursor and the log after the read. -/
def readHarmony (X : Ext) (h : Harmony) (e : XmlReader) (log : Log) :
    Option (Harmony × XmlReader × Log) :=
  match XmlReader.forEachStartElement (readHarmonyBody X) (h, log) e with
  | none => none
  | some ((h1, log1), e1) => some (X.afterRead h1, e1, log1)

/-! ## Fretboard diagrams: `TRead::read(FretDiagram*)` -/

/-- The loop state of the FretDiagram reader: the diagram, the locals
`hasBarre` and `haveReadNew`, and the log. -/
structure FretState (D : Type) where
  d : D
  hasBarre : Bool
  haveReadNew : Bool
  log : Log
  deriving DecidableEq, Repr

/-- Body of the string loop inside the new-format container (tread.cpp,
lines 301 to 316), for string `no`. -/
def readNewStringBody {D : Type} (F : FretOps D) (X : Ext) (no : Int) (s : D × Log)
    (e : XmlReader) : Option ((D × Log) × XmlReader) :=
  let t := e.name
  if t = "dot" then
    let fret := e.intAttribute X.conv "fret" 0
    let dtype := F.nameToDotType e.readText.1
    some ((F.setDot s.1 no fret true dtype, s.2), e.readText.2)
  else if t = "marker" then
    let mtype := F.nameToMarkerType e.readText.1
    some ((F.setMarker s.1 no mtype, s.2), e.readText.2)
  else if t = "fingering" then
    some (s, e.readText.2)
  else
    some ((s.1, (e.unknown s.2).2), (e.unknown s.2).1)

/-- Body of the loop over the new-format container `fretDiagram` (tread.cpp,
lines 296 to 326). -/
def readNewBody {D : Type} (F : FretOps D) (X : Ext) (s : D × Log) (e : XmlReader) :
    Option ((D × Log) × XmlReader) :=
  let tag := e.name
  if tag = "string" then
    let no := e.intAttribute X.conv "no" 0
    XmlReader.forEachStartElement (readNewStringBody F X no) s e
  else if tag = "barre" then
    let start := e.intAttribute X.conv "start" (-1)
    let end_ := e.intAttribute X.conv "end" (-1)
    let fret := (e.readInt X.conv).1
    some ((F.setBarre s.1 start end_ fret, s.2), (e.readInt X.conv).2)
  else
    match F.itemReadProperties s.1 e.name e.attributes e.body with
    | some d1 => some ((d1, s.2), e.skipCurrentElement)
    | none => some ((s.1, (e.unknown s.2).2), (e.unknown s.2).1)

/-- Body of the string loop of the legacy format (tread.cpp, lines 344 to
356), for string `no`. -/
def readOldStringBody {D : Type} (F : FretOps D) (X : Ext) (no : Int) (s : D × Log)
    (e : XmlReader) : Option ((D × Log) × XmlReader) :=
  let t := e.name
  if t = "dot" then
    some ((F.setDot s.1 no (e.readInt X.conv).1 false FretDotType.NORMAL, s.2), (e.readInt X.conv).2)
  else if t = "marker" then
    some ((F.setMarker s.1 no
      (if (e.readInt X.conv).1 % 65536 = 88 then FretMarkerType.CROSS else FretMarkerType.CIRCLE),
      s.2), (e.readInt X.conv).2)
  else
    some ((s.1, (e.unknown s.2).2), (e.unknown s.2).1)

/-- Body of the outer loop of `TRead::read(FretDiagram*)` (tread.cpp, lines
286 to 368). -/
def readFretDiagramBody {D : Type} (F : FretOps D) (X : Ext) (s : FretState D)
    (e : XmlReader) : Option (FretState D × XmlReader) :=
  let tag := e.name
  if s.haveReadNew then
    some (s, e.skipCurrentElement)
  else if tag = "fretDiagram" then
    match XmlReader.forEachStartElement (readNewBody F X) (s.d, s.log) e with
    | none => none
    | some ((d1, log1), e1) => some ({ s with d := d1, log := log1, haveReadNew := true }, e1)
  else if tag = "showNut" then
    some ({ s with d := (PropertyRW.readProperty F.setProperty s.d e Pid.FRET_NUT).1 },
      (PropertyRW.readProperty F.setProperty s.d e Pid.FRET_NUT).2)
  else if tag = "orientation" then
    some ({ s with d := (PropertyRW.readProperty F.setProperty s.d e Pid.ORIENTATION).1 },
      (PropertyRW.readProperty F.setProperty s.d e Pid.ORIENTATION).2)
  else if tag = "strings" then
    some ({ s with d := (PropertyRW.readProperty F.setProperty s.d e Pid.FRET_STRINGS).1 },
      (PropertyRW.readProperty F.setProperty s.d e Pid.FRET_STRINGS).2)
  else if tag = "frets" then
    some ({ s with d := (PropertyRW.readProperty F.setProperty s.d e Pid.FRET_FRETS).1 },
      (PropertyRW.readProperty F.setProperty s.d e Pid.FRET_FRETS).2)
  else if tag = "fretOffset" then
    some ({ s with d := (PropertyRW.readProperty F.setProperty s.d e Pid.FRET_OFFSET).1 },
      (PropertyRW.readProperty F.setProperty s.d e Pid.FRET_OFFSET).2)
  else if tag = "string" then
    let no := e.intAttribute X.conv "no" 0
    match XmlReader.forEachStartElement (readOldStringBody F X no) (s.d, s.log) e with
    | none => none
    | some ((d1, log1), e1) => some ({ s with d := d1, log := log1 }, e1)
  else if tag = "barre" then
    some ({ s with hasBarre := (e.readBool X.conv).1 }, (e.readBool X.conv).2)
  else if tag = "mag" then
    some ({ s with d := (PropertyRW.readProperty F.setProperty s.d e Pid.MAG).1 },
      (PropertyRW.readProperty F.setProperty s.d e Pid.MAG).2)
  else if tag = "Harmony" then
    match readHarmony X (F.newHarmony s.d) e s.log with
    | none => none
    | some (h, e1, log1) => some ({ s with d := F.add s.d h, log := log1 }, e1)
  else
    match F.itemReadProperties s.d e.name e.attributes e.body with
    | some d1 => some ({ s with d := d1 }, e.skipCurrentElement)
    | none => some ({ s with log := (e.unknown s.log).2 }, (e.unknown s.log).1)

/-- The two nested `for` loops of the old handling of barres (tread.cpp,
lines 372 to 379), over the string indices still to visit: the first
existing dot found becomes a barre and the function returns. -/
def oldBarreLoop {D : Type} (F : FretOps D) (d : D) : List Nat → D
  | [] => d
  | s :: ss =>
    match (F.dot d s).find? F.dotExists with
    | some dot => F.setBarre d s (-1) dot.fret
    | none => oldBarreLoop F d ss

/-- The old handling of barres after the loop of the FretDiagram reader. -/
def oldBarre {D : Type} (F : FretOps D) (d : D) (hasBarre : Bool) : D :=
  if hasBarre then oldBarreLoop F d (List.range (F.strings d).toNat) else d

/-- The function `TRead::read(FretDiagram*, XmlReader&, ReadContext&)`
(tread.cpp, lines 280 to 381): the diagram, the cursor and the log after the
read. -/
def readFretDiagram {D : Type} (F : FretOps D) (X : Ext) (d : D) (e : XmlReader) (log : Log) :
    Option (D × XmlReader × Log) :=
  match XmlReader.forEachStartElement (readFretDiagramBody F X) ⟨d, false, false, log⟩ e with
  | none => none
  | some (s, e1) => some (oldBarre F s.d s.hasBarre, e1, s.log)

/-! ## Tempo markings: `TRead::read(TempoText*)` -/

/-- Body of the loop of `TRead::read(TempoText*)` (tread.cpp, lines 91 to
100). -/
def readTempoTextBody {R : Type} (T : TempoConv R) (X : Ext) (s : TempoText R × Log)
    (e : XmlReader) : Option ((TempoText R × Log) × XmlReader) :=
  let t := s.1
  let tag := e.name
  if tag = "tempo" then
    some (({ t with tempo := T.fromXml e.readText.1 }, s.2), e.readText.2)
  else if tag = "followText" then
    some (({ t with followText := decide ((e.readInt X.conv).1 ≠ 0) }, s.2), (e.readInt X.conv).2)
  else
    match TextBaseRW.readProperties X t.toTextBase e with
    | some (tb, e1) => some (({ t with toTextBase := tb }, s.2), e1)
    | none => some ((t, (e.unknown s.2).2), (e.unknown s.2).1)

/-- The text `String(u"<sym>metNoteQuarterUp</sym> = %1").arg(n)`. -/
def tempoDefaultText (n : Int) : String := "<sym>metNoteQuarterUp</sym> = " ++ toString n

/-- The sanity check after the loop of the TempoText reader (tread.cpp,
lines 101 to 105). -/
def tempoSanity {R : Type} (T : TempoConv R) (t : TempoText R) : TempoText R :=
  if t.xmlText.isEmpty then
    { t with xmlText := tempoDefaultText (T.roundedBPM t.tempo), visible := false }
  else t

/-- The function `TRead::read(TempoText*, XmlReader&, ReadContext&)`
(tread.cpp, lines 89 to 106). -/
def readTempoText {R : Type} (T : TempoConv R) (X : Ext) (t : TempoText R) (e : XmlReader)
    (log : Log) : Option (TempoText R × XmlReader × Log) :=
  match XmlReader.forEachStartElement (readTempoTextBody T X) (t, log) e with
  | none => none
  | some ((t1, log1), e1) => some (tempoSanity T t1, e1, log1)

/-! ## Figured bass: `TRead::read(FiguredBass*)` -/

/-- The loop state of the FiguredBass reader: the entity, the locals
`normalizedText` and `idx`, and the log. -/
structure FiguredBassState where
  b : FiguredBass
  normalizedText : String
  idx : Int
  log : Log
  deriving DecidableEq, Repr

/-- The statements that add the normalized text of an item to the local
`normalizedText` (tread.cpp, lines 500 to 504): a newline is appended first
when the local is not empty. -/
def appendNormalizedText (normalizedText itemText : String) : String :=
  (if ¬ normalizedText.isEmpty then normalizedText ++ "\n" else normalizedText) ++ itemText

/-- Body of the loop of `TRead::read(FiguredBass*)` (tread.cpp, lines 488 to
511). -/
def readFiguredBassBody (X : Ext) (s : FiguredBassState) (e : XmlReader) :
    Option (FiguredBassState × XmlReader) :=
  let tag := e.name
  if tag = "ticks" then
    some ({ s with b := { s.b with ticks := X.toFraction e.readText.1 } }, e.readText.2)
  else if tag = "onNote" then
    some ({ s with b := { s.b with onNote := decide ((e.readInt X.conv).1 ≠ 0) } },
      (e.readInt X.conv).2)
  else if tag = "FiguredBassItem" then
    let pItem : FiguredBassItem :=
      X.figuredBassItemRead ⟨s.idx, s.b.track, []⟩ e.attributes e.body
    some ({ s with b := { s.b with items := s.b.items ++ [pItem] },
                   idx := s.idx + 1,
                   normalizedText := appendNormalizedText s.normalizedText
                     (X.normalizedText pItem) }, e.skipCurrentElement)
  else
    match TextBaseRW.readProperties X s.b.toTextBase e with
    | some (tb, e1) => some ({ s with b := { s.b with toTextBase := tb } }, e1)
    | none => some ({ s with log := (e.unknown s.log).2 }, (e.unknown s.log).1)

/-- The step after the loop of the FiguredBass reader (tread.cpp, lines 512
to 515): the normalized text becomes the display text when there are
items. -/
def setNormalizedText (b : FiguredBass) (normalizedText : String) : FiguredBass :=
  if b.items.length > 0 then { b with xmlText := normalizedText } else b

/-- The function `TRead::read(FiguredBass*, XmlReader&, ReadContext&)`
(tread.cpp, lines 484 to 516). -/
def readFiguredBass (X : Ext) (b : FiguredBass) (e : XmlReader) (log : Log) :
    Option (FiguredBass × XmlReader × Log) :=
  match XmlReader.forEachStartElement (readFiguredBassBody X) ⟨b, "", 0, log⟩ e with
  | none => none
  | some (s, e1) => some (setNormalizedText s.b s.normalizedText, e1, s.log)

end TRead

/-! ## The other entities of the translated file -/

/-- Modelled from the spec: the sticking text `Sticking`, a text-bearing
entity with no state of its own for the readers. -/
structure Sticking extends TextBase
  deriving DecidableEq, Repr

/-- Modelled from the spec: the rehearsal mark `RehearsalMark`, a
text-bearing entity with no state of its own for the readers. -/
structure RehearsalMark extends TextBase
  deriving DecidableEq, Repr

/-- Modelled from the spec: the staff text `StaffText`, a member of the
staff-text family. -/
structure StaffText extends StaffTextBase
  deriving DecidableEq, Repr

/-- Modelled from the spec: the system text `SystemText`, a member of the
staff-text family. -/
structure SystemText extends StaffTextBase
  deriving DecidableEq, Repr

/-- Modelled from the spec: the playing-technique text, a member of the
staff-text family with the keyed property slots in the order in which they
were assigned (the technique type is one of them). -/
structure PlayTechAnnotation extends StaffTextBase where
  properties : List (Pid × String)
  deriving DecidableEq, Repr

/-- Modelled from the spec: `setProperty(pid, value)` on a playing-technique
text for the keyed property of its reader: the slot is assigned, the
staff-text state is not touched. -/
def setPlayTechProperty (pid : Pid) (v : String) (a : PlayTechAnnotation) : PlayTechAnnotation :=
  { a with properties := a.properties ++ [(pid, v)] }

/-- Modelled from the spec: the ranges `DynamicRange` of a dynamic. -/
inductive DynamicRange where
  | STAFF | PART | SYSTEM
  deriving DecidableEq, Repr

/-- Modelled from the spec: the speeds `DynamicSpeed` of a velocity change. -/
inductive DynamicSpeed where
  | SLOW | NORMAL | FAST
  deriving DecidableEq, Repr

/-- Modelled from the spec: the dynamic marking `Dynamic`: the text state,
the subtype (free text), the velocity, the range, the velocity change and
its speed. -/
structure Dynamic extends TextBase where
  dynamicType : String
  velocity : Int
  dynRange : DynamicRange
  changeInVelocity : Int
  velChangeSpeed : DynamicSpeed
  deriving DecidableEq, Repr

/-- Modelled from the spec: one sample `PitchValue` of the Tremolo-Bar Curve:
time, pitch and vibrato, as the reader assigns them from the three integer
attributes of a point tag. -/
structure PitchValue where
  time : Int
  pitch : Int
  vibrato : Int
  deriving DecidableEq, Repr

/-- Modelled from the spec: the tremolo bar `TremoloBar`: the Curve, the
magnification (kept as the text it is read from; the program converts it to
a floating-point number clamped to 0.1 .. 10.0), the play flag and the keyed
property slots in the order in which they were assigned. -/
structure TremoloBar where
  points : List PitchValue
  userMag : String
  play : Bool
  properties : List (Pid × String)
  deriving DecidableEq, Repr

/-- Modelled from the spec: `setProperty(pid, value)` on a tremolo bar for
the keyed properties of its reader: the slot is assigned, the Curve is not
touched. -/
def TremoloBar.setProperty (pid : Pid) (v : String) (b : TremoloBar) : TremoloBar :=
  { b with properties := b.properties ++ [(pid, v)] }

/-- Modelled from the spec: a transposition `Interval`, diatonic and
chromatic steps. -/
structure Interval where
  diatonic : Int
  chromatic : Int
  deriving DecidableEq, Repr

/-- Modelled from the spec: the interval `Interval(0)` that the conditional
expression of the InstrumentChange reader builds from the integer 0. -/
def Interval.zero : Interval := ⟨0, 0⟩

/-- Modelled from the spec: an instrument descriptor `Instrument`: its
transposition and what the descriptor parser `Instrument::read` has read. -/
structure Instrument where
  transpose : Interval
  content : List Token
  deriving DecidableEq, Repr

/-- Modelled from the spec: the setter `Instrument::setTranspose`. -/
def Instrument.setTranspose (i : Instrument) (v : Interval) : Instrument :=
  { i with transpose := v }

/-- Modelled from the spec: the instrument change `InstrumentChange`: the
text state, the installed instrument and the init flag. -/
structure InstrumentChange extends TextBase where
  instrument : Instrument
  init : Bool
  deriving DecidableEq, Repr

/-- Modelled from the spec: the state of the `EngravingItem` part of an
entity that is no text: the visibility flag and the track; `other` stands
for everything else the item layer keeps. -/
structure ItemBase where
  visible : Bool
  track : Int
  other : List (String × String)
  deriving DecidableEq, Repr

/-- Modelled from the spec: the staff-state change `StaffState`: the item
state, the subtype and the instrument. -/
structure StaffState extends ItemBase where
  staffStateType : Int
  instrument : Instrument
  deriving DecidableEq, Repr

/-- Code of the repository that the readers of the other entities call and
that is not part of the translated file, as further parameters. -/
structure Env extends Ext where
  /-- The method `StaffTextBase::clear()`. -/
  clear : StaffTextBase → StaffTextBase
  /-- The method `Dynamic::setDynamicType(const String&)`. -/
  setDynamicType : String → Dynamic → Dynamic
  /-- Conversion `TConv::fromXml(_, DynamicRange::STAFF)`. -/
  dynRangeFromXml : String → DynamicRange
  /-- Conversion `TConv::fromXml(_, DynamicSpeed::NORMAL)`. -/
  dynSpeedFromXml : String → DynamicSpeed
  /-- The styled properties of a tremolo bar, which
  `PropertyRW::readStyledProperty` tries in turn. -/
  tremoloBarStyledProperties : List Pid
  /-- The default-constructed descriptor `Instrument inst;`. -/
  newInstrument : Instrument
  /-- The descriptor parser `Instrument::read` on the attributes and the body
  of the Instrument element. -/
  instrumentRead : Instrument → List (String × String) → List Token → Instrument
  /-- The item layer `EngravingItemRW::readProperties` on a tag given by
  name, attributes and body: `none` when the tag is not recognised. -/
  itemReadProperties : ItemBase → String → List (String × String) → List Token → Option ItemBase
  /-- The format version `score()->mscVersion()` of the owning document. -/
  mscVersion : Int
  /-- The transposition `staff()->part()->instrument(tick())->transpose()` of
  the instrument active on the part of the owning staff at the tick of the
  event; `none` when the event has no staff. -/
  staffTranspose : InstrumentChange → Option Interval

/-- Modelled from the spec: the call `EngravingItemRW::readProperties(item,
e, ctx)` of the item layer: `none` stands for the answer `false` (tag not
recognised, cursor not moved); a recognised element is consumed up to its
end tag. -/
def EngravingItemRW.readProperties (V : Env) (i : ItemBase) (e : XmlReader) :
    Option (ItemBase × XmlReader) :=
  match V.itemReadProperties i e.name e.attributes e.body with
  | none => none
  | some i1 => some (i1, e.skipCurrentElement)

/-- Modelled from the spec: the call `PropertyRW::readStyledProperty(item,
tag, xml, ctx)`: the styled properties of the item are tried in turn with
`readProperty(item, tag, xml, ctx, pid)`; `none` stands for the answer
`false`. -/
def PropertyRW.readStyledProperty {α : Type} (X : Ext) (setProperty : Pid → String → α → α)
    (item : α) (tag : String) (e : XmlReader) : List Pid → Option (α × XmlReader)
  | [] => none
  | pid :: pids =>
    match PropertyRW.readPropertyTag X setProperty item tag e pid with
    | some r => some r
    | none => PropertyRW.readStyledProperty X setProperty item tag e pids

/-- Modelled from the spec: the call `inst.read(e, part)` of the descriptor
parser, which consumes the Instrument element up to its end tag. -/
def Instrument.read (V : Env) (i : Instrument) (e : XmlReader) : Instrument × XmlReader :=
  (V.instrumentRead i e.attributes e.body, e.skipCurrentElement)

namespace TRead

/-! ### `TRead::read(TextBase*)`, `Sticking`, `RehearsalMark` -/

/-- Body of the loop of `TRead::read(TextBase*)` (tread.cpp, lines 82 to
86). -/
def readTextBaseBody (X : Ext) (s : TextBase × Log) (e : XmlReader) :
    Option ((TextBase × Log) × XmlReader) :=
  match TextBaseRW.readProperties X s.1 e with
  | some (tb, e1) => some ((tb, s.2), e1)
  | none => some ((s.1, (e.unknown s.2).2), (e.unknown s.2).1)

/-- The function `TRead::read(TextBase*, XmlReader&, ReadContext&)`
(tread.cpp, lines 80 to 87). -/
def readTextBase (X : Ext) (t : TextBase) (e : XmlReader) (log : Log) :
    Option (TextBase × XmlReader × Log) :=
  match XmlReader.forEachStartElement (readTextBaseBody X) (t, log) e with
  | none => none
  | some ((t1, log1), e1) => some (t1, e1, log1)

/-- The function `TRead::read(Sticking*, XmlReader&, ReadContext&)`
(tread.cpp, lines 406 to 409): the read of the `TextBase` part. -/
def readSticking (X : Ext) (s : Sticking) (e : XmlReader) (log : Log) :
    Option (Sticking × XmlReader × Log) :=
  match readTextBase X s.toTextBase e log with
  | none => none
  | some (t1, e1, log1) => some ({ s with toTextBase := t1 }, e1, log1)

/-- The function `TRead::read(RehearsalMark*, XmlReader&, ReadContext&)`
(tread.cpp, lines 431 to 434): the read of the `TextBase` part. -/
def readRehearsalMark (X : Ext) (m : RehearsalMark) (e : XmlReader) (log : Log) :
    Option (RehearsalMark × XmlReader × Log) :=
  match readTextBase X m.toTextBase e log with
  | none => none
  | some (t1, e1, log1) => some ({ m with toTextBase := t1 }, e1, log1)

/-! ### `TRead::read(StaffTextBase*)`, `StaffText`, `SystemText` -/

/-- Body of the loop of `TRead::read(StaffTextBase*)` (tread.cpp, lines 117
to 121). -/
def readStaffTextBaseBody (X : Ext) (s : StaffTextBase × Log) (e : XmlReader) :
    Option ((StaffTextBase × Log) × XmlReader) :=
  if (readProperties X s.1 e).1 then
    some (((readProperties X s.1 e).2.1, s.2), (readProperties X s.1 e).2.2)
  else
    some (((readProperties X s.1 e).2.1, ((readProperties X s.1 e).2.2.unknown s.2).2),
      ((readProperties X s.1 e).2.2.unknown s.2).1)

/-- The function `TRead::read(StaffTextBase*, XmlReader&, ReadContext&)`
(tread.cpp, lines 113 to 122): `clear`, then the loop. -/
def readStaffTextBase (V : Env) (t : StaffTextBase) (e : XmlReader) (log : Log) :
    Option (StaffTextBase × XmlReader × Log) :=
  match XmlReader.forEachStartElement (readStaffTextBaseBody V.toExt) (V.clear t, log) e with
  | none => none
  | some ((t1, log1), e1) => some (t1, e1, log1)

/-- The function `TRead::read(StaffText*, XmlReader&, ReadContext&)`
(tread.cpp, lines 108 to 111): the read of the `StaffTextBase` part. -/
def readStaffText (V : Env) (t : StaffText) (e : XmlReader) (log : Log) :
    Option (StaffText × XmlReader × Log) :=
  match readStaffTextBase V t.toStaffTextBase e log with
  | none => none
  | some (t1, e1, log1) => some ({ t with toStaffTextBase := t1 }, e1, log1)

/-- The function `TRead::read(SystemText*, XmlReader&, ReadContext&)`
(tread.cpp, lines 411 to 414): the read of the `StaffTextBase` part. -/
def readSystemText (V : Env) (t : SystemText) (e : XmlReader) (log : Log) :
    Option (SystemText × XmlReader × Log) :=
  match readStaffTextBase V t.toStaffTextBase e log with
  | none => none
  | some (t1, e1, log1) => some ({ t with toStaffTextBase := t1 }, e1, log1)

/-! ### `TRead::read(PlayTechAnnotation*)` -/

/-- Body of the loop of the reader of the playing-technique text (tread.cpp,
lines 418 to 428). -/
def readPlayTechBody (X : Ext) (s : PlayTechAnnotation × Log) (e : XmlReader) :
    Option (( PlayTechAnnotation × Log) × XmlReader) :=
  match PropertyRW.readPropertyTag X setPlayTechProperty s.1 e.name e Pid.PLAY_TECH_TYPE with
  | some (a1, e1) => some ((a1, s.2), e1)
  | none =>
    if (readProperties X s.1.toStaffTextBase e).1 then
      some (({ s.1 with toStaffTextBase := (readProperties X s.1.toStaffTextBase e).2.1 }, s.2),
        (readProperties X s.1.toStaffTextBase e).2.2)
    else
      some (({ s.1 with toStaffTextBase := (readProperties X s.1.toStaffTextBase e).2.1 },
          ((readProperties X s.1.toStaffTextBase e).2.2.unknown s.2).2),
        ((readProperties X s.1.toStaffTextBase e).2.2.unknown s.2).1)

/-- The reader of the playing-technique text, `TRead::read` for that entity
(tread.cpp, lines 416 to 429). -/
def readPlayTech (X : Ext) (a : PlayTechAnnotation) (e : XmlReader) (log : Log) :
    Option ( PlayTechAnnotation × XmlReader × Log) :=
  match XmlReader.forEachStartElement (readPlayTechBody X) (a, log) e with
  | none => none
  | some ((a1, log1), e1) => some (a1, e1, log1)

/-! ### `TRead::read(Dynamic*)` -/

/-- Body of the loop of `TRead::read(Dynamic*)` (tread.cpp, lines 194 to
209). -/
def readDynamicBody (V : Env) (s : Dynamic × Log) (e : XmlReader) :
    Option ((Dynamic × Log) × XmlReader) :=
  let d := s.1
  let tag := e.name
  if tag = "subtype" then
    some ((V.setDynamicType e.readText.1 d, s.2), e.readText.2)
  else if tag = "velocity" then
    some (({ d with velocity := (e.readInt V.conv).1 }, s.2), (e.readInt V.conv).2)
  else if tag = "dynType" then
    some (({ d with dynRange := V.dynRangeFromXml e.readText.1 }, s.2), e.readText.2)
  else if tag = "veloChange" then
    some (({ d with changeInVelocity := (e.readInt V.conv).1 }, s.2), (e.readInt V.conv).2)
  else if tag = "veloChangeSpeed" then
    some (({ d with velChangeSpeed := V.dynSpeedFromXml e.readText.1 }, s.2), e.readText.2)
  else
    match TextBaseRW.readProperties V.toExt d.toTextBase e with
    | some (tb, e1) => some (({ d with toTextBase := tb }, s.2), e1)
    | none => some ((d, (e.unknown s.2).2), (e.unknown s.2).1)

/-- The function `TRead::read(Dynamic*, XmlReader&, ReadContext&)` (tread.cpp,
lines 192 to 210). -/
def readDynamic (V : Env) (d : Dynamic) (e : XmlReader) (log : Log) :
    Option (Dynamic × XmlReader × Log) :=
  match XmlReader.forEachStartElement (readDynamicBody V) (d, log) e with
  | none => none
  | some ((d1, log1), e1) => some (d1, e1, log1)

/-! ### `TRead::read(TremoloBar*)` -/

/-- Body of the loop of `TRead::read(TremoloBar*)` (tread.cpp, lines 385 to
403). -/
def readTremoloBarBody (V : Env) (s : TremoloBar × Log) (e : XmlReader) :
    Option ((TremoloBar × Log) × XmlReader) :=
  let b := s.1
  let tag := e.name
  if tag = "point" then
    let pv : PitchValue :=
      { time := e.intAttribute V.conv "time" 0,
        pitch := e.intAttribute V.conv "pitch" 0,
        vibrato := e.intAttribute V.conv "vibrato" 0 }
    some (({ b with points := b.points ++ [pv] }, s.2), e.readNext)
  else if tag = "mag" then
    some (({ b with userMag := e.readText.1 }, s.2), e.readText.2)
  else
    match PropertyRW.readStyledProperty V.toExt TremoloBar.setProperty b tag e
        V.tremoloBarStyledProperties with
    | some (b1, e1) => some ((b1, s.2), e1)
    | none =>
      if tag = "play" then
        some (({ b with play := decide ((e.readInt V.conv).1 ≠ 0) }, s.2), (e.readInt V.conv).2)
      else
        match PropertyRW.readPropertyTag V.toExt TremoloBar.setProperty b tag e Pid.LINE_WIDTH with
        | some (b1, e1) => some ((b1, s.2), e1)
        | none => some ((b, (e.unknown s.2).2), (e.unknown s.2).1)

/-- The function `TRead::read(TremoloBar*, XmlReader&, ReadContext&)`
(tread.cpp, lines 383 to 404). -/
def readTremoloBar (V : Env) (b : TremoloBar) (e : XmlReader) (log : Log) :
    Option (TremoloBar × XmlReader × Log) :=
  match XmlReader.forEachStartElement (readTremoloBarBody V) (b, log) e with
  | none => none
  | some ((b1, log1), e1) => some (b1, e1, log1)

/-! ### `TRead::read(InstrumentChange*)` -/

/-- The loop state of the InstrumentChange reader: the entity, the local
`inst` and the log. -/
structure InstrumentChangeState where
  c : InstrumentChange
  inst : Instrument
  log : Log
  deriving DecidableEq, Repr

/-- Body of the loop of `TRead::read(InstrumentChange*)` (tread.cpp, lines
439 to 448). -/
def readInstrumentChangeBody (V : Env) (s : InstrumentChangeState) (e : XmlReader) :
    Option (InstrumentChangeState × XmlReader) :=
  let tag := e.name
  if tag = "Instrument" then
    some ({ s with inst := (Instrument.read V s.inst e).1 }, (Instrument.read V s.inst e).2)
  else if tag = "init" then
    some ({ s with c := { s.c with init := (e.readBool V.conv).1 } }, (e.readBool V.conv).2)
  else
    match TextBaseRW.readProperties V.toExt s.c.toTextBase e with
    | some (tb, e1) => some ({ s with c := { s.c with toTextBase := tb } }, e1)
    | none => some ({ s with log := (e.unknown s.log).2 }, (e.unknown s.log).1)

/-- The steps after the loop of the InstrumentChange reader (tread.cpp, lines
450 to 465): below version 206 the transposition of `inst` is set from the
staff (the zero interval without a staff); then `inst` is installed. -/
def installInstrument (V : Env) (c : InstrumentChange) (inst : Instrument) : InstrumentChange :=
  if V.mscVersion < 206 then
    let v : Interval :=
      match V.staffTranspose c with
      | some v => v
      | none => Interval.zero
    { c with instrument := inst.setTranspose v }
  else
    { c with instrument := inst }

/-- The function `TRead::read(InstrumentChange*, XmlReader&, ReadContext&)`
(tread.cpp, lines 436 to 466). -/
def readInstrumentChange (V : Env) (c : InstrumentChange) (e : XmlReader) (log : Log) :
    Option (InstrumentChange × XmlReader × Log) :=
  match XmlReader.forEachStartElement (readInstrumentChangeBody V) ⟨c, V.newInstrument, log⟩ e with
  | none => none
  | some (s, e1) => some (installInstrument V s.c s.inst, e1, s.log)

/-! ### `TRead::read(StaffState*)` -/

/-- Body of the loop of `TRead::read(StaffState*)` (tread.cpp, lines 470 to
481). -/
def readStaffStateBody (V : Env) (s : StaffState × Log) (e : XmlReader) :
    Option ((StaffState × Log) × XmlReader) :=
  let tag := e.name
  if tag = "subtype" then
    some (({ s.1 with staffStateType := (e.readInt V.conv).1 }, s.2), (e.readInt V.conv).2)
  else if tag = "Instrument" then
    some (({ s.1 with instrument := (Instrument.read V V.newInstrument e).1 }, s.2),
      (Instrument.read V V.newInstrument e).2)
  else
    match EngravingItemRW.readProperties V s.1.toItemBase e with
    | some (i1, e1) => some (({ s.1 with toItemBase := i1 }, s.2), e1)
    | none => some ((s.1, (e.unknown s.2).2), (e.unknown s.2).1)

/-- The function `TRead::read(StaffState*, XmlReader&, ReadContext&)`
(tread.cpp, lines 468 to 482). -/
def readStaffState (V : Env) (s : StaffState) (e : XmlReader) (log : Log) :
    Option (StaffState × XmlReader × Log) :=
  match XmlReader.forEachStartElement (readStaffStateBody V) (s, log) e with
  | none => none
  | some ((s1, log1), e1) => some (s1, e1, log1)

end TRead

/-! ## The dispatcher `TRead::read(EngravingItem*)` -/

/-- Modelled from the spec: an entity behind an `EngravingItem*`, of one of
the kinds that the translated file has a reader for (a closed set of kinds;
each kind is a class of its own, none of them derives from another). -/
inductive EngravingItem (R D : Type) where
  | tempoText (t : TempoText R)
  | staffText (t : StaffText)
  | dynamic (d : Dynamic)
  | harmony (h : Harmony)
  | fretDiagram (d : D)
  | tremoloBar (b : TremoloBar)
  | sticking (s : Sticking)
  | systemText (t : SystemText)
  | playTech (a : PlayTechAnnotation)
  | rehearsalMark (m : RehearsalMark)
  | instrumentChange (c : InstrumentChange)
  | staffState (s : StaffState)
  | figuredBass (b : FiguredBass)

namespace EngravingItem

variable {R D : Type}

/-- Modelled from the spec: `dynamic_cast<Sticking*>(el)`, which succeeds on
an entity of that kind. -/
def asSticking : EngravingItem R D → Option Sticking
  | .sticking s => some s
  | _ => none

/-- Modelled from the spec: `dynamic_cast<SystemText*>(el)`. -/
def asSystemText : EngravingItem R D → Option SystemText
  | .systemText t => some t
  | _ => none

/-- Modelled from the spec: the `dynamic_cast` to the playing-technique
text. -/
def asPlayTech : EngravingItem R D → Option PlayTechAnnotation
  | .playTech a => some a
  | _ => none

/-- Modelled from the spec: `dynamic_cast<RehearsalMark*>(el)`. -/
def asRehearsalMark : EngravingItem R D → Option RehearsalMark
  | .rehearsalMark m => some m
  | _ => none

/-- Modelled from the spec: `dynamic_cast<InstrumentChange*>(el)`. -/
def asInstrumentChange : EngravingItem R D → Option InstrumentChange
  | .instrumentChange c => some c
  | _ => none

/-- Modelled from the spec: `dynamic_cast<StaffState*>(el)`. -/
def asStaffState : EngravingItem R D → Option StaffState
  | .staffState s => some s
  | _ => none

/-- Modelled from the spec: `dynamic_cast<FiguredBass*>(el)`. -/
def asFiguredBass : EngravingItem R D → Option FiguredBass
  | .figuredBass b => some b
  | _ => none

end EngravingItem

/-- The concrete readers that the dispatcher tries, in its order. -/
inductive ReaderKind where
  | Sticking | SystemText | PlayTech | RehearsalMark | InstrumentChange | StaffState
  | FiguredBass
  deriving DecidableEq, Repr

/-- How a call of the dispatcher ends: with the entity, the cursor and the
log after the reader `by` has run on it, or in the branch `UNREACHABLE`,
where they are as they were handed in. -/
inductive Dispatched (β : Type) where
  | done (by_ : ReaderKind) (el : β) (e : XmlReader) (log : Log)
  | unreachable (el : β) (e : XmlReader) (log : Log)

namespace TRead

/-- The function template `try_read<T>` (tread.cpp, lines 55 to 64): the
cast; `false` when it fails, else the reader of `T` is run on the entity and
the answer is `true`. -/
def try_read {α β : Type} (cast : β → Option α) (wrap : α → β)
    (rd : α → XmlReader → Log → Option (α × XmlReader × Log))
    (el : β) (e : XmlReader) (log : Log) : Option (Bool × β × XmlReader × Log) :=
  match cast el with
  | none => some (false, el, e, log)
  | some t =>
    match rd t e log with
    | none => none
    | some (t1, e1, log1) => some (true, wrap t1, e1, log1)

/-- The chain of `TRead::read(EngravingItem*, XmlReader&, ReadContext&)`
(tread.cpp, lines 68 to 77) over the seven instantiations of `try_read`,
which are parameters here: each one is called only when all before it have
answered `false`, the first that answers `true` ends the call, and the
branch `UNREACHABLE` is taken when all have answered `false`. -/
def readWith {β : Type}
    (trySticking trySystemText tryPlayTech tryRehearsalMark tryInstrumentChange tryStaffState
      tryFiguredBass : β → XmlReader → Log → Option (Bool × β × XmlReader × Log))
    (el : β) (e : XmlReader) (log : Log) : Option (Dispatched β) :=
  match trySticking el e log with
  | none => none
  | some (true, el1, e1, log1) => some (.done .Sticking el1 e1 log1)
  | some (false, el1, e1, log1) =>
  match trySystemText el1 e1 log1 with
  | none => none
  | some (true, el2, e2, log2) => some (.done .SystemText el2 e2 log2)
  | some (false, el2, e2, log2) =>
  match tryPlayTech el2 e2 log2 with
  | none => none
  | some (true, el3, e3, log3) => some (.done .PlayTech el3 e3 log3)
  | some (false, el3, e3, log3) =>
  match tryRehearsalMark el3 e3 log3 with
  | none => none
  | some (true, el4, e4, log4) => some (.done .RehearsalMark el4 e4 log4)
  | some (false, el4, e4, log4) =>
  match tryInstrumentChange el4 e4 log4 with
  | none => none
  | some (true, el5, e5, log5) => some (.done .InstrumentChange el5 e5 log5)
  | some (false, el5, e5, log5) =>
  match tryStaffState el5 e5 log5 with
  | none => none
  | some (true, el6, e6, log6) => some (.done .StaffState el6 e6 log6)
  | some (false, el6, e6, log6) =>
  match tryFiguredBass el6 e6 log6 with
  | none => none
  | some (true, el7, e7, log7) => some (.done .FiguredBass el7 e7 log7)
  | some (false, el7, e7, log7) => some (.unreachable el7 e7 log7)

/-- The function `TRead::read(EngravingItem*, XmlReader&, ReadContext&)`
(tread.cpp, lines 66 to 78): the chain over `try_read<Sticking>`,
`try_read<SystemText>`, the instantiation for the playing-technique text,
`try_read<RehearsalMark>`, `try_read<InstrumentChange>`,
`try_read<StaffState>` and `try_read<FiguredBass>`, in this order, on the
entities of the kinds of the translated file. -/
def read {R D : Type} (V : Env) (el : EngravingItem R D) (e : XmlReader) (log : Log) :
    Option (Dispatched (EngravingItem R D)) :=
  readWith
    (try_read EngravingItem.asSticking EngravingItem.sticking (readSticking V.toExt))
    (try_read EngravingItem.asSystemText EngravingItem.systemText (readSystemText V))
    (try_read EngravingItem.asPlayTech EngravingItem.playTech (readPlayTech V.toExt))
    (try_read EngravingItem.asRehearsalMark EngravingItem.rehearsalMark
      (readRehearsalMark V.toExt))
    (try_read EngravingItem.asInstrumentChange EngravingItem.instrumentChange
      (readInstrumentChange V))
    (try_read EngravingItem.asStaffState EngravingItem.staffState (readStaffState V))
    (try_read EngravingItem.asFiguredBass EngravingItem.figuredBass (readFiguredBass V.toExt))
    el e log

end TRead

/-! ## Documents: what the statements say about the children of an element -/

/-- The unknown-element diagnostics of the element children whose tag is not
in the list `known`, in document order. -/
def Node.unknownDiags (known : List String) : List Node → Log
  | [] => []
  | .text _ :: ks => Node.unknownDiags known ks
  | .elem n _ _ :: ks =>
    if n ∈ known then Node.unknownDiags known ks
    else Diag.unknownElement n :: Node.unknownDiags known ks

/-- The sub-fields of a degree block after one more child: a `degree-value`
or `degree-alter` child gives the value or the alteration (its text as an
integer), a `degree-type` child gives the type token; other children give
nothing. -/
def Node.degreeFieldsStep (X : Ext) (d : TRead.DegreeFields) (k : Node) : TRead.DegreeFields :=
  if k.name = "degree-value" then { d with degreeValue := (X.conv.toInt k.innerText).getD 0 }
  else if k.name = "degree-alter" then { d with degreeAlter := (X.conv.toInt k.innerText).getD 0 }
  else if k.name = "degree-type" then { d with degreeType := k.innerText }
  else d

/-- The three sub-fields (value, alteration, type token) of a degree block
with the children `kids`: a sub-field that no child gives is 0, or the empty
token. -/
def Node.degreeFields (X : Ext) (kids : List Node) : TRead.DegreeFields :=
  kids.foldl (Node.degreeFieldsStep X) ⟨0, 0, ""⟩

/-- The tags of the three sub-fields of a degree block. -/
def degreeTags : List String := ["degree-value", "degree-alter", "degree-type"]

/-- The degree that three sub-fields stand for, in the words of the spec: the
triple (value, alteration, kind) when the value is in 1..13, the alteration
in -2..2 and the type token is add, alter or subtract (kind ADD, ALTER,
SUBTRACT); no degree otherwise. -/
def HDegree.ofFields (d : TRead.DegreeFields) : Option HDegree :=
  if 1 ≤ d.degreeValue ∧ d.degreeValue ≤ 13 ∧ -2 ≤ d.degreeAlter ∧ d.degreeAlter ≤ 2 then
    if d.degreeType = "add" then some ⟨d.degreeValue, d.degreeAlter, HDegreeType.ADD⟩
    else if d.degreeType = "alter" then some ⟨d.degreeValue, d.degreeAlter, HDegreeType.ALTER⟩
    else if d.degreeType = "subtract" then
      some ⟨d.degreeValue, d.degreeAlter, HDegreeType.SUBTRACT⟩
    else none
  else none

/-- The degree of a degree block, if it stands for one. -/
def Node.degree (X : Ext) (k : Node) : Option HDegree :=
  HDegree.ofFields (Node.degreeFields X k.kids)

/-- The degrees of the degree blocks among the children `kids` that stand
for one, in document order. -/
def Node.degrees (X : Ext) (kids : List Node) : List HDegree :=
  (kids.filter (fun k => decide (k.name = "degree"))).filterMap (Node.degree X)

/-! ## Instances for evaluating the readers on concrete documents -/

/-- Decimal digits to a natural number. -/
def digitsToNat : List Char → Nat → Option Nat
  | [], acc => some acc
  | c :: cs, acc => if c.isDigit then digitsToNat cs (10 * acc + (c.toNat - 48)) else none

/-- A decimal integer conversion: an optional minus sign and digits. -/
def decimalToInt (s : String) : Option Int :=
  match s.data with
  | [] => none
  | '-' :: cs => if cs = [] then none else (digitsToNat cs 0).map (fun n => - (n : Int))
  | cs => (digitsToNat cs 0).map Int.ofNat

/-- Conversions for the examples: decimal integers, `1` and `true` as the
true boolean. -/
def exampleConv : Conv where
  toInt := decimalToInt
  toBool := fun s => decide (s = "1" ∨ s = "true")

/-- Layers for the examples: the text layer recognises the tag `text` and
stores its character data as display text; `afterRead` changes nothing; an
item of a figured bass keeps the tokens of its element and has their
character data as normalized text. -/
def exampleExt : Ext where
  conv := exampleConv
  textBaseReadProperties := fun t name _ body =>
    if name = "text" then some { t with xmlText := Token.text body } else none
  propertyName := fun pid =>
    match pid with
    | Pid.POS_ABOVE => "posAbove"
    | Pid.HARMONY_TYPE => "harmonyType"
    | Pid.PLAY => "play"
    | Pid.HARMONY_VOICE_LITERAL => "harmonyVoiceLiteral"
    | Pid.HARMONY_VOICING => "harmonyVoicing"
    | Pid.HARMONY_DURATION => "harmonyDuration"
    | Pid.FRET_NUT => "showNut"
    | Pid.ORIENTATION => "orientation"
    | Pid.FRET_STRINGS => "strings"
    | Pid.FRET_FRETS => "frets"
    | Pid.FRET_OFFSET => "fretOffset"
    | Pid.MAG => "mag"
    | Pid.PLAY_TECH_TYPE => "playTechType"
    | Pid.LINE_WIDTH => "lineWidth"
  VOICES := 4
  division := 480
  durationTypeFromXml := fun s =>
    if s = "eighth" then DurationType.V_EIGHTH
    else if s = "16th" then DurationType.V_16TH
    else if s = "zero" then DurationType.V_ZERO
    else DurationType.V_INVALID
  afterRead := fun h => h
  toFraction := fun _ => (0, 1)
  figuredBassItemRead := fun item _ body => { item with content := body }
  normalizedText := fun item => Token.text item.content

/-- Three MidiAction tags: channel 1, no channel attribute, channel 1. -/
def midiTags : List XmlReader :=
  [[Token.startElement "MidiAction" [("channel", "1"), ("name", "a")],
      Token.endElement "MidiAction"],
   [Token.startElement "MidiAction" [("name", "b")], Token.endElement "MidiAction"],
   [Token.startElement "MidiAction" [("channel", "1"), ("name", "c")],
      Token.endElement "MidiAction"]]

/-- A degree block with value 0 and type add. -/
def degreeZero : Node :=
  Node.elem "degree" []
    [Node.elem "degree-value" [] [Node.text "0"], Node.elem "degree-type" [] [Node.text "add"]]

/-- A degree block with all three sub-fields: value 5, alteration 1, type
add. -/
def degreeFiveSharp : Node :=
  Node.elem "degree" []
    [Node.elem "degree-value" [] [Node.text "5"],
     Node.elem "degree-alter" [] [Node.text "1"],
     Node.elem "degree-type" [] [Node.text "add"]]

/-- A Harmony element whose leftParen child carries text, followed by a
degree block that stands for the degree (5, 1, ADD). -/
def harmonyParenWithBody : Node :=
  Node.elem "Harmony" []
    [Node.elem "leftParen" [] [Node.text "x"], degreeFiveSharp]

/-- A Harmony element with a root, an empty leftParen, the degree block with
value 0 and a degree block (7, -1, alter). -/
def harmonyTwoDegrees : Node :=
  Node.elem "Harmony" []
    [Node.elem "root" [] [Node.text "14"], Node.elem "leftParen" [] [], degreeZero,
     Node.elem "degree" []
       [Node.elem "degree-value" [] [Node.text "7"],
        Node.elem "degree-alter" [] [Node.text "-1"],
        Node.elem "degree-type" [] [Node.text "alter"]]]

/-- A call of a mutator of the fretboard diagram. -/
inductive FretCall where
  | setDot (string fret : Int) (add : Bool) (dtype : FretDotType)
  | setMarker (string : Int) (mtype : FretMarkerType)
  | setBarre (startString endString fret : Int)
  | setProperty (pid : Pid) (value : String)
  | add (h : Harmony)
  | item (tag : String)
  deriving DecidableEq, Repr

/-- A chord symbol with nothing set. -/
def emptyHarmony : Harmony :=
  { xmlText := "", visible := true, track := 0, other := [],
    baseTpc := 0, baseCase := 0, id := 0, textName := "", rootTpc := 0, rootCase := 0,
    function := "", degreeList := [], leftParen := false, rightParen := false,
    properties := [] }

/-- A fretboard diagram for the examples: the diagram is the sequence of the
mutator calls made on it; it has six strings, the dots of a string are the
dots that `setDot` was called with for that string, and a dot exists when
its fret is positive. -/
def exampleFretOps : FretOps (List FretCall) where
  strings := fun _ => 6
  dot := fun d s => d.filterMap (fun c =>
    match c with
    | FretCall.setDot s1 f _ t => if s1 = s then some ⟨f, t⟩ else none
    | _ => none)
  dotExists := fun dot => decide (0 < dot.fret)
  setDot := fun d s f add t => d ++ [FretCall.setDot s f add t]
  setMarker := fun d s m => d ++ [FretCall.setMarker s m]
  setBarre := fun d a b f => d ++ [FretCall.setBarre a b f]
  setProperty := fun pid v d => d ++ [FretCall.setProperty pid v]
  add := fun d h => d ++ [FretCall.add h]
  newHarmony := fun _ => emptyHarmony
  itemReadProperties := fun d tag _ _ => if tag = "visible" then some (d ++ [FretCall.item tag])
    else none
  nameToDotType := fun s =>
    if s = "cross" then FretDotType.CROSS
    else if s = "square" then FretDotType.SQUARE
    else if s = "triangle" then FretDotType.TRIANGLE
    else FretDotType.NORMAL
  nameToMarkerType := fun s =>
    if s = "cross" then FretMarkerType.CROSS
    else if s = "circle" then FretMarkerType.CIRCLE
    else FretMarkerType.NONE

/-- A new-format container with one dot on string 1. -/
def fretContainer : Node :=
  Node.elem "fretDiagram" []
    [Node.elem "string" [("no", "1")] [Node.elem "dot" [("fret", "2")] [Node.text "normal"]]]

/-- A fretboard diagram with legacy tags before the new-format container: a
dot on string 0 at fret 3 and the barre flag, then the container. -/
def fretLegacyThenNew : Node :=
  Node.elem "FretDiagram" []
    [Node.elem "string" [("no", "0")] [Node.elem "dot" [] [Node.text "3"]],
     Node.elem "barre" [] [Node.text "1"],
     fretContainer]

/-- Tempo conversions for the examples: the tempo is a whole number of
beats per second, 2 when the text is no number. -/
def exampleTempoConv : TempoConv Int where
  fromXml := fun s => (decimalToInt s).getD 2
  roundedBPM := fun bps => bps * 60

/-- A tempo marking with no text, visible, at 2 beats per second. -/
def emptyTempoText : TempoText Int :=
  { xmlText := "", visible := true, track := 0, other := [], tempo := 2, followText := false }

/-- A tempo element with a tempo of 2 beats per second and no text. -/
def tempoWithoutText : Node :=
  Node.elem "Tempo" [] [Node.elem "tempo" [] [Node.text "2"]]

/-- A figured bass with the display text `free text` and no item. -/
def figuredBassWithText : FiguredBass :=
  { xmlText := "free text", visible := true, track := 0, other := [],
    ticks := (0, 1), onNote := true, items := [] }

/-- A figured-bass element with no item. -/
def figuredBassNoItems : Node :=
  Node.elem "FiguredBass" []
    [Node.elem "ticks" [] [Node.text "1/4"], Node.elem "onNote" [] [Node.text "0"],
     Node.elem "bogus" [] []]

/-- A figured-bass element with two items: the first has an empty normalized
text, the second the normalized text `6`. -/
def figuredBassEmptyFirst : Node :=
  Node.elem "FiguredBass" []
    [Node.elem "FiguredBassItem" [] [], Node.elem "FiguredBassItem" [] [Node.text "6"]]

/-- An empty text state. -/
def emptyTextBase : TextBase := ⟨"", true, 0, []⟩

/-- A staff text in the cleared state, with no channel action. -/
def emptyStaffText : StaffTextBase :=
  { emptyTextBase with
    channelActions := [], channelNames := ["", "", "", ""], aeolusStops := [0, 0, 0, 0],
    setAeolusStops := false, swing := false, swingUnit := 0, swingRatio := 0, capo := 0 }

/-- A swing tag with the unit `eighth` and no ratio attribute. -/
def swingEighth : XmlReader :=
  [Token.startElement "swing" [("unit", "eighth")], Token.endElement "swing"]

/-- A channelSwitch tag for voice 2. -/
def channelSwitchVoice2 : XmlReader :=
  [Token.startElement "channelSwitch" [("voice", "2"), ("name", "mute")],
   Token.endElement "channelSwitch"]

/-- Parameters for the examples of the other readers: `clear` empties the
channel names and the stops; the descriptor parser keeps the tokens of the
Instrument element and takes the value of a `transpose` attribute as
chromatic transposition; the document is of version 114 and the instrument
active on the staff transposes by (-1, -2). -/
def exampleEnv : Env :=
  { exampleExt with
    clear := fun t => { t with channelNames := ["", "", "", ""], aeolusStops := [0, 0, 0, 0] }
    setDynamicType := fun s d => { d with dynamicType := s }
    dynRangeFromXml := fun s =>
      if s = "part" then DynamicRange.PART
      else if s = "system" then DynamicRange.SYSTEM
      else DynamicRange.STAFF
    dynSpeedFromXml := fun s =>
      if s = "slow" then DynamicSpeed.SLOW
      else if s = "fast" then DynamicSpeed.FAST
      else DynamicSpeed.NORMAL
    tremoloBarStyledProperties := []
    newInstrument := ⟨Interval.zero, []⟩
    instrumentRead := fun i a body =>
      { transpose := ⟨i.transpose.diatonic, (exampleConv.toInt ((a.lookup "transpose").getD "")).getD 0⟩,
        content := body }
    itemReadProperties := fun i tag _ _ =>
      if tag = "visible" then some { i with visible := false } else none
    mscVersion := 114
    staffTranspose := fun _ => some ⟨-1, -2⟩ }

/-- A staff-text element with an aeolus tag of group 7 (outside 0..3) whose
body is the integer text 5, followed by a capo tag. -/
def staffTextAeolusGroup7 : Node :=
  Node.elem "StaffText" []
    [Node.elem "aeolus" [("group", "7")] [Node.text "5"], Node.elem "capo" [("fretId", "2")] []]

/-- The same staff-text element with group 1 (inside 0..3). -/
def staffTextAeolusGroup1 : Node :=
  Node.elem "StaffText" []
    [Node.elem "aeolus" [("group", "1")] [Node.text "5"], Node.elem "capo" [("fretId", "2")] []]

/-- The tags of the staff-text family of which only the attributes are
read: their branches of `readProperties` advance by a single `readNext`. -/
def staffTextFlagTags : List String :=
  ["MidiAction", "channelSwitch", "articulationChange", "swing", "capo"]

/-- The group of an aeolus child, as the reader takes it from the
attributes: `intAttribute("group", -1)`. -/
def Node.aeolusGroup (X : Ext) (k : Node) : Int :=
  XmlReader.intAttribute X.conv [Token.startElement k.name k.attrs] "group" (-1)

/-- A child of a staff-text element has the shape that the branch reading it
consumes: it is an empty element when it is one of the flag tags, and when
it is an aeolus tag whose group is absent or outside 0..3. -/
def Node.staffTextChildOk (X : Ext) (k : Node) : Prop :=
  (k.name ∈ staffTextFlagTags → k.kids = [])
    ∧ (k.name = "aeolus" → ¬ (k.aeolusGroup X ≥ 0 ∧ k.aeolusGroup X < 4) → k.kids = [])

instance (X : Ext) (k : Node) : Decidable (Node.staffTextChildOk X k) := by
  unfold Node.staffTextChildOk
  infer_instance

/-- A child of a Harmony element has the shape that the branch reading it
consumes: it is an empty element when it is a leftParen or rightParen tag. -/
def Node.harmonyChildOk (k : Node) : Prop :=
  (k.name = "leftParen" ∨ k.name = "rightParen") → k.kids = []

instance (k : Node) : Decidable (Node.harmonyChildOk k) := by
  unfold Node.harmonyChildOk
  infer_instance

/-- A child of a TremoloBar element has the shape that the branch reading it
consumes: it is an empty element when it is a point tag. -/
def Node.tremoloBarChildOk (k : Node) : Prop :=
  k.name = "point" → k.kids = []

instance (k : Node) : Decidable (Node.tremoloBarChildOk k) := by
  unfold Node.tremoloBarChildOk
  infer_instance

/-- A child of a FretDiagram element has the shape that the branch reading
it consumes: when it is a Harmony element, its children have the shape that
the Harmony reader consumes. -/
def Node.fretDiagramChildOk (k : Node) : Prop :=
  k.name = "Harmony" → ∀ c ∈ k.kids, c.harmonyChildOk

instance (k : Node) : Decidable (Node.fretDiagramChildOk k) := by
  unfold Node.fretDiagramChildOk
  infer_instance

/-- The log of a pair state with the entries `l` put in front. -/
def Log.pre {α : Type} (l : Log) (s : α × Log) : α × Log := (s.1, l ++ s.2)

/-! ## Diagnostics commute with the loops -/

namespace XmlReader

/-- A loop body for which entries put in front of the log by `p` stay in
front: the body does not read the log, it only adds to its end. -/
def LogFront {σ : Type} (p : Log → σ → σ) (body : σ → XmlReader → Option (σ × XmlReader)) :
    Prop :=
  ∀ l s e, body (p l s) e = (body s e).map (fun r => (p l r.1, r.2))

end XmlReader

/-- A child of the element of a playing-technique text has the shape that
the branch reading it consumes: it is the technique-type property, or a child
of the shape that the staff-text branches consume. -/
def Node.playTechChildOk (X : Ext) (k : Node) : Prop :=
  k.name = X.propertyName Pid.PLAY_TECH_TYPE ∨ k.staffTextChildOk X

instance (X : Ext) (k : Node) : Decidable (Node.playTechChildOk X k) := by
  unfold Node.playTechChildOk
  infer_instance

/-- The loop with the body `body`, started in the state `s` on the start tag
of the element `doc` (followed by the tokens `r`), runs the body once on
every child element of `doc`, in document order, and ends on the end tag of
`doc`. -/
def VisitsChildren {σ : Type} (body : σ → XmlReader → Option (σ × XmlReader)) (s : σ)
    (doc : Node) (r : List Token) : Prop :=
  XmlReader.forEachStartElement body s (doc.toks ++ r)
    = some (doc.kids.foldl (XmlReader.stepOf body) s, Token.endElement doc.name :: r)

/-- The reader `rd`, run on the entity `x` with the cursor on the start tag of
the element `doc` (followed by the tokens `r`), returns with the cursor on the
end tag of `doc`. -/
def ReturnsAtEndTag {α : Type} (rd : α → XmlReader → Log → Option (α × XmlReader × Log))
    (x : α) (log : Log) (doc : Node) (r : List Token) : Prop :=
  ∃ x1 log1, rd x (doc.toks ++ r) log = some (x1, Token.endElement doc.name :: r, log1)

/-- A staff-text element whose MidiAction child carries a text body, followed
by a capo tag. -/
def staffTextMidiActionWithBody : Node :=
  Node.elem "StaffText" []
    [Node.elem "MidiAction" [("channel", "1"), ("name", "a")] [Node.text "x"],
     Node.elem "capo" [("fretId", "2")] []]

/-- A staff-text element whose flag children are empty: a MidiAction, a
channelSwitch, an aeolus tag of group 7 without body, an aeolus tag of group
1 with its stop, a swing, a capo, a text and a tag that no layer knows. -/
def staffTextFlags : Node :=
  Node.elem "StaffText" []
    [Node.elem "MidiAction" [("channel", "1"), ("name", "a")] [],
     Node.elem "channelSwitch" [("voice", "2"), ("name", "mute")] [],
     Node.elem "aeolus" [("group", "7")] [],
     Node.elem "aeolus" [("group", "1")] [Node.text "5"],
     Node.elem "swing" [("unit", "eighth")] [],
     Node.elem "capo" [("fretId", "2")] [],
     Node.elem "text" [] [Node.text "pizz."],
     Node.elem "bogus" [] [Node.elem "capo" [] [Node.text "x"]]]

/-- The sample that a point tag stands for: the values of its attributes
time, pitch and vibrato (0 for an attribute that is absent or no integer). -/
def Node.pitchValue (X : Ext) (k : Node) : PitchValue :=
  { time := XmlReader.intAttribute X.conv [Token.startElement k.name k.attrs] "time" 0,
    pitch := XmlReader.intAttribute X.conv [Token.startElement k.name k.attrs] "pitch" 0,
    vibrato := XmlReader.intAttribute X.conv [Token.startElement k.name k.attrs] "vibrato" 0 }

/-- The samples of the point tags among the children `kids`, in document
order. -/
def Node.points (X : Ext) (kids : List Node) : List PitchValue :=
  (kids.filter (fun k => decide (k.name = "point"))).map (Node.pitchValue X)

/-- A tremolo bar with an empty curve. -/
def emptyTremoloBar : TremoloBar := ⟨[], "", false, []⟩

/-- A tremolo bar whose curve holds one sample. -/
def tremoloBarOneSample : TremoloBar := ⟨[⟨0, 0, 0⟩], "", false, []⟩

/-- A TremoloBar element with three point tags, other tags between them. -/
def tremoloBarThreePoints : Node :=
  Node.elem "TremoloBar" []
    [Node.elem "point" [("time", "0"), ("pitch", "0"), ("vibrato", "0")] [],
     Node.elem "mag" [] [Node.text "1.5"],
     Node.elem "point" [("time", "30"), ("pitch", "100"), ("vibrato", "1")] [],
     Node.elem "bogus" [] [Node.elem "point" [("time", "9")] []],
     Node.elem "play" [] [Node.text "1"],
     Node.elem "point" [("time", "60"), ("pitch", "-50"), ("vibrato", "0")] []]

/-- A TremoloBar element whose first point tag carries a text body, followed
by a second point tag. -/
def tremoloBarPointWithBody : Node :=
  Node.elem "TremoloBar" []
    [Node.elem "point" [("time", "0"), ("pitch", "0"), ("vibrato", "0")] [Node.text "x"],
     Node.elem "point" [("time", "30"), ("pitch", "100"), ("vibrato", "1")] []]

/-- Layers for the examples in which the finalization step leaves a trace:
every run of `afterRead` adds one entry to `other`. -/
def exampleExtCounting : Ext :=
  { exampleExt with
    afterRead := fun h => { h with other := h.other ++ [("afterRead", "")] } }

/-- A Harmony element whose leftParen child carries text, followed by a root
tag. -/
def harmonyParenThenRoot : Node :=
  Node.elem "Harmony" []
    [Node.elem "leftParen" [] [Node.text "x"], Node.elem "root" [] [Node.text "14"]]

/-- A Harmony element with an invalid degree block, an unknown tag, an empty
leftParen and a root. -/
def harmonyInvalidDegree : Node :=
  Node.elem "Harmony" []
    [degreeZero, Node.elem "bogus" [] [], Node.elem "leftParen" [] [],
     Node.elem "root" [] [Node.text "14"]]

/-- The log of a loop state of the FretDiagram reader with the entries `l`
put in front. -/
def TRead.FretState.pre {D : Type} (l : Log) (s : TRead.FretState D) : TRead.FretState D :=
  { s with log := l ++ s.log }

/-- The log of a loop state of the FiguredBass reader with the entries `l`
put in front. -/
def TRead.FiguredBassState.pre (l : Log) (s : TRead.FiguredBassState) : TRead.FiguredBassState :=
  { s with log := l ++ s.log }

/-- The log of a loop state of the InstrumentChange reader with the entries
`l` put in front. -/
def TRead.InstrumentChangeState.pre (l : Log) (s : TRead.InstrumentChangeState) :
    TRead.InstrumentChangeState :=
  { s with log := l ++ s.log }

/-- The tags that the TempoText reader reads itself. -/
def tempoTextTags : List String := ["tempo", "followText"]

/-- The tags that `readProperties` of the staff-text family reads itself. -/
def staffTextTags : List String :=
  ["MidiAction", "channelSwitch", "articulationChange", "aeolus", "swing", "capo"]

/-- The tags that the Dynamic reader reads itself. -/
def dynamicTags : List String :=
  ["subtype", "velocity", "dynType", "veloChange", "veloChangeSpeed"]

/-- The tags that the Harmony reader reads itself. -/
def harmonyTags : List String :=
  ["base", "baseCase", "extension", "name", "root", "rootCase", "function", "degree",
   "leftParen", "rightParen"]

/-- The properties that the Harmony reader hands to the property parser. -/
def harmonyPids : List Pid :=
  [Pid.POS_ABOVE, Pid.HARMONY_TYPE, Pid.PLAY, Pid.HARMONY_VOICE_LITERAL, Pid.HARMONY_VOICING,
   Pid.HARMONY_DURATION]

/-- The tags that the FretDiagram reader reads itself, outside the
new-format container. -/
def fretDiagramTags : List String :=
  ["fretDiagram", "showNut", "orientation", "strings", "frets", "fretOffset", "string", "barre",
   "mag", "Harmony"]

/-- The tags that the FretDiagram reader reads inside a legacy string
block. -/
def oldStringTags : List String := ["dot", "marker"]

/-- The tags that the TremoloBar reader reads itself. -/
def tremoloBarTags : List String := ["point", "mag", "play"]

/-- The tags that the InstrumentChange reader reads itself. -/
def instrumentChangeTags : List String := ["Instrument", "init"]

/-- The tags that the StaffState reader reads itself. -/
def staffStateTags : List String := ["subtype", "Instrument"]

/-- The tags that the FiguredBass reader reads itself. -/
def figuredBassTags : List String := ["ticks", "onNote", "FiguredBassItem"]

/-- The text layer recognises the element `u` in no state. -/
def Node.unknownToTextLayer (X : Ext) (u : Node) : Prop :=
  ∀ t : TextBase, X.textBaseReadProperties t u.name u.attrs (Node.toksList u.kids) = none

/-- The item layer recognises the element `u` in no state. -/
def Node.unknownToItemLayer (V : Env) (u : Node) : Prop :=
  ∀ i : ItemBase, V.itemReadProperties i u.name u.attrs (Node.toksList u.kids) = none

/-- The item layer of the fretboard diagram recognises the element `u` in no
state. -/
def Node.unknownToFretItemLayer {D : Type} (F : FretOps D) (u : Node) : Prop :=
  ∀ d : D, F.itemReadProperties d u.name u.attrs (Node.toksList u.kids) = none

/-- No layer of the TempoText reader recognises the element `u`. -/
def Node.unknownToTempoText (X : Ext) (u : Node) : Prop :=
  u.name ∉ tempoTextTags ∧ u.unknownToTextLayer X

/-- No layer of the staff-text reader recognises the element `u`. -/
def Node.unknownToStaffText (X : Ext) (u : Node) : Prop :=
  u.name ∉ staffTextTags ∧ u.unknownToTextLayer X

/-- No layer of the reader of the playing-technique text recognises the
element `u`. -/
def Node.unknownToPlayTech (X : Ext) (u : Node) : Prop :=
  u.name ≠ X.propertyName Pid.PLAY_TECH_TYPE ∧ u.unknownToStaffText X

/-- No layer of the Dynamic reader recognises the element `u`. -/
def Node.unknownToDynamic (X : Ext) (u : Node) : Prop :=
  u.name ∉ dynamicTags ∧ u.unknownToTextLayer X

/-- No layer of the Harmony reader recognises the element `u`. -/
def Node.unknownToHarmony (X : Ext) (u : Node) : Prop :=
  u.name ∉ harmonyTags ∧ (∀ pid ∈ harmonyPids, u.name ≠ X.propertyName pid)
    ∧ u.unknownToTextLayer X

/-- No layer of the FretDiagram reader recognises the element `u`. -/
def Node.unknownToFretDiagram {D : Type} (F : FretOps D) (u : Node) : Prop :=
  u.name ∉ fretDiagramTags ∧ u.unknownToFretItemLayer F

/-- No layer of the TremoloBar reader recognises the element `u`. -/
def Node.unknownToTremoloBar (V : Env) (u : Node) : Prop :=
  u.name ∉ tremoloBarTags ∧ (∀ pid ∈ V.tremoloBarStyledProperties, u.name ≠ V.propertyName pid)
    ∧ u.name ≠ V.propertyName Pid.LINE_WIDTH

/-- No layer of the InstrumentChange reader recognises the element `u`. -/
def Node.unknownToInstrumentChange (X : Ext) (u : Node) : Prop :=
  u.name ∉ instrumentChangeTags ∧ u.unknownToTextLayer X

/-- No layer of the StaffState reader recognises the element `u`. -/
def Node.unknownToStaffState (V : Env) (u : Node) : Prop :=
  u.name ∉ staffStateTags ∧ u.unknownToItemLayer V

/-- No layer of the FiguredBass reader recognises the element `u`. -/
def Node.unknownToFiguredBass (X : Ext) (u : Node) : Prop :=
  u.name ∉ figuredBassTags ∧ u.unknownToTextLayer X

/-- The reader `rd`, run on the entity `x`, ends on the elements `doc` and
`docU` with the same entity and on the same token, and with logs that differ
by the one diagnostic `d`, which the read of `docU` adds. -/
def AddsOneDiagnostic {α : Type} (rd : α → XmlReader → Log → Option (α × XmlReader × Log))
    (x : α) (log : Log) (doc docU : Node) (r : List Token) (d : Diag) : Prop :=
  ∃ x1 e1 l1 l2,
    rd x (doc.toks ++ r) log = some (x1, e1, l1 ++ l2)
    ∧ rd x (docU.toks ++ r) log = some (x1, e1, l1 ++ d :: l2)

/-- An element that no layer of the examples recognises, with a nested
element whose tag the Harmony reader knows. -/
def bogusSubtree : Node :=
  Node.elem "bogus" [("x", "1")] [Node.elem "root" [] [Node.text "3"], Node.text "y"]

/-- A staff-text element whose swing child carries a text body. -/
def staffTextSwingWithBody : Node :=
  Node.elem "StaffText" [] [Node.elem "swing" [("unit", "eighth")] [Node.text "x"]]

/-- The staff-text element whose swing child carries a text body, with an
unknown element inserted after that child. -/
def staffTextSwingWithBodyBogus : Node :=
  Node.elem "StaffText" []
    [Node.elem "swing" [("unit", "eighth")] [Node.text "x"], Node.elem "bogus" [] []]

/-- The loop with the body `body`, standing in the state `s` before the
element `u`, diagnoses `u` once and skips it: whatever tokens `r` follow, the
loop ends as the loop does that stands in the state `s` before `r` without
`u`, on the same token and in the same loop state but for the one diagnostic
`d` more in the log. -/
def DiagnosesAndSkips {σ : Type} (p : Log → σ → σ)
    (body : σ → XmlReader → Option (σ × XmlReader)) (s : σ) (u : Node) (d : Diag) : Prop :=
  ∀ (c c1 : Token) (r : List Token), ∃ l s1 e1,
    XmlReader.forEachStartElement body s (c1 :: r) = some (p l s1, e1)
    ∧ XmlReader.forEachStartElement body s (c :: (u.toks ++ r)) = some (p (l ++ [d]) s1, e1)

/-- A playing-technique text in the cleared state, with no property set. -/
def emptyPlayTech : PlayTechAnnotation := { emptyStaffText with properties := [] }

/-- A playing-technique element with staff-text tags and an unknown tag, and
no tag of the technique type. -/
def playTechStaffTags : Node :=
  Node.elem "PlayTechAnnotation" []
    [Node.elem "MidiAction" [("channel", "1"), ("name", "mute")] [],
     Node.elem "bogus" [] [Node.text "x"],
     Node.elem "capo" [("fretId", "2")] []]

/-- Whether a start tag with the name `p` occurs in the token sequence. -/
def XmlReader.hasStartTag (p : String) (e : XmlReader) : Bool :=
  e.any (fun tok =>
    match tok with
    | Token.startElement n _ => decide (n = p)
    | _ => false)

/-- The staff-text settings of an entity: the per-voice channel names, the
aeolus stops and their flag, the swing parameters and the capo, that is the
state of the staff-text family but for the Channel Action List. -/
def StaffTextBase.settings (t : StaffTextBase) :
    List String × List Int × Bool × Bool × Int × Int × Int :=
  (t.channelNames, t.aeolusStops, t.setAeolusStops, t.swing, t.swingUnit, t.swingRatio, t.capo)

/-- Modelled from the spec: the method `StaffTextBase::clear()`, which is
outside src/. In the words of the spec (section 4.3) it clears any
pre-existing state on the target, the Channel Action List excepted: the
settings become those of a newly made entity `fresh`, whatever they were
before; the Channel Action List and the text state are left as they are. -/
def StaffTextBase.clear (fresh t : StaffTextBase) : StaffTextBase :=
  { fresh with toTextBase := t.toTextBase, channelActions := t.channelActions }

/-- A staff text with settings and a channel action left from an earlier
read. -/
def staffTextUsed : StaffTextBase :=
  { emptyTextBase with
    channelActions := [⟨1, ["mute"]⟩], channelNames := ["a", "b", "c", "d"],
    aeolusStops := [1, 2, 3, 4], setAeolusStops := true, swing := true, swingUnit := 240,
    swingRatio := 70, capo := 5 }

/-- Parameters of the examples with the `clear` of the spec, which resets
the settings to those of `emptyStaffText`. -/
def exampleEnvClearAll : Env := { exampleEnv with clear := StaffTextBase.clear emptyStaffText }

/-- A staff-text element with a MidiAction tag for channel 1 and a capo
tag. -/
def staffTextActionCapo : Node :=
  Node.elem "StaffText" []
    [Node.elem "MidiAction" [("channel", "1"), ("name", "solo")] [],
     Node.elem "capo" [("fretId", "2")] []]

/-! ## The inspector list model: `inspectorlistmodel.cpp` -/

/-- Modelled from the spec: the enumeration
`AbstractInspectorModel::InspectorSectionType`, which is declared outside
src/ and which the spec leaves out: the six enumerators that
inspectorlistmodel.cpp names; `other n` stands for any further enumerator
(the `default` branch of the `switch`). -/
inductive InspectorSectionType where
  | SECTION_UNDEFINED
  | SECTION_GENERAL
  | SECTION_TEXT
  | SECTION_NOTATION
  | SECTION_SCORE_DISPLAY
  | SECTION_SCORE_APPEARANCE
  | other (n : Nat)
  deriving DecidableEq, Repr

/-- Modelled from the spec: a model object behind a pointer
`AbstractInspectorModel*`: its address, which is what the list holds and
compares, and its section type `sectionType()`. -/
structure AbstractInspectorModel where
  address : Nat
  sectionType : InspectorSectionType
  deriving DecidableEq, Repr

/-- Modelled from the spec: the row notifications of `QAbstractListModel`
that the two functions send to the views. -/
inductive RowSignal where
  | beginInsertRows (first last : Nat)
  | endInsertRows
  | beginRemoveRows (first last : Int)
  | endRemoveRows
  | beginMoveRows (sourceFirst sourceLast : Nat) (destinationChild : Int)
  | endMoveRows
  deriving DecidableEq, Repr

/-- The state of `InspectorListModel` that `createModelsBySectionType` and
`sortModels` touch: the list `m_modelList` and the row notifications sent so
far. -/
structure InspectorListModel where
  m_modelList : List AbstractInspectorModel
  signals : List RowSignal
  deriving DecidableEq, Repr

/-- Modelled from the spec: the expression `new C(this, m_repository)` for
one of the five model classes (GeneralSettingsModel, TextSettingsModel,
NotationSettingsProxyModel, ScoreSettingsModel, ScoreAppearanceSettingsModel),
whose constructors are outside src/: an object at an address that no model of
the list has, with the section type of its class. -/
def newModel (sectionType : InspectorSectionType) (l : List AbstractInspectorModel) :
    AbstractInspectorModel :=
  ⟨(l.map (fun m => m.address)).foldl max 0 + 1, sectionType⟩

namespace InspectorListModel

/-- The function `InspectorListModel::isModelAlreadyExists` on the list
(inspectorlistmodel.cpp, lines 265 to 274). -/
def isModelAlreadyExists : List AbstractInspectorModel → InspectorSectionType → Bool
  | [], _ => false
  | model :: rest, modelType =>
    if model.sectionType = modelType then true else isModelAlreadyExists rest modelType

/-- Body of the loop of `createModelsBySectionType` (inspectorlistmodel.cpp,
lines 139 to 169) for one section type: nothing for SECTION_UNDEFINED and for
a section type that a model of the list has; else the two notifications
around the `switch`, which appends a new model for five of the section types
and nothing for any other. -/
def createModel (M : InspectorListModel) (sectionType : InspectorSectionType) :
    InspectorListModel :=
  if sectionType = InspectorSectionType.SECTION_UNDEFINED then M
  else if isModelAlreadyExists M.m_modelList sectionType then M
  else
    let rowCount := M.m_modelList.length
    let appended : List AbstractInspectorModel :=
      match sectionType with
      | InspectorSectionType.SECTION_GENERAL =>
        M.m_modelList ++ [newModel InspectorSectionType.SECTION_GENERAL M.m_modelList]
      | InspectorSectionType.SECTION_TEXT =>
        M.m_modelList ++ [newModel InspectorSectionType.SECTION_TEXT M.m_modelList]
      | InspectorSectionType.SECTION_NOTATION =>
        M.m_modelList ++ [newModel InspectorSectionType.SECTION_NOTATION M.m_modelList]
      | InspectorSectionType.SECTION_SCORE_DISPLAY =>
        M.m_modelList ++ [newModel InspectorSectionType.SECTION_SCORE_DISPLAY M.m_modelList]
      | InspectorSectionType.SECTION_SCORE_APPEARANCE =>
        M.m_modelList ++ [newModel InspectorSectionType.SECTION_SCORE_APPEARANCE M.m_modelList]
      | _ => M.m_modelList
    { m_modelList := appended,
      signals := M.signals ++ [RowSignal.beginInsertRows rowCount rowCount,
        RowSignal.endInsertRows] }

/-- The function `InspectorListModel::createModelsBySectionType`
(inspectorlistmodel.cpp, lines 133 to 171): the loop over the section types
in the order of the list. The set of selected element keys is only handed to
the constructor of the notation model and is left out. -/
def createModelsBySectionType (M : InspectorListModel)
    (sectionTypeList : List InspectorSectionType) : InspectorListModel :=
  sectionTypeList.foldl createModel M

/-- The comparison of `sortModels` (inspectorlistmodel.cpp, lines 245 to
248), with the conversion `static_cast<int>` of a section type as the
parameter `v`. -/
def sortModelsLess (v : InspectorSectionType → Int) (first second : AbstractInspectorModel) :
    Bool :=
  decide (v first.sectionType < v second.sectionType)

/-- The call `QList::indexOf`: the index of the first occurrence, -1 when
there is none. -/
def indexOf (l : List AbstractInspectorModel) (m : AbstractInspectorModel) : Int :=
  if m ∈ l then (l.indexOf m : Nat) else -1

/-- The `for` loop of `sortModels` (inspectorlistmodel.cpp, lines 250 to
254) from the row `i` on: one `beginMoveRows` for every row whose model is
not the model of that row in the sorted list. -/
def moveSignals (sortedModelList : List AbstractInspectorModel) :
    Nat → List AbstractInspectorModel → List AbstractInspectorModel → List RowSignal
  | i, m :: ms, s :: ss =>
    if m ≠ s then
      RowSignal.beginMoveRows i i (indexOf sortedModelList m)
        :: moveSignals sortedModelList (i + 1) ms ss
    else moveSignals sortedModelList (i + 1) ms ss
  | _, _, _ => []

/-- The function `InspectorListModel::sortModels` after the call of
`std::sort` (inspectorlistmodel.cpp, lines 250 to 262), `sortedModelList`
being the list that `std::sort` has left. -/
def sortModelsFrom (M : InspectorListModel) (sortedModelList : List AbstractInspectorModel) :
    InspectorListModel :=
  let signals := M.signals ++ moveSignals sortedModelList 0 M.m_modelList sortedModelList
  if M.m_modelList = sortedModelList then { M with signals := signals }
  else { m_modelList := sortedModelList, signals := signals ++ [RowSignal.endMoveRows] }

end InspectorListModel

/-- Modelled from the spec: the call `std::sort(first, last, comp)` of the
C++ standard library, which is outside src/, by what the C++ standard says of
it: `sorted` is a rearrangement of the elements of `l` in which no element is
`comp`-less than one before it. The order of elements of which neither is `comp`-less than the
other is not fixed (`std::sort` is not a stable sort), so the call is a
relation between the list before and the list after. -/
def StdSort {α : Type} (comp : α → α → Bool) (l sorted : List α) : Prop :=
  sorted.Perm l ∧ sorted.Pairwise (fun a b => comp b a = false)

/-- The function `InspectorListModel::sortModels` (inspectorlistmodel.cpp,
lines 241 to 263) as a relation between the state before and the state
after: `std::sort` on a copy of the list, then the comparison with the list
and the assignment. -/
def InspectorListModel.sortModels (v : InspectorSectionType → Int) (M Mafter : InspectorListModel) :
    Prop :=
  ∃ sortedModelList,
    StdSort (InspectorListModel.sortModelsLess v) M.m_modelList sortedModelList
    ∧ Mafter = M.sortModelsFrom sortedModelList

/-- The section types for which `createModelsBySectionType` has a model
class. -/
def modelSectionTypes : List InspectorSectionType :=
  [InspectorSectionType.SECTION_GENERAL, InspectorSectionType.SECTION_TEXT,
   InspectorSectionType.SECTION_NOTATION, InspectorSectionType.SECTION_SCORE_DISPLAY,
   InspectorSectionType.SECTION_SCORE_APPEARANCE]

/-- Integer values of the section types for the examples: -1 for
SECTION_UNDEFINED, then 0 to 4 in the order of the declaration. -/
def exampleSectionValue : InspectorSectionType → Int
  | InspectorSectionType.SECTION_UNDEFINED => -1
  | InspectorSectionType.SECTION_GENERAL => 0
  | InspectorSectionType.SECTION_TEXT => 1
  | InspectorSectionType.SECTION_NOTATION => 2
  | InspectorSectionType.SECTION_SCORE_DISPLAY => 3
  | InspectorSectionType.SECTION_SCORE_APPEARANCE => 4
  | InspectorSectionType.other n => 5 + n

/-- The model list of an inspector with no model. -/
def emptyInspector : InspectorListModel := ⟨[], []⟩

/-- An inspector with a text model and a general model, in that order. -/
def inspectorTextGeneral : InspectorListModel :=
  ⟨[⟨1, InspectorSectionType.SECTION_TEXT⟩, ⟨2, InspectorSectionType.SECTION_GENERAL⟩], []⟩

/-- An inspector with a general model and a text model, in that order. -/
def inspectorGeneralText : InspectorListModel :=
  ⟨[⟨2, InspectorSectionType.SECTION_GENERAL⟩, ⟨1, InspectorSectionType.SECTION_TEXT⟩], []⟩

/-- One class `T` of the dispatcher for entities of a type `β`: the cast
`dynamic_cast<T*>(el)`, the entity behind the pointer after the read, and the
reader `TRead::read(T*, ...)`. Which casts succeed on an entity is decided by
the class hierarchy, which is outside src/, so on one entity several casts
may succeed. -/
structure Candidate (β : Type) where
  T : Type
  cast : β → Option T
  wrap : T → β
  rd : T → XmlReader → Log → Option (T × XmlReader × Log)

/-- The instantiation `try_read<T>` for a class of the dispatcher. -/
def Candidate.tryRead {β : Type} (c : Candidate β) (el : β) (e : XmlReader) (log : Log) :
    Option (Bool × β × XmlReader × Log) :=
  TRead.try_read c.cast c.wrap c.rd el e log

/-- The classes of the dispatcher on the entities of the kinds of the
translated file, with their readers. -/
def TRead.candidates {R D : Type} (V : Env) : ReaderKind → Candidate (EngravingItem R D)
  | ReaderKind.Sticking =>
    ⟨Sticking, EngravingItem.asSticking, EngravingItem.sticking, TRead.readSticking V.toExt⟩
  | ReaderKind.SystemText =>
    ⟨SystemText, EngravingItem.asSystemText, EngravingItem.systemText, TRead.readSystemText V⟩
  | ReaderKind.PlayTech =>
    ⟨ PlayTechAnnotation, EngravingItem.asPlayTech, EngravingItem.playTech,
      TRead.readPlayTech V.toExt⟩
  | ReaderKind.RehearsalMark =>
    ⟨RehearsalMark, EngravingItem.asRehearsalMark, EngravingItem.rehearsalMark,
      TRead.readRehearsalMark V.toExt⟩
  | ReaderKind.InstrumentChange =>
    ⟨InstrumentChange, EngravingItem.asInstrumentChange, EngravingItem.instrumentChange,
      TRead.readInstrumentChange V⟩
  | ReaderKind.StaffState =>
    ⟨StaffState, EngravingItem.asStaffState, EngravingItem.staffState, TRead.readStaffState V⟩
  | ReaderKind.FiguredBass =>
    ⟨FiguredBass, EngravingItem.asFiguredBass, EngravingItem.figuredBass,
      TRead.readFiguredBass V.toExt⟩

/-- The order of C14 in which the dispatcher tries its readers. -/
def dispatchOrder : List ReaderKind :=
  [ReaderKind.Sticking, ReaderKind.SystemText, ReaderKind.PlayTech, ReaderKind.RehearsalMark,
   ReaderKind.InstrumentChange, ReaderKind.StaffState, ReaderKind.FiguredBass]

/-- The dispatch in the words of C14, to be compared with `TRead.readWith`:
the first class in the fixed order whose cast succeeds on the entity has its
reader run once, on the cursor and the log as they were handed in, and that
run is the call; no other reader runs; when no cast succeeds the call ends in
the branch `UNREACHABLE` with the entity, the cursor and the log as they were
handed in. -/
def dispatchSpec {β : Type} (C : ReaderKind → Candidate β) (el : β) (e : XmlReader)
    (log : Log) : Option (Dispatched β) :=
  (dispatchOrder.findSome? (fun k =>
      ((C k).cast el).map (fun t =>
        ((C k).rd t e log).map (fun r => Dispatched.done k ((C k).wrap r.1) r.2.1 r.2.2)))).getD
    (some (Dispatched.unreachable el e log))

/-- Classes for the example of an entity on which two casts succeed: the
entity is a playing-technique text, and both the cast to SystemText and the
cast to the playing-technique text succeed on it. -/
def overlappingCandidates (V : Env) : ReaderKind → Candidate PlayTechAnnotation
  | ReaderKind.SystemText =>
    ⟨SystemText, fun a => some ⟨a.toStaffTextBase⟩,
      fun t => { toStaffTextBase := t.toStaffTextBase, properties := [] },
      TRead.readSystemText V⟩
  | ReaderKind.PlayTech => ⟨ PlayTechAnnotation, fun a => some a, fun a => a, TRead.readPlayTech V.toExt⟩
  | ReaderKind.Sticking => ⟨Sticking, fun _ => none, fun _ => emptyPlayTech, TRead.readSticking V.toExt⟩
  | ReaderKind.RehearsalMark =>
    ⟨RehearsalMark, fun _ => none, fun _ => emptyPlayTech, TRead.readRehearsalMark V.toExt⟩
  | ReaderKind.InstrumentChange =>
    ⟨InstrumentChange, fun _ => none, fun _ => emptyPlayTech, TRead.readInstrumentChange V⟩
  | ReaderKind.StaffState =>
    ⟨StaffState, fun _ => none, fun _ => emptyPlayTech, TRead.readStaffState V⟩
  | ReaderKind.FiguredBass =>
    ⟨FiguredBass, fun _ => none, fun _ => emptyPlayTech, TRead.readFiguredBass V.toExt⟩

/-- A playing-technique element with a tag of the technique type. -/
def playTechTypeTag : Node :=
  Node.elem "PlayTechAnnotation" [] [Node.elem "playTechType" [] [Node.text "1"]]

namespace InspectorListModel

/-- The first loop of `InspectorListModel::removeUnusedModels`
(inspectorlistmodel.cpp, lines 178 to 227): the models to remove, in the
order of the list. A model whose section type is among the exclusions stays;
for the others, whether the new selection still needs the model (lines 183
to 226: proxy models and supported element types, code outside src/) is the
parameter `unused`. -/
def modelsToRemove (unused : AbstractInspectorModel → Bool)
    (exclusions : List InspectorSectionType) (l : List AbstractInspectorModel) :
    List AbstractInspectorModel :=
  l.filter (fun model => if exclusions.contains model.sectionType then false else unused model)

/-- One turn of the second loop of `removeUnusedModels`
(inspectorlistmodel.cpp, lines 229 to 238): the model is taken out of the
list at its index, between the two notifications. -/
def removeModel (M : InspectorListModel) (model : AbstractInspectorModel) :
    InspectorListModel :=
  let index := indexOf M.m_modelList model
  { m_modelList := if 0 ≤ index then M.m_modelList.eraseIdx index.toNat else M.m_modelList,
    signals := M.signals ++ [RowSignal.beginRemoveRows index index, RowSignal.endRemoveRows] }

/-- The function `InspectorListModel::removeUnusedModels`
(inspectorlistmodel.cpp, lines 173 to 239). -/
def removeUnusedModels (unused : AbstractInspectorModel → Bool)
    (exclusions : List InspectorSectionType) (M : InspectorListModel) : InspectorListModel :=
  (modelsToRemove unused exclusions M.m_modelList).foldl removeModel M

/-- The states of the model list that the code of the file can produce: the
list of a new object is empty, and only `removeUnusedModels`,
`createModelsBySectionType` and `sortModels` assign to `m_modelList`
(`setElementList` calls them, inspectorlistmodel.cpp, lines 56, 67, 69, 79
and 81), in whatever order and with whatever arguments. -/
inductive Reachable (v : InspectorSectionType → Int) : InspectorListModel → Prop
  | init (signals : List RowSignal) : Reachable v ⟨[], signals⟩
  | removeUnusedModels (unused : AbstractInspectorModel → Bool)
      (exclusions : List InspectorSectionType) (M : InspectorListModel) :
      Reachable v M → Reachable v (M.removeUnusedModels unused exclusions)
  | createModelsBySectionType (sectionTypeList : List InspectorSectionType)
      (M : InspectorListModel) :
      Reachable v M → Reachable v (M.createModelsBySectionType sectionTypeList)
  | sortModels (M Mafter : InspectorListModel) :
      Reachable v M → M.sortModels v Mafter → Reachable v Mafter

end InspectorListModel

/-- An inspector with a text model, a general model and a notation model. -/
def inspectorThree : InspectorListModel :=
  ⟨[⟨1, InspectorSectionType.SECTION_TEXT⟩, ⟨2, InspectorSectionType.SECTION_GENERAL⟩,
    ⟨3, InspectorSectionType.SECTION_NOTATION⟩], []⟩

/-! ## Cursor lemmas -/

mutual
theorem Node.skipAux_toks (d : Nat) (hd : 1 ≤ d) (r : List Token) :
    ∀ k : Node, XmlReader.skipAux d (k.toks ++ r) = XmlReader.skipAux d r
  | .text s => by simp [Node.toks, XmlReader.skipAux]
  | .elem n a ks => by
    have h := Node.skipAux_toksList (d + 1) (by omega) (Token.endElement n :: r) ks
    have hd2 : ¬ d = 0 := by omega
    simp [Node.toks, XmlReader.skipAux, h, hd2]
theorem Node.skipAux_toksList (d : Nat) (hd : 1 ≤ d) (r : List Token) :
    ∀ ks : List Node, XmlReader.skipAux d (Node.toksList ks ++ r) = XmlReader.skipAux d r
  | [] => by simp [Node.toksList]
  | k :: ks => by
    have h1 := Node.skipAux_toks d hd (Node.toksList ks ++ r) k
    have h2 := Node.skipAux_toksList d hd r ks
    simp [Node.toksList, h1, h2]
end

mutual
theorem Node.bodyAux_toks (d : Nat) (hd : 1 ≤ d) (r : List Token) :
    ∀ k : Node, XmlReader.bodyAux d (k.toks ++ r) = k.toks ++ XmlReader.bodyAux d r
  | .text s => by simp [Node.toks, XmlReader.bodyAux]
  | .elem n a ks => by
    have h := Node.bodyAux_toksList (d + 1) (by omega) (Token.endElement n :: r) ks
    have hd2 : ¬ d = 0 := by omega
    simp [Node.toks, XmlReader.bodyAux, h, hd2]
theorem Node.bodyAux_toksList (d : Nat) (hd : 1 ≤ d) (r : List Token) :
    ∀ ks : List Node, XmlReader.bodyAux d (Node.toksList ks ++ r) = Node.toksList ks ++ XmlReader.bodyAux d r
  | [] => by simp [Node.toksList]
  | k :: ks => by
    have h1 := Node.bodyAux_toks d hd (Node.toksList ks ++ r) k
    have h2 := Node.bodyAux_toksList d hd r ks
    simp [Node.toksList, h1, h2]
end

/-- Skipping the element whose start tag the cursor stands on leaves the
cursor on its end tag. -/
theorem XmlReader.skipCurrentElement_elem (c : Token) (n : String) (ks : List Node) (r : List Token) :
    XmlReader.skipCurrentElement (c :: (Node.toksList ks ++ Token.endElement n :: r))
      = Token.endElement n :: r := by
  simp [XmlReader.skipCurrentElement, Node.skipAux_toksList 1 (le_refl 1), XmlReader.skipAux]

/-- The body of the element whose start tag the cursor stands on is the
token sequence of its children. -/
theorem XmlReader.body_elem (c : Token) (n : String) (ks : List Node) (r : List Token) :
    XmlReader.body (c :: (Node.toksList ks ++ Token.endElement n :: r)) = Node.toksList ks := by
  simp [XmlReader.body, Node.bodyAux_toksList 1 (le_refl 1), XmlReader.bodyAux]

/-- Reading the text of an element returns its character data and leaves the
cursor on its end tag. -/
theorem XmlReader.readText_elem (n : String) (a : List (String × String)) (ks : List Node)
    (r : List Token) :
    XmlReader.readText (Token.startElement n a :: (Node.toksList ks ++ Token.endElement n :: r))
      = (Token.text (Node.toksList ks), Token.endElement n :: r) := by
  simp [XmlReader.readText, XmlReader.skipCurrentElement_elem, XmlReader.body_elem]

mutual
theorem Node.length_toks_pos : ∀ k : Node, 1 ≤ k.toks.length
  | .text s => by simp [Node.toks]
  | .elem n a ks => by simp [Node.toks]
theorem Node.length_le_toksList : ∀ ks : List Node, ks.length ≤ (Node.toksList ks).length
  | [] => by simp [Node.toksList]
  | k :: ks => by
    have h1 := Node.length_toks_pos k
    have h2 := Node.length_le_toksList ks
    simp [Node.toksList]
    omega
end

theorem XmlReader.whileStart_characters {σ : Type} (body : σ → XmlReader → Option (σ × XmlReader))
    (fuel : Nat) (s : σ) (c : Token) (t : String) (r : List Token) :
    XmlReader.whileStart body fuel s (c :: Token.characters t :: r)
      = XmlReader.whileStart body fuel s (c :: r) := by
  cases fuel with
  | zero => rfl
  | succ f => simp [XmlReader.whileStart, XmlReader.readNextStartElement, XmlReader.scanStart]

/-- The loop over the children of an element: when the loop body, started on
the start tag of a child in a state that satisfies the invariant `I`, ends on
the end tag of that child with the state `step s child`, the loop folds
`step` over the children and ends on the end tag of the parent. -/
theorem XmlReader.whileStart_kids {σ : Type} (body : σ → XmlReader → Option (σ × XmlReader))
    (step : σ → Node → σ) (good : Node → Prop) (I : σ → Prop)
    (hbody : ∀ s n a ks r, I s → good (Node.elem n a ks) →
      body s (Token.startElement n a :: (Node.toksList ks ++ Token.endElement n :: r))
        = some (step s (Node.elem n a ks), Token.endElement n :: r))
    (hI : ∀ s k, good k → I s → I (step s k))
    (htext : ∀ s t, step s (Node.text t) = s) :
    ∀ (kids : List Node), (∀ k ∈ kids, good k) →
      ∀ (fuel : Nat) (s : σ) (c : Token) (nm : String) (r : List Token), I s →
      kids.length < fuel →
      XmlReader.whileStart body fuel s (c :: (Node.toksList kids ++ Token.endElement nm :: r))
        = some (kids.foldl step s, Token.endElement nm :: r)
  | [], _, fuel, s, c, nm, r, _, hf => by
    cases fuel with
    | zero => simp at hf
    | succ f => simp [XmlReader.whileStart, XmlReader.readNextStartElement, XmlReader.scanStart, Node.toksList]
  | Node.text t :: ks, hg, fuel, s, c, nm, r, hs, hf => by
    have ih := XmlReader.whileStart_kids body step good I hbody hI htext ks
      (fun k hk => hg k (List.mem_cons_of_mem _ hk)) fuel s c nm r hs (by simp at hf; omega)
    simp [Node.toksList, Node.toks, XmlReader.whileStart_characters, ih, htext]
  | Node.elem n a ks0 :: ks, hg, fuel, s, c, nm, r, hs, hf => by
    cases fuel with
    | zero => simp at hf
    | succ f =>
      have ih := XmlReader.whileStart_kids body step good I hbody hI htext ks
        (fun k hk => hg k (List.mem_cons_of_mem _ hk)) f (step s (Node.elem n a ks0))
        (Token.endElement n) nm r (hI _ _ (hg _ (List.mem_cons_self _ _)) hs)
        (by simp at hf; omega)
      have hb := hbody s n a ks0 (Node.toksList ks ++ Token.endElement nm :: r) hs
        (hg _ (List.mem_cons_self _ _))
      simp [Node.toksList, Node.toks, XmlReader.whileStart, XmlReader.readNextStartElement,
        XmlReader.scanStart, hb, ih]

/-- The loop over the children of an element with the iteration bound of
`forEachStartElement`, under an invariant of the loop state. -/
theorem XmlReader.forEachStartElement_kids_inv {σ : Type}
    (body : σ → XmlReader → Option (σ × XmlReader))
    (step : σ → Node → σ) (good : Node → Prop) (I : σ → Prop)
    (hbody : ∀ s n a ks r, I s → good (Node.elem n a ks) →
      body s (Token.startElement n a :: (Node.toksList ks ++ Token.endElement n :: r))
        = some (step s (Node.elem n a ks), Token.endElement n :: r))
    (hI : ∀ s k, good k → I s → I (step s k))
    (htext : ∀ s t, step s (Node.text t) = s)
    (kids : List Node) (hg : ∀ k ∈ kids, good k) (s : σ) (hs : I s) (c : Token) (nm : String)
    (r : List Token) :
    XmlReader.forEachStartElement body s (c :: (Node.toksList kids ++ Token.endElement nm :: r))
      = some (kids.foldl step s, Token.endElement nm :: r) := by
  unfold XmlReader.forEachStartElement
  apply XmlReader.whileStart_kids body step good I hbody hI htext kids hg _ _ _ _ _ hs
  have := Node.length_le_toksList kids
  simp
  omega

/-- The loop over the children of an element with the iteration bound of
`forEachStartElement`. -/
theorem XmlReader.forEachStartElement_kids {σ : Type}
    (body : σ → XmlReader → Option (σ × XmlReader))
    (step : σ → Node → σ) (good : Node → Prop)
    (hbody : ∀ s n a ks r, good (Node.elem n a ks) →
      body s (Token.startElement n a :: (Node.toksList ks ++ Token.endElement n :: r))
        = some (step s (Node.elem n a ks), Token.endElement n :: r))
    (htext : ∀ s t, step s (Node.text t) = s)
    (kids : List Node) (hg : ∀ k ∈ kids, good k) (s : σ) (c : Token) (nm : String)
    (r : List Token) :
    XmlReader.forEachStartElement body s (c :: (Node.toksList kids ++ Token.endElement nm :: r))
      = some (kids.foldl step s, Token.endElement nm :: r) :=
  XmlReader.forEachStartElement_kids_inv body step good (fun _ => True)
    (fun s n a ks r _ hg => hbody s n a ks r hg) (fun _ _ _ _ => trivial) htext kids hg s
    trivial c nm r

/-! ## The cursor on element trees, continued -/

theorem XmlReader.name_start (n : String) (a : List (String × String)) (r : List Token) :
    XmlReader.name (Token.startElement n a :: r) = n := rfl

theorem XmlReader.attributes_start (n : String) (a : List (String × String)) (r : List Token) :
    XmlReader.attributes (Token.startElement n a :: r) = a := rfl

theorem XmlReader.intAttribute_start (C : Conv) (n : String) (a : List (String × String))
    (r r2 : List Token) (k : String) (d : Int) :
    XmlReader.intAttribute C (Token.startElement n a :: r) k d
      = XmlReader.intAttribute C (Token.startElement n a :: r2) k d := rfl

theorem XmlReader.attr_start (n : String) (a : List (String × String))
    (r r2 : List Token) (k : String) :
    XmlReader.attr (Token.startElement n a :: r) k
      = XmlReader.attr (Token.startElement n a :: r2) k := rfl

theorem XmlReader.readInt_elem (C : Conv) (n : String) (a : List (String × String))
    (ks : List Node) (r : List Token) :
    XmlReader.readInt C (Token.startElement n a :: (Node.toksList ks ++ Token.endElement n :: r))
      = ((C.toInt (Token.text (Node.toksList ks))).getD 0, Token.endElement n :: r) := by
  simp [XmlReader.readInt, XmlReader.readText_elem]

theorem XmlReader.readBool_elem (C : Conv) (n : String) (a : List (String × String))
    (ks : List Node) (r : List Token) :
    XmlReader.readBool C (Token.startElement n a :: (Node.toksList ks ++ Token.endElement n :: r))
      = (C.toBool (Token.text (Node.toksList ks)), Token.endElement n :: r) := by
  simp [XmlReader.readBool, XmlReader.readText_elem]

theorem XmlReader.unknown_elem (n : String) (a : List (String × String))
    (ks : List Node) (r : List Token) (log : Log) :
    XmlReader.unknown (Token.startElement n a :: (Node.toksList ks ++ Token.endElement n :: r)) log
      = (Token.endElement n :: r, log ++ [Diag.unknownElement n]) := by
  simp [XmlReader.unknown, XmlReader.skipCurrentElement_elem, XmlReader.name]

theorem TextBaseRW.readProperties_elem (X : Ext) (t : TextBase) (n : String)
    (a : List (String × String)) (ks : List Node) (r : List Token) :
    TextBaseRW.readProperties X t
        (Token.startElement n a :: (Node.toksList ks ++ Token.endElement n :: r))
      = (X.textBaseReadProperties t n a (Node.toksList ks)).map
          (fun t1 => (t1, Token.endElement n :: r)) := by
  simp only [TextBaseRW.readProperties, XmlReader.name_start, XmlReader.attributes_start,
    XmlReader.body_elem, XmlReader.skipCurrentElement_elem]
  cases X.textBaseReadProperties t n a (Node.toksList ks) <;> rfl

theorem PropertyRW.readProperty_elem {α : Type} (sp : Pid → String → α → α) (item : α)
    (n : String) (a : List (String × String)) (ks : List Node) (r : List Token) (pid : Pid) :
    PropertyRW.readProperty sp item
        (Token.startElement n a :: (Node.toksList ks ++ Token.endElement n :: r)) pid
      = (sp pid (Token.text (Node.toksList ks)) item, Token.endElement n :: r) := by
  simp [PropertyRW.readProperty, XmlReader.readText_elem]

theorem PropertyRW.readPropertyTag_elem {α : Type} (X : Ext) (sp : Pid → String → α → α)
    (item : α) (tag : String) (n : String) (a : List (String × String)) (ks : List Node)
    (r : List Token) (pid : Pid) :
    PropertyRW.readPropertyTag X sp item tag
        (Token.startElement n a :: (Node.toksList ks ++ Token.endElement n :: r)) pid
      = if tag = X.propertyName pid then
          some (sp pid (Token.text (Node.toksList ks)) item, Token.endElement n :: r)
        else none := by
  simp [PropertyRW.readPropertyTag, PropertyRW.readProperty_elem]

/-- The loop over the children of an element whose body is local: started on
the start tag of a child, it ends on the end tag of that child, whatever
follows. -/
theorem XmlReader.forEachStartElement_stepOf {σ : Type}
    (body : σ → XmlReader → Option (σ × XmlReader)) (good : Node → Prop)
    (hbody : ∀ s n a ks r, good (Node.elem n a ks) →
      body s (Token.startElement n a :: (Node.toksList ks ++ Token.endElement n :: r))
        = some (XmlReader.stepOf body s (Node.elem n a ks), Token.endElement n :: r))
    (kids : List Node) (hg : ∀ k ∈ kids, good k) (s : σ) (c : Token) (nm : String)
    (r : List Token) :
    XmlReader.forEachStartElement body s (c :: (Node.toksList kids ++ Token.endElement nm :: r))
      = some (kids.foldl (XmlReader.stepOf body) s, Token.endElement nm :: r) :=
  XmlReader.forEachStartElement_kids body (XmlReader.stepOf body) good hbody
    (fun _ _ => rfl) kids hg s c nm r

/-! ## Termination of the loops on arbitrary token sequences -/

theorem XmlReader.scanStart_length :
    ∀ l : List Token, (XmlReader.scanStart l).2.length ≤ l.length
  | [] => by simp [XmlReader.scanStart]
  | Token.characters _ :: r => by
    have := XmlReader.scanStart_length r
    simp [XmlReader.scanStart]
    omega
  | Token.startElement _ _ :: r => by simp [XmlReader.scanStart]
  | Token.endElement _ :: r => by simp [XmlReader.scanStart]

theorem XmlReader.scanStart_true_ne_nil :
    ∀ l : List Token, (XmlReader.scanStart l).1 = true → l ≠ []
  | [], h => by simp [XmlReader.scanStart] at h
  | _ :: _, _ => by simp

theorem XmlReader.skipAux_length :
    ∀ (l : List Token) (d : Nat), (XmlReader.skipAux d l).length ≤ l.length
  | [], d => by simp [XmlReader.skipAux]
  | Token.characters _ :: r, d => by
    have := XmlReader.skipAux_length r d
    simp [XmlReader.skipAux]
    omega
  | Token.startElement _ _ :: r, d => by
    have := XmlReader.skipAux_length r (d + 1)
    simp [XmlReader.skipAux]
    omega
  | Token.endElement _ :: r, d => by
    have := XmlReader.skipAux_length r (d - 1)
    simp only [XmlReader.skipAux]
    split
    · simp
    · simp
      omega

theorem XmlReader.skipCurrentElement_length (e : XmlReader) :
    (XmlReader.skipCurrentElement e).length ≤ e.length := by
  have := XmlReader.skipAux_length e.tail 1
  simp [XmlReader.skipCurrentElement] at *
  omega

theorem XmlReader.readText_length (e : XmlReader) :
    (XmlReader.readText e).2.length ≤ e.length := by
  unfold XmlReader.readText
  split
  · exact XmlReader.skipCurrentElement_length _
  · exact le_refl _

theorem XmlReader.readInt_length (C : Conv) (e : XmlReader) :
    (XmlReader.readInt C e).2.length ≤ e.length := XmlReader.readText_length e

theorem XmlReader.readBool_length (C : Conv) (e : XmlReader) :
    (XmlReader.readBool C e).2.length ≤ e.length := XmlReader.readText_length e

theorem XmlReader.readNext_length (e : XmlReader) :
    (XmlReader.readNext e).length ≤ e.length := by
  simp [XmlReader.readNext]

theorem XmlReader.unknown_length (e : XmlReader) (log : Log) :
    (XmlReader.unknown e log).1.length ≤ e.length := XmlReader.skipCurrentElement_length e

/-- With such a body the loop returns for every bound above the number of
tokens, with the same result, and does not move the cursor backwards. -/
theorem XmlReader.whileStart_progress {σ : Type}
    (body : σ → XmlReader → Option (σ × XmlReader)) (hb : XmlReader.Progress body) :
    ∀ (n : Nat) (e : XmlReader) (s : σ), e.length ≤ n →
      ∃ s1 e1, e1.length ≤ e.length ∧
        ∀ fuel, e.length < fuel → XmlReader.whileStart body fuel s e = some (s1, e1) := by
  intro n
  induction n with
  | zero =>
    intro e s he
    have he0 : e = [] := List.eq_nil_of_length_eq_zero (by omega)
    subst he0
    refine ⟨s, [], le_refl _, ?_⟩
    intro fuel hf
    cases fuel with
    | zero => simp at hf
    | succ f => simp [XmlReader.whileStart, XmlReader.readNextStartElement, XmlReader.scanStart]
  | succ n ih =>
    intro e s he
    have hlen := XmlReader.scanStart_length e.tail
    cases hsc : XmlReader.scanStart e.tail with
    | mk b e1 =>
      rw [hsc] at hlen
      simp only at hlen
      cases b with
      | false =>
        refine ⟨s, e1, ?_, ?_⟩
        · simp at hlen; omega
        · intro fuel hf
          cases fuel with
          | zero => simp at hf
          | succ f => simp [XmlReader.whileStart, XmlReader.readNextStartElement, hsc]
      | true =>
        have hne : e.tail ≠ [] := XmlReader.scanStart_true_ne_nil e.tail (by rw [hsc])
        have hpos : 0 < e.tail.length := List.length_pos.2 hne
        have htl : e.tail.length = e.length - 1 := by simp
        obtain ⟨s2, e2, hb2, hl2⟩ := hb s e1
        obtain ⟨s3, e3, hl3, h3⟩ := ih e2 s2 (by omega)
        refine ⟨s3, e3, by omega, ?_⟩
        intro fuel hf
        cases fuel with
        | zero => simp at hf
        | succ f =>
          simp only [XmlReader.whileStart, XmlReader.readNextStartElement, hsc, hb2]
          exact h3 f (by omega)

/-- The loop `forEachStartElement` over a body that makes progress returns,
and any larger iteration bound gives the same result. -/
theorem XmlReader.forEachStartElement_progress {σ : Type}
    (body : σ → XmlReader → Option (σ × XmlReader)) (hb : XmlReader.Progress body)
    (s : σ) (e : XmlReader) :
    ∃ s1 e1, e1.length ≤ e.length ∧ XmlReader.forEachStartElement body s e = some (s1, e1) ∧
      ∀ fuel, e.length < fuel → XmlReader.whileStart body fuel s e = some (s1, e1) := by
  obtain ⟨s1, e1, hl, h⟩ := XmlReader.whileStart_progress body hb e.length e s (le_refl _)
  exact ⟨s1, e1, hl, h _ (by omega), h⟩

theorem XmlReader.whileStart_start {σ : Type}
    (body : σ → XmlReader → Option (σ × XmlReader)) (fuel : Nat) (s : σ) (c : Token)
    (n : String) (a : List (String × String)) (r : List Token) :
    XmlReader.whileStart body (fuel + 1) s (c :: Token.startElement n a :: r)
      = match body s (Token.startElement n a :: r) with
        | none => none
        | some (s2, e2) => XmlReader.whileStart body fuel s2 e2 := rfl

/-- One turn of the loop: when the body, started on the start tag that
follows the current token, ends with the state `s1` on the cursor `e1`, the
loop goes on from there. -/
theorem XmlReader.forEachStartElement_step {σ : Type}
    (body : σ → XmlReader → Option (σ × XmlReader)) (hb : XmlReader.Progress body)
    (s s1 : σ) (c : Token) (n : String) (a : List (String × String)) (r e1 : List Token)
    (h1 : body s (Token.startElement n a :: r) = some (s1, e1)) :
    XmlReader.forEachStartElement body s (c :: Token.startElement n a :: r)
      = XmlReader.forEachStartElement body s1 e1 := by
  obtain ⟨s2, e2, hb2, hl2⟩ := hb s (Token.startElement n a :: r)
  rw [h1] at hb2
  simp only [Option.some.injEq, Prod.mk.injEq] at hb2
  obtain ⟨hs, he⟩ := hb2
  subst hs he
  obtain ⟨s3, e3, _, h3, h3f⟩ := XmlReader.forEachStartElement_progress body hb s1 e1
  rw [h3]
  unfold XmlReader.forEachStartElement
  simp only [List.length_cons]
  rw [XmlReader.whileStart_start, h1]
  apply h3f
  simp only [List.length_cons] at hl2
  omega

/-! ## The Harmony reader on element trees -/

namespace TRead

theorem readDegreeBody_progress (X : Ext) : XmlReader.Progress (readDegreeBody X) := by
  intro s e
  unfold readDegreeBody
  simp only []
  split_ifs
  · exact ⟨_, _, rfl, XmlReader.readInt_length _ _⟩
  · exact ⟨_, _, rfl, XmlReader.readInt_length _ _⟩
  · exact ⟨_, _, rfl, XmlReader.readText_length _⟩
  · exact ⟨_, _, rfl, XmlReader.unknown_length _ _⟩

theorem readDegreeBody_elem (X : Ext) (s : DegreeFields × Log) (n : String)
    (a : List (String × String)) (ks : List Node) (r : List Token) :
    readDegreeBody X s (Token.startElement n a :: (Node.toksList ks ++ Token.endElement n :: r))
      = some (XmlReader.stepOf (readDegreeBody X) s (Node.elem n a ks),
          Token.endElement n :: r) := by
  simp only [XmlReader.stepOf, Node.toks, readDegreeBody, XmlReader.name_start,
    XmlReader.readInt_elem, XmlReader.readText_elem, XmlReader.unknown_elem]
  split_ifs <;> rfl

theorem readDegree_elem (X : Ext) (s : DegreeFields × Log) (c : Token) (n : String)
    (ks : List Node) (r : List Token) :
    XmlReader.forEachStartElement (readDegreeBody X) s
        (c :: (Node.toksList ks ++ Token.endElement n :: r))
      = some (ks.foldl (XmlReader.stepOf (readDegreeBody X)) s, Token.endElement n :: r) :=
  XmlReader.forEachStartElement_stepOf (readDegreeBody X) (fun _ => True)
    (fun s n a ks r _ => readDegreeBody_elem X s n a ks r) ks (fun _ _ => trivial) s c n r

/-- The inner loop of the degree branch computes the sub-fields of the block
and diagnoses its unknown children. -/
theorem readDegree_fields (X : Ext) :
    ∀ (ks : List Node) (d : DegreeFields) (log : Log),
      ks.foldl (XmlReader.stepOf (readDegreeBody X)) (d, log)
        = (ks.foldl (Node.degreeFieldsStep X) d, log ++ Node.unknownDiags degreeTags ks)
  | [], d, log => by simp [Node.unknownDiags]
  | Node.text t :: ks, d, log => by
    rw [List.foldl_cons, List.foldl_cons]
    simp only [XmlReader.stepOf, Node.unknownDiags]
    rw [readDegree_fields X ks d log]
    rfl
  | Node.elem n a ks0 :: ks, d, log => by
    rw [List.foldl_cons, List.foldl_cons]
    simp only [XmlReader.stepOf, Node.toks, readDegreeBody, XmlReader.name_start,
      XmlReader.readInt_elem, XmlReader.readText_elem, XmlReader.unknown_elem,
      Node.degreeFieldsStep, Node.name, Node.innerText, Node.kids, Node.unknownDiags,
      degreeTags]
    by_cases h1 : n = "degree-value"
    · subst h1
      simp [readDegree_fields X ks, degreeTags]
    by_cases h2 : n = "degree-alter"
    · subst h2
      simp [readDegree_fields X ks, degreeTags]
    by_cases h3 : n = "degree-type"
    · subst h3
      simp [readDegree_fields X ks, degreeTags]
    simp [h1, h2, h3, readDegree_fields X ks, degreeTags]

/-- The degree branch of the Harmony reader on a degree block. -/
theorem readHarmonyBody_degree (X : Ext) (h : Harmony) (log : Log)
    (a : List (String × String)) (ks : List Node) (r : List Token) :
    readHarmonyBody X (h, log)
        (Token.startElement "degree" a :: (Node.toksList ks ++ Token.endElement "degree" :: r))
      = some (addReadDegree h (log ++ Node.unknownDiags degreeTags ks) (Node.degreeFields X ks),
          Token.endElement "degree" :: r) := by
  unfold readHarmonyBody
  simp only [XmlReader.name_start, readDegree_elem, readDegree_fields]
  rfl

theorem readHarmonyBody_elem (X : Ext) (s : Harmony × Log) (n : String)
    (a : List (String × String)) (ks : List Node) (r : List Token)
    (hgood : (n = "leftParen" ∨ n = "rightParen") → ks = []) :
    readHarmonyBody X s (Token.startElement n a :: (Node.toksList ks ++ Token.endElement n :: r))
      = some (XmlReader.stepOf (readHarmonyBody X) s (Node.elem n a ks),
          Token.endElement n :: r) := by
  by_cases hp : n = "leftParen" ∨ n = "rightParen"
  · have hks := hgood hp
    subst hks
    rcases hp with hp | hp <;> subst hp <;> rfl
  · simp only [XmlReader.stepOf, Node.toks, readHarmonyBody, XmlReader.name_start,
      XmlReader.readInt_elem, XmlReader.readText_elem, XmlReader.unknown_elem,
      PropertyRW.readPropertyTag_elem, TextBaseRW.readProperties_elem, readDegree_elem]
    simp only [not_or] at hp
    simp only [hp.1, hp.2, if_false]
    by_cases h1 : n = "base"
    · rw [if_pos h1, if_pos h1]; rfl
    rw [if_neg h1, if_neg h1]
    by_cases h2 : n = "baseCase"
    · rw [if_pos h2, if_pos h2]; rfl
    rw [if_neg h2, if_neg h2]
    by_cases h3 : n = "extension"
    · rw [if_pos h3, if_pos h3]; rfl
    rw [if_neg h3, if_neg h3]
    by_cases h4 : n = "name"
    · rw [if_pos h4, if_pos h4]; rfl
    rw [if_neg h4, if_neg h4]
    by_cases h5 : n = "root"
    · rw [if_pos h5, if_pos h5]; rfl
    rw [if_neg h5, if_neg h5]
    by_cases h6 : n = "rootCase"
    · rw [if_pos h6, if_pos h6]; rfl
    rw [if_neg h6, if_neg h6]
    by_cases h7 : n = "function"
    · rw [if_pos h7, if_pos h7]; rfl
    rw [if_neg h7, if_neg h7]
    by_cases h8 : n = "degree"
    · rw [if_pos h8, if_pos h8]; rfl
    rw [if_neg h8, if_neg h8]
    by_cases p1 : n = X.propertyName Pid.POS_ABOVE
    · rw [if_pos p1, if_pos p1]; rfl
    rw [if_neg p1, if_neg p1]
    by_cases p2 : n = X.propertyName Pid.HARMONY_TYPE
    · rw [if_pos p2, if_pos p2]; rfl
    rw [if_neg p2, if_neg p2]
    by_cases p3 : n = X.propertyName Pid.PLAY
    · rw [if_pos p3, if_pos p3]; rfl
    rw [if_neg p3, if_neg p3]
    by_cases p4 : n = X.propertyName Pid.HARMONY_VOICE_LITERAL
    · rw [if_pos p4, if_pos p4]; rfl
    rw [if_neg p4, if_neg p4]
    by_cases p5 : n = X.propertyName Pid.HARMONY_VOICING
    · rw [if_pos p5, if_pos p5]; rfl
    rw [if_neg p5, if_neg p5]
    by_cases p6 : n = X.propertyName Pid.HARMONY_DURATION
    · rw [if_pos p6, if_pos p6]; rfl
    rw [if_neg p6, if_neg p6]
    cases X.textBaseReadProperties s.1.toTextBase n a (Node.toksList ks) <;> rfl

/-- The degree branch adds to the Degree List exactly the degree that the
sub-fields stand for. -/
theorem addReadDegree_degreeList (h : Harmony) (log : Log) (d : DegreeFields) :
    (addReadDegree h log d).1.degreeList = h.degreeList ++ (HDegree.ofFields d).toList := by
  unfold addReadDegree HDegree.ofFields
  by_cases hinc : incorrectDegree d
  · rw [if_pos hinc]
    unfold incorrectDegree at hinc
    by_cases hr : 1 ≤ d.degreeValue ∧ d.degreeValue ≤ 13 ∧ -2 ≤ d.degreeAlter ∧ d.degreeAlter ≤ 2
    · rw [if_pos hr]
      have ht : d.degreeType ≠ "add" ∧ d.degreeType ≠ "alter" ∧ d.degreeType ≠ "subtract" := by
        rcases hinc with h1 | h1 | h1 | h1 | h1
        · omega
        · omega
        · omega
        · omega
        · exact h1
      simp [ht.1, ht.2.1, ht.2.2]
    · rw [if_neg hr]
      simp
  · rw [if_neg hinc]
    unfold incorrectDegree at hinc
    simp only [not_or, not_and_or, not_le, not_lt, ne_eq, not_not, gt_iff_lt] at hinc
    have hr : 1 ≤ d.degreeValue ∧ d.degreeValue ≤ 13 ∧ -2 ≤ d.degreeAlter ∧ d.degreeAlter ≤ 2 :=
      ⟨by omega, by omega, by omega, by omega⟩
    rw [if_pos hr]
    by_cases h1 : d.degreeType = "add"
    · simp [h1, Harmony.addDegree]
    by_cases h2 : d.degreeType = "alter"
    · simp [h1, h2, Harmony.addDegree]
    by_cases h3 : d.degreeType = "subtract"
    · simp [h1, h2, h3, Harmony.addDegree]
    simp [h1, h2, h3]

/-- The effect of one child on the Degree List: a degree block adds the
degree it stands for, every other child leaves the list as it is. -/
theorem stepOf_readHarmonyBody_degreeList (X : Ext) (s : Harmony × Log) :
    ∀ k : Node, (XmlReader.stepOf (readHarmonyBody X) s k).1.degreeList
      = s.1.degreeList ++ (if k.name = "degree" then (Node.degree X k).toList else [])
  | Node.text t => by simp [XmlReader.stepOf, Node.name]
  | Node.elem n a ks => by
    simp only [XmlReader.stepOf, Node.toks, readHarmonyBody, XmlReader.name_start,
      XmlReader.readInt_elem, XmlReader.readText_elem, XmlReader.unknown_elem,
      PropertyRW.readPropertyTag_elem, TextBaseRW.readProperties_elem, readDegree_elem,
      Node.name]
    by_cases h1 : n = "base"
    · rw [if_pos h1]; subst h1; simp
    rw [if_neg h1]
    by_cases h2 : n = "baseCase"
    · rw [if_pos h2]; subst h2; simp
    rw [if_neg h2]
    by_cases h3 : n = "extension"
    · rw [if_pos h3]; subst h3; simp
    rw [if_neg h3]
    by_cases h4 : n = "name"
    · rw [if_pos h4]; subst h4; simp
    rw [if_neg h4]
    by_cases h5 : n = "root"
    · rw [if_pos h5]; subst h5; simp
    rw [if_neg h5]
    by_cases h6 : n = "rootCase"
    · rw [if_pos h6]; subst h6; simp
    rw [if_neg h6]
    by_cases h7 : n = "function"
    · rw [if_pos h7]; subst h7; simp
    rw [if_neg h7]
    by_cases h8 : n = "degree"
    · rw [if_pos h8, if_pos h8]
      simp only [Option.map_some', Option.getD_some, readDegree_fields,
        addReadDegree_degreeList, Node.degree, Node.kids, Node.degreeFields]
    rw [if_neg h8, if_neg h8]
    by_cases h9 : n = "leftParen"
    · rw [if_pos h9]; simp
    rw [if_neg h9]
    by_cases h10 : n = "rightParen"
    · rw [if_pos h10]; simp
    rw [if_neg h10]
    by_cases p1 : n = X.propertyName Pid.POS_ABOVE
    · rw [if_pos p1]; simp [Harmony.setProperty]
    rw [if_neg p1]
    by_cases p2 : n = X.propertyName Pid.HARMONY_TYPE
    · rw [if_pos p2]; simp [Harmony.setProperty]
    rw [if_neg p2]
    by_cases p3 : n = X.propertyName Pid.PLAY
    · rw [if_pos p3]; simp [Harmony.setProperty]
    rw [if_neg p3]
    by_cases p4 : n = X.propertyName Pid.HARMONY_VOICE_LITERAL
    · rw [if_pos p4]; simp [Harmony.setProperty]
    rw [if_neg p4]
    by_cases p5 : n = X.propertyName Pid.HARMONY_VOICING
    · rw [if_pos p5]; simp [Harmony.setProperty]
    rw [if_neg p5]
    by_cases p6 : n = X.propertyName Pid.HARMONY_DURATION
    · rw [if_pos p6]; simp [Harmony.setProperty]
    rw [if_neg p6]
    cases X.textBaseReadProperties s.1.toTextBase n a (Node.toksList ks) <;> simp

/-- The Degree List after the children of a Harmony element. -/
theorem foldl_stepOf_degreeList (X : Ext) :
    ∀ (kids : List Node) (s : Harmony × Log),
      (kids.foldl (XmlReader.stepOf (readHarmonyBody X)) s).1.degreeList
        = s.1.degreeList ++ Node.degrees X kids
  | [], s => by simp [Node.degrees]
  | k :: ks, s => by
    rw [List.foldl_cons, foldl_stepOf_degreeList X ks, stepOf_readHarmonyBody_degreeList]
    by_cases hk : k.name = "degree"
    · simp only [Node.degrees, List.filter_cons, hk, decide_True, if_true, List.filterMap_cons]
      cases Node.degree X k <;> simp
    · simp [Node.degrees, List.filter_cons, hk]

/-- Every degree that sub-fields stand for is in range. -/
theorem HDegree.ofFields_range (d : DegreeFields) (x : HDegree)
    (h : HDegree.ofFields d = some x) :
    1 ≤ x.value ∧ x.value ≤ 13 ∧ -2 ≤ x.alter ∧ x.alter ≤ 2 ∧ x.type ≠ HDegreeType.UNDEF := by
  unfold HDegree.ofFields at h
  split_ifs at h with h1 h2 h3 h4 <;> simp at h <;> subst h <;> simp <;> omega

theorem readHarmonyBody_progress (X : Ext) : XmlReader.Progress (readHarmonyBody X) := by
  intro s e
  unfold readHarmonyBody
  by_cases h1 : XmlReader.name e = "base"
  · rw [if_pos h1]; exact ⟨_, _, rfl, XmlReader.readInt_length _ _⟩
  rw [if_neg h1]
  by_cases h2 : XmlReader.name e = "baseCase"
  · rw [if_pos h2]; exact ⟨_, _, rfl, XmlReader.readInt_length _ _⟩
  rw [if_neg h2]
  by_cases h3 : XmlReader.name e = "extension"
  · rw [if_pos h3]; exact ⟨_, _, rfl, XmlReader.readInt_length _ _⟩
  rw [if_neg h3]
  by_cases h4 : XmlReader.name e = "name"
  · rw [if_pos h4]; exact ⟨_, _, rfl, XmlReader.readText_length _⟩
  rw [if_neg h4]
  by_cases h5 : XmlReader.name e = "root"
  · rw [if_pos h5]; exact ⟨_, _, rfl, XmlReader.readInt_length _ _⟩
  rw [if_neg h5]
  by_cases h6 : XmlReader.name e = "rootCase"
  · rw [if_pos h6]; exact ⟨_, _, rfl, XmlReader.readInt_length _ _⟩
  rw [if_neg h6]
  by_cases h7 : XmlReader.name e = "function"
  · rw [if_pos h7]; exact ⟨_, _, rfl, XmlReader.readText_length _⟩
  rw [if_neg h7]
  by_cases h8 : XmlReader.name e = "degree"
  · rw [if_pos h8]
    obtain ⟨s1, e1, hl, hs, _⟩ :=
      XmlReader.forEachStartElement_progress (readDegreeBody X) (readDegreeBody_progress X)
        (⟨0, 0, ""⟩, s.2) e
    rw [hs]
    exact ⟨_, _, rfl, hl⟩
  rw [if_neg h8]
  by_cases h9 : XmlReader.name e = "leftParen"
  · rw [if_pos h9]; exact ⟨_, _, rfl, XmlReader.readNext_length _⟩
  rw [if_neg h9]
  by_cases h10 : XmlReader.name e = "rightParen"
  · rw [if_pos h10]; exact ⟨_, _, rfl, XmlReader.readNext_length _⟩
  rw [if_neg h10]
  simp only [PropertyRW.readPropertyTag, PropertyRW.readProperty, TextBaseRW.readProperties]
  by_cases p1 : XmlReader.name e = X.propertyName Pid.POS_ABOVE
  · rw [if_pos p1]; exact ⟨_, _, rfl, XmlReader.readText_length _⟩
  rw [if_neg p1]
  by_cases p2 : XmlReader.name e = X.propertyName Pid.HARMONY_TYPE
  · rw [if_pos p2]; exact ⟨_, _, rfl, XmlReader.readText_length _⟩
  rw [if_neg p2]
  by_cases p3 : XmlReader.name e = X.propertyName Pid.PLAY
  · rw [if_pos p3]; exact ⟨_, _, rfl, XmlReader.readText_length _⟩
  rw [if_neg p3]
  by_cases p4 : XmlReader.name e = X.propertyName Pid.HARMONY_VOICE_LITERAL
  · rw [if_pos p4]; exact ⟨_, _, rfl, XmlReader.readText_length _⟩
  rw [if_neg p4]
  by_cases p5 : XmlReader.name e = X.propertyName Pid.HARMONY_VOICING
  · rw [if_pos p5]; exact ⟨_, _, rfl, XmlReader.readText_length _⟩
  rw [if_neg p5]
  by_cases p6 : XmlReader.name e = X.propertyName Pid.HARMONY_DURATION
  · rw [if_pos p6]; exact ⟨_, _, rfl, XmlReader.readText_length _⟩
  rw [if_neg p6]
  cases X.textBaseReadProperties s.1.toTextBase (XmlReader.name e)
      (XmlReader.attributes e) (XmlReader.body e) with
  | none => exact ⟨_, _, rfl, XmlReader.unknown_length _ _⟩
  | some t1 => exact ⟨_, _, rfl, XmlReader.skipCurrentElement_length _⟩

/-- The reader of chord symbols returns on every token sequence, after the
finalization step. -/
theorem readHarmony_returns (X : Ext) (h : Harmony) (e : XmlReader) (log : Log) :
    ∃ h1 e1 log1, e1.length ≤ e.length ∧
      XmlReader.forEachStartElement (readHarmonyBody X) (h, log) e = some ((h1, log1), e1) ∧
      readHarmony X h e log = some (X.afterRead h1, e1, log1) := by
  obtain ⟨s1, e1, hl, hs, _⟩ :=
    XmlReader.forEachStartElement_progress (readHarmonyBody X) (readHarmonyBody_progress X)
      (h, log) e
  refine ⟨s1.1, e1, s1.2, hl, hs, ?_⟩
  unfold readHarmony
  rw [hs]

end TRead

/-! ## The FretDiagram reader on element trees -/

namespace TRead

theorem readNewStringBody_progress {D : Type} (F : FretOps D) (X : Ext) (no : Int) :
    XmlReader.Progress (readNewStringBody F X no) := by
  intro s e
  unfold readNewStringBody
  simp only []
  split_ifs
  · exact ⟨_, _, rfl, XmlReader.readText_length _⟩
  · exact ⟨_, _, rfl, XmlReader.readText_length _⟩
  · exact ⟨_, _, rfl, XmlReader.readText_length _⟩
  · exact ⟨_, _, rfl, XmlReader.unknown_length _ _⟩

theorem readNewStringBody_elem {D : Type} (F : FretOps D) (X : Ext) (no : Int) (s : D × Log)
    (n : String) (a : List (String × String)) (ks : List Node) (r : List Token) :
    readNewStringBody F X no s
        (Token.startElement n a :: (Node.toksList ks ++ Token.endElement n :: r))
      = some (XmlReader.stepOf (readNewStringBody F X no) s (Node.elem n a ks),
          Token.endElement n :: r) := by
  simp only [XmlReader.stepOf, Node.toks, readNewStringBody, XmlReader.name_start,
    XmlReader.readInt_elem, XmlReader.readText_elem, XmlReader.unknown_elem,
    XmlReader.intAttribute, XmlReader.attributes_start]
  split_ifs <;> rfl

theorem readNewString_elem {D : Type} (F : FretOps D) (X : Ext) (no : Int) (s : D × Log)
    (c : Token) (n : String) (ks : List Node) (r : List Token) :
    XmlReader.forEachStartElement (readNewStringBody F X no) s
        (c :: (Node.toksList ks ++ Token.endElement n :: r))
      = some (ks.foldl (XmlReader.stepOf (readNewStringBody F X no)) s,
          Token.endElement n :: r) :=
  XmlReader.forEachStartElement_stepOf (readNewStringBody F X no) (fun _ => True)
    (fun s n a ks r _ => readNewStringBody_elem F X no s n a ks r) ks (fun _ _ => trivial)
    s c n r

theorem readNewBody_progress {D : Type} (F : FretOps D) (X : Ext) :
    XmlReader.Progress (readNewBody F X) := by
  intro s e
  unfold readNewBody
  by_cases h1 : XmlReader.name e = "string"
  · rw [if_pos h1]
    obtain ⟨s1, e1, hl, hs, _⟩ := XmlReader.forEachStartElement_progress _
      (readNewStringBody_progress F X (XmlReader.intAttribute X.conv e "no" 0)) s e
    exact ⟨s1, e1, hs, hl⟩
  rw [if_neg h1]
  by_cases h2 : XmlReader.name e = "barre"
  · rw [if_pos h2]; exact ⟨_, _, rfl, XmlReader.readInt_length _ _⟩
  rw [if_neg h2]
  cases F.itemReadProperties s.1 (XmlReader.name e) (XmlReader.attributes e)
      (XmlReader.body e) with
  | none => exact ⟨_, _, rfl, XmlReader.unknown_length _ _⟩
  | some t1 => exact ⟨_, _, rfl, XmlReader.skipCurrentElement_length _⟩

theorem readNewBody_elem {D : Type} (F : FretOps D) (X : Ext) (s : D × Log)
    (n : String) (a : List (String × String)) (ks : List Node) (r : List Token) :
    readNewBody F X s (Token.startElement n a :: (Node.toksList ks ++ Token.endElement n :: r))
      = some (XmlReader.stepOf (readNewBody F X) s (Node.elem n a ks),
          Token.endElement n :: r) := by
  simp only [XmlReader.stepOf, Node.toks, readNewBody, XmlReader.name_start,
    XmlReader.readInt_elem, XmlReader.readText_elem, XmlReader.unknown_elem,
    XmlReader.intAttribute, XmlReader.attributes_start, readNewString_elem,
    XmlReader.body_elem, XmlReader.skipCurrentElement_elem]
  by_cases h1 : n = "string"
  · rw [if_pos h1, if_pos h1]; rfl
  rw [if_neg h1, if_neg h1]
  by_cases h2 : n = "barre"
  · rw [if_pos h2, if_pos h2]; rfl
  rw [if_neg h2, if_neg h2]
  cases F.itemReadProperties s.1 n a (Node.toksList ks) <;> rfl

theorem readNew_elem {D : Type} (F : FretOps D) (X : Ext) (s : D × Log)
    (c : Token) (n : String) (ks : List Node) (r : List Token) :
    XmlReader.forEachStartElement (readNewBody F X) s
        (c :: (Node.toksList ks ++ Token.endElement n :: r))
      = some (ks.foldl (XmlReader.stepOf (readNewBody F X)) s, Token.endElement n :: r) :=
  XmlReader.forEachStartElement_stepOf (readNewBody F X) (fun _ => True)
    (fun s n a ks r _ => readNewBody_elem F X s n a ks r) ks (fun _ _ => trivial) s c n r

theorem readOldStringBody_progress {D : Type} (F : FretOps D) (X : Ext) (no : Int) :
    XmlReader.Progress (readOldStringBody F X no) := by
  intro s e
  unfold readOldStringBody
  by_cases h1 : XmlReader.name e = "dot"
  · rw [if_pos h1]; exact ⟨_, _, rfl, XmlReader.readInt_length _ _⟩
  rw [if_neg h1]
  by_cases h2 : XmlReader.name e = "marker"
  · rw [if_pos h2]; exact ⟨_, _, rfl, XmlReader.readInt_length _ _⟩
  rw [if_neg h2]
  exact ⟨_, _, rfl, XmlReader.unknown_length _ _⟩

theorem readFretDiagramBody_progress {D : Type} (F : FretOps D) (X : Ext) :
    XmlReader.Progress (readFretDiagramBody F X) := by
  intro s e
  unfold readFretDiagramBody
  by_cases h0 : s.haveReadNew = true
  · rw [if_pos h0]; exact ⟨_, _, rfl, XmlReader.skipCurrentElement_length _⟩
  rw [if_neg h0]
  by_cases h1 : XmlReader.name e = "fretDiagram"
  · rw [if_pos h1]
    obtain ⟨s1, e1, hl, hs, _⟩ := XmlReader.forEachStartElement_progress _
      (readNewBody_progress F X) (s.d, s.log) e
    rw [hs]
    exact ⟨_, _, rfl, hl⟩
  rw [if_neg h1]
  by_cases h2 : XmlReader.name e = "showNut"
  · rw [if_pos h2]; exact ⟨_, _, rfl, XmlReader.readText_length _⟩
  rw [if_neg h2]
  by_cases h3 : XmlReader.name e = "orientation"
  · rw [if_pos h3]; exact ⟨_, _, rfl, XmlReader.readText_length _⟩
  rw [if_neg h3]
  by_cases h4 : XmlReader.name e = "strings"
  · rw [if_pos h4]; exact ⟨_, _, rfl, XmlReader.readText_length _⟩
  rw [if_neg h4]
  by_cases h5 : XmlReader.name e = "frets"
  · rw [if_pos h5]; exact ⟨_, _, rfl, XmlReader.readText_length _⟩
  rw [if_neg h5]
  by_cases h6 : XmlReader.name e = "fretOffset"
  · rw [if_pos h6]; exact ⟨_, _, rfl, XmlReader.readText_length _⟩
  rw [if_neg h6]
  by_cases h7 : XmlReader.name e = "string"
  · rw [if_pos h7]
    obtain ⟨s1, e1, hl, hs, _⟩ := XmlReader.forEachStartElement_progress _
      (readOldStringBody_progress F X (XmlReader.intAttribute X.conv e "no" 0)) (s.d, s.log) e
    simp only [hs]
    exact ⟨_, _, rfl, hl⟩
  rw [if_neg h7]
  by_cases h8 : XmlReader.name e = "barre"
  · rw [if_pos h8]; exact ⟨_, _, rfl, XmlReader.readBool_length _ _⟩
  rw [if_neg h8]
  by_cases h9 : XmlReader.name e = "mag"
  · rw [if_pos h9]; exact ⟨_, _, rfl, XmlReader.readText_length _⟩
  rw [if_neg h9]
  by_cases h10 : XmlReader.name e = "Harmony"
  · rw [if_pos h10]
    obtain ⟨h1, e1, log1, hl, _, hr⟩ := readHarmony_returns X (F.newHarmony s.d) e s.log
    rw [hr]
    exact ⟨_, _, rfl, hl⟩
  rw [if_neg h10]
  cases F.itemReadProperties s.d (XmlReader.name e) (XmlReader.attributes e)
      (XmlReader.body e) with
  | none => exact ⟨_, _, rfl, XmlReader.unknown_length _ _⟩
  | some t1 => exact ⟨_, _, rfl, XmlReader.skipCurrentElement_length _⟩

/-- With the flag `haveReadNew` set the body skips the element it stands on
and leaves the loop state as it is. -/
theorem readFretDiagramBody_skip {D : Type} (F : FretOps D) (X : Ext) (s : FretState D)
    (hs : s.haveReadNew = true) (n : String) (a : List (String × String)) (ks : List Node)
    (r : List Token) :
    readFretDiagramBody F X s
        (Token.startElement n a :: (Node.toksList ks ++ Token.endElement n :: r))
      = some (s, Token.endElement n :: r) := by
  unfold readFretDiagramBody
  rw [if_pos hs, XmlReader.skipCurrentElement_elem]

/-- The body on the new-format container: the container is read by the
new-format loop and the flag `haveReadNew` is set. -/
theorem readFretDiagramBody_container {D : Type} (F : FretOps D) (X : Ext) (s : FretState D)
    (hs : s.haveReadNew = false) (a : List (String × String)) (ks : List Node)
    (r : List Token) :
    readFretDiagramBody F X s
        (Token.startElement "fretDiagram" a
          :: (Node.toksList ks ++ Token.endElement "fretDiagram" :: r))
      = some (⟨(ks.foldl (XmlReader.stepOf (readNewBody F X)) (s.d, s.log)).1, s.hasBarre, true,
                (ks.foldl (XmlReader.stepOf (readNewBody F X)) (s.d, s.log)).2⟩,
              Token.endElement "fretDiagram" :: r) := by
  unfold readFretDiagramBody
  simp only [hs, XmlReader.name_start, readNew_elem]
  rfl

/-- The loop over siblings with the flag `haveReadNew` set: all of them are
skipped, the loop state stays as it is. -/
theorem readFretDiagram_skip_siblings {D : Type} (F : FretOps D) (X : Ext) (s : FretState D)
    (hs : s.haveReadNew = true) (c : Token) (post : List Node) (nm : String) (r : List Token) :
    XmlReader.forEachStartElement (readFretDiagramBody F X) s
        (c :: (Node.toksList post ++ Token.endElement nm :: r))
      = some (s, Token.endElement nm :: r) := by
  have h := XmlReader.forEachStartElement_kids_inv (readFretDiagramBody F X)
    (fun s1 _ => s1) (fun _ => True) (fun s1 => s1.haveReadNew = true)
    (fun s1 n a ks r h1 _ => readFretDiagramBody_skip F X s1 h1 n a ks r)
    (fun _ _ _ h1 => h1) (fun _ _ => rfl) post (fun _ _ => trivial) s hs c nm r
  rw [h]
  congr 2
  induction post with
  | nil => rfl
  | cons k ks ih => simp [ih]

/-- The loop from a state without the flag, standing before the new-format
container: the container is read, the siblings after it are skipped. -/
theorem readFretDiagram_container_loop {D : Type} (F : FretOps D) (X : Ext) (s : FretState D)
    (hs : s.haveReadNew = false) (c : Token) (a : List (String × String))
    (cks post : List Node) (nm : String) (r : List Token) :
    XmlReader.forEachStartElement (readFretDiagramBody F X) s
        (c :: ((Node.elem "fretDiagram" a cks).toks
          ++ (Node.toksList post ++ Token.endElement nm :: r)))
      = some (⟨(cks.foldl (XmlReader.stepOf (readNewBody F X)) (s.d, s.log)).1, s.hasBarre, true,
                (cks.foldl (XmlReader.stepOf (readNewBody F X)) (s.d, s.log)).2⟩,
              Token.endElement nm :: r) := by
  have htoks : (Node.elem "fretDiagram" a cks).toks
        ++ (Node.toksList post ++ Token.endElement nm :: r)
      = Token.startElement "fretDiagram" a :: (Node.toksList cks
          ++ Token.endElement "fretDiagram" :: (Node.toksList post ++ Token.endElement nm :: r)) := by
    simp [Node.toks]
  rw [htoks, XmlReader.forEachStartElement_step (readFretDiagramBody F X)
    (readFretDiagramBody_progress F X) _ _ c "fretDiagram" a _ _
    (readFretDiagramBody_container F X s hs a cks _)]
  exact readFretDiagram_skip_siblings F X _ rfl _ post nm r

end TRead

/-! ## The TempoText and FiguredBass readers -/

namespace TRead

theorem readTempoTextBody_progress {R : Type} (T : TempoConv R) (X : Ext) :
    XmlReader.Progress (readTempoTextBody T X) := by
  intro s e
  unfold readTempoTextBody
  by_cases h1 : XmlReader.name e = "tempo"
  · rw [if_pos h1]; exact ⟨_, _, rfl, XmlReader.readText_length _⟩
  rw [if_neg h1]
  by_cases h2 : XmlReader.name e = "followText"
  · rw [if_pos h2]; exact ⟨_, _, rfl, XmlReader.readInt_length _ _⟩
  rw [if_neg h2]
  unfold TextBaseRW.readProperties
  cases X.textBaseReadProperties s.1.toTextBase (XmlReader.name e) (XmlReader.attributes e)
      (XmlReader.body e) with
  | none => exact ⟨_, _, rfl, XmlReader.unknown_length _ _⟩
  | some t1 => exact ⟨_, _, rfl, XmlReader.skipCurrentElement_length _⟩

theorem tempoDefaultText_ne_empty (n : Int) : tempoDefaultText n ≠ "" := by
  intro h
  have h1 := congrArg String.data h
  unfold tempoDefaultText at h1
  rw [String.data_append] at h1
  have h2 := (List.append_eq_nil.1 h1).1
  exact absurd h2 (by decide)

theorem readFiguredBassBody_elem (X : Ext) (s : FiguredBassState) (n : String)
    (a : List (String × String)) (ks : List Node) (r : List Token) :
    readFiguredBassBody X s
        (Token.startElement n a :: (Node.toksList ks ++ Token.endElement n :: r))
      = some (XmlReader.stepOf (readFiguredBassBody X) s (Node.elem n a ks),
          Token.endElement n :: r) := by
  simp only [XmlReader.stepOf, Node.toks, readFiguredBassBody, XmlReader.name_start,
    XmlReader.readInt_elem, XmlReader.readText_elem, XmlReader.unknown_elem,
    XmlReader.attributes_start, XmlReader.body_elem, XmlReader.skipCurrentElement_elem,
    TextBaseRW.readProperties_elem]
  by_cases h1 : n = "ticks"
  · rw [if_pos h1, if_pos h1]; rfl
  rw [if_neg h1, if_neg h1]
  by_cases h2 : n = "onNote"
  · rw [if_pos h2, if_pos h2]; rfl
  rw [if_neg h2, if_neg h2]
  by_cases h3 : n = "FiguredBassItem"
  · rw [if_pos h3, if_pos h3]; rfl
  rw [if_neg h3, if_neg h3]
  cases X.textBaseReadProperties s.b.toTextBase n a (Node.toksList ks) <;> rfl

/-- A child that is no item, and on which the text layer does not set the
display text, leaves the display text and the Item List as they are. -/
theorem stepOf_readFiguredBassBody_text (X : Ext) (s : FiguredBassState) (k : Node)
    (hitem : k.name ≠ "FiguredBassItem")
    (htext : k.name ≠ "ticks" → k.name ≠ "onNote" → ∀ tb tb1 : TextBase,
      X.textBaseReadProperties tb k.name k.attrs (Node.toksList k.kids) = some tb1 →
        tb1.xmlText = tb.xmlText) :
    (XmlReader.stepOf (readFiguredBassBody X) s k).b.xmlText = s.b.xmlText
      ∧ (XmlReader.stepOf (readFiguredBassBody X) s k).b.items = s.b.items := by
  cases k with
  | text t => exact ⟨rfl, rfl⟩
  | elem n a ks =>
    simp only [Node.name, Node.attrs, Node.kids] at hitem htext
    simp only [XmlReader.stepOf, Node.toks, readFiguredBassBody, XmlReader.name_start,
      XmlReader.readInt_elem, XmlReader.readText_elem, XmlReader.unknown_elem,
      XmlReader.attributes_start, XmlReader.body_elem, XmlReader.skipCurrentElement_elem,
      TextBaseRW.readProperties_elem]
    by_cases h1 : n = "ticks"
    · rw [if_pos h1]; exact ⟨rfl, rfl⟩
    rw [if_neg h1]
    by_cases h2 : n = "onNote"
    · rw [if_pos h2]; exact ⟨rfl, rfl⟩
    rw [if_neg h2, if_neg hitem]
    cases hx : X.textBaseReadProperties s.b.toTextBase n a (Node.toksList ks) with
    | none => exact ⟨rfl, rfl⟩
    | some tb1 => exact ⟨htext h1 h2 _ _ hx, rfl⟩

/-- Every child keeps the local `normalizedText` equal to the accumulation of
the normalized texts of the items read so far. -/
theorem stepOf_readFiguredBassBody_normalizedText (X : Ext) (s : FiguredBassState) (k : Node)
    (h : s.normalizedText = (s.b.items.map X.normalizedText).foldl appendNormalizedText "") :
    (XmlReader.stepOf (readFiguredBassBody X) s k).normalizedText
      = ((XmlReader.stepOf (readFiguredBassBody X) s k).b.items.map X.normalizedText).foldl
          appendNormalizedText "" := by
  cases k with
  | text t => exact h
  | elem n a ks =>
    simp only [XmlReader.stepOf, Node.toks, readFiguredBassBody, XmlReader.name_start,
      XmlReader.readInt_elem, XmlReader.readText_elem, XmlReader.unknown_elem,
      XmlReader.attributes_start, XmlReader.body_elem, XmlReader.skipCurrentElement_elem,
      TextBaseRW.readProperties_elem]
    by_cases h1 : n = "ticks"
    · rw [if_pos h1]; exact h
    rw [if_neg h1]
    by_cases h2 : n = "onNote"
    · rw [if_pos h2]; exact h
    rw [if_neg h2]
    by_cases h3 : n = "FiguredBassItem"
    · rw [if_pos h3]
      simp only [Option.map_some', Option.getD_some, List.map_append, List.foldl_append,
        List.map_cons, List.map_nil, List.foldl_cons, List.foldl_nil, h]
    rw [if_neg h3]
    cases X.textBaseReadProperties s.b.toTextBase n a (Node.toksList ks) with
    | none => exact h
    | some tb1 => exact h

theorem foldl_stepOf_readFiguredBassBody_normalizedText (X : Ext) :
    ∀ (kids : List Node) (s : FiguredBassState),
      s.normalizedText = (s.b.items.map X.normalizedText).foldl appendNormalizedText "" →
      (kids.foldl (XmlReader.stepOf (readFiguredBassBody X)) s).normalizedText
        = ((kids.foldl (XmlReader.stepOf (readFiguredBassBody X)) s).b.items.map
            X.normalizedText).foldl appendNormalizedText ""
  | [], _, h => h
  | k :: ks, s, h => by
    rw [List.foldl_cons]
    exact foldl_stepOf_readFiguredBassBody_normalizedText X ks _
      (stepOf_readFiguredBassBody_normalizedText X s k h)

theorem append_ne_empty (acc x : String) (h : acc ≠ "") : acc ++ x ≠ "" := by
  intro h1
  apply h
  have h2 := congrArg String.data h1
  rw [String.data_append] at h2
  exact String.ext (List.append_eq_nil.1 h2).1

/-- From a non-empty text on, the accumulation of normalized texts is the
newline-join. -/
theorem foldl_appendNormalizedText_go (xs : List String) :
    ∀ acc : String, acc ≠ "" →
      xs.foldl appendNormalizedText acc = String.intercalate.go acc "\n" xs := by
  induction xs with
  | nil => intro acc _; rfl
  | cons x xs ih =>
    intro acc h
    have hne : ¬ acc.isEmpty = true := fun he => h ((String.isEmpty_iff _).1 he)
    simp only [List.foldl_cons, String.intercalate.go, appendNormalizedText, hne,
      not_false_eq_true, if_true]
    exact ih _ (append_ne_empty _ _ (append_ne_empty _ _ h))

/-- The display text that the FiguredBass reader sets from the items it has
read: it is the accumulation of their normalized texts, and it is their
newline-join when the normalized text of the first item is not empty. -/
theorem readFiguredBass_display_text (X : Ext) (b : FiguredBass) (log : Log) (nm : String)
    (a : List (String × String)) (kids : List Node) (r : List Token) (hitems : b.items = []) :
    ∃ (b1 : FiguredBass) (log1 : Log),
      readFiguredBass X b ((Node.elem nm a kids).toks ++ r) log
        = some (b1, Token.endElement nm :: r, log1)
      ∧ (b1.items ≠ [] →
          b1.xmlText = (b1.items.map X.normalizedText).foldl appendNormalizedText "")
      ∧ (∀ (i : FiguredBassItem) (is : List FiguredBassItem), b1.items = i :: is →
          X.normalizedText i ≠ "" →
          b1.xmlText = "\n".intercalate (b1.items.map X.normalizedText)) := by
  have htoks : (Node.elem nm a kids).toks ++ r
      = Token.startElement nm a :: (Node.toksList kids ++ Token.endElement nm :: r) := by
    simp [Node.toks]
  have hloop := XmlReader.forEachStartElement_stepOf (readFiguredBassBody X) (fun _ => True)
    (fun s n a ks r _ => readFiguredBassBody_elem X s n a ks r) kids (fun _ _ => trivial)
    ⟨b, "", 0, log⟩ (Token.startElement nm a) nm r
  have hinv := foldl_stepOf_readFiguredBassBody_normalizedText X kids ⟨b, "", 0, log⟩
    (by simp [hitems])
  have hacc : (kids.foldl (XmlReader.stepOf (readFiguredBassBody X)) ⟨b, "", 0, log⟩).b.items ≠ []
      → (setNormalizedText
          (kids.foldl (XmlReader.stepOf (readFiguredBassBody X)) ⟨b, "", 0, log⟩).b
          (kids.foldl (XmlReader.stepOf (readFiguredBassBody X))
            ⟨b, "", 0, log⟩).normalizedText).xmlText
        = ((kids.foldl (XmlReader.stepOf (readFiguredBassBody X))
            ⟨b, "", 0, log⟩).b.items.map X.normalizedText).foldl appendNormalizedText "" := by
    intro hne
    have hpos : (kids.foldl (XmlReader.stepOf (readFiguredBassBody X))
        ⟨b, "", 0, log⟩).b.items.length > 0 := List.length_pos.2 hne
    simp only [setNormalizedText, hpos, if_true]
    exact hinv
  have hit : ∀ x : String,
      (setNormalizedText
          (kids.foldl (XmlReader.stepOf (readFiguredBassBody X)) ⟨b, "", 0, log⟩).b x).items
        = (kids.foldl (XmlReader.stepOf (readFiguredBassBody X)) ⟨b, "", 0, log⟩).b.items := by
    intro x
    unfold setNormalizedText
    split <;> rfl
  refine ⟨setNormalizedText
      (kids.foldl (XmlReader.stepOf (readFiguredBassBody X)) ⟨b, "", 0, log⟩).b
      (kids.foldl (XmlReader.stepOf (readFiguredBassBody X)) ⟨b, "", 0, log⟩).normalizedText,
    (kids.foldl (XmlReader.stepOf (readFiguredBassBody X)) ⟨b, "", 0, log⟩).log, ?_, ?_, ?_⟩
  · rw [htoks]
    unfold readFiguredBass
    rw [hloop]
  · intro hne
    rw [hit] at hne ⊢
    exact hacc hne
  · intro i is hi hfirst
    rw [hit] at hi ⊢
    rw [hacc (by rw [hi]; exact List.cons_ne_nil _ _), hi]
    simp only [List.map_cons, List.foldl_cons, String.intercalate]
    have h0 : appendNormalizedText "" (X.normalizedText i) = X.normalizedText i := by
      have he : ("" : String).isEmpty = true := rfl
      simp only [appendNormalizedText, he, not_true_eq_false, if_false, String.empty_append]
    rw [h0]
    exact foldl_appendNormalizedText_go _ _ hfirst

end TRead

/-! ## The Channel Action List (MidiAction) -/

namespace TRead

theorem midiActionLoop_channels (c : Int) (n : String) :
    ∀ l : List ChannelActions,
      (midiActionLoop c n l).1.map (fun a => a.channel) = l.map (fun a => a.channel)
  | [] => rfl
  | a :: as => by
    by_cases h : a.channel = c
    · simp [midiActionLoop, h]
    · simp [midiActionLoop, h, midiActionLoop_channels c n as]

theorem midiActionLoop_found (c : Int) (n : String) :
    ∀ l : List ChannelActions,
      (midiActionLoop c n l).2 = true ↔ c ∈ l.map (fun a => a.channel)
  | [] => by simp [midiActionLoop]
  | a :: as => by
    by_cases h : a.channel = c
    · simp [midiActionLoop, h]
    · have ih := midiActionLoop_found c n as
      have h2 : ¬ c = a.channel := fun hc => h hc.symm
      simp [midiActionLoop, h, h2, ih]

theorem midiAction_channels (c : Int) (n : String) (l : List ChannelActions) :
    (midiAction c n l).map (fun a => a.channel)
      = if c ∈ l.map (fun a => a.channel) then l.map (fun a => a.channel)
        else l.map (fun a => a.channel) ++ [c] := by
  unfold midiAction
  by_cases h : c ∈ l.map (fun a => a.channel)
  · rw [if_pos ((midiActionLoop_found c n l).2 h), if_pos h, midiActionLoop_channels]
  · have h2 : ¬ (midiActionLoop c n l).2 = true := fun hf => h ((midiActionLoop_found c n l).1 hf)
    rw [if_neg h2, if_neg h, List.map_append, midiActionLoop_channels]
    rfl

theorem midiAction_nodup (c : Int) (n : String) (l : List ChannelActions)
    (h : (l.map (fun a => a.channel)).Nodup) :
    ((midiAction c n l).map (fun a => a.channel)).Nodup := by
  rw [midiAction_channels]
  by_cases hc : c ∈ l.map (fun a => a.channel)
  · rw [if_pos hc]; exact h
  · rw [if_neg hc]
    exact List.Nodup.append h (List.nodup_singleton c) (by simpa using hc)

theorem readProperties_midiAction (X : Ext) (t : StaffTextBase) (e : XmlReader)
    (h : XmlReader.name e = "MidiAction") :
    (readProperties X t e).2.1.channelActions
      = midiAction (XmlReader.intAttribute X.conv e "channel" 0) (XmlReader.attr e "name")
          t.channelActions := by
  simp [readProperties, h]

theorem midiActionLoop_mem (c : Int) (n : String) :
    ∀ l : List ChannelActions, (l.map (fun a => a.channel)).Nodup →
      ∀ a ∈ (midiActionLoop c n l).1,
        (a ∈ l ∧ a.channel ≠ c) ∨
        (∃ b ∈ l, b.channel = c ∧ a = ⟨c, b.midiActionNames ++ [n]⟩)
  | [], _, a, ha => by simp [midiActionLoop] at ha
  | b :: bs, hnd, a, ha => by
    rw [List.map_cons, List.nodup_cons] at hnd
    by_cases h : b.channel = c
    · simp only [midiActionLoop, h, if_true, List.mem_cons] at ha
      rcases ha with ha | ha
      · right
        exact ⟨b, List.mem_cons_self _ _, h, ha⟩
      · left
        refine ⟨List.mem_cons_of_mem _ ha, ?_⟩
        intro hac
        apply hnd.1
        rw [h, ← hac]
        exact List.mem_map_of_mem _ ha
    · simp only [midiActionLoop, h, if_false, List.mem_cons] at ha
      rcases ha with ha | ha
      · left
        subst ha
        exact ⟨List.mem_cons_self _ _, h⟩
      · rcases midiActionLoop_mem c n bs hnd.2 a ha with ⟨h1, h2⟩ | ⟨b2, hb2, h3, h4⟩
        · exact Or.inl ⟨List.mem_cons_of_mem _ h1, h2⟩
        · exact Or.inr ⟨b2, List.mem_cons_of_mem _ hb2, h3, h4⟩

theorem midiAction_mem (c : Int) (n : String) (l : List ChannelActions)
    (hnd : (l.map (fun a => a.channel)).Nodup) (a : ChannelActions)
    (ha : a ∈ midiAction c n l) :
    (a ∈ l ∧ a.channel ≠ c) ∨
    (∃ b ∈ l, b.channel = c ∧ a = ⟨c, b.midiActionNames ++ [n]⟩) ∨
    (c ∉ l.map (fun a => a.channel) ∧ a = ⟨c, [n]⟩) := by
  unfold midiAction at ha
  by_cases hf : (midiActionLoop c n l).2 = true
  · rw [if_pos hf] at ha
    rcases midiActionLoop_mem c n l hnd a ha with h | h
    · exact Or.inl h
    · exact Or.inr (Or.inl h)
  · rw [if_neg hf, List.mem_append] at ha
    rcases ha with ha | ha
    · rcases midiActionLoop_mem c n l hnd a ha with h | h
      · exact Or.inl h
      · exact Or.inr (Or.inl h)
    · right; right
      refine ⟨fun hc => hf ((midiActionLoop_found c n l).2 hc), ?_⟩
      simpa using ha

/-- The Channel Action List built from the empty list by a sequence of
(channel, name) pairs. -/
theorem midiAction_foldl (ps : List (Int × String)) :
    ((ps.foldl (fun l p => midiAction p.1 p.2 l) []).map (fun a => a.channel)).Nodup ∧
    (∀ c, c ∈ (ps.foldl (fun l p => midiAction p.1 p.2 l) []).map (fun a => a.channel)
        ↔ c ∈ ps.map (fun p => p.1)) ∧
    (∀ a ∈ ps.foldl (fun l p => midiAction p.1 p.2 l) [],
        a.midiActionNames = (ps.filter (fun p => decide (p.1 = a.channel))).map (fun p => p.2)) ∧
    ((ps.foldl (fun l p => midiAction p.1 p.2 l) []).map (fun a => a.channel)).Pairwise
        (fun c d => (ps.map (fun p => p.1)).indexOf c < (ps.map (fun p => p.1)).indexOf d) := by
  induction ps using List.reverseRecOn with
  | nil => simp
  | append_singleton ps p ih =>
    obtain ⟨ih1, ih2, ih3, ih4⟩ := ih
    simp only [List.foldl_append, List.foldl_cons, List.foldl_nil]
    generalize ps.foldl (fun l p => midiAction p.1 p.2 l) [] = l at ih1 ih2 ih3 ih4
    have hch := midiAction_channels p.1 p.2 l
    refine ⟨midiAction_nodup _ _ _ ih1, ?_, ?_, ?_⟩
    · intro c
      rw [hch]
      by_cases hc : p.1 ∈ l.map (fun a => a.channel)
      · rw [if_pos hc, ih2 c]
        simp only [List.map_append, List.map_cons, List.map_nil, List.mem_append,
          List.mem_singleton]
        constructor
        · exact fun h => Or.inl h
        · rintro (h | h)
          · exact h
          · rw [h]; exact (ih2 _).1 hc
      · rw [if_neg hc]
        simp only [List.map_append, List.map_cons, List.map_nil, List.mem_append,
          List.mem_singleton, ih2 c]
    · intro a ha
      rcases midiAction_mem p.1 p.2 l ih1 a ha with ⟨h1, h2⟩ | ⟨b, hb, h3, h4⟩ | ⟨h5, h6⟩
      · have h2b : ¬ p.1 = a.channel := fun h => h2 h.symm
        simp [List.filter_append, List.filter_cons, h2b, ih3 a h1]
      · subst h4
        have hb3 := ih3 b hb
        rw [h3] at hb3
        simp [List.filter_append, List.filter_cons, hb3]
      · subst h6
        have hnil : ps.filter (fun q => decide (q.1 = p.1)) = [] := by
          rw [List.filter_eq_nil_iff]
          intro q hq hq1
          apply h5
          rw [ih2]
          have hq2 : q.1 = p.1 := by simpa using hq1
          rw [← hq2]
          exact List.mem_map_of_mem _ hq
        simp [List.filter_append, List.filter_cons, hnil]
    · rw [hch]
      have hidx : ∀ x ∈ l.map (fun a => a.channel),
          (List.map (fun p => p.1) (ps ++ [p])).indexOf x = (ps.map (fun p => p.1)).indexOf x := by
        intro x hx
        rw [List.map_append]
        exact List.indexOf_append_of_mem ((ih2 x).1 hx)
      by_cases hc : p.1 ∈ l.map (fun a => a.channel)
      · rw [if_pos hc]
        refine List.Pairwise.imp_of_mem ?_ ih4
        intro x y hx hy hxy
        rw [hidx x hx, hidx y hy]
        exact hxy
      · rw [if_neg hc, List.pairwise_append]
        refine ⟨?_, List.pairwise_singleton _ _, ?_⟩
        · refine List.Pairwise.imp_of_mem ?_ ih4
          intro x y hx hy hxy
          rw [hidx x hx, hidx y hy]
          exact hxy
        · intro x hx y hy
          rw [List.mem_singleton] at hy
          subst hy
          rw [hidx x hx]
          have hlt : (ps.map (fun p => p.1)).indexOf x < (ps.map (fun p => p.1)).length :=
            List.indexOf_lt_length.2 ((ih2 x).1 hx)
          have hnot : p.1 ∉ ps.map (fun p => p.1) := fun h => hc ((ih2 _).2 h)
          rw [List.map_append, List.indexOf_append_of_not_mem hnot]
          omega

theorem readProperties_foldl_channelActions (X : Ext) (tags : List XmlReader)
    (htags : ∀ e ∈ tags, XmlReader.name e = "MidiAction") :
    ∀ t : StaffTextBase,
      (tags.foldl (fun t1 e => (readProperties X t1 e).2.1) t).channelActions
        = (tags.map (fun e => (XmlReader.intAttribute X.conv e "channel" 0,
              XmlReader.attr e "name"))).foldl (fun l p => midiAction p.1 p.2 l)
            t.channelActions := by
  induction tags with
  | nil => intro t; rfl
  | cons e es ih =>
    intro t
    simp only [List.foldl_cons, List.map_cons]
    rw [ih (fun e1 h1 => htags e1 (List.mem_cons_of_mem _ h1)),
      readProperties_midiAction X t e (htags e (List.mem_cons_self _ _))]

end TRead

/-- C1: `TRead::readProperties(StaffTextBase)` preserves channel uniqueness.
For every target whose Channel Action List has pairwise distinct channel
numbers and every sequence of cursors standing on MidiAction tags (whatever
their attributes), the Channel Action List after the whole sequence has been
processed still has pairwise distinct channel numbers. -/
theorem C1_channel_uniqueness (X : Ext) (t : StaffTextBase) (tags : List XmlReader)
    (huniq : (t.channelActions.map (fun a => a.channel)).Nodup)
    (htags : ∀ e ∈ tags, XmlReader.name e = "MidiAction") :
    ((tags.foldl (fun t1 e => (TRead.readProperties X t1 e).2.1) t).channelActions.map
      (fun a => a.channel)).Nodup := by
  induction tags generalizing t with
  | nil => simpa using huniq
  | cons e es ih =>
    simp only [List.foldl_cons]
    apply ih
    · rw [TRead.readProperties_midiAction X t e (htags e (List.mem_cons_self _ _))]
      exact TRead.midiAction_nodup _ _ _ huniq
    · exact fun e1 h1 => htags e1 (List.mem_cons_of_mem _ h1)

/-- The three MidiAction tags of the examples: channel 1, no channel
attribute, channel 1 again. -/
theorem C1_channel_uniqueness_witness :
    (emptyStaffText.channelActions.map (fun a => a.channel)).Nodup ∧
    (∀ e ∈ midiTags, XmlReader.name e = "MidiAction") ∧
    ((midiTags.foldl (fun t1 e => (TRead.readProperties exampleExt t1 e).2.1)
      emptyStaffText).channelActions.map (fun a => a.channel)).Nodup :=
  ⟨by decide, by decide,
    C1_channel_uniqueness exampleExt emptyStaffText midiTags (by decide) (by decide)⟩

/-- C2: starting from an empty Channel Action List, after
`TRead::readProperties(StaffTextBase)` has processed a sequence of MidiAction
tags, (1) no channel number occurs twice in the list, (2) the channels of
the list are exactly the channels of the tags, (3) every entry holds the
names of the tags of its channel in encounter order, and (4) the entries are
ordered by the first occurrence of their channel among the tags. -/
theorem C2_channel_action_list (X : Ext) (t : StaffTextBase) (tags : List XmlReader)
    (hempty : t.channelActions = [])
    (htags : ∀ e ∈ tags, XmlReader.name e = "MidiAction") :
    ((tags.foldl (fun t1 e => (TRead.readProperties X t1 e).2.1) t).channelActions.map
        (fun a => a.channel)).Nodup ∧
    (∀ c, c ∈ (tags.foldl (fun t1 e => (TRead.readProperties X t1 e).2.1) t).channelActions.map
          (fun a => a.channel)
        ↔ c ∈ tags.map (fun e => XmlReader.intAttribute X.conv e "channel" 0)) ∧
    (∀ a ∈ (tags.foldl (fun t1 e => (TRead.readProperties X t1 e).2.1) t).channelActions,
        a.midiActionNames
          = (tags.filter (fun e =>
                decide (XmlReader.intAttribute X.conv e "channel" 0 = a.channel))).map
              (fun e => XmlReader.attr e "name")) ∧
    ((tags.foldl (fun t1 e => (TRead.readProperties X t1 e).2.1) t).channelActions.map
        (fun a => a.channel)).Pairwise
      (fun c d =>
        (tags.map (fun e => XmlReader.intAttribute X.conv e "channel" 0)).indexOf c
          < (tags.map (fun e => XmlReader.intAttribute X.conv e "channel" 0)).indexOf d) := by
  rw [TRead.readProperties_foldl_channelActions X tags htags t, hempty]
  have h := TRead.midiAction_foldl
    (tags.map (fun e => (XmlReader.intAttribute X.conv e "channel" 0, XmlReader.attr e "name")))
  simp only [List.map_map, List.filter_map, Function.comp_def] at h
  exact h

/-- The three MidiAction tags of the examples, read onto the cleared staff
text. -/
theorem C2_channel_action_list_witness :
    emptyStaffText.channelActions = [] ∧
    (∀ e ∈ midiTags, XmlReader.name e = "MidiAction") ∧
    (midiTags.foldl (fun t1 e => (TRead.readProperties exampleExt t1 e).2.1)
      emptyStaffText).channelActions = [⟨1, ["a", "c"]⟩, ⟨0, ["b"]⟩] ∧
    ((midiTags.foldl (fun t1 e => (TRead.readProperties exampleExt t1 e).2.1)
      emptyStaffText).channelActions.map (fun a => a.channel)).Nodup :=
  ⟨by decide, by decide, by decide,
    (C2_channel_action_list exampleExt emptyStaffText midiTags (by decide) (by decide)).1⟩

/-- C4 (amended): for a Harmony whose Degree List is empty before the read
and an element whose leftParen and rightParen children are empty elements,
the read returns on the end tag of the element and the Degree List after
`TRead::read(Harmony)` is, in document order, the list of the triples
(value, alteration, kind) of exactly those degree blocks with value in 1..13,
alteration in -2..2 and type token add, alter or subtract; every entry of
the list is in range.  The finalization step `afterRead` is outside the
translated file and is taken to leave the Degree List as it is. -/
theorem C4_degree_list (X : Ext) (h : Harmony) (log : Log) (nm : String)
    (a : List (String × String)) (kids : List Node) (r : List Token)
    (hempty : h.degreeList = [])
    (hparen : ∀ k ∈ kids, (k.name = "leftParen" ∨ k.name = "rightParen") → k.kids = [])
    (hafter : ∀ h1 : Harmony, (X.afterRead h1).degreeList = h1.degreeList) :
    ∃ h1 log1,
      TRead.readHarmony X h ((Node.elem nm a kids).toks ++ r) log
        = some (h1, Token.endElement nm :: r, log1)
      ∧ h1.degreeList = Node.degrees X kids
      ∧ ∀ d ∈ h1.degreeList,
          1 ≤ d.value ∧ d.value ≤ 13 ∧ -2 ≤ d.alter ∧ d.alter ≤ 2 ∧ d.type ≠ HDegreeType.UNDEF := by
  have htoks : (Node.elem nm a kids).toks ++ r
      = Token.startElement nm a :: (Node.toksList kids ++ Token.endElement nm :: r) := by
    simp [Node.toks]
  have hloop := XmlReader.forEachStartElement_stepOf (TRead.readHarmonyBody X)
    (fun k => (k.name = "leftParen" ∨ k.name = "rightParen") → k.kids = [])
    (fun s n a ks r hg => TRead.readHarmonyBody_elem X s n a ks r hg)
    kids hparen (h, log) (Token.startElement nm a) nm r
  have hlist : (X.afterRead (kids.foldl (XmlReader.stepOf (TRead.readHarmonyBody X))
      (h, log)).1).degreeList = Node.degrees X kids := by
    rw [hafter, TRead.foldl_stepOf_degreeList, hempty, List.nil_append]
  refine ⟨X.afterRead (kids.foldl (XmlReader.stepOf (TRead.readHarmonyBody X)) (h, log)).1,
    (kids.foldl (XmlReader.stepOf (TRead.readHarmonyBody X)) (h, log)).2, ?_, hlist, ?_⟩
  · rw [htoks]
    unfold TRead.readHarmony
    rw [hloop]
  · rw [hlist]
    intro d hd
    simp only [Node.degrees, List.mem_filterMap] at hd
    obtain ⟨k, _, hk⟩ := hd
    exact TRead.HDegree.ofFields_range _ d hk

/-- The Harmony element with an empty leftParen and two degree blocks: the
block with value 0 is left out, the block (7, -1, alter) is in the list. -/
theorem C4_degree_list_witness :
    emptyHarmony.degreeList = [] ∧
    (∀ k ∈ harmonyTwoDegrees.kids,
      (k.name = "leftParen" ∨ k.name = "rightParen") → k.kids = []) ∧
    Node.degrees exampleExt harmonyTwoDegrees.kids = [⟨7, -1, HDegreeType.ALTER⟩] ∧
    ∃ h1 log1,
      TRead.readHarmony exampleExt emptyHarmony (harmonyTwoDegrees.toks ++ []) []
        = some (h1, [Token.endElement "Harmony"], log1)
      ∧ h1.degreeList = Node.degrees exampleExt harmonyTwoDegrees.kids
      ∧ ∀ d ∈ h1.degreeList,
          1 ≤ d.value ∧ d.value ≤ 13 ∧ -2 ≤ d.alter ∧ d.alter ≤ 2 ∧ d.type ≠ HDegreeType.UNDEF :=
  ⟨rfl, by decide, by decide,
    C4_degree_list exampleExt emptyHarmony [] "Harmony" [] harmonyTwoDegrees.kids [] rfl
      (by decide) (fun _ => rfl)⟩

/-- C4, the claim as stated fails when a leftParen child carries a body: the
read stops at the end tag of that child, the degree block after it is never
read, and the Degree List stays empty although the element holds a degree
block that stands for (5, 1, ADD). -/
theorem C4_counterexample_paren_with_body :
    TRead.readHarmony exampleExt emptyHarmony harmonyParenWithBody.toks []
      = some ({ emptyHarmony with leftParen := true },
          Token.endElement "leftParen" :: (degreeFiveSharp.toks ++ [Token.endElement "Harmony"]),
          [])
    ∧ Node.degrees exampleExt harmonyParenWithBody.kids = [⟨5, 1, HDegreeType.ADD⟩] := by
  decide

/-- C6: in `TRead::read(FretDiagram)`, (1) reading the new-format container
sets the flag `haveReadNew`; (2) with the flag set, the loop body skips the
element it stands on as a whole subtree, whatever its tag, and leaves the
diagram, the barre flag and the log as they are (no setter is applied);
(3) the loop, standing before the container, reads the container, skips all
the siblings after it and ends on the end tag of the diagram element with
the state that the container alone gives. -/
theorem C6_siblings_after_container_skipped {D : Type} (F : FretOps D) (X : Ext)
    (d : D) (hasBarre : Bool) (log : Log) (c : Token) (a : List (String × String))
    (cks post : List Node) (nm : String) (r : List Token) :
    TRead.readFretDiagramBody F X ⟨d, hasBarre, false, log⟩
        ((Node.elem "fretDiagram" a cks).toks ++ r)
      = some (⟨(cks.foldl (XmlReader.stepOf (TRead.readNewBody F X)) (d, log)).1, hasBarre, true,
                (cks.foldl (XmlReader.stepOf (TRead.readNewBody F X)) (d, log)).2⟩,
              Token.endElement "fretDiagram" :: r)
    ∧ (∀ (d1 : D) (b : Bool) (log1 : Log) (n : String) (a1 : List (String × String))
        (ks : List Node) (r1 : List Token),
        TRead.readFretDiagramBody F X ⟨d1, b, true, log1⟩ ((Node.elem n a1 ks).toks ++ r1)
          = some (⟨d1, b, true, log1⟩, Token.endElement n :: r1))
    ∧ XmlReader.forEachStartElement (TRead.readFretDiagramBody F X) ⟨d, hasBarre, false, log⟩
        (c :: ((Node.elem "fretDiagram" a cks).toks
          ++ (Node.toksList post ++ Token.endElement nm :: r)))
      = some (⟨(cks.foldl (XmlReader.stepOf (TRead.readNewBody F X)) (d, log)).1, hasBarre, true,
                (cks.foldl (XmlReader.stepOf (TRead.readNewBody F X)) (d, log)).2⟩,
              Token.endElement nm :: r) := by
  refine ⟨?_, ?_, ?_⟩
  · have htoks : (Node.elem "fretDiagram" a cks).toks ++ r
        = Token.startElement "fretDiagram" a
            :: (Node.toksList cks ++ Token.endElement "fretDiagram" :: r) := by
      simp [Node.toks]
    rw [htoks]
    exact TRead.readFretDiagramBody_container F X ⟨d, hasBarre, false, log⟩ rfl a cks r
  · intro d1 b log1 n a1 ks r1
    have htoks : (Node.elem n a1 ks).toks ++ r1
        = Token.startElement n a1 :: (Node.toksList ks ++ Token.endElement n :: r1) := by
      simp [Node.toks]
    rw [htoks]
    exact TRead.readFretDiagramBody_skip F X ⟨d1, b, true, log1⟩ rfl n a1 ks r1
  · exact TRead.readFretDiagram_container_loop F X ⟨d, hasBarre, false, log⟩ rfl c a cks post nm r

/-- C7 (amended): once the new-format container is read, the legacy-format
data that follows it has no effect.  From any loop state reached before the
container (diagram `d`, barre flag `hasBarre`, log), the diagram that the
read ends with is the one that the container alone gives, followed by the
old handling of barres for the flag as it was before the container; the
siblings after the container do not enter it.  In particular, for a diagram
element whose first child is the container, the read gives what the container
gives and no barre is inferred. -/
theorem C7_legacy_after_container_ignored {D : Type} (F : FretOps D) (X : Ext)
    (d : D) (hasBarre : Bool) (log : Log) (c : Token) (a a0 : List (String × String))
    (cks post : List Node) (nm : String) (r : List Token) :
    (XmlReader.forEachStartElement (TRead.readFretDiagramBody F X) ⟨d, hasBarre, false, log⟩
        (c :: ((Node.elem "fretDiagram" a cks).toks
          ++ (Node.toksList post ++ Token.endElement nm :: r)))).map
        (fun p => TRead.oldBarre F p.1.d p.1.hasBarre)
      = some (TRead.oldBarre F
          (cks.foldl (XmlReader.stepOf (TRead.readNewBody F X)) (d, log)).1 hasBarre)
    ∧ TRead.readFretDiagram F X d
        ((Node.elem nm a0 (Node.elem "fretDiagram" a cks :: post)).toks ++ r) log
      = some ((cks.foldl (XmlReader.stepOf (TRead.readNewBody F X)) (d, log)).1,
          Token.endElement nm :: r,
          (cks.foldl (XmlReader.stepOf (TRead.readNewBody F X)) (d, log)).2) := by
  constructor
  · rw [TRead.readFretDiagram_container_loop F X ⟨d, hasBarre, false, log⟩ rfl c a cks post nm r]
    rfl
  · have htoks : (Node.elem nm a0 (Node.elem "fretDiagram" a cks :: post)).toks ++ r
        = Token.startElement nm a0 :: ((Node.elem "fretDiagram" a cks).toks
            ++ (Node.toksList post ++ Token.endElement nm :: r)) := by
      simp [Node.toks, Node.toksList]
    unfold TRead.readFretDiagram
    rw [htoks, TRead.readFretDiagram_container_loop F X ⟨d, false, false, log⟩ rfl _ a cks post
      nm r]
    rfl

/-- C7, the claim as stated fails for legacy tags that stand before the
container: the legacy dot on string 0 and the legacy barre flag are
honoured, and the barre inferred from them after the loop is set, although
the new-format container is read; the container alone gives one dot and no
barre. -/
theorem C7_counterexample_legacy_before_container :
    TRead.readFretDiagram exampleFretOps exampleExt [] fretLegacyThenNew.toks []
      = some ([FretCall.setDot 0 3 false FretDotType.NORMAL,
               FretCall.setDot 1 2 true FretDotType.NORMAL,
               FretCall.setBarre 0 (-1) 3], [Token.endElement "FretDiagram"], [])
    ∧ TRead.readFretDiagram exampleFretOps exampleExt []
        (Node.elem "FretDiagram" [] [fretContainer]).toks []
      = some ([FretCall.setDot 1 2 true FretDotType.NORMAL],
          [Token.endElement "FretDiagram"], []) := by
  decide

/-- C8: the tag loop of `TRead::read(TempoText)` returns; when it leaves the
display text empty, the read ends with the display text made of the
quarter-note glyph markup, ` = ` and the rounded beats-per-minute value,
which is not empty, and with the entity invisible. -/
theorem C8_empty_tempo_text {R : Type} (T : TempoConv R) (X : Ext) (t : TempoText R)
    (e : XmlReader) (log : Log) :
    ∃ (t1 : TempoText R) (log1 : Log) (e1 : XmlReader),
      XmlReader.forEachStartElement (TRead.readTempoTextBody T X) (t, log) e
        = some ((t1, log1), e1)
      ∧ (t1.xmlText = "" →
          ∃ t2 : TempoText R,
            TRead.readTempoText T X t e log = some (t2, e1, log1)
            ∧ t2.xmlText = "<sym>metNoteQuarterUp</sym> = " ++ toString (T.roundedBPM t1.tempo)
            ∧ t2.xmlText ≠ ""
            ∧ t2.visible = false) := by
  obtain ⟨s1, e1, _, hloop, _⟩ := XmlReader.forEachStartElement_progress
    (TRead.readTempoTextBody T X) (TRead.readTempoTextBody_progress T X) (t, log) e
  refine ⟨s1.1, s1.2, e1, hloop, ?_⟩
  intro hempty
  have hie : s1.1.xmlText.isEmpty = true := (String.isEmpty_iff _).2 hempty
  refine ⟨TRead.tempoSanity T s1.1, ?_, ?_, ?_, ?_⟩
  · unfold TRead.readTempoText
    rw [hloop]
  · simp only [TRead.tempoSanity, hie, if_true]
    rfl
  · simp only [TRead.tempoSanity, hie, if_true]
    exact TRead.tempoDefaultText_ne_empty _
  · simp only [TRead.tempoSanity, hie, if_true]

/-- The tempo element of the examples, with a tempo and no text: the display
text becomes the glyph and 120, and the marking is invisible. -/
theorem C8_empty_tempo_text_witness :
    TRead.readTempoText exampleTempoConv exampleExt emptyTempoText tempoWithoutText.toks []
      = some ({ emptyTempoText with
                  xmlText := "<sym>metNoteQuarterUp</sym> = 120", visible := false },
              [Token.endElement "Tempo"], [])
    ∧ ∃ (t1 t2 : TempoText Int) (log1 : Log) (e1 : XmlReader),
        t1.xmlText = ""
        ∧ TRead.readTempoText exampleTempoConv exampleExt emptyTempoText tempoWithoutText.toks []
            = some (t2, e1, log1)
        ∧ t2.xmlText ≠ "" ∧ t2.visible = false := by
  refine ⟨by decide, ?_⟩
  obtain ⟨t1, log1, e1, hloop, h⟩ :=
    C8_empty_tempo_text exampleTempoConv exampleExt emptyTempoText tempoWithoutText.toks []
  have hev : XmlReader.forEachStartElement (TRead.readTempoTextBody exampleTempoConv exampleExt)
      (emptyTempoText, []) tempoWithoutText.toks
      = some ((emptyTempoText, []), [Token.endElement "Tempo"]) := by decide
  rw [hev] at hloop
  have ht := (Prod.mk.inj (Prod.mk.inj (Option.some.inj hloop)).1).1
  subst ht
  obtain ⟨t2, hr, _, hne, hv⟩ := h rfl
  exact ⟨emptyTempoText, t2, log1, e1, rfl, hr, hne, hv⟩

/-- C9: for a figured-bass entity with an empty Item List, when the element
read by `TRead::read(FiguredBass)` has no FiguredBassItem child and the text
layer sets the display text on none of the children that reach it, the read
returns on the end tag of the element, the display text after the read is
the display text before the read, and the Item List is still empty. -/
theorem C9_text_preserved_without_items (X : Ext) (b : FiguredBass) (log : Log) (nm : String)
    (a : List (String × String)) (kids : List Node) (r : List Token)
    (hitems : b.items = [])
    (hnone : ∀ k ∈ kids, k.name ≠ "FiguredBassItem")
    (htext : ∀ k ∈ kids, k.name ≠ "ticks" → k.name ≠ "onNote" → ∀ tb tb1 : TextBase,
      X.textBaseReadProperties tb k.name k.attrs (Node.toksList k.kids) = some tb1 →
        tb1.xmlText = tb.xmlText) :
    ∃ (b1 : FiguredBass) (log1 : Log),
      TRead.readFiguredBass X b ((Node.elem nm a kids).toks ++ r) log
        = some (b1, Token.endElement nm :: r, log1)
      ∧ b1.xmlText = b.xmlText ∧ b1.items = [] := by
  have htoks : (Node.elem nm a kids).toks ++ r
      = Token.startElement nm a :: (Node.toksList kids ++ Token.endElement nm :: r) := by
    simp [Node.toks]
  have hloop := XmlReader.forEachStartElement_kids_inv (TRead.readFiguredBassBody X)
    (XmlReader.stepOf (TRead.readFiguredBassBody X))
    (fun k => k.name ≠ "FiguredBassItem" ∧ (k.name ≠ "ticks" → k.name ≠ "onNote" →
      ∀ tb tb1 : TextBase,
        X.textBaseReadProperties tb k.name k.attrs (Node.toksList k.kids) = some tb1 →
          tb1.xmlText = tb.xmlText))
    (fun _ => True)
    (fun s n a ks r _ _ => TRead.readFiguredBassBody_elem X s n a ks r)
    (fun _ _ _ _ => trivial) (fun _ _ => rfl) kids (fun k hk => ⟨hnone k hk, htext k hk⟩)
    ⟨b, "", 0, log⟩ trivial (Token.startElement nm a) nm r
  have hinv : ∀ (ks : List Node) (s : TRead.FiguredBassState),
      (∀ k ∈ ks, k.name ≠ "FiguredBassItem" ∧ (k.name ≠ "ticks" → k.name ≠ "onNote" →
        ∀ tb tb1 : TextBase,
          X.textBaseReadProperties tb k.name k.attrs (Node.toksList k.kids) = some tb1 →
            tb1.xmlText = tb.xmlText)) →
      (ks.foldl (XmlReader.stepOf (TRead.readFiguredBassBody X)) s).b.xmlText = s.b.xmlText
      ∧ (ks.foldl (XmlReader.stepOf (TRead.readFiguredBassBody X)) s).b.items = s.b.items := by
    intro ks
    induction ks with
    | nil => intro s _; exact ⟨rfl, rfl⟩
    | cons k ks ih =>
      intro s hk
      have h1 := TRead.stepOf_readFiguredBassBody_text X s k
        (hk k (List.mem_cons_self _ _)).1 (hk k (List.mem_cons_self _ _)).2
      have h2 := ih (XmlReader.stepOf (TRead.readFiguredBassBody X) s k)
        (fun k1 hk1 => hk k1 (List.mem_cons_of_mem _ hk1))
      rw [List.foldl_cons]
      exact ⟨h2.1.trans h1.1, h2.2.trans h1.2⟩
  obtain ⟨hx, hi⟩ := hinv kids ⟨b, "", 0, log⟩ (fun k hk => ⟨hnone k hk, htext k hk⟩)
  simp only at hx hi
  rw [hitems] at hi
  refine ⟨TRead.setNormalizedText
      (kids.foldl (XmlReader.stepOf (TRead.readFiguredBassBody X)) ⟨b, "", 0, log⟩).b
      (kids.foldl (XmlReader.stepOf (TRead.readFiguredBassBody X)) ⟨b, "", 0, log⟩).normalizedText,
    (kids.foldl (XmlReader.stepOf (TRead.readFiguredBassBody X)) ⟨b, "", 0, log⟩).log,
    ?_, ?_, ?_⟩
  · rw [htoks]
    unfold TRead.readFiguredBass
    rw [hloop]
  · simp only [TRead.setNormalizedText, hi, List.length_nil, gt_iff_lt, lt_self_iff_false,
      if_false]
    exact hx
  · simp only [TRead.setNormalizedText, hi, List.length_nil, gt_iff_lt, lt_self_iff_false,
      if_false]

/-- The figured bass of the examples, with the display text `free text`,
read from an element without items: the text is kept. -/
theorem C9_text_preserved_without_items_witness :
    figuredBassWithText.items = []
    ∧ (∀ k ∈ figuredBassNoItems.kids, k.name ≠ "FiguredBassItem")
    ∧ TRead.readFiguredBass exampleExt figuredBassWithText figuredBassNoItems.toks []
        = some ({ figuredBassWithText with onNote := false }, [Token.endElement "FiguredBass"],
            [Diag.unknownElement "bogus"])
    ∧ ∃ (b1 : FiguredBass) (log1 : Log),
        TRead.readFiguredBass exampleExt figuredBassWithText (figuredBassNoItems.toks ++ []) []
          = some (b1, [Token.endElement "FiguredBass"], log1)
        ∧ b1.xmlText = figuredBassWithText.xmlText ∧ b1.items = [] :=
  ⟨rfl, by decide, by decide,
    C9_text_preserved_without_items exampleExt figuredBassWithText [] "FiguredBass" []
      figuredBassNoItems.kids [] rfl (by decide)
      (by
        intro k hk h1 h2 tb tb1 hx
        simp only [figuredBassNoItems, Node.kids, List.mem_cons, List.mem_singleton,
          List.not_mem_nil, or_false] at hk
        rcases hk with hk | hk | hk <;> subst hk <;>
          simp [exampleExt, Node.name] at hx h1 h2)⟩

/-- C10, the failing input: a figured-bass element with two items of which
the first has an empty normalized text.  The code sets the display text
`6`, with no separator; the newline-join of the two normalized texts has one
separator. -/
theorem C10_display_text_empty_first_item :
    (TRead.readFiguredBass exampleExt figuredBassWithText figuredBassEmptyFirst.toks []).map
        (fun p => (p.1.xmlText, p.1.items.map exampleExt.normalizedText))
      = some ("6", ["", "6"])
    ∧ "\n".intercalate ["", "6"] = "\n6" := by
  decide

/-- C11: for every swing tag processed by `TRead::readProperties(StaffTextBase)`
the tag is accepted and swing is enabled; the ratio is the ratio attribute
(its integer value), or 60 when the attribute is absent; the unit in ticks is
division/2 when the unit attribute names an eighth, division/4 when it names
a sixteenth, and 0 in every other case; in particular a tag whose unit names
an eighth and that has no ratio attribute gives swing enabled, ratio 60 and
half of the division constant as unit. -/
theorem C11_swing (X : Ext) (t : StaffTextBase) (e : XmlReader) (htag : e.name = "swing") :
    (TRead.readProperties X t e).1 = true
    ∧ (TRead.readProperties X t e).2.1.swing = true
    ∧ (∀ v n, e.attributes.lookup "ratio" = some v → X.conv.toInt v = some n →
        (TRead.readProperties X t e).2.1.swingRatio = n)
    ∧ (e.attributes.lookup "ratio" = none → (TRead.readProperties X t e).2.1.swingRatio = 60)
    ∧ (X.durationTypeFromXml (e.attr "unit") = DurationType.V_EIGHTH →
        (TRead.readProperties X t e).2.1.swingUnit = Int.tdiv X.division 2)
    ∧ (X.durationTypeFromXml (e.attr "unit") = DurationType.V_16TH →
        (TRead.readProperties X t e).2.1.swingUnit = Int.tdiv X.division 4)
    ∧ (X.durationTypeFromXml (e.attr "unit") ≠ DurationType.V_EIGHTH →
        X.durationTypeFromXml (e.attr "unit") ≠ DurationType.V_16TH →
        (TRead.readProperties X t e).2.1.swingUnit = 0)
    ∧ (X.durationTypeFromXml (e.attr "unit") = DurationType.V_EIGHTH →
        e.attributes.lookup "ratio" = none →
        (TRead.readProperties X t e).2.1.swing = true
        ∧ (TRead.readProperties X t e).2.1.swingRatio = 60
        ∧ (TRead.readProperties X t e).2.1.swingUnit = Int.tdiv X.division 2) := by
  have hrp : TRead.readProperties X t e
      = (true, { t with
          swing := true,
          swingUnit :=
            (if X.durationTypeFromXml (e.attr "unit") = DurationType.V_EIGHTH then
              Int.tdiv X.division 2
            else if X.durationTypeFromXml (e.attr "unit") = DurationType.V_16TH then
              Int.tdiv X.division 4
            else if X.durationTypeFromXml (e.attr "unit") = DurationType.V_ZERO then 0
            else 0),
          swingRatio := e.intAttribute X.conv "ratio" 60 }, e.readNext) := by
    unfold TRead.readProperties
    simp only [htag]
    rfl
  rw [hrp]
  have hr0 : e.attributes.lookup "ratio" = none → e.intAttribute X.conv "ratio" 60 = 60 := by
    intro h0
    simp only [XmlReader.intAttribute, h0]
  refine ⟨rfl, rfl, ?_, hr0, ?_, ?_, ?_, ?_⟩
  · intro v n hv hn
    simp only [XmlReader.intAttribute, hv, hn, Option.getD_some]
  · intro h8
    simp only [h8, if_true]
  · intro h16
    simp only [h16, if_true]
    rfl
  · intro h8 h16
    simp only [h8, h16, if_false, ite_self]
  · intro h8 h0
    refine ⟨rfl, hr0 h0, ?_⟩
    simp only [h8, if_true]

/-- The swing tag with the unit `eighth` and no ratio attribute, with a
division of 480: swing enabled, ratio 60, unit 240. -/
theorem C11_swing_witness :
    XmlReader.name swingEighth = "swing"
    ∧ (TRead.readProperties exampleExt emptyStaffText swingEighth).2.1.swing = true
    ∧ (TRead.readProperties exampleExt emptyStaffText swingEighth).2.1.swingRatio = 60
    ∧ (TRead.readProperties exampleExt emptyStaffText swingEighth).2.1.swingUnit = 240 := by
  have h := C11_swing exampleExt emptyStaffText swingEighth (by decide)
  obtain ⟨h1, h2, h3⟩ := h.2.2.2.2.2.2.2 (by decide) (by decide)
  exact ⟨by decide, h1, h2, by rw [h3]; decide⟩

theorem toVoiceIdx_nonneg (v : Int) (h0 : 0 ≤ v) (h1 : v < 2 ^ 31) : toVoiceIdx v = v.toNat := by
  unfold toVoiceIdx
  have : v % (2 ^ 64 : Int) = v := Int.emod_eq_of_lt h0 (by omega)
  rw [this]

theorem toVoiceIdx_neg (v : Int) (h0 : v < 0) (h1 : -(2 ^ 31) ≤ v) :
    toVoiceIdx v = (2 ^ 64 + v).toNat := by
  unfold toVoiceIdx
  have : v % (2 ^ 64 : Int) = 2 ^ 64 + v := by
    rw [← Int.add_emod_self_left]
    exact Int.emod_eq_of_lt (by omega) (by omega)
  rw [this]

/-- Setting every index below `k` of a list, in increasing order, gives `k`
copies of the value followed by the rest of the list. -/
theorem foldl_set_range (x : String) (l : List String) :
    ∀ k : Nat, k ≤ l.length →
      (List.range k).foldl (fun (l1 : List String) i => l1.set i x) l
        = List.replicate k x ++ l.drop k := by
  intro k
  induction k with
  | zero => intro _; simp
  | succ k ih =>
    intro hk
    rw [List.range_succ, List.foldl_append, ih (by omega)]
    simp only [List.foldl_cons, List.foldl_nil]
    apply List.ext_getElem?
    intro i
    simp only [List.getElem?_set, List.getElem?_append, List.length_replicate,
      List.getElem?_replicate, List.getElem?_drop, List.length_append, List.length_drop]
    by_cases h1 : i < k
    · have h2 : ¬ k = i := by omega
      have h3 : i < k + 1 := by omega
      simp [h1, h2, h3]
    · by_cases h2 : k = i
      · subst h2
        simp
        omega
      · have h3 : ¬ i < k + 1 := by omega
        simp only [h1, h2, h3, if_false]
        congr 1
        omega

theorem foldl_setChannelName (x : String) (n : Nat) (t : StaffTextBase) :
    (List.range n).foldl (fun t1 i => t1.setChannelName i x) t
      = { t with channelNames :=
            (List.range n).foldl (fun (l1 : List String) i => l1.set i x) t.channelNames } := by
  induction n with
  | zero => rfl
  | succ n ih =>
    rw [List.range_succ, List.foldl_append, List.foldl_append, ih]
    rfl

/-- The channelSwitch branch of `readProperties`, with the answer of the
voice tests. -/
theorem readProperties_channelSwitch (X : Ext) (t : StaffTextBase) (e : XmlReader)
    (htag : e.name = "channelSwitch" ∨ e.name = "articulationChange") :
    TRead.readProperties X t e
      = (if toVoiceIdx (e.intAttribute X.conv "voice" (-1)) < X.VOICES then
          (true, t.setChannelName (toVoiceIdx (e.intAttribute X.conv "voice" (-1)))
            (e.attr "name"), e.readNext)
        else if toVoiceIdx (e.intAttribute X.conv "voice" (-1)) = nidx then
          (true, (List.range X.VOICES).foldl (fun t1 i => t1.setChannelName i (e.attr "name")) t,
            e.readNext)
        else (true, t, e.readNext)) := by
  have h1 : ¬ e.name = "MidiAction" := by
    rcases htag with h | h <;> rw [h] <;> decide
  unfold TRead.readProperties
  simp only [h1, htag, if_false, if_true]

/-- C15: for every channelSwitch or articulationChange tag processed by
`TRead::readProperties(StaffTextBase)` (the voice attribute being an `int`,
`VOICES` an `int` constant and the map holding `VOICES` names): the tag is
accepted and nothing but the channel names changes; if the voice `v`
satisfies 0 <= v < VOICES the name of voice `v` is set to the name attribute
and the name of every other voice is unchanged; if the voice attribute is
absent (or is the sentinel -1) the name of every voice 0..VOICES-1 is set to
the name attribute; for any other voice (v >= VOICES or v < -1) no channel
name changes. -/
theorem C15_channel_switch (X : Ext) (t : StaffTextBase) (e : XmlReader)
    (htag : e.name = "channelSwitch" ∨ e.name = "articulationChange")
    (hV : (X.VOICES : Int) < 2 ^ 31)
    (hint : -(2 ^ 31) ≤ e.intAttribute X.conv "voice" (-1)
      ∧ e.intAttribute X.conv "voice" (-1) < 2 ^ 31)
    (hlen : t.channelNames.length = X.VOICES) :
    (TRead.readProperties X t e).1 = true
    ∧ (TRead.readProperties X t e).2.1
        = { t with channelNames := (TRead.readProperties X t e).2.1.channelNames }
    ∧ (∀ v : Nat, e.intAttribute X.conv "voice" (-1) = (v : Int) → v < X.VOICES →
        (TRead.readProperties X t e).2.1.channelNames[v]? = some (e.attr "name")
        ∧ ∀ j : Nat, j ≠ v →
            (TRead.readProperties X t e).2.1.channelNames[j]? = t.channelNames[j]?)
    ∧ (e.attributes.lookup "voice" = none →
        (TRead.readProperties X t e).2.1.channelNames
          = List.replicate X.VOICES (e.attr "name"))
    ∧ (e.intAttribute X.conv "voice" (-1) = -1 →
        (TRead.readProperties X t e).2.1.channelNames
          = List.replicate X.VOICES (e.attr "name"))
    ∧ ((X.VOICES : Int) ≤ e.intAttribute X.conv "voice" (-1)
          ∨ e.intAttribute X.conv "voice" (-1) < -1 →
        (TRead.readProperties X t e).2.1.channelNames = t.channelNames) := by
  have hrp := readProperties_channelSwitch X t e htag
  have hall : e.intAttribute X.conv "voice" (-1) = -1 →
      (TRead.readProperties X t e).2.1.channelNames
        = List.replicate X.VOICES (e.attr "name") := by
    intro hv
    have h1 : toVoiceIdx (e.intAttribute X.conv "voice" (-1)) = nidx := by
      rw [hv]; rfl
    have h2 : ¬ nidx < X.VOICES := by
      unfold nidx; omega
    rw [hrp, h1, if_neg h2, if_pos rfl, foldl_setChannelName]
    show (List.range X.VOICES).foldl (fun (l1 : List String) i => l1.set i (e.attr "name"))
      t.channelNames = _
    rw [foldl_set_range _ _ _ (by omega), ← hlen, List.drop_length, List.append_nil]
  refine ⟨?_, ?_, ?_, ?_, hall, ?_⟩
  · rw [hrp]; split_ifs <;> rfl
  · rw [hrp]
    split_ifs
    · rfl
    · simp only [foldl_setChannelName]
    · rfl
  · intro v hv hlt
    have h1 : toVoiceIdx (e.intAttribute X.conv "voice" (-1)) = v := by
      rw [hv, toVoiceIdx_nonneg _ (by omega) (by omega)]; simp
    rw [hrp, h1, if_pos hlt]
    simp only [StaffTextBase.setChannelName, List.getElem?_set]
    refine ⟨?_, ?_⟩
    · simp only [if_true]
      have : v < t.channelNames.length := by omega
      simp [this]
    · intro j hj
      have : ¬ v = j := fun h => hj h.symm
      simp only [this, if_false]
  · intro h0
    apply hall
    simp only [XmlReader.intAttribute, h0]
  · intro hv
    have h1 : ¬ toVoiceIdx (e.intAttribute X.conv "voice" (-1)) < X.VOICES := by
      rcases hv with hv | hv
      · rw [toVoiceIdx_nonneg _ (by omega) hint.2]; omega
      · rw [toVoiceIdx_neg _ (by omega) hint.1]; omega
    have h2 : ¬ toVoiceIdx (e.intAttribute X.conv "voice" (-1)) = nidx := by
      rcases hv with hv | hv
      · rw [toVoiceIdx_nonneg _ (by omega) hint.2]; unfold nidx; omega
      · rw [toVoiceIdx_neg _ (by omega) hint.1]; unfold nidx; omega
    rw [hrp, if_neg h1, if_neg h2]

/-- The channelSwitch tag for voice 2 of 4: the name of voice 2 is set, the
other three names stay. -/
theorem C15_channel_switch_witness :
    (TRead.readProperties exampleExt emptyStaffText channelSwitchVoice2).2.1.channelNames[2]?
      = some "mute"
    ∧ ∀ j : Nat, j ≠ 2 →
        (TRead.readProperties exampleExt emptyStaffText channelSwitchVoice2).2.1.channelNames[j]?
          = emptyStaffText.channelNames[j]? :=
  (C15_channel_switch exampleExt emptyStaffText channelSwitchVoice2 (by decide) (by decide)
    (by decide) (by decide)).2.2.1 2 (by decide) (by decide)

namespace TRead

theorem readInstrumentChangeBody_progress (V : Env) :
    XmlReader.Progress (readInstrumentChangeBody V) := by
  intro s e
  unfold readInstrumentChangeBody
  by_cases h1 : XmlReader.name e = "Instrument"
  · rw [if_pos h1]; exact ⟨_, _, rfl, XmlReader.skipCurrentElement_length _⟩
  rw [if_neg h1]
  by_cases h2 : XmlReader.name e = "init"
  · rw [if_pos h2]; exact ⟨_, _, rfl, XmlReader.readBool_length _ _⟩
  rw [if_neg h2]
  unfold TextBaseRW.readProperties
  cases V.textBaseReadProperties s.c.toTextBase (XmlReader.name e) (XmlReader.attributes e)
      (XmlReader.body e) with
  | none => exact ⟨_, _, rfl, XmlReader.unknown_length _ _⟩
  | some t1 => exact ⟨_, _, rfl, XmlReader.skipCurrentElement_length _⟩

end TRead

namespace TRead

theorem readProperties_length (X : Ext) (t : StaffTextBase) (e : XmlReader) :
    (readProperties X t e).2.2.length ≤ e.length := by
  unfold readProperties
  by_cases h1 : XmlReader.name e = "MidiAction"
  · simp only [h1, if_true]; exact XmlReader.readNext_length _
  simp only [h1, if_false]
  by_cases h2 : XmlReader.name e = "channelSwitch" ∨ XmlReader.name e = "articulationChange"
  · rw [if_pos h2]
    split_ifs <;> exact XmlReader.readNext_length _
  rw [if_neg h2]
  by_cases h3 : XmlReader.name e = "aeolus"
  · rw [if_pos h3]
    split_ifs
    · exact XmlReader.readInt_length X.conv e
    · exact XmlReader.readNext_length _
  rw [if_neg h3]
  by_cases h4 : XmlReader.name e = "swing"
  · rw [if_pos h4]; exact XmlReader.readNext_length _
  rw [if_neg h4]
  by_cases h5 : XmlReader.name e = "capo"
  · rw [if_pos h5]; exact XmlReader.readNext_length _
  rw [if_neg h5]
  unfold TextBaseRW.readProperties
  cases X.textBaseReadProperties t.toTextBase (XmlReader.name e) (XmlReader.attributes e)
      (XmlReader.body e) with
  | none => exact le_refl _
  | some t1 => exact XmlReader.skipCurrentElement_length _

theorem readStaffTextBaseBody_progress (X : Ext) :
    XmlReader.Progress (readStaffTextBaseBody X) := by
  intro s e
  unfold readStaffTextBaseBody
  split_ifs
  · exact ⟨_, _, rfl, readProperties_length X s.1 e⟩
  · exact ⟨_, _, rfl, le_trans (XmlReader.unknown_length _ _) (readProperties_length X s.1 e)⟩

/-- The loop of the staff-text reader on an aeolus tag whose group is absent
or outside 0..3 and whose body is a text: the flag is set, no stop is
assigned, and the loop ends on the end tag of the aeolus tag, whatever
follows it. -/
theorem readStaffTextBase_aeolus_body (X : Ext) (t : StaffTextBase) (log : Log) (c : Token)
    (a : List (String × String)) (body : String) (r : List Token)
    (hg : ¬ (XmlReader.intAttribute X.conv [Token.startElement "aeolus" a] "group" (-1) ≥ 0
      ∧ XmlReader.intAttribute X.conv [Token.startElement "aeolus" a] "group" (-1) < 4)) :
    XmlReader.forEachStartElement (readStaffTextBaseBody X) (t, log)
        (c :: Token.startElement "aeolus" a :: Token.characters body
          :: Token.endElement "aeolus" :: r)
      = some (({ t with setAeolusStops := true }, log), Token.endElement "aeolus" :: r) := by
  have hstep : readStaffTextBaseBody X (t, log)
      (Token.startElement "aeolus" a :: Token.characters body :: Token.endElement "aeolus" :: r)
      = some (({ t with setAeolusStops := true }, log),
          Token.characters body :: Token.endElement "aeolus" :: r) := by
    have hg2 : ¬ (XmlReader.intAttribute X.conv
        (Token.startElement "aeolus" a :: Token.characters body :: Token.endElement "aeolus" :: r)
        "group" (-1) ≥ 0
      ∧ XmlReader.intAttribute X.conv
        (Token.startElement "aeolus" a :: Token.characters body :: Token.endElement "aeolus" :: r)
        "group" (-1) < 4) := hg
    have hrp : readProperties X t
        (Token.startElement "aeolus" a :: Token.characters body :: Token.endElement "aeolus" :: r)
        = (true, { t with setAeolusStops := true },
            Token.characters body :: Token.endElement "aeolus" :: r) := by
      unfold readProperties
      simp only [XmlReader.name]
      rw [if_pos trivial, if_neg hg2]
      rfl
    unfold readStaffTextBaseBody
    simp only [hrp, if_true]
  rw [XmlReader.forEachStartElement_step _ (readStaffTextBaseBody_progress X) _ _ _ _ _ _ _ hstep]
  rfl

end TRead

/-- C19: the staff-text element of the examples, read by
`TRead::read(StaffTextBase)` onto a cleared staff text. With the aeolus tag
of group 7 (outside 0..3) and the integer body 5, the flag is set and no stop
is assigned, but the body is not consumed: the read ends on the end tag of
the aeolus tag, and the capo tag that follows it is not read (the capo stays
0, the tokens of the capo tag are still ahead of the cursor). With group 1
the stop is assigned, the body is consumed, the capo tag is read and the read
ends on the end tag of the element. -/
theorem C19_aeolus_out_of_range_body_not_consumed :
    TRead.readStaffTextBase exampleEnv emptyStaffText staffTextAeolusGroup7.toks []
      = some ({ emptyStaffText with setAeolusStops := true },
          [Token.endElement "aeolus", Token.startElement "capo" [("fretId", "2")],
           Token.endElement "capo", Token.endElement "StaffText"], [])
    ∧ TRead.readStaffTextBase exampleEnv emptyStaffText staffTextAeolusGroup1.toks []
      = some ({ emptyStaffText with setAeolusStops := true, aeolusStops := [0, 5, 0, 0], capo := 2 },
          [Token.endElement "StaffText"], []) := by
  constructor <;> decide

namespace TRead

end TRead

namespace XmlReader

theorem whileStart_pre {σ : Type} (p : Log → σ → σ)
    (body : σ → XmlReader → Option (σ × XmlReader)) (hb : LogFront p body) :
    ∀ (fuel : Nat) (l : Log) (s : σ) (e : XmlReader),
      whileStart body fuel (p l s) e
        = (whileStart body fuel s e).map (fun r => (p l r.1, r.2))
  | 0, _, _, _ => rfl
  | fuel + 1, l, s, e => by
    unfold whileStart
    cases h : e.readNextStartElement with
    | mk b e1 =>
      cases b with
      | false => rfl
      | true =>
        simp only []
        rw [hb l s e1]
        cases hbody : body s e1 with
        | none => rfl
        | some r =>
          simp only [Option.map_some']
          exact whileStart_pre p body hb fuel l r.1 r.2

theorem forEachStartElement_pre {σ : Type} (p : Log → σ → σ)
    (body : σ → XmlReader → Option (σ × XmlReader)) (hb : LogFront p body)
    (l : Log) (s : σ) (e : XmlReader) :
    forEachStartElement body (p l s) e
      = (forEachStartElement body s e).map (fun r => (p l r.1, r.2)) :=
  whileStart_pre p body hb _ l s e

theorem stepOf_pre {σ : Type} (p : Log → σ → σ)
    (body : σ → XmlReader → Option (σ × XmlReader)) (hb : LogFront p body)
    (l : Log) (s : σ) (k : Node) :
    stepOf body (p l s) k = p l (stepOf body s k) := by
  cases k with
  | text t => rfl
  | elem n a ks =>
    simp only [stepOf]
    rw [hb l s]
    cases body s (Node.elem n a ks).toks <;> rfl

theorem foldl_stepOf_pre {σ : Type} (p : Log → σ → σ)
    (body : σ → XmlReader → Option (σ × XmlReader)) (hb : LogFront p body) (l : Log) :
    ∀ (kids : List Node) (s : σ),
      kids.foldl (stepOf body) (p l s) = p l (kids.foldl (stepOf body) s)
  | [], _ => rfl
  | k :: ks, s => by
    rw [List.foldl_cons, List.foldl_cons, stepOf_pre p body hb, foldl_stepOf_pre p body hb l ks]

/-- Two elements that differ in the children `mid0` and `mid1` between the
same children `pre` and `post`: when, in the state reached after `pre`, the
children `mid1` leave the loop state of `mid0` with one more diagnostic `d`
in the log, the loop over the two elements ends in loop states that differ
by that one diagnostic, on the end tag of the element. -/
theorem forEachStartElement_insert {σ : Type} (p : Log → σ → σ)
    (body : σ → XmlReader → Option (σ × XmlReader)) (good : Node → Prop)
    (hbody : ∀ s n a ks r, good (Node.elem n a ks) →
      body s (Token.startElement n a :: (Node.toksList ks ++ Token.endElement n :: r))
        = some (stepOf body s (Node.elem n a ks), Token.endElement n :: r))
    (hb : LogFront p body) (d : Diag)
    (pre mid0 mid1 post : List Node)
    (hg0 : ∀ k ∈ pre ++ (mid0 ++ post), good k) (hg1 : ∀ k ∈ pre ++ (mid1 ++ post), good k)
    (s : σ)
    (hmid : ∃ l s0, mid0.foldl (stepOf body) (pre.foldl (stepOf body) s) = p l s0
      ∧ mid1.foldl (stepOf body) (pre.foldl (stepOf body) s) = p (l ++ [d]) s0)
    (c : Token) (nm : String) (r : List Token) :
    ∃ l s0,
      forEachStartElement body s
          (c :: (Node.toksList (pre ++ (mid0 ++ post)) ++ Token.endElement nm :: r))
        = some (p l s0, Token.endElement nm :: r)
      ∧ forEachStartElement body s
          (c :: (Node.toksList (pre ++ (mid1 ++ post)) ++ Token.endElement nm :: r))
        = some (p (l ++ [d]) s0, Token.endElement nm :: r) := by
  obtain ⟨l, s0, h0, h1⟩ := hmid
  refine ⟨l, post.foldl (stepOf body) s0, ?_, ?_⟩
  · rw [forEachStartElement_stepOf body good hbody _ hg0, List.foldl_append, List.foldl_append,
      h0, foldl_stepOf_pre p body hb]
  · rw [forEachStartElement_stepOf body good hbody _ hg1, List.foldl_append, List.foldl_append,
      h1, foldl_stepOf_pre p body hb]

end XmlReader

namespace TRead

/-! ## The readers of the text and staff-text families on element trees -/

theorem readTextBaseBody_elem (X : Ext) (s : TextBase × Log) (n : String)
    (a : List (String × String)) (ks : List Node) (r : List Token) :
    readTextBaseBody X s (Token.startElement n a :: (Node.toksList ks ++ Token.endElement n :: r))
      = some (XmlReader.stepOf (readTextBaseBody X) s (Node.elem n a ks),
          Token.endElement n :: r) := by
  simp only [XmlReader.stepOf, Node.toks, readTextBaseBody, TextBaseRW.readProperties_elem,
    XmlReader.unknown_elem]
  cases X.textBaseReadProperties s.1 n a (Node.toksList ks) <;> rfl

/-- The branches of `readProperties` that advance by a single `readNext`: the
entity is set from the attributes of the start tag and the cursor moves to
the token after it. -/
theorem readProperties_flag (X : Ext) (t : StaffTextBase) (n : String)
    (a : List (String × String)) (rest : List Token)
    (hflag : n ∈ staffTextFlagTags
      ∨ (n = "aeolus" ∧ ¬ (XmlReader.intAttribute X.conv [Token.startElement n a] "group" (-1) ≥ 0
          ∧ XmlReader.intAttribute X.conv [Token.startElement n a] "group" (-1) < 4))) :
    readProperties X t (Token.startElement n a :: rest)
      = (true, (readProperties X t [Token.startElement n a]).2.1, rest) := by
  rcases hflag with hf | ⟨ha, hg⟩
  · simp only [staffTextFlagTags, List.mem_cons, List.mem_singleton, List.not_mem_nil,
      or_false] at hf
    rcases hf with h | h | h | h | h
    · subst h; rfl
    · subst h
      rw [readProperties_channelSwitch X t (Token.startElement "channelSwitch" a :: rest)
          (Or.inl rfl),
        readProperties_channelSwitch X t [Token.startElement "channelSwitch" a] (Or.inl rfl),
        XmlReader.intAttribute_start X.conv "channelSwitch" a rest [] "voice" (-1),
        XmlReader.attr_start "channelSwitch" a rest [] "name"]
      split_ifs <;> rfl
    · subst h
      rw [readProperties_channelSwitch X t (Token.startElement "articulationChange" a :: rest)
          (Or.inr rfl),
        readProperties_channelSwitch X t [Token.startElement "articulationChange" a] (Or.inr rfl),
        XmlReader.intAttribute_start X.conv "articulationChange" a rest [] "voice" (-1),
        XmlReader.attr_start "articulationChange" a rest [] "name"]
      split_ifs <;> rfl
    · subst h; rfl
    · subst h; rfl
  · subst ha
    have hg1 : ¬ (XmlReader.intAttribute X.conv (Token.startElement "aeolus" a :: rest)
          "group" (-1) ≥ 0
        ∧ XmlReader.intAttribute X.conv (Token.startElement "aeolus" a :: rest) "group" (-1) < 4) :=
      hg
    have e1 : readProperties X t (Token.startElement "aeolus" a :: rest)
        = (true, { t with setAeolusStops := true }, rest) := by
      unfold readProperties
      simp only [XmlReader.name]
      rw [if_pos trivial, if_neg hg1]
      rfl
    have e0 : readProperties X t [Token.startElement "aeolus" a]
        = (true, { t with setAeolusStops := true }, []) := by
      unfold readProperties
      simp only [XmlReader.name]
      rw [if_pos trivial, if_neg hg]
      rfl
    rw [e1, e0]

/-- The aeolus branch of `readProperties` for a group in 0..3. -/
theorem readProperties_aeolus (X : Ext) (t : StaffTextBase) (a : List (String × String))
    (rest : List Token)
    (hg : XmlReader.intAttribute X.conv [Token.startElement "aeolus" a] "group" (-1) ≥ 0
      ∧ XmlReader.intAttribute X.conv [Token.startElement "aeolus" a] "group" (-1) < 4) :
    readProperties X t (Token.startElement "aeolus" a :: rest)
      = (true,
          { t.setAeolusStop
              (XmlReader.intAttribute X.conv [Token.startElement "aeolus" a] "group" (-1))
              (XmlReader.readInt X.conv (Token.startElement "aeolus" a :: rest)).1
            with setAeolusStops := true },
          (XmlReader.readInt X.conv (Token.startElement "aeolus" a :: rest)).2) := by
  have hg1 : XmlReader.intAttribute X.conv (Token.startElement "aeolus" a :: rest) "group" (-1) ≥ 0
      ∧ XmlReader.intAttribute X.conv (Token.startElement "aeolus" a :: rest) "group" (-1) < 4 := hg
  have h1 : ¬ ("aeolus" : String) = "MidiAction" := by decide
  have h2 : ¬ ("aeolus" : String) = "channelSwitch" := by decide
  have h3 : ¬ ("aeolus" : String) = "articulationChange" := by decide
  unfold readProperties
  simp only [XmlReader.name, h1, h2, h3, if_false, or_self, eq_self_iff_true, if_true]
  rw [if_pos hg1]
  rfl

/-- The answer and the entity of `readProperties` on an element do not depend
on what follows the element; an accepted element whose shape is the one its
branch consumes is left on its end tag, an element that is not accepted
leaves the cursor where it was. -/
theorem readStaffTextProperties_elem (X : Ext) (t : StaffTextBase) (n : String)
    (a : List (String × String)) (ks : List Node) (r : List Token)
    (hgood : (Node.elem n a ks).staffTextChildOk X) :
    readProperties X t (Token.startElement n a :: (Node.toksList ks ++ Token.endElement n :: r))
      = ((readProperties X t (Node.elem n a ks).toks).1,
         (readProperties X t (Node.elem n a ks).toks).2.1,
         if (readProperties X t (Node.elem n a ks).toks).1 then Token.endElement n :: r
         else Token.startElement n a :: (Node.toksList ks ++ Token.endElement n :: r)) := by
  have hflagged : ∀ hflag : n ∈ staffTextFlagTags
      ∨ (n = "aeolus" ∧ ¬ (XmlReader.intAttribute X.conv [Token.startElement n a] "group" (-1) ≥ 0
          ∧ XmlReader.intAttribute X.conv [Token.startElement n a] "group" (-1) < 4)),
      readProperties X t
          (Token.startElement n a :: (Node.toksList ks ++ Token.endElement n :: r))
        = ((readProperties X t (Node.elem n a ks).toks).1,
           (readProperties X t (Node.elem n a ks).toks).2.1,
           if (readProperties X t (Node.elem n a ks).toks).1 then Token.endElement n :: r
           else Token.startElement n a :: (Node.toksList ks ++ Token.endElement n :: r)) := by
    intro hflag
    have hks : ks = [] := by
      rcases hflag with hf | ⟨ha, hg⟩
      · exact hgood.1 hf
      · exact hgood.2 ha hg
    subst hks
    simp only [Node.toks, Node.toksList, List.nil_append]
    rw [readProperties_flag X t n a _ hflag, readProperties_flag X t n a [Token.endElement n] hflag]
    rfl
  by_cases hf : n ∈ staffTextFlagTags
  · exact hflagged (Or.inl hf)
  simp only [staffTextFlagTags, List.mem_cons, List.mem_singleton, List.not_mem_nil,
    or_false, not_or] at hf
  obtain ⟨h1, h2, h3, h4, h5⟩ := hf
  by_cases ha : n = "aeolus"
  · by_cases hg : XmlReader.intAttribute X.conv [Token.startElement n a] "group" (-1) ≥ 0
          ∧ XmlReader.intAttribute X.conv [Token.startElement n a] "group" (-1) < 4
    · subst ha
      have htoks : (Node.elem "aeolus" a ks).toks
          = Token.startElement "aeolus" a
              :: (Node.toksList ks ++ Token.endElement "aeolus" :: []) := by
        simp [Node.toks]
      rw [htoks, readProperties_aeolus X t a _ hg, readProperties_aeolus X t a _ hg]
      simp only [XmlReader.readInt_elem, if_true]
    · exact hflagged (Or.inr ⟨ha, hg⟩)
  · unfold readProperties
    simp only [XmlReader.name_start, Node.toks, h1, h2, h3, h4, h5, ha, if_false, or_self,
      TextBaseRW.readProperties_elem]
    cases X.textBaseReadProperties t.toTextBase n a (Node.toksList ks) <;> rfl

theorem readStaffTextBaseBody_elem (X : Ext) (s : StaffTextBase × Log) (n : String)
    (a : List (String × String)) (ks : List Node) (r : List Token)
    (hgood : (Node.elem n a ks).staffTextChildOk X) :
    readStaffTextBaseBody X s
        (Token.startElement n a :: (Node.toksList ks ++ Token.endElement n :: r))
      = some (XmlReader.stepOf (readStaffTextBaseBody X) s (Node.elem n a ks),
          Token.endElement n :: r) := by
  have h0 := readStaffTextProperties_elem X s.1 n a ks [] hgood
  have h1 := readStaffTextProperties_elem X s.1 n a ks r hgood
  simp only [XmlReader.stepOf, readStaffTextBaseBody]
  rw [h1]
  by_cases hb : (readProperties X s.1 (Node.elem n a ks).toks).1 = true
  · simp only [hb, if_true, Option.map_some', Option.getD_some]
  · have htoks : (Node.elem n a ks).toks
        = Token.startElement n a :: (Node.toksList ks ++ Token.endElement n :: []) := by
      simp [Node.toks]
    have h2 : (readProperties X s.1 (Node.elem n a ks).toks).2.2
        = Token.startElement n a :: (Node.toksList ks ++ Token.endElement n :: []) := by
      rw [htoks] at h0 ⊢
      rw [h0]
      rw [htoks] at hb
      simp [hb]
    simp only [hb, if_false, h2, XmlReader.unknown_elem, Option.map_some', Option.getD_some,
      Bool.false_eq_true]

theorem readPlayTechBody_elem (X : Ext) (s : PlayTechAnnotation × Log) (n : String)
    (a : List (String × String)) (ks : List Node) (r : List Token)
    (hgood : n = X.propertyName Pid.PLAY_TECH_TYPE ∨ (Node.elem n a ks).staffTextChildOk X) :
    readPlayTechBody X s
        (Token.startElement n a :: (Node.toksList ks ++ Token.endElement n :: r))
      = some (XmlReader.stepOf (readPlayTechBody X) s (Node.elem n a ks),
          Token.endElement n :: r) := by
  by_cases hp : n = X.propertyName Pid.PLAY_TECH_TYPE
  · simp only [XmlReader.stepOf, readPlayTechBody, Node.toks, XmlReader.name_start,
      PropertyRW.readPropertyTag_elem, hp, if_true]
    rfl
  · have hg : (Node.elem n a ks).staffTextChildOk X := hgood.resolve_left hp
    have h0 := readStaffTextProperties_elem X s.1.toStaffTextBase n a ks [] hg
    have h1 := readStaffTextProperties_elem X s.1.toStaffTextBase n a ks r hg
    have htoks : (Node.elem n a ks).toks
        = Token.startElement n a :: (Node.toksList ks ++ Token.endElement n :: []) := by
      simp [Node.toks]
    simp only [XmlReader.stepOf, readPlayTechBody, XmlReader.name_start,
      PropertyRW.readPropertyTag_elem, hp, if_false]
    rw [h1]
    rw [htoks]
    simp only [XmlReader.name_start, PropertyRW.readPropertyTag_elem, hp, if_false]
    rw [← htoks]
    by_cases hb : (readProperties X s.1.toStaffTextBase (Node.elem n a ks).toks).1 = true
    · simp only [hb, if_true, Option.map_some', Option.getD_some]
    · have h2 : (readProperties X s.1.toStaffTextBase (Node.elem n a ks).toks).2.2
          = Token.startElement n a :: (Node.toksList ks ++ Token.endElement n :: []) := by
        rw [htoks] at h0 ⊢
        rw [h0]
        rw [htoks] at hb
        simp [hb]
      simp only [hb, if_false, h2, XmlReader.unknown_elem, Option.map_some', Option.getD_some,
        Bool.false_eq_true]

end TRead

theorem PropertyRW.readStyledProperty_elem {α : Type} (X : Ext) (sp : Pid → String → α → α)
    (item : α) (tag : String) (n : String) (a : List (String × String)) (ks : List Node)
    (r : List Token) :
    ∀ pids : List Pid,
      PropertyRW.readStyledProperty X sp item tag
          (Token.startElement n a :: (Node.toksList ks ++ Token.endElement n :: r)) pids
        = (pids.find? (fun pid => decide (tag = X.propertyName pid))).map
            (fun pid => (sp pid (Token.text (Node.toksList ks)) item, Token.endElement n :: r))
  | [] => rfl
  | pid :: pids => by
    unfold PropertyRW.readStyledProperty
    rw [PropertyRW.readPropertyTag_elem, PropertyRW.readStyledProperty_elem X sp item tag n a ks r pids]
    by_cases h : tag = X.propertyName pid
    · simp [h]
    · simp [h]

theorem EngravingItemRW.readItemProperties_elem (V : Env) (i : ItemBase) (n : String)
    (a : List (String × String)) (ks : List Node) (r : List Token) :
    EngravingItemRW.readProperties V i
        (Token.startElement n a :: (Node.toksList ks ++ Token.endElement n :: r))
      = (V.itemReadProperties i n a (Node.toksList ks)).map
          (fun i1 => (i1, Token.endElement n :: r)) := by
  simp only [EngravingItemRW.readProperties, XmlReader.name_start, XmlReader.attributes_start,
    XmlReader.body_elem, XmlReader.skipCurrentElement_elem]
  cases V.itemReadProperties i n a (Node.toksList ks) <;> rfl

theorem Instrument.read_elem (V : Env) (i : Instrument) (n : String)
    (a : List (String × String)) (ks : List Node) (r : List Token) :
    Instrument.read V i (Token.startElement n a :: (Node.toksList ks ++ Token.endElement n :: r))
      = (V.instrumentRead i a (Node.toksList ks), Token.endElement n :: r) := by
  simp only [Instrument.read, XmlReader.attributes_start, XmlReader.body_elem,
    XmlReader.skipCurrentElement_elem]

namespace TRead

/-! ## The other readers on element trees -/

theorem readDynamicBody_elem (V : Env) (s : Dynamic × Log) (n : String)
    (a : List (String × String)) (ks : List Node) (r : List Token) :
    readDynamicBody V s (Token.startElement n a :: (Node.toksList ks ++ Token.endElement n :: r))
      = some (XmlReader.stepOf (readDynamicBody V) s (Node.elem n a ks),
          Token.endElement n :: r) := by
  simp only [XmlReader.stepOf, Node.toks, readDynamicBody, XmlReader.name_start,
    XmlReader.readInt_elem, XmlReader.readText_elem, XmlReader.unknown_elem,
    TextBaseRW.readProperties_elem]
  by_cases h1 : n = "subtype"
  · rw [if_pos h1, if_pos h1]; rfl
  rw [if_neg h1, if_neg h1]
  by_cases h2 : n = "velocity"
  · rw [if_pos h2, if_pos h2]; rfl
  rw [if_neg h2, if_neg h2]
  by_cases h3 : n = "dynType"
  · rw [if_pos h3, if_pos h3]; rfl
  rw [if_neg h3, if_neg h3]
  by_cases h4 : n = "veloChange"
  · rw [if_pos h4, if_pos h4]; rfl
  rw [if_neg h4, if_neg h4]
  by_cases h5 : n = "veloChangeSpeed"
  · rw [if_pos h5, if_pos h5]; rfl
  rw [if_neg h5, if_neg h5]
  cases V.textBaseReadProperties s.1.toTextBase n a (Node.toksList ks) <;> rfl

theorem readTremoloBarBody_elem (V : Env) (s : TremoloBar × Log) (n : String)
    (a : List (String × String)) (ks : List Node) (r : List Token)
    (hgood : (Node.elem n a ks).tremoloBarChildOk) :
    readTremoloBarBody V s (Token.startElement n a :: (Node.toksList ks ++ Token.endElement n :: r))
      = some (XmlReader.stepOf (readTremoloBarBody V) s (Node.elem n a ks),
          Token.endElement n :: r) := by
  by_cases hp : n = "point"
  · have hks : ks = [] := hgood hp
    subst hks
    subst hp
    rfl
  · simp only [XmlReader.stepOf, Node.toks, readTremoloBarBody, XmlReader.name_start,
      XmlReader.readInt_elem, XmlReader.readText_elem, XmlReader.unknown_elem,
      PropertyRW.readPropertyTag_elem, PropertyRW.readStyledProperty_elem]
    rw [if_neg hp, if_neg hp]
    by_cases h1 : n = "mag"
    · rw [if_pos h1, if_pos h1]; rfl
    rw [if_neg h1, if_neg h1]
    cases List.find? (fun pid => decide (n = V.propertyName pid))
        V.tremoloBarStyledProperties with
    | some pid => rfl
    | none =>
      simp only [Option.map_none']
      by_cases h2 : n = "play"
      · rw [if_pos h2, if_pos h2]; rfl
      rw [if_neg h2, if_neg h2]
      by_cases h3 : n = V.propertyName Pid.LINE_WIDTH
      · rw [if_pos h3, if_pos h3]; rfl
      rw [if_neg h3, if_neg h3]
      rfl

theorem readInstrumentChangeBody_elem (V : Env) (s : InstrumentChangeState) (n : String)
    (a : List (String × String)) (ks : List Node) (r : List Token) :
    readInstrumentChangeBody V s
        (Token.startElement n a :: (Node.toksList ks ++ Token.endElement n :: r))
      = some (XmlReader.stepOf (readInstrumentChangeBody V) s (Node.elem n a ks),
          Token.endElement n :: r) := by
  simp only [XmlReader.stepOf, Node.toks, readInstrumentChangeBody, XmlReader.name_start,
    XmlReader.readBool_elem, XmlReader.unknown_elem, TextBaseRW.readProperties_elem,
    Instrument.read_elem]
  by_cases h1 : n = "Instrument"
  · rw [if_pos h1, if_pos h1]; rfl
  rw [if_neg h1, if_neg h1]
  by_cases h2 : n = "init"
  · rw [if_pos h2, if_pos h2]; rfl
  rw [if_neg h2, if_neg h2]
  cases V.textBaseReadProperties s.c.toTextBase n a (Node.toksList ks) <;> rfl

theorem readStaffStateBody_elem (V : Env) (s : StaffState × Log) (n : String)
    (a : List (String × String)) (ks : List Node) (r : List Token) :
    readStaffStateBody V s
        (Token.startElement n a :: (Node.toksList ks ++ Token.endElement n :: r))
      = some (XmlReader.stepOf (readStaffStateBody V) s (Node.elem n a ks),
          Token.endElement n :: r) := by
  simp only [XmlReader.stepOf, Node.toks, readStaffStateBody, XmlReader.name_start,
    XmlReader.readInt_elem, XmlReader.unknown_elem, EngravingItemRW.readItemProperties_elem,
    Instrument.read_elem]
  by_cases h1 : n = "subtype"
  · rw [if_pos h1, if_pos h1]; rfl
  rw [if_neg h1, if_neg h1]
  by_cases h2 : n = "Instrument"
  · rw [if_pos h2, if_pos h2]; rfl
  rw [if_neg h2, if_neg h2]
  cases V.itemReadProperties s.1.toItemBase n a (Node.toksList ks) <;> rfl

theorem readTempoTextBody_elem {R : Type} (T : TempoConv R) (X : Ext) (s : TempoText R × Log)
    (n : String) (a : List (String × String)) (ks : List Node) (r : List Token) :
    readTempoTextBody T X s
        (Token.startElement n a :: (Node.toksList ks ++ Token.endElement n :: r))
      = some (XmlReader.stepOf (readTempoTextBody T X) s (Node.elem n a ks),
          Token.endElement n :: r) := by
  simp only [XmlReader.stepOf, Node.toks, readTempoTextBody, XmlReader.name_start,
    XmlReader.readInt_elem, XmlReader.readText_elem, XmlReader.unknown_elem,
    TextBaseRW.readProperties_elem]
  by_cases h1 : n = "tempo"
  · rw [if_pos h1, if_pos h1]; rfl
  rw [if_neg h1, if_neg h1]
  by_cases h2 : n = "followText"
  · rw [if_pos h2, if_pos h2]; rfl
  rw [if_neg h2, if_neg h2]
  cases X.textBaseReadProperties s.1.toTextBase n a (Node.toksList ks) <;> rfl

theorem readOldStringBody_elem {D : Type} (F : FretOps D) (X : Ext) (no : Int) (s : D × Log)
    (n : String) (a : List (String × String)) (ks : List Node) (r : List Token) :
    readOldStringBody F X no s
        (Token.startElement n a :: (Node.toksList ks ++ Token.endElement n :: r))
      = some (XmlReader.stepOf (readOldStringBody F X no) s (Node.elem n a ks),
          Token.endElement n :: r) := by
  simp only [XmlReader.stepOf, Node.toks, readOldStringBody, XmlReader.name_start,
    XmlReader.readInt_elem, XmlReader.unknown_elem]
  by_cases h1 : n = "dot"
  · rw [if_pos h1, if_pos h1]; rfl
  rw [if_neg h1, if_neg h1]
  by_cases h2 : n = "marker"
  · rw [if_pos h2, if_pos h2]; rfl
  rw [if_neg h2, if_neg h2]
  rfl

theorem readOldString_elem {D : Type} (F : FretOps D) (X : Ext) (no : Int) (s : D × Log)
    (c : Token) (n : String) (ks : List Node) (r : List Token) :
    XmlReader.forEachStartElement (readOldStringBody F X no) s
        (c :: (Node.toksList ks ++ Token.endElement n :: r))
      = some (ks.foldl (XmlReader.stepOf (readOldStringBody F X no)) s,
          Token.endElement n :: r) :=
  XmlReader.forEachStartElement_stepOf (readOldStringBody F X no) (fun _ => True)
    (fun s n a ks r _ => readOldStringBody_elem F X no s n a ks r) ks (fun _ _ => trivial)
    s c n r

/-- The Harmony reader on an element whose leftParen and rightParen children
are empty. -/
theorem readHarmony_elem (X : Ext) (h : Harmony) (log : Log) (c : Token) (n : String)
    (ks : List Node) (r : List Token) (hg : ∀ k ∈ ks, k.harmonyChildOk) :
    readHarmony X h (c :: (Node.toksList ks ++ Token.endElement n :: r)) log
      = some (X.afterRead (ks.foldl (XmlReader.stepOf (readHarmonyBody X)) (h, log)).1,
          Token.endElement n :: r,
          (ks.foldl (XmlReader.stepOf (readHarmonyBody X)) (h, log)).2) := by
  unfold readHarmony
  rw [XmlReader.forEachStartElement_stepOf (readHarmonyBody X) Node.harmonyChildOk
    (fun s n a ks r hg => readHarmonyBody_elem X s n a ks r hg) ks hg (h, log) c n r]

theorem readFretDiagramBody_elem {D : Type} (F : FretOps D) (X : Ext) (s : FretState D)
    (n : String) (a : List (String × String)) (ks : List Node) (r : List Token)
    (hgood : (Node.elem n a ks).fretDiagramChildOk) :
    readFretDiagramBody F X s
        (Token.startElement n a :: (Node.toksList ks ++ Token.endElement n :: r))
      = some (XmlReader.stepOf (readFretDiagramBody F X) s (Node.elem n a ks),
          Token.endElement n :: r) := by
  by_cases hh : n = "Harmony"
  · have hk : ∀ c ∈ ks, c.harmonyChildOk := hgood hh
    subst hh
    simp only [XmlReader.stepOf, Node.toks, readFretDiagramBody, XmlReader.name_start,
      XmlReader.skipCurrentElement_elem, readHarmony_elem X _ _ _ _ ks _ hk]
    by_cases h0 : s.haveReadNew = true
    · rw [if_pos h0, if_pos h0]; rfl
    rw [if_neg h0, if_neg h0]
    rfl
  · simp only [XmlReader.stepOf, Node.toks, readFretDiagramBody, XmlReader.name_start,
      XmlReader.skipCurrentElement_elem, readNew_elem, readOldString_elem,
      PropertyRW.readProperty_elem, XmlReader.readBool_elem, XmlReader.unknown_elem,
      XmlReader.attributes_start, XmlReader.body_elem, XmlReader.intAttribute]
    by_cases h0 : s.haveReadNew = true
    · rw [if_pos h0, if_pos h0]; rfl
    rw [if_neg h0, if_neg h0]
    by_cases h1 : n = "fretDiagram"
    · rw [if_pos h1, if_pos h1]; rfl
    rw [if_neg h1, if_neg h1]
    by_cases h2 : n = "showNut"
    · rw [if_pos h2, if_pos h2]; rfl
    rw [if_neg h2, if_neg h2]
    by_cases h3 : n = "orientation"
    · rw [if_pos h3, if_pos h3]; rfl
    rw [if_neg h3, if_neg h3]
    by_cases h4 : n = "strings"
    · rw [if_pos h4, if_pos h4]; rfl
    rw [if_neg h4, if_neg h4]
    by_cases h5 : n = "frets"
    · rw [if_pos h5, if_pos h5]; rfl
    rw [if_neg h5, if_neg h5]
    by_cases h6 : n = "fretOffset"
    · rw [if_pos h6, if_pos h6]; rfl
    rw [if_neg h6, if_neg h6]
    by_cases h7 : n = "string"
    · rw [if_pos h7, if_pos h7]; rfl
    rw [if_neg h7, if_neg h7]
    by_cases h8 : n = "barre"
    · rw [if_pos h8, if_pos h8]; rfl
    rw [if_neg h8, if_neg h8]
    by_cases h9 : n = "mag"
    · rw [if_pos h9, if_pos h9]; rfl
    rw [if_neg h9, if_neg h9, if_neg hh, if_neg hh]
    cases F.itemReadProperties s.d n a (Node.toksList ks) <;> rfl

end TRead

theorem XmlReader.forEachStartElement_elem {σ : Type}
    (body : σ → XmlReader → Option (σ × XmlReader)) (good : Node → Prop)
    (hbody : ∀ s n a ks r, good (Node.elem n a ks) →
      body s (Token.startElement n a :: (Node.toksList ks ++ Token.endElement n :: r))
        = some (XmlReader.stepOf body s (Node.elem n a ks), Token.endElement n :: r))
    (nm : String) (a : List (String × String)) (kids : List Node) (hg : ∀ k ∈ kids, good k)
    (s : σ) (r : List Token) :
    XmlReader.forEachStartElement body s ((Node.elem nm a kids).toks ++ r)
      = some (kids.foldl (XmlReader.stepOf body) s, Token.endElement nm :: r) := by
  have htoks : (Node.elem nm a kids).toks ++ r
      = Token.startElement nm a :: (Node.toksList kids ++ Token.endElement nm :: r) := by
    simp [Node.toks]
  rw [htoks]
  exact XmlReader.forEachStartElement_stepOf body good hbody kids hg s _ nm r

namespace TRead

/-! ## The readers on whole elements -/

theorem readTextBase_elem (X : Ext) (t : TextBase) (log : Log) (nm : String)
    (a : List (String × String)) (kids : List Node) (r : List Token) :
    readTextBase X t ((Node.elem nm a kids).toks ++ r) log
      = some ((kids.foldl (XmlReader.stepOf (readTextBaseBody X)) (t, log)).1,
          Token.endElement nm :: r,
          (kids.foldl (XmlReader.stepOf (readTextBaseBody X)) (t, log)).2) := by
  unfold readTextBase
  rw [XmlReader.forEachStartElement_elem (readTextBaseBody X) (fun _ => True)
    (fun s n a ks r _ => readTextBaseBody_elem X s n a ks r) nm a kids (fun _ _ => trivial)]

theorem readStaffTextBase_elem (V : Env) (t : StaffTextBase) (log : Log) (nm : String)
    (a : List (String × String)) (kids : List Node) (r : List Token)
    (hg : ∀ k ∈ kids, k.staffTextChildOk V.toExt) :
    readStaffTextBase V t ((Node.elem nm a kids).toks ++ r) log
      = some ((kids.foldl (XmlReader.stepOf (readStaffTextBaseBody V.toExt)) (V.clear t, log)).1,
          Token.endElement nm :: r,
          (kids.foldl (XmlReader.stepOf (readStaffTextBaseBody V.toExt)) (V.clear t, log)).2) := by
  unfold readStaffTextBase
  rw [XmlReader.forEachStartElement_elem (readStaffTextBaseBody V.toExt)
    (Node.staffTextChildOk V.toExt)
    (fun s n a ks r h => readStaffTextBaseBody_elem V.toExt s n a ks r h) nm a kids hg]

theorem readPlayTech_elem (X : Ext) (t : PlayTechAnnotation) (log : Log) (nm : String)
    (a : List (String × String)) (kids : List Node) (r : List Token)
    (hg : ∀ k ∈ kids, k.playTechChildOk X) :
    readPlayTech X t ((Node.elem nm a kids).toks ++ r) log
      = some ((kids.foldl (XmlReader.stepOf (readPlayTechBody X)) (t, log)).1,
          Token.endElement nm :: r,
          (kids.foldl (XmlReader.stepOf (readPlayTechBody X)) (t, log)).2) := by
  unfold readPlayTech
  rw [XmlReader.forEachStartElement_elem (readPlayTechBody X) (Node.playTechChildOk X)
    (fun s n a ks r h => readPlayTechBody_elem X s n a ks r h) nm a kids hg]

theorem readDynamic_elem (V : Env) (d : Dynamic) (log : Log) (nm : String)
    (a : List (String × String)) (kids : List Node) (r : List Token) :
    readDynamic V d ((Node.elem nm a kids).toks ++ r) log
      = some ((kids.foldl (XmlReader.stepOf (readDynamicBody V)) (d, log)).1,
          Token.endElement nm :: r,
          (kids.foldl (XmlReader.stepOf (readDynamicBody V)) (d, log)).2) := by
  unfold readDynamic
  rw [XmlReader.forEachStartElement_elem (readDynamicBody V) (fun _ => True)
    (fun s n a ks r _ => readDynamicBody_elem V s n a ks r) nm a kids (fun _ _ => trivial)]

theorem readTremoloBar_elem (V : Env) (b : TremoloBar) (log : Log) (nm : String)
    (a : List (String × String)) (kids : List Node) (r : List Token)
    (hg : ∀ k ∈ kids, k.tremoloBarChildOk) :
    readTremoloBar V b ((Node.elem nm a kids).toks ++ r) log
      = some ((kids.foldl (XmlReader.stepOf (readTremoloBarBody V)) (b, log)).1,
          Token.endElement nm :: r,
          (kids.foldl (XmlReader.stepOf (readTremoloBarBody V)) (b, log)).2) := by
  unfold readTremoloBar
  rw [XmlReader.forEachStartElement_elem (readTremoloBarBody V) Node.tremoloBarChildOk
    (fun s n a ks r h => readTremoloBarBody_elem V s n a ks r h) nm a kids hg]

theorem readInstrumentChange_elem (V : Env) (c : InstrumentChange) (log : Log) (nm : String)
    (a : List (String × String)) (kids : List Node) (r : List Token) :
    readInstrumentChange V c ((Node.elem nm a kids).toks ++ r) log
      = some (installInstrument V
            (kids.foldl (XmlReader.stepOf (readInstrumentChangeBody V)) ⟨c, V.newInstrument, log⟩).c
            (kids.foldl (XmlReader.stepOf (readInstrumentChangeBody V)) ⟨c, V.newInstrument, log⟩).inst,
          Token.endElement nm :: r,
          (kids.foldl (XmlReader.stepOf (readInstrumentChangeBody V))
            ⟨c, V.newInstrument, log⟩).log) := by
  unfold readInstrumentChange
  rw [XmlReader.forEachStartElement_elem (readInstrumentChangeBody V) (fun _ => True)
    (fun s n a ks r _ => readInstrumentChangeBody_elem V s n a ks r) nm a kids
    (fun _ _ => trivial)]

theorem readStaffState_elem (V : Env) (s : StaffState) (log : Log) (nm : String)
    (a : List (String × String)) (kids : List Node) (r : List Token) :
    readStaffState V s ((Node.elem nm a kids).toks ++ r) log
      = some ((kids.foldl (XmlReader.stepOf (readStaffStateBody V)) (s, log)).1,
          Token.endElement nm :: r,
          (kids.foldl (XmlReader.stepOf (readStaffStateBody V)) (s, log)).2) := by
  unfold readStaffState
  rw [XmlReader.forEachStartElement_elem (readStaffStateBody V) (fun _ => True)
    (fun s n a ks r _ => readStaffStateBody_elem V s n a ks r) nm a kids (fun _ _ => trivial)]

theorem readTempoText_elem {R : Type} (T : TempoConv R) (X : Ext) (t : TempoText R) (log : Log)
    (nm : String) (a : List (String × String)) (kids : List Node) (r : List Token) :
    readTempoText T X t ((Node.elem nm a kids).toks ++ r) log
      = some (tempoSanity T (kids.foldl (XmlReader.stepOf (readTempoTextBody T X)) (t, log)).1,
          Token.endElement nm :: r,
          (kids.foldl (XmlReader.stepOf (readTempoTextBody T X)) (t, log)).2) := by
  unfold readTempoText
  rw [XmlReader.forEachStartElement_elem (readTempoTextBody T X) (fun _ => True)
    (fun s n a ks r _ => readTempoTextBody_elem T X s n a ks r) nm a kids (fun _ _ => trivial)]

theorem readFiguredBass_elem (X : Ext) (b : FiguredBass) (log : Log)
    (nm : String) (a : List (String × String)) (kids : List Node) (r : List Token) :
    readFiguredBass X b ((Node.elem nm a kids).toks ++ r) log
      = some (setNormalizedText
            (kids.foldl (XmlReader.stepOf (readFiguredBassBody X)) ⟨b, "", 0, log⟩).b
            (kids.foldl (XmlReader.stepOf (readFiguredBassBody X)) ⟨b, "", 0, log⟩).normalizedText,
          Token.endElement nm :: r,
          (kids.foldl (XmlReader.stepOf (readFiguredBassBody X)) ⟨b, "", 0, log⟩).log) := by
  unfold readFiguredBass
  rw [XmlReader.forEachStartElement_elem (readFiguredBassBody X) (fun _ => True)
    (fun s n a ks r _ => readFiguredBassBody_elem X s n a ks r) nm a kids (fun _ _ => trivial)]

theorem readFretDiagram_elem {D : Type} (F : FretOps D) (X : Ext) (d : D) (log : Log)
    (nm : String) (a : List (String × String)) (kids : List Node) (r : List Token)
    (hg : ∀ k ∈ kids, k.fretDiagramChildOk) :
    readFretDiagram F X d ((Node.elem nm a kids).toks ++ r) log
      = some (oldBarre F
            (kids.foldl (XmlReader.stepOf (readFretDiagramBody F X)) ⟨d, false, false, log⟩).d
            (kids.foldl (XmlReader.stepOf (readFretDiagramBody F X)) ⟨d, false, false, log⟩).hasBarre,
          Token.endElement nm :: r,
          (kids.foldl (XmlReader.stepOf (readFretDiagramBody F X)) ⟨d, false, false, log⟩).log) := by
  unfold readFretDiagram
  rw [XmlReader.forEachStartElement_elem (readFretDiagramBody F X) Node.fretDiagramChildOk
    (fun s n a ks r h => readFretDiagramBody_elem F X s n a ks r h) nm a kids hg]

theorem readHarmony_element (X : Ext) (h : Harmony) (log : Log)
    (nm : String) (a : List (String × String)) (kids : List Node) (r : List Token)
    (hg : ∀ k ∈ kids, k.harmonyChildOk) :
    readHarmony X h ((Node.elem nm a kids).toks ++ r) log
      = some (X.afterRead (kids.foldl (XmlReader.stepOf (readHarmonyBody X)) (h, log)).1,
          Token.endElement nm :: r,
          (kids.foldl (XmlReader.stepOf (readHarmonyBody X)) (h, log)).2) := by
  have htoks : (Node.elem nm a kids).toks ++ r
      = Token.startElement nm a :: (Node.toksList kids ++ Token.endElement nm :: r) := by
    simp [Node.toks]
  rw [htoks]
  exact readHarmony_elem X h log _ nm kids r hg

end TRead

/-- C12 (amended): every entity reader of tread.cpp, run on a well-formed
element (children with or without attributes, text bodies or nested
children), leaves the cursor on the end tag of that element, provided that
every child read by a branch that advances with a single `readNext`
(MidiAction, channelSwitch, articulationChange, swing, capo, an aeolus tag
whose group is absent or outside 0..3, leftParen, rightParen, point; for a
FretDiagram the leftParen and rightParen children of a nested Harmony) is an
empty element. The external parsers are taken to consume exactly the element
they accept. The tag loop of each reader then runs its body once on every
direct child element, in document order (`VisitsChildren`), and the reader
returns on the end tag of the element (`ReturnsAtEndTag`); the dispatcher,
when it runs a reader, returns there too. -/
theorem C12_cursor_at_end_tag {R D : Type} (T : TempoConv R) (F : FretOps D) (V : Env)
    (nm : String) (a : List (String × String)) (kids : List Node) (r : List Token) (log : Log) :
    -- readers whose branches all consume the element they read
    ((∀ t : TextBase,
        VisitsChildren (TRead.readTextBaseBody V.toExt) (t, log) (Node.elem nm a kids) r
        ∧ ReturnsAtEndTag (TRead.readTextBase V.toExt) t log (Node.elem nm a kids) r)
      ∧ (∀ s : Sticking,
        ReturnsAtEndTag (TRead.readSticking V.toExt) s log (Node.elem nm a kids) r)
      ∧ (∀ m : RehearsalMark,
        ReturnsAtEndTag (TRead.readRehearsalMark V.toExt) m log (Node.elem nm a kids) r)
      ∧ (∀ t : TempoText R,
        VisitsChildren (TRead.readTempoTextBody T V.toExt) (t, log) (Node.elem nm a kids) r
        ∧ ReturnsAtEndTag (TRead.readTempoText T V.toExt) t log (Node.elem nm a kids) r)
      ∧ (∀ d : Dynamic,
        VisitsChildren (TRead.readDynamicBody V) (d, log) (Node.elem nm a kids) r
        ∧ ReturnsAtEndTag (TRead.readDynamic V) d log (Node.elem nm a kids) r)
      ∧ (∀ c : InstrumentChange,
        VisitsChildren (TRead.readInstrumentChangeBody V) ⟨c, V.newInstrument, log⟩
          (Node.elem nm a kids) r
        ∧ ReturnsAtEndTag (TRead.readInstrumentChange V) c log (Node.elem nm a kids) r)
      ∧ (∀ s : StaffState,
        VisitsChildren (TRead.readStaffStateBody V) (s, log) (Node.elem nm a kids) r
        ∧ ReturnsAtEndTag (TRead.readStaffState V) s log (Node.elem nm a kids) r)
      ∧ (∀ b : FiguredBass,
        VisitsChildren (TRead.readFiguredBassBody V.toExt) ⟨b, "", 0, log⟩ (Node.elem nm a kids) r
        ∧ ReturnsAtEndTag (TRead.readFiguredBass V.toExt) b log (Node.elem nm a kids) r))
    -- the staff-text family
    ∧ ((∀ k ∈ kids, k.staffTextChildOk V.toExt) →
      (∀ t : StaffTextBase,
        VisitsChildren (TRead.readStaffTextBaseBody V.toExt) (V.clear t, log)
          (Node.elem nm a kids) r
        ∧ ReturnsAtEndTag (TRead.readStaffTextBase V) t log (Node.elem nm a kids) r)
      ∧ (∀ t : StaffText,
        ReturnsAtEndTag (TRead.readStaffText V) t log (Node.elem nm a kids) r)
      ∧ (∀ t : SystemText,
        ReturnsAtEndTag (TRead.readSystemText V) t log (Node.elem nm a kids) r))
    ∧ ((∀ k ∈ kids, k.playTechChildOk V.toExt) →
      ∀ t : PlayTechAnnotation,
        VisitsChildren (TRead.readPlayTechBody V.toExt) (t, log) (Node.elem nm a kids) r
        ∧ ReturnsAtEndTag (TRead.readPlayTech V.toExt) t log (Node.elem nm a kids) r)
    -- Harmony, FretDiagram, TremoloBar
    ∧ ((∀ k ∈ kids, k.harmonyChildOk) →
      ∀ h : Harmony,
        VisitsChildren (TRead.readHarmonyBody V.toExt) (h, log) (Node.elem nm a kids) r
        ∧ ReturnsAtEndTag (TRead.readHarmony V.toExt) h log (Node.elem nm a kids) r)
    ∧ ((∀ k ∈ kids, k.fretDiagramChildOk) →
      ∀ d : D,
        VisitsChildren (TRead.readFretDiagramBody F V.toExt) ⟨d, false, false, log⟩
          (Node.elem nm a kids) r
        ∧ ReturnsAtEndTag (TRead.readFretDiagram F V.toExt) d log (Node.elem nm a kids) r)
    ∧ ((∀ k ∈ kids, k.tremoloBarChildOk) →
      ∀ b : TremoloBar,
        VisitsChildren (TRead.readTremoloBarBody V) (b, log) (Node.elem nm a kids) r
        ∧ ReturnsAtEndTag (TRead.readTremoloBar V) b log (Node.elem nm a kids) r)
    -- the dispatcher
    ∧ ((∀ k ∈ kids, k.staffTextChildOk V.toExt) →
      ∀ el : EngravingItem R D,
        ∃ res, TRead.read V el ((Node.elem nm a kids).toks ++ r) log = some res
          ∧ ∀ by_ el1 e1 log1, res = Dispatched.done by_ el1 e1 log1 →
              e1 = Token.endElement nm :: r) := by
  have hT : ∀ k ∈ kids, (fun _ : Node => True) k := fun _ _ => trivial
  refine ⟨⟨?_, ?_, ?_, ?_, ?_, ?_, ?_, ?_⟩, ?_, ?_, ?_, ?_, ?_, ?_⟩
  · intro t
    exact ⟨XmlReader.forEachStartElement_elem _ (fun _ => True)
      (fun s n a ks r _ => TRead.readTextBaseBody_elem V.toExt s n a ks r) nm a kids hT _ r,
      _, _, TRead.readTextBase_elem V.toExt t log nm a kids r⟩
  · intro s
    unfold ReturnsAtEndTag TRead.readSticking
    rw [TRead.readTextBase_elem]
    exact ⟨_, _, rfl⟩
  · intro m
    unfold ReturnsAtEndTag TRead.readRehearsalMark
    rw [TRead.readTextBase_elem]
    exact ⟨_, _, rfl⟩
  · intro t
    exact ⟨XmlReader.forEachStartElement_elem _ (fun _ => True)
      (fun s n a ks r _ => TRead.readTempoTextBody_elem T V.toExt s n a ks r) nm a kids hT _ r,
      _, _, TRead.readTempoText_elem T V.toExt t log nm a kids r⟩
  · intro d
    exact ⟨XmlReader.forEachStartElement_elem _ (fun _ => True)
      (fun s n a ks r _ => TRead.readDynamicBody_elem V s n a ks r) nm a kids hT _ r,
      _, _, TRead.readDynamic_elem V d log nm a kids r⟩
  · intro c
    exact ⟨XmlReader.forEachStartElement_elem _ (fun _ => True)
      (fun s n a ks r _ => TRead.readInstrumentChangeBody_elem V s n a ks r) nm a kids hT _ r,
      _, _, TRead.readInstrumentChange_elem V c log nm a kids r⟩
  · intro s
    exact ⟨XmlReader.forEachStartElement_elem _ (fun _ => True)
      (fun s n a ks r _ => TRead.readStaffStateBody_elem V s n a ks r) nm a kids hT _ r,
      _, _, TRead.readStaffState_elem V s log nm a kids r⟩
  · intro b
    exact ⟨XmlReader.forEachStartElement_elem _ (fun _ => True)
      (fun s n a ks r _ => TRead.readFiguredBassBody_elem V.toExt s n a ks r) nm a kids hT _ r,
      _, _, TRead.readFiguredBass_elem V.toExt b log nm a kids r⟩
  · intro hg
    refine ⟨?_, ?_, ?_⟩
    · intro t
      exact ⟨XmlReader.forEachStartElement_elem _ (Node.staffTextChildOk V.toExt)
        (fun s n a ks r h => TRead.readStaffTextBaseBody_elem V.toExt s n a ks r h) nm a kids hg _ r,
        _, _, TRead.readStaffTextBase_elem V t log nm a kids r hg⟩
    · intro t
      unfold ReturnsAtEndTag TRead.readStaffText
      rw [TRead.readStaffTextBase_elem V _ log nm a kids r hg]
      exact ⟨_, _, rfl⟩
    · intro t
      unfold ReturnsAtEndTag TRead.readSystemText
      rw [TRead.readStaffTextBase_elem V _ log nm a kids r hg]
      exact ⟨_, _, rfl⟩
  · intro hg t
    exact ⟨XmlReader.forEachStartElement_elem _ (Node.playTechChildOk V.toExt)
      (fun s n a ks r h => TRead.readPlayTechBody_elem V.toExt s n a ks r h) nm a kids hg _ r,
      _, _, TRead.readPlayTech_elem V.toExt t log nm a kids r hg⟩
  · intro hg h
    exact ⟨XmlReader.forEachStartElement_elem _ Node.harmonyChildOk
      (fun s n a ks r h => TRead.readHarmonyBody_elem V.toExt s n a ks r h) nm a kids hg _ r,
      _, _, TRead.readHarmony_element V.toExt h log nm a kids r hg⟩
  · intro hg d
    exact ⟨XmlReader.forEachStartElement_elem _ Node.fretDiagramChildOk
      (fun s n a ks r h => TRead.readFretDiagramBody_elem F V.toExt s n a ks r h) nm a kids hg _ r,
      _, _, TRead.readFretDiagram_elem F V.toExt d log nm a kids r hg⟩
  · intro hg b
    exact ⟨XmlReader.forEachStartElement_elem _ Node.tremoloBarChildOk
      (fun s n a ks r h => TRead.readTremoloBarBody_elem V s n a ks r h) nm a kids hg _ r,
      _, _, TRead.readTremoloBar_elem V b log nm a kids r hg⟩
  · intro hg el
    have hgp : ∀ k ∈ kids, k.playTechChildOk V.toExt := fun k hk => Or.inr (hg k hk)
    cases el with
    | sticking s =>
      simp only [TRead.read, TRead.readWith, TRead.try_read, EngravingItem.asSticking, TRead.readSticking,
        TRead.readTextBase_elem]
      exact ⟨_, rfl, fun b el1 e1 log1 h => by cases h; rfl⟩
    | systemText t =>
      simp only [TRead.read, TRead.readWith, TRead.try_read, EngravingItem.asSticking,
        EngravingItem.asSystemText, TRead.readSystemText,
        TRead.readStaffTextBase_elem V _ log nm a kids r hg]
      exact ⟨_, rfl, fun b el1 e1 log1 h => by cases h; rfl⟩
    | playTech t =>
      simp only [TRead.read, TRead.readWith, TRead.try_read, EngravingItem.asSticking,
        EngravingItem.asSystemText, EngravingItem.asPlayTech,
        TRead.readPlayTech_elem V.toExt _ log nm a kids r hgp]
      exact ⟨_, rfl, fun b el1 e1 log1 h => by cases h; rfl⟩
    | rehearsalMark m =>
      simp only [TRead.read, TRead.readWith, TRead.try_read, EngravingItem.asSticking,
        EngravingItem.asSystemText, EngravingItem.asPlayTech, EngravingItem.asRehearsalMark,
        TRead.readRehearsalMark, TRead.readTextBase_elem]
      exact ⟨_, rfl, fun b el1 e1 log1 h => by cases h; rfl⟩
    | instrumentChange c =>
      simp only [TRead.read, TRead.readWith, TRead.try_read, EngravingItem.asSticking,
        EngravingItem.asSystemText, EngravingItem.asPlayTech, EngravingItem.asRehearsalMark,
        EngravingItem.asInstrumentChange, TRead.readInstrumentChange_elem]
      exact ⟨_, rfl, fun b el1 e1 log1 h => by cases h; rfl⟩
    | staffState s =>
      simp only [TRead.read, TRead.readWith, TRead.try_read, EngravingItem.asSticking,
        EngravingItem.asSystemText, EngravingItem.asPlayTech, EngravingItem.asRehearsalMark,
        EngravingItem.asInstrumentChange, EngravingItem.asStaffState,
        TRead.readStaffState_elem]
      exact ⟨_, rfl, fun b el1 e1 log1 h => by cases h; rfl⟩
    | figuredBass b =>
      simp only [TRead.read, TRead.readWith, TRead.try_read, EngravingItem.asSticking,
        EngravingItem.asSystemText, EngravingItem.asPlayTech, EngravingItem.asRehearsalMark,
        EngravingItem.asInstrumentChange, EngravingItem.asStaffState,
        EngravingItem.asFiguredBass, TRead.readFiguredBass_elem]
      exact ⟨_, rfl, fun b el1 e1 log1 h => by cases h; rfl⟩
    | tempoText t => exact ⟨_, rfl, fun b el1 e1 log1 h => by cases h⟩
    | staffText t => exact ⟨_, rfl, fun b el1 e1 log1 h => by cases h⟩
    | dynamic t => exact ⟨_, rfl, fun b el1 e1 log1 h => by cases h⟩
    | harmony t => exact ⟨_, rfl, fun b el1 e1 log1 h => by cases h⟩
    | fretDiagram t => exact ⟨_, rfl, fun b el1 e1 log1 h => by cases h⟩
    | tremoloBar t => exact ⟨_, rfl, fun b el1 e1 log1 h => by cases h⟩

/-- The staff-text element of the examples whose flag children are empty:
the reader of the staff-text family returns on its end tag. -/
theorem C12_cursor_at_end_tag_witness :
    (∀ k ∈ staffTextFlags.kids, k.staffTextChildOk exampleEnv.toExt)
    ∧ ReturnsAtEndTag (TRead.readStaffTextBase exampleEnv) emptyStaffText []
        (Node.elem "StaffText" [] staffTextFlags.kids) [] :=
  ⟨by decide,
    ((C12_cursor_at_end_tag exampleTempoConv exampleFretOps exampleEnv "StaffText" []
      staffTextFlags.kids [] []).2.1 (by decide)).1 emptyStaffText |>.2⟩

/-- C12, the claim as stated fails for a child that is read by a single
`readNext` and carries a body: on the staff-text element whose MidiAction
child holds the text `x`, the read registers the action and ends on the end
tag of the MidiAction child; the capo tag after it is not read, and the
cursor is not on the end tag of the element. -/
theorem C12_counterexample_flag_with_body :
    TRead.readStaffTextBase exampleEnv emptyStaffText staffTextMidiActionWithBody.toks []
      = some ({ emptyStaffText with channelActions := [⟨1, ["a"]⟩] },
          [Token.endElement "MidiAction", Token.startElement "capo" [("fretId", "2")],
           Token.endElement "capo", Token.endElement "StaffText"], [])
    ∧ ¬ ReturnsAtEndTag (TRead.readStaffTextBase exampleEnv) emptyStaffText []
        staffTextMidiActionWithBody [] := by
  have hev : TRead.readStaffTextBase exampleEnv emptyStaffText
      (staffTextMidiActionWithBody.toks ++ []) []
      = some ({ emptyStaffText with channelActions := [⟨1, ["a"]⟩] },
          [Token.endElement "MidiAction", Token.startElement "capo" [("fretId", "2")],
           Token.endElement "capo", Token.endElement "StaffText"], []) := by decide
  refine ⟨by decide, ?_⟩
  rintro ⟨x1, log1, h⟩
  rw [hev] at h
  have h2 := (Prod.mk.inj (Prod.mk.inj (Option.some.inj h)).2).1
  exact absurd h2 (by decide)

/-- A property of the loop state that every turn of the body keeps holds
for the state in which the loop ends. -/
theorem XmlReader.whileStart_invariant {σ : Type}
    (body : σ → XmlReader → Option (σ × XmlReader)) (I : σ → Prop)
    (hI : ∀ s e s1 e1, I s → body s e = some (s1, e1) → I s1) :
    ∀ (fuel : Nat) (s : σ) (e : XmlReader) (s1 : σ) (e1 : XmlReader),
      I s → XmlReader.whileStart body fuel s e = some (s1, e1) → I s1
  | 0, _, _, _, _, _, h => by simp [XmlReader.whileStart] at h
  | fuel + 1, s, e, s1, e1, hs, h => by
    unfold XmlReader.whileStart at h
    cases hr : e.readNextStartElement with
    | mk b e2 =>
      rw [hr] at h
      cases b with
      | false =>
        simp only [Option.some.injEq, Prod.mk.injEq] at h
        rw [← h.1]; exact hs
      | true =>
        simp only at h
        cases hb : body s e2 with
        | none => rw [hb] at h; cases h
        | some p =>
          rw [hb] at h
          exact XmlReader.whileStart_invariant body I hI fuel p.1 p.2 s1 e1
            (hI s e2 p.1 p.2 hs (by rw [hb])) h

theorem PropertyRW.readStyledProperty_points (X : Ext) (b : TremoloBar) (tag : String)
    (e : XmlReader) :
    ∀ (pids : List Pid) (b1 : TremoloBar) (e1 : XmlReader),
      PropertyRW.readStyledProperty X TremoloBar.setProperty b tag e pids = some (b1, e1) →
      b1.points = b.points ∧ e1.length ≤ e.length
  | [], _, _, h => by simp [PropertyRW.readStyledProperty] at h
  | pid :: pids, b1, e1, h => by
    unfold PropertyRW.readStyledProperty at h
    unfold PropertyRW.readPropertyTag at h
    by_cases ht : tag = X.propertyName pid
    · rw [if_pos ht] at h
      simp only [Option.some.injEq] at h
      obtain ⟨hb, he⟩ := Prod.mk.inj h
      rw [← hb, ← he]
      exact ⟨rfl, XmlReader.readText_length e⟩
    · rw [if_neg ht] at h
      exact PropertyRW.readStyledProperty_points X b tag e pids b1 e1 h

namespace TRead

/-! ## The Tremolo-Bar Curve -/

/-- A turn of the loop of the TremoloBar reader returns, does not move the
cursor backwards and leaves the samples that the curve holds in place. -/
theorem readTremoloBarBody_points (V : Env) (s : TremoloBar × Log) (e : XmlReader) :
    ∃ s1 e1 l, readTremoloBarBody V s e = some (s1, e1) ∧ e1.length ≤ e.length
      ∧ s1.1.points = s.1.points ++ l := by
  unfold readTremoloBarBody
  by_cases h1 : XmlReader.name e = "point"
  · simp only [h1, if_true]
    exact ⟨_, _, _, rfl, XmlReader.readNext_length _, rfl⟩
  simp only [h1, if_false]
  by_cases h2 : XmlReader.name e = "mag"
  · rw [if_pos h2]
    exact ⟨_, _, [], rfl, XmlReader.readText_length _, (List.append_nil _).symm⟩
  rw [if_neg h2]
  cases hs : PropertyRW.readStyledProperty V.toExt TremoloBar.setProperty s.1 (XmlReader.name e) e
      V.tremoloBarStyledProperties with
  | some p =>
    obtain ⟨hp, hl⟩ := PropertyRW.readStyledProperty_points V.toExt s.1 _ e _ p.1 p.2 hs
    exact ⟨_, _, [], rfl, hl, by simp [hp]⟩
  | none =>
    simp only
    by_cases h3 : XmlReader.name e = "play"
    · rw [if_pos h3]
      exact ⟨_, _, [], rfl, XmlReader.readInt_length _ _, (List.append_nil _).symm⟩
    rw [if_neg h3]
    unfold PropertyRW.readPropertyTag
    by_cases h4 : XmlReader.name e = V.propertyName Pid.LINE_WIDTH
    · rw [if_pos h4]
      exact ⟨_, _, [], rfl, XmlReader.readText_length _, (List.append_nil _).symm⟩
    · rw [if_neg h4]
      exact ⟨_, _, [], rfl, XmlReader.unknown_length _ _, (List.append_nil _).symm⟩

theorem readTremoloBarBody_progress (V : Env) : XmlReader.Progress (readTremoloBarBody V) := by
  intro s e
  obtain ⟨s1, e1, _, h, hl, _⟩ := readTremoloBarBody_points V s e
  exact ⟨s1, e1, h, hl⟩

/-- The effect of one child on the curve: a point tag adds its sample at the
end, any other child leaves the curve as it is. -/
theorem stepOf_readTremoloBarBody_points (V : Env) (s : TremoloBar × Log) :
    ∀ k : Node, (XmlReader.stepOf (readTremoloBarBody V) s k).1.points
      = s.1.points ++ (if k.name = "point" then [k.pitchValue V.toExt] else [])
  | Node.text t => by simp [XmlReader.stepOf, Node.name]
  | Node.elem n a ks => by
    by_cases hp : n = "point"
    · subst hp
      simp only [Node.name, if_true]
      rfl
    · simp only [XmlReader.stepOf, Node.toks, readTremoloBarBody, XmlReader.name_start,
        XmlReader.readInt_elem, XmlReader.readText_elem, XmlReader.unknown_elem,
        PropertyRW.readPropertyTag_elem, PropertyRW.readStyledProperty_elem, Node.name]
      rw [if_neg hp, if_neg hp]
      by_cases h1 : n = "mag"
      · rw [if_pos h1]; simp
      rw [if_neg h1]
      cases List.find? (fun pid => decide (n = V.propertyName pid))
          V.tremoloBarStyledProperties with
      | some pid => simp [TremoloBar.setProperty]
      | none =>
        simp only [Option.map_none']
        by_cases h2 : n = "play"
        · rw [if_pos h2]; simp
        rw [if_neg h2]
        by_cases h3 : n = V.propertyName Pid.LINE_WIDTH
        · rw [if_pos h3]; simp [TremoloBar.setProperty]
        rw [if_neg h3]
        simp

theorem foldl_stepOf_readTremoloBarBody_points (V : Env) :
    ∀ (kids : List Node) (s : TremoloBar × Log),
      (kids.foldl (XmlReader.stepOf (readTremoloBarBody V)) s).1.points
        = s.1.points ++ Node.points V.toExt kids
  | [], s => by simp [Node.points]
  | k :: ks, s => by
    rw [List.foldl_cons, foldl_stepOf_readTremoloBarBody_points V ks,
      stepOf_readTremoloBarBody_points V s k]
    by_cases hk : k.name = "point"
    · simp [Node.points, hk]
    · simp [Node.points, hk]

end TRead

/-- C16 (amended): `TRead::read(TremoloBar)` is append-only on the curve: for
every initial curve and every token stream the read returns and the curve
after it starts with the initial curve, sample for sample, whatever tags
occur. For an element whose point tags are empty elements, the read returns
on the end tag of the element and the curve after it is the initial curve
followed by one sample per point tag, in document order, with the values of
the three attributes time, pitch and vibrato of that tag, whatever other
tags stand between them. -/
theorem C16_tremolo_bar_curve (V : Env) (b : TremoloBar) (log : Log) :
    (∀ e : XmlReader, ∃ b1 e1 log1 l,
      TRead.readTremoloBar V b e log = some (b1, e1, log1) ∧ b1.points = b.points ++ l)
    ∧ (∀ (nm : String) (a : List (String × String)) (kids : List Node) (r : List Token),
        (∀ k ∈ kids, k.tremoloBarChildOk) →
        ∃ b1 log1,
          TRead.readTremoloBar V b ((Node.elem nm a kids).toks ++ r) log
            = some (b1, Token.endElement nm :: r, log1)
          ∧ b1.points = b.points ++ Node.points V.toExt kids) := by
  constructor
  · intro e
    obtain ⟨s1, e1, _, hloop, _⟩ := XmlReader.forEachStartElement_progress
      (TRead.readTremoloBarBody V) (TRead.readTremoloBarBody_progress V) (b, log) e
    have hinv := XmlReader.whileStart_invariant (TRead.readTremoloBarBody V)
      (fun s => ∃ l, s.1.points = b.points ++ l)
      (fun s e s1 e1 hs hb => by
        obtain ⟨l, hl⟩ := hs
        obtain ⟨s2, e2, l2, h2, _, hp⟩ := TRead.readTremoloBarBody_points V s e
        rw [h2] at hb
        have h3 := (Prod.mk.inj (Option.some.inj hb)).1
        subst h3
        exact ⟨l ++ l2, by rw [hp, hl, List.append_assoc]⟩)
      _ (b, log) e s1 e1 ⟨[], (List.append_nil _).symm⟩ hloop
    obtain ⟨l, hl⟩ := hinv
    refine ⟨s1.1, e1, s1.2, l, ?_, hl⟩
    unfold TRead.readTremoloBar
    rw [hloop]
  · intro nm a kids r hg
    refine ⟨(kids.foldl (XmlReader.stepOf (TRead.readTremoloBarBody V)) (b, log)).1,
      (kids.foldl (XmlReader.stepOf (TRead.readTremoloBarBody V)) (b, log)).2,
      TRead.readTremoloBar_elem V b log nm a kids r hg, ?_⟩
    exact TRead.foldl_stepOf_readTremoloBarBody_points V kids (b, log)

/-- The TremoloBar element with three point tags, read onto a curve of one
sample: the three samples follow it, in document order. -/
theorem C16_tremolo_bar_curve_witness :
    (∀ k ∈ tremoloBarThreePoints.kids, k.tremoloBarChildOk)
    ∧ Node.points exampleEnv.toExt tremoloBarThreePoints.kids
        = [⟨0, 0, 0⟩, ⟨30, 100, 1⟩, ⟨60, -50, 0⟩]
    ∧ ∃ b1 log1,
        TRead.readTremoloBar exampleEnv tremoloBarOneSample
            ((Node.elem "TremoloBar" [] tremoloBarThreePoints.kids).toks ++ []) []
          = some (b1, [Token.endElement "TremoloBar"], log1)
        ∧ b1.points = tremoloBarOneSample.points
            ++ Node.points exampleEnv.toExt tremoloBarThreePoints.kids :=
  ⟨by decide, by decide,
    (C16_tremolo_bar_curve exampleEnv tremoloBarOneSample []).2 "TremoloBar" []
      tremoloBarThreePoints.kids [] (by decide)⟩

/-- C16, the claim as stated fails for a point tag that carries a body: the
read ends on the end tag of that point tag, and the sample of the point tag
after it is not added to the curve. -/
theorem C16_counterexample_point_with_body :
    TRead.readTremoloBar exampleEnv emptyTremoloBar tremoloBarPointWithBody.toks []
      = some ({ emptyTremoloBar with points := [⟨0, 0, 0⟩] },
          [Token.endElement "point",
           Token.startElement "point" [("time", "30"), ("pitch", "100"), ("vibrato", "1")],
           Token.endElement "point", Token.endElement "TremoloBar"], [])
    ∧ Node.points exampleEnv.toExt tremoloBarPointWithBody.kids = [⟨0, 0, 0⟩, ⟨30, 100, 1⟩] := by
  decide

namespace TRead

/-! ## The finalization step of the Harmony reader -/

/-- The body of the loop of the Harmony reader does not call `afterRead`. -/
theorem readHarmonyBody_afterRead (X : Ext) (f : Harmony → Harmony) :
    readHarmonyBody { X with afterRead := f } = readHarmonyBody X := rfl

/-- The read with the finalization step `f` is the read without
finalization, followed by one run of `f`. -/
theorem readHarmony_afterRead (X : Ext) (f : Harmony → Harmony) (h : Harmony) (e : XmlReader)
    (log : Log) :
    readHarmony { X with afterRead := f } h e log
      = (readHarmony { X with afterRead := fun h1 => h1 } h e log).map
          (fun r => (f r.1, r.2.1, r.2.2)) := by
  unfold readHarmony
  rw [readHarmonyBody_afterRead X f, readHarmonyBody_afterRead X (fun h1 => h1)]
  cases XmlReader.forEachStartElement (readHarmonyBody X) (h, log) e <;> rfl

/-- In the FretDiagram reader the finalization step of a nested Harmony runs
once, on the chord symbol that the nested read has built, before the chord
symbol is added to the diagram: the body of the loop with the finalization
step `f` is the body without finalization in which `add` is handed the
finalized chord symbol. -/
theorem readFretDiagramBody_afterRead {D : Type} (F : FretOps D) (X : Ext)
    (f : Harmony → Harmony) (s : FretState D) (e : XmlReader) :
    readFretDiagramBody F { X with afterRead := f } s e
      = readFretDiagramBody { F with add := fun d h => F.add d (f h) }
          { X with afterRead := fun h1 => h1 } s e := by
  unfold readFretDiagramBody
  by_cases h0 : s.haveReadNew = true
  · rw [if_pos h0, if_pos h0]
  rw [if_neg h0, if_neg h0]
  by_cases h1 : XmlReader.name e = "fretDiagram"
  · rw [if_pos h1, if_pos h1]; rfl
  rw [if_neg h1, if_neg h1]
  by_cases h2 : XmlReader.name e = "showNut"
  · rw [if_pos h2, if_pos h2]
  rw [if_neg h2, if_neg h2]
  by_cases h3 : XmlReader.name e = "orientation"
  · rw [if_pos h3, if_pos h3]
  rw [if_neg h3, if_neg h3]
  by_cases h4 : XmlReader.name e = "strings"
  · rw [if_pos h4, if_pos h4]
  rw [if_neg h4, if_neg h4]
  by_cases h5 : XmlReader.name e = "frets"
  · rw [if_pos h5, if_pos h5]
  rw [if_neg h5, if_neg h5]
  by_cases h6 : XmlReader.name e = "fretOffset"
  · rw [if_pos h6, if_pos h6]
  rw [if_neg h6, if_neg h6]
  by_cases h7 : XmlReader.name e = "string"
  · rw [if_pos h7, if_pos h7]; rfl
  rw [if_neg h7, if_neg h7]
  by_cases h8 : XmlReader.name e = "barre"
  · rw [if_pos h8, if_pos h8]
  rw [if_neg h8, if_neg h8]
  by_cases h9 : XmlReader.name e = "mag"
  · rw [if_pos h9, if_pos h9]
  rw [if_neg h9, if_neg h9]
  by_cases h10 : XmlReader.name e = "Harmony"
  · rw [if_pos h10, if_pos h10, readHarmony_afterRead X f]
    show (match (readHarmony { X with afterRead := fun h1 => h1 } (F.newHarmony s.d) e s.log).map
            (fun r => (f r.1, r.2.1, r.2.2)) with
          | none => none
          | some (h, e1, log1) => some ({ s with d := F.add s.d h, log := log1 }, e1))
        = (match readHarmony { X with afterRead := fun h1 => h1 } (F.newHarmony s.d) e s.log with
          | none => none
          | some (h, e1, log1) => some ({ s with d := F.add s.d (f h), log := log1 }, e1))
    cases readHarmony { X with afterRead := fun h1 => h1 } (F.newHarmony s.d) e s.log <;> rfl
  rw [if_neg h10, if_neg h10]

theorem readFretDiagram_afterRead {D : Type} (F : FretOps D) (X : Ext)
    (f : Harmony → Harmony) (d : D) (e : XmlReader) (log : Log) :
    readFretDiagram F { X with afterRead := f } d e log
      = readFretDiagram { F with add := fun d1 h => F.add d1 (f h) }
          { X with afterRead := fun h1 => h1 } d e log := by
  have hb : readFretDiagramBody F { X with afterRead := f }
      = readFretDiagramBody { F with add := fun d1 h => F.add d1 (f h) }
          { X with afterRead := fun h1 => h1 } := by
    funext s e1
    exact readFretDiagramBody_afterRead F X f s e1
  have hloop : ∀ (d1 : D) (l : List Nat),
      oldBarreLoop { F with add := fun d2 h => F.add d2 (f h) } d1 l = oldBarreLoop F d1 l := by
    intro d1 l
    induction l with
    | nil => rfl
    | cons i l ih =>
      unfold oldBarreLoop
      rw [ih]
  unfold readFretDiagram
  rw [hb]
  cases XmlReader.forEachStartElement
      (readFretDiagramBody { F with add := fun d1 h => F.add d1 (f h) }
        { X with afterRead := fun h1 => h1 }) ⟨d, false, false, log⟩ e with
  | none => rfl
  | some p =>
    simp only [oldBarre, hloop]

end TRead

/-- C18 (amended): in `TRead::read(Harmony)` the finalization step
`afterRead` runs exactly once, as the last effect of the read, after the tag
loop has ended, and never between two tags that the loop reads: for every
token stream (whatever tags occur, invalid degree blocks and unknown tags
included) the read returns, and the read with the finalization step `f`
gives the result of the read without finalization with `f` applied once to
the chord symbol. The same holds for a Harmony read as a nested child by
`TRead::read(FretDiagram)`: `f` is applied once to the chord symbol that the
nested read has built, before it is added to the diagram. For an element
whose leftParen and rightParen children are empty elements, the loop has
then run on every child tag and the cursor is on the end tag of the
element. -/
theorem C18_after_read_once {D : Type} (F : FretOps D) (X : Ext) (f : Harmony → Harmony) :
    (∀ (h : Harmony) (e : XmlReader) (log : Log), ∃ h1 e1 log1,
      TRead.readHarmony { X with afterRead := fun h2 => h2 } h e log = some (h1, e1, log1)
      ∧ TRead.readHarmony { X with afterRead := f } h e log = some (f h1, e1, log1))
    ∧ (∀ (d : D) (e : XmlReader) (log : Log),
      TRead.readFretDiagram F { X with afterRead := f } d e log
        = TRead.readFretDiagram { F with add := fun d1 h => F.add d1 (f h) }
            { X with afterRead := fun h2 => h2 } d e log)
    ∧ (∀ (h : Harmony) (log : Log) (nm : String) (a : List (String × String))
        (kids : List Node) (r : List Token),
      (∀ k ∈ kids, k.harmonyChildOk) →
      TRead.readHarmony { X with afterRead := f } h ((Node.elem nm a kids).toks ++ r) log
        = some (f (kids.foldl (XmlReader.stepOf (TRead.readHarmonyBody X)) (h, log)).1,
            Token.endElement nm :: r,
            (kids.foldl (XmlReader.stepOf (TRead.readHarmonyBody X)) (h, log)).2)) := by
  refine ⟨?_, ?_, ?_⟩
  · intro h e log
    obtain ⟨h1, e1, log1, _, _, hread⟩ :=
      TRead.readHarmony_returns { X with afterRead := fun h2 => h2 } h e log
    refine ⟨h1, e1, log1, hread, ?_⟩
    rw [TRead.readHarmony_afterRead X f, hread]
    rfl
  · intro d e log
    exact TRead.readFretDiagram_afterRead F X f d e log
  · intro h log nm a kids r hg
    rw [TRead.readHarmony_element { X with afterRead := f } h log nm a kids r hg,
      TRead.readHarmonyBody_afterRead X f]

/-- The Harmony element with an invalid degree block, an unknown tag, an
empty leftParen and a root, read with the finalization step that leaves a
trace: one trace, on the chord symbol with the root read, the cursor on the
end tag of the element. -/
theorem C18_after_read_once_witness :
    (∀ k ∈ harmonyInvalidDegree.kids, k.harmonyChildOk)
    ∧ TRead.readHarmony exampleExtCounting emptyHarmony
        ((Node.elem "Harmony" [] harmonyInvalidDegree.kids).toks ++ []) []
      = some ({ emptyHarmony with rootTpc := 14, leftParen := true, other := [("afterRead", "")] },
          [Token.endElement "Harmony"],
          [Diag.incorrectDegree 0 0 "add", Diag.unknownElement "bogus"]) := by
  refine ⟨by decide, ?_⟩
  have h := (C18_after_read_once exampleFretOps exampleExt
    (fun h => { h with other := h.other ++ [("afterRead", "")] })).2.2 emptyHarmony []
    "Harmony" [] harmonyInvalidDegree.kids [] (by decide)
  exact h.trans (by decide)

/-- C18, the claim as stated fails for a leftParen child that carries a body:
the tag loop ends on the end tag of that child, and `afterRead` runs (once)
although the root tag after it has not been consumed: the root is not set,
and the tokens of the root tag are still ahead of the cursor. -/
theorem C18_counterexample_paren_with_body :
    TRead.readHarmony exampleExtCounting emptyHarmony harmonyParenThenRoot.toks []
      = some ({ emptyHarmony with leftParen := true, other := [("afterRead", "")] },
          [Token.endElement "leftParen", Token.startElement "root" [],
           Token.characters "14", Token.endElement "root", Token.endElement "Harmony"], []) := by
  decide

namespace TRead

/-! ## The readers do not read the log -/

theorem readTextBaseBody_logFront (X : Ext) :
    XmlReader.LogFront Log.pre (readTextBaseBody X) := by
  intro l s e
  unfold readTextBaseBody
  simp only [Log.pre]
  cases TextBaseRW.readProperties X s.1 e with
  | none => simp [XmlReader.unknown, List.append_assoc]
  | some r => rfl

theorem readStaffTextBaseBody_logFront (X : Ext) :
    XmlReader.LogFront Log.pre (readStaffTextBaseBody X) := by
  intro l s e
  unfold readStaffTextBaseBody
  simp only [Log.pre]
  split_ifs
  · rfl
  · simp [XmlReader.unknown, List.append_assoc]

theorem readPlayTechBody_logFront (X : Ext) :
    XmlReader.LogFront Log.pre (readPlayTechBody X) := by
  intro l s e
  unfold readPlayTechBody
  simp only [Log.pre]
  cases PropertyRW.readPropertyTag X setPlayTechProperty s.1 (XmlReader.name e) e
      Pid.PLAY_TECH_TYPE with
  | some r => rfl
  | none =>
    simp only
    split_ifs
    · rfl
    · simp [XmlReader.unknown, List.append_assoc]

theorem readDynamicBody_logFront (V : Env) :
    XmlReader.LogFront Log.pre (readDynamicBody V) := by
  intro l s e
  unfold readDynamicBody
  simp only [Log.pre]
  by_cases h1 : XmlReader.name e = "subtype"
  · rw [if_pos h1, if_pos h1]; rfl
  rw [if_neg h1, if_neg h1]
  by_cases h2 : XmlReader.name e = "velocity"
  · rw [if_pos h2, if_pos h2]; rfl
  rw [if_neg h2, if_neg h2]
  by_cases h3 : XmlReader.name e = "dynType"
  · rw [if_pos h3, if_pos h3]; rfl
  rw [if_neg h3, if_neg h3]
  by_cases h4 : XmlReader.name e = "veloChange"
  · rw [if_pos h4, if_pos h4]; rfl
  rw [if_neg h4, if_neg h4]
  by_cases h5 : XmlReader.name e = "veloChangeSpeed"
  · rw [if_pos h5, if_pos h5]; rfl
  rw [if_neg h5, if_neg h5]
  cases TextBaseRW.readProperties V.toExt s.1.toTextBase e with
  | none => simp [XmlReader.unknown, List.append_assoc]
  | some r => rfl

theorem readTremoloBarBody_logFront (V : Env) :
    XmlReader.LogFront Log.pre (readTremoloBarBody V) := by
  intro l s e
  unfold readTremoloBarBody
  simp only [Log.pre]
  by_cases h1 : XmlReader.name e = "point"
  · rw [if_pos h1, if_pos h1]; rfl
  rw [if_neg h1, if_neg h1]
  by_cases h2 : XmlReader.name e = "mag"
  · rw [if_pos h2, if_pos h2]; rfl
  rw [if_neg h2, if_neg h2]
  cases PropertyRW.readStyledProperty V.toExt TremoloBar.setProperty s.1 (XmlReader.name e) e
      V.tremoloBarStyledProperties with
  | some r => rfl
  | none =>
    simp only
    by_cases h3 : XmlReader.name e = "play"
    · rw [if_pos h3, if_pos h3]; rfl
    rw [if_neg h3, if_neg h3]
    cases PropertyRW.readPropertyTag V.toExt TremoloBar.setProperty s.1 (XmlReader.name e) e
        Pid.LINE_WIDTH with
    | some r => rfl
    | none => simp [XmlReader.unknown, List.append_assoc]

theorem readStaffStateBody_logFront (V : Env) :
    XmlReader.LogFront Log.pre (readStaffStateBody V) := by
  intro l s e
  unfold readStaffStateBody
  simp only [Log.pre]
  by_cases h1 : XmlReader.name e = "subtype"
  · rw [if_pos h1, if_pos h1]; rfl
  rw [if_neg h1, if_neg h1]
  by_cases h2 : XmlReader.name e = "Instrument"
  · rw [if_pos h2, if_pos h2]; rfl
  rw [if_neg h2, if_neg h2]
  cases EngravingItemRW.readProperties V s.1.toItemBase e with
  | none => simp [XmlReader.unknown, List.append_assoc]
  | some r => rfl

theorem readTempoTextBody_logFront {R : Type} (T : TempoConv R) (X : Ext) :
    XmlReader.LogFront Log.pre (readTempoTextBody T X) := by
  intro l s e
  unfold readTempoTextBody
  simp only [Log.pre]
  by_cases h1 : XmlReader.name e = "tempo"
  · rw [if_pos h1, if_pos h1]; rfl
  rw [if_neg h1, if_neg h1]
  by_cases h2 : XmlReader.name e = "followText"
  · rw [if_pos h2, if_pos h2]; rfl
  rw [if_neg h2, if_neg h2]
  cases TextBaseRW.readProperties X s.1.toTextBase e with
  | none => simp [XmlReader.unknown, List.append_assoc]
  | some r => rfl

theorem readInstrumentChangeBody_logFront (V : Env) :
    XmlReader.LogFront InstrumentChangeState.pre (readInstrumentChangeBody V) := by
  intro l s e
  unfold readInstrumentChangeBody
  simp only [InstrumentChangeState.pre]
  by_cases h1 : XmlReader.name e = "Instrument"
  · rw [if_pos h1, if_pos h1]; rfl
  rw [if_neg h1, if_neg h1]
  by_cases h2 : XmlReader.name e = "init"
  · rw [if_pos h2, if_pos h2]; rfl
  rw [if_neg h2, if_neg h2]
  cases TextBaseRW.readProperties V.toExt s.c.toTextBase e with
  | none => simp [XmlReader.unknown, List.append_assoc]
  | some r => rfl

theorem readFiguredBassBody_logFront (X : Ext) :
    XmlReader.LogFront FiguredBassState.pre (readFiguredBassBody X) := by
  intro l s e
  unfold readFiguredBassBody
  simp only [FiguredBassState.pre]
  by_cases h1 : XmlReader.name e = "ticks"
  · rw [if_pos h1, if_pos h1]; rfl
  rw [if_neg h1, if_neg h1]
  by_cases h2 : XmlReader.name e = "onNote"
  · rw [if_pos h2, if_pos h2]; rfl
  rw [if_neg h2, if_neg h2]
  by_cases h3 : XmlReader.name e = "FiguredBassItem"
  · rw [if_pos h3, if_pos h3]; rfl
  rw [if_neg h3, if_neg h3]
  cases TextBaseRW.readProperties X s.b.toTextBase e with
  | none => simp [XmlReader.unknown, List.append_assoc]
  | some r => rfl

theorem readDegreeBody_logFront (X : Ext) :
    XmlReader.LogFront Log.pre (readDegreeBody X) := by
  intro l s e
  unfold readDegreeBody
  simp only [Log.pre]
  by_cases h1 : XmlReader.name e = "degree-value"
  · rw [if_pos h1, if_pos h1]; rfl
  rw [if_neg h1, if_neg h1]
  by_cases h2 : XmlReader.name e = "degree-alter"
  · rw [if_pos h2, if_pos h2]; rfl
  rw [if_neg h2, if_neg h2]
  by_cases h3 : XmlReader.name e = "degree-type"
  · rw [if_pos h3, if_pos h3]; rfl
  rw [if_neg h3, if_neg h3]
  simp [XmlReader.unknown, List.append_assoc]

theorem readOldStringBody_logFront {D : Type} (F : FretOps D) (X : Ext) (no : Int) :
    XmlReader.LogFront Log.pre (readOldStringBody F X no) := by
  intro l s e
  unfold readOldStringBody
  simp only [Log.pre]
  by_cases h1 : XmlReader.name e = "dot"
  · rw [if_pos h1, if_pos h1]; rfl
  rw [if_neg h1, if_neg h1]
  by_cases h2 : XmlReader.name e = "marker"
  · rw [if_pos h2, if_pos h2]; rfl
  rw [if_neg h2, if_neg h2]
  simp [XmlReader.unknown, List.append_assoc]

theorem readNewStringBody_logFront {D : Type} (F : FretOps D) (X : Ext) (no : Int) :
    XmlReader.LogFront Log.pre (readNewStringBody F X no) := by
  intro l s e
  unfold readNewStringBody
  simp only [Log.pre]
  by_cases h1 : XmlReader.name e = "dot"
  · rw [if_pos h1, if_pos h1]; rfl
  rw [if_neg h1, if_neg h1]
  by_cases h2 : XmlReader.name e = "marker"
  · rw [if_pos h2, if_pos h2]; rfl
  rw [if_neg h2, if_neg h2]
  by_cases h3 : XmlReader.name e = "fingering"
  · rw [if_pos h3, if_pos h3]; rfl
  rw [if_neg h3, if_neg h3]
  simp [XmlReader.unknown, List.append_assoc]

theorem readNewBody_logFront {D : Type} (F : FretOps D) (X : Ext) :
    XmlReader.LogFront Log.pre (readNewBody F X) := by
  intro l s e
  unfold readNewBody
  by_cases h1 : XmlReader.name e = "string"
  · rw [if_pos h1, if_pos h1]
    exact XmlReader.forEachStartElement_pre Log.pre _ (readNewStringBody_logFront F X _) l s e
  rw [if_neg h1, if_neg h1]
  simp only [Log.pre]
  by_cases h2 : XmlReader.name e = "barre"
  · rw [if_pos h2, if_pos h2]; rfl
  rw [if_neg h2, if_neg h2]
  cases F.itemReadProperties s.1 (XmlReader.name e) (XmlReader.attributes e) (XmlReader.body e) with
  | none => simp [XmlReader.unknown, List.append_assoc]
  | some r => rfl

end TRead

namespace TRead

theorem addReadDegree_pre (h : Harmony) (l log : Log) (d : DegreeFields) :
    addReadDegree h (l ++ log) d = Log.pre l (addReadDegree h log d) := by
  unfold addReadDegree
  simp only [Log.pre]
  split_ifs <;> simp [List.append_assoc]

theorem readHarmonyBody_logFront (X : Ext) :
    XmlReader.LogFront Log.pre (readHarmonyBody X) := by
  intro l s e
  unfold readHarmonyBody
  by_cases h8 : XmlReader.name e = "degree"
  · have h1 : ¬ XmlReader.name e = "base" := by rw [h8]; decide
    have h2 : ¬ XmlReader.name e = "baseCase" := by rw [h8]; decide
    have h3 : ¬ XmlReader.name e = "extension" := by rw [h8]; decide
    have h4 : ¬ XmlReader.name e = "name" := by rw [h8]; decide
    have h5 : ¬ XmlReader.name e = "root" := by rw [h8]; decide
    have h6 : ¬ XmlReader.name e = "rootCase" := by rw [h8]; decide
    have h7 : ¬ XmlReader.name e = "function" := by rw [h8]; decide
    simp only [h1, h2, h3, h4, h5, h6, h7, h8, if_false, if_true]
    have hpre := XmlReader.forEachStartElement_pre Log.pre (readDegreeBody X)
      (readDegreeBody_logFront X) l ((⟨0, 0, ""⟩ : DegreeFields), s.2) e
    have hst : (Log.pre l s).2 = l ++ s.2 := rfl
    rw [hst]
    have hst2 : ((⟨0, 0, ""⟩ : DegreeFields), l ++ s.2)
        = Log.pre l ((⟨0, 0, ""⟩ : DegreeFields), s.2) := rfl
    rw [hst2, hpre]
    cases XmlReader.forEachStartElement (readDegreeBody X) ((⟨0, 0, ""⟩ : DegreeFields), s.2) e with
    | none => rfl
    | some r =>
      simp only [Option.map_some']
      rw [show (Log.pre l r.1).2 = l ++ r.1.2 from rfl, addReadDegree_pre]
      rfl
  simp only [Log.pre]
  by_cases h1 : XmlReader.name e = "base"
  · rw [if_pos h1, if_pos h1]; rfl
  rw [if_neg h1, if_neg h1]
  by_cases h2 : XmlReader.name e = "baseCase"
  · rw [if_pos h2, if_pos h2]; rfl
  rw [if_neg h2, if_neg h2]
  by_cases h3 : XmlReader.name e = "extension"
  · rw [if_pos h3, if_pos h3]; rfl
  rw [if_neg h3, if_neg h3]
  by_cases h4 : XmlReader.name e = "name"
  · rw [if_pos h4, if_pos h4]; rfl
  rw [if_neg h4, if_neg h4]
  by_cases h5 : XmlReader.name e = "root"
  · rw [if_pos h5, if_pos h5]; rfl
  rw [if_neg h5, if_neg h5]
  by_cases h6 : XmlReader.name e = "rootCase"
  · rw [if_pos h6, if_pos h6]; rfl
  rw [if_neg h6, if_neg h6]
  by_cases h7 : XmlReader.name e = "function"
  · rw [if_pos h7, if_pos h7]; rfl
  rw [if_neg h7, if_neg h7, if_neg h8, if_neg h8]
  by_cases h9 : XmlReader.name e = "leftParen"
  · rw [if_pos h9, if_pos h9]; rfl
  rw [if_neg h9, if_neg h9]
  by_cases h10 : XmlReader.name e = "rightParen"
  · rw [if_pos h10, if_pos h10]; rfl
  rw [if_neg h10, if_neg h10]
  simp only [PropertyRW.readPropertyTag, PropertyRW.readProperty, TextBaseRW.readProperties]
  by_cases p1 : XmlReader.name e = X.propertyName Pid.POS_ABOVE
  · rw [if_pos p1]; rfl
  rw [if_neg p1]
  by_cases p2 : XmlReader.name e = X.propertyName Pid.HARMONY_TYPE
  · rw [if_pos p2]; rfl
  rw [if_neg p2]
  by_cases p3 : XmlReader.name e = X.propertyName Pid.PLAY
  · rw [if_pos p3]; rfl
  rw [if_neg p3]
  by_cases p4 : XmlReader.name e = X.propertyName Pid.HARMONY_VOICE_LITERAL
  · rw [if_pos p4]; rfl
  rw [if_neg p4]
  by_cases p5 : XmlReader.name e = X.propertyName Pid.HARMONY_VOICING
  · rw [if_pos p5]; rfl
  rw [if_neg p5]
  by_cases p6 : XmlReader.name e = X.propertyName Pid.HARMONY_DURATION
  · rw [if_pos p6]; rfl
  rw [if_neg p6]
  cases X.textBaseReadProperties s.1.toTextBase (XmlReader.name e)
      (XmlReader.attributes e) (XmlReader.body e) with
  | none => simp [XmlReader.unknown, List.append_assoc]
  | some t1 => rfl

/-- Entries in front of the log stay in front through a read of a chord
symbol. -/
theorem readHarmony_pre (X : Ext) (h : Harmony) (e : XmlReader) (l log : Log) :
    readHarmony X h e (l ++ log)
      = (readHarmony X h e log).map (fun r => (r.1, r.2.1, l ++ r.2.2)) := by
  unfold readHarmony
  have hpre := XmlReader.forEachStartElement_pre Log.pre (readHarmonyBody X)
    (readHarmonyBody_logFront X) l (h, log) e
  rw [show (h, l ++ log) = Log.pre l (h, log) from rfl, hpre]
  cases XmlReader.forEachStartElement (readHarmonyBody X) (h, log) e <;> rfl

theorem readFretDiagramBody_logFront {D : Type} (F : FretOps D) (X : Ext) :
    XmlReader.LogFront FretState.pre (readFretDiagramBody F X) := by
  intro l s e
  unfold readFretDiagramBody
  have hn : (FretState.pre l s).haveReadNew = s.haveReadNew := rfl
  have hd : (FretState.pre l s).d = s.d := rfl
  have hlog : (FretState.pre l s).log = l ++ s.log := rfl
  rw [hn, hd, hlog]
  by_cases h0 : s.haveReadNew = true
  · rw [if_pos h0, if_pos h0]; rfl
  rw [if_neg h0, if_neg h0]
  by_cases h1 : XmlReader.name e = "fretDiagram"
  · rw [if_pos h1, if_pos h1]
    have hpre := XmlReader.forEachStartElement_pre Log.pre (readNewBody F X)
      (readNewBody_logFront F X) l (s.d, s.log) e
    rw [show (s.d, l ++ s.log) = Log.pre l (s.d, s.log) from rfl, hpre]
    cases XmlReader.forEachStartElement (readNewBody F X) (s.d, s.log) e <;> rfl
  rw [if_neg h1, if_neg h1]
  by_cases h2 : XmlReader.name e = "showNut"
  · rw [if_pos h2, if_pos h2]; rfl
  rw [if_neg h2, if_neg h2]
  by_cases h3 : XmlReader.name e = "orientation"
  · rw [if_pos h3, if_pos h3]; rfl
  rw [if_neg h3, if_neg h3]
  by_cases h4 : XmlReader.name e = "strings"
  · rw [if_pos h4, if_pos h4]; rfl
  rw [if_neg h4, if_neg h4]
  by_cases h5 : XmlReader.name e = "frets"
  · rw [if_pos h5, if_pos h5]; rfl
  rw [if_neg h5, if_neg h5]
  by_cases h6 : XmlReader.name e = "fretOffset"
  · rw [if_pos h6, if_pos h6]; rfl
  rw [if_neg h6, if_neg h6]
  by_cases h7 : XmlReader.name e = "string"
  · rw [if_pos h7, if_pos h7]
    have hpre := XmlReader.forEachStartElement_pre Log.pre
      (readOldStringBody F X (XmlReader.intAttribute X.conv e "no" 0))
      (readOldStringBody_logFront F X _) l (s.d, s.log) e
    simp only []
    rw [show (s.d, l ++ s.log) = Log.pre l (s.d, s.log) from rfl, hpre]
    cases XmlReader.forEachStartElement
      (readOldStringBody F X (XmlReader.intAttribute X.conv e "no" 0)) (s.d, s.log) e <;> rfl
  rw [if_neg h7, if_neg h7]
  by_cases h8 : XmlReader.name e = "barre"
  · rw [if_pos h8, if_pos h8]; rfl
  rw [if_neg h8, if_neg h8]
  by_cases h9 : XmlReader.name e = "mag"
  · rw [if_pos h9, if_pos h9]; rfl
  rw [if_neg h9, if_neg h9]
  by_cases h10 : XmlReader.name e = "Harmony"
  · rw [if_pos h10, if_pos h10, readHarmony_pre]
    cases readHarmony X (F.newHarmony s.d) e s.log <;> rfl
  rw [if_neg h10, if_neg h10]
  cases F.itemReadProperties s.d (XmlReader.name e) (XmlReader.attributes e) (XmlReader.body e) with
  | none => simp [XmlReader.unknown, FretState.pre, List.append_assoc]
  | some r => rfl

end TRead

namespace XmlReader

/-- The statement of `forEachStartElement_insert` for a loop started on the
start tag of the element. -/
theorem forEachStartElement_insert_elem {σ : Type} (p : Log → σ → σ)
    (body : σ → XmlReader → Option (σ × XmlReader)) (good : Node → Prop)
    (hbody : ∀ s n a ks r, good (Node.elem n a ks) →
      body s (Token.startElement n a :: (Node.toksList ks ++ Token.endElement n :: r))
        = some (stepOf body s (Node.elem n a ks), Token.endElement n :: r))
    (hb : LogFront p body) (d : Diag) (nm : String) (a : List (String × String))
    (pre mid0 mid1 post : List Node)
    (hg : ∀ k ∈ pre ++ post, good k) (hm0 : ∀ k ∈ mid0, good k) (hm1 : ∀ k ∈ mid1, good k)
    (s : σ)
    (hmid : ∃ l s0, mid0.foldl (stepOf body) (pre.foldl (stepOf body) s) = p l s0
      ∧ mid1.foldl (stepOf body) (pre.foldl (stepOf body) s) = p (l ++ [d]) s0)
    (r : List Token) :
    ∃ l s0,
      forEachStartElement body s ((Node.elem nm a (pre ++ (mid0 ++ post))).toks ++ r)
        = some (p l s0, Token.endElement nm :: r)
      ∧ forEachStartElement body s ((Node.elem nm a (pre ++ (mid1 ++ post))).toks ++ r)
        = some (p (l ++ [d]) s0, Token.endElement nm :: r) := by
  have hg0 : ∀ k ∈ pre ++ (mid0 ++ post), good k := by
    intro k hk
    simp only [List.mem_append] at hk
    rcases hk with hk | hk | hk
    · exact hg k (List.mem_append_left _ hk)
    · exact hm0 k hk
    · exact hg k (List.mem_append_right _ hk)
  have hg1 : ∀ k ∈ pre ++ (mid1 ++ post), good k := by
    intro k hk
    simp only [List.mem_append] at hk
    rcases hk with hk | hk | hk
    · exact hg k (List.mem_append_left _ hk)
    · exact hm1 k hk
    · exact hg k (List.mem_append_right _ hk)
  have htoks : ∀ kids : List Node, (Node.elem nm a kids).toks ++ r
      = Token.startElement nm a :: (Node.toksList kids ++ Token.endElement nm :: r) := by
    intro kids
    simp [Node.toks]
  rw [htoks, htoks]
  exact forEachStartElement_insert p body good hbody hb d pre mid0 mid1 post hg0 hg1 s hmid _ nm r

/-- The statement of `forEachStartElement_insert_elem` for a loop state that
is a pair of an entity and the log. -/
theorem forEachStartElement_insert_pair {α : Type}
    (body : α × Log → XmlReader → Option ((α × Log) × XmlReader)) (good : Node → Prop)
    (hbody : ∀ s n a ks r, good (Node.elem n a ks) →
      body s (Token.startElement n a :: (Node.toksList ks ++ Token.endElement n :: r))
        = some (stepOf body s (Node.elem n a ks), Token.endElement n :: r))
    (hb : LogFront Log.pre body) (d : Diag) (nm : String) (a : List (String × String))
    (pre mid0 mid1 post : List Node)
    (hg : ∀ k ∈ pre ++ post, good k) (hm0 : ∀ k ∈ mid0, good k) (hm1 : ∀ k ∈ mid1, good k)
    (hmid : ∀ s1 : α × Log, ∃ x2 la lb,
      mid0.foldl (stepOf body) s1 = (x2, s1.2 ++ (la ++ lb))
      ∧ mid1.foldl (stepOf body) s1 = (x2, s1.2 ++ (la ++ d :: lb)))
    (x : α) (log : Log) (r : List Token) :
    ∃ x1 l1 l2,
      forEachStartElement body (x, log) ((Node.elem nm a (pre ++ (mid0 ++ post))).toks ++ r)
        = some ((x1, l1 ++ l2), Token.endElement nm :: r)
      ∧ forEachStartElement body (x, log) ((Node.elem nm a (pre ++ (mid1 ++ post))).toks ++ r)
        = some ((x1, l1 ++ d :: l2), Token.endElement nm :: r) := by
  obtain ⟨x2, la, lb, h0, h1⟩ := hmid (pre.foldl (stepOf body) (x, log))
  obtain ⟨l, s0, r0, r1⟩ := forEachStartElement_insert_elem Log.pre body good hbody hb d nm a
    pre mid0 mid1 post hg hm0 hm1 (x, log)
    ⟨(pre.foldl (stepOf body) (x, log)).2 ++ la, (x2, lb),
      by rw [h0]; simp [Log.pre], by rw [h1]; simp [Log.pre]⟩ r
  refine ⟨s0.1, l, s0.2, ?_, ?_⟩
  · rw [r0]; rfl
  · rw [r1]; simp [Log.pre]

/-- An unknown element as the one child that differs: the case of
`forEachStartElement_insert_pair` in which `mid0` is empty. -/
theorem insert_unknown_pair {α : Type}
    (body : α × Log → XmlReader → Option ((α × Log) × XmlReader)) (u : Node) (d : Diag)
    (hu : ∀ s1 : α × Log, stepOf body s1 u = (s1.1, s1.2 ++ [d])) :
    ∀ s1 : α × Log, ∃ x2 la lb,
      ([] : List Node).foldl (stepOf body) s1 = (x2, s1.2 ++ (la ++ lb))
      ∧ [u].foldl (stepOf body) s1 = (x2, s1.2 ++ (la ++ d :: lb)) := by
  intro s1
  exact ⟨s1.1, [], [], by simp, by simp [hu]⟩

end XmlReader

namespace TRead

/-! ## An element that no layer recognises -/

theorem stepOf_readTextBaseBody_unknown (X : Ext) (s : TextBase × Log) (n : String)
    (a : List (String × String)) (ks : List Node)
    (hu : (Node.elem n a ks).unknownToTextLayer X) :
    XmlReader.stepOf (readTextBaseBody X) s (Node.elem n a ks)
      = (s.1, s.2 ++ [Diag.unknownElement n]) := by
  have h := hu s.1
  simp only [Node.name, Node.attrs, Node.kids] at h
  simp only [XmlReader.stepOf, Node.toks, readTextBaseBody, TextBaseRW.readProperties_elem,
    XmlReader.unknown_elem, h]
  rfl

theorem stepOf_readTempoTextBody_unknown {R : Type} (T : TempoConv R) (X : Ext)
    (s : TempoText R × Log) (n : String) (a : List (String × String)) (ks : List Node)
    (hu : (Node.elem n a ks).unknownToTempoText X) :
    XmlReader.stepOf (readTempoTextBody T X) s (Node.elem n a ks)
      = (s.1, s.2 ++ [Diag.unknownElement n]) := by
  obtain ⟨ht, hl⟩ := hu
  have h := hl s.1.toTextBase
  simp only [Node.name, Node.attrs, Node.kids] at h
  simp only [Node.name, tempoTextTags, List.mem_cons, List.mem_singleton, List.not_mem_nil,
    or_false, not_or] at ht
  simp only [XmlReader.stepOf, Node.toks, readTempoTextBody, XmlReader.name_start,
    TextBaseRW.readProperties_elem, XmlReader.unknown_elem, h, ht.1, ht.2, if_false]
  rfl

theorem readProperties_unknown (X : Ext) (t : StaffTextBase) (n : String)
    (a : List (String × String)) (ks : List Node) (r : List Token)
    (hu : (Node.elem n a ks).unknownToStaffText X) :
    readProperties X t (Token.startElement n a :: (Node.toksList ks ++ Token.endElement n :: r))
      = (false, t, Token.startElement n a :: (Node.toksList ks ++ Token.endElement n :: r)) := by
  obtain ⟨ht, hl⟩ := hu
  have h := hl t.toTextBase
  simp only [Node.name, Node.attrs, Node.kids] at h
  simp only [Node.name, staffTextTags, List.mem_cons, List.mem_singleton, List.not_mem_nil,
    or_false, not_or] at ht
  obtain ⟨h1, h2, h3, h4, h5, h6⟩ := ht
  unfold readProperties
  simp only [XmlReader.name_start, h1, h2, h3, h4, h5, h6, if_false, or_self,
    TextBaseRW.readProperties_elem, h]
  rfl

theorem stepOf_readStaffTextBaseBody_unknown (X : Ext) (s : StaffTextBase × Log) (n : String)
    (a : List (String × String)) (ks : List Node)
    (hu : (Node.elem n a ks).unknownToStaffText X) :
    XmlReader.stepOf (readStaffTextBaseBody X) s (Node.elem n a ks)
      = (s.1, s.2 ++ [Diag.unknownElement n]) := by
  simp only [XmlReader.stepOf, Node.toks, readStaffTextBaseBody,
    readProperties_unknown X s.1 n a ks [] hu, XmlReader.unknown_elem]
  rfl

theorem stepOf_readPlayTechBody_unknown (X : Ext) (s : PlayTechAnnotation × Log) (n : String)
    (a : List (String × String)) (ks : List Node)
    (hu : (Node.elem n a ks).unknownToPlayTech X) :
    XmlReader.stepOf (readPlayTechBody X) s (Node.elem n a ks)
      = (s.1, s.2 ++ [Diag.unknownElement n]) := by
  obtain ⟨hp, hs⟩ := hu
  simp only [Node.name] at hp
  simp only [XmlReader.stepOf, Node.toks, readPlayTechBody, XmlReader.name_start,
    PropertyRW.readPropertyTag_elem, hp, if_false,
    readProperties_unknown X s.1.toStaffTextBase n a ks [] hs, XmlReader.unknown_elem]
  rfl

theorem stepOf_readDynamicBody_unknown (V : Env) (s : Dynamic × Log) (n : String)
    (a : List (String × String)) (ks : List Node)
    (hu : (Node.elem n a ks).unknownToDynamic V.toExt) :
    XmlReader.stepOf (readDynamicBody V) s (Node.elem n a ks)
      = (s.1, s.2 ++ [Diag.unknownElement n]) := by
  obtain ⟨ht, hl⟩ := hu
  have h := hl s.1.toTextBase
  simp only [Node.name, Node.attrs, Node.kids] at h
  simp only [Node.name, dynamicTags, List.mem_cons, List.mem_singleton, List.not_mem_nil,
    or_false, not_or] at ht
  obtain ⟨h1, h2, h3, h4, h5⟩ := ht
  simp only [XmlReader.stepOf, Node.toks, readDynamicBody, XmlReader.name_start,
    TextBaseRW.readProperties_elem, XmlReader.unknown_elem, h, h1, h2, h3, h4, h5, if_false]
  rfl

theorem stepOf_readHarmonyBody_unknown (X : Ext) (s : Harmony × Log) (n : String)
    (a : List (String × String)) (ks : List Node)
    (hu : (Node.elem n a ks).unknownToHarmony X) :
    XmlReader.stepOf (readHarmonyBody X) s (Node.elem n a ks)
      = (s.1, s.2 ++ [Diag.unknownElement n]) := by
  obtain ⟨ht, hp, hl⟩ := hu
  have h := hl s.1.toTextBase
  simp only [Node.name, Node.attrs, Node.kids] at h
  simp only [Node.name, harmonyTags, List.mem_cons, List.mem_singleton, List.not_mem_nil,
    or_false, not_or] at ht
  obtain ⟨h1, h2, h3, h4, h5, h6, h7, h8, h9, h10⟩ := ht
  have p1 : ¬ n = X.propertyName Pid.POS_ABOVE := hp _ (by simp [harmonyPids])
  have p2 : ¬ n = X.propertyName Pid.HARMONY_TYPE := hp _ (by simp [harmonyPids])
  have p3 : ¬ n = X.propertyName Pid.PLAY := hp _ (by simp [harmonyPids])
  have p4 : ¬ n = X.propertyName Pid.HARMONY_VOICE_LITERAL := hp _ (by simp [harmonyPids])
  have p5 : ¬ n = X.propertyName Pid.HARMONY_VOICING := hp _ (by simp [harmonyPids])
  have p6 : ¬ n = X.propertyName Pid.HARMONY_DURATION := hp _ (by simp [harmonyPids])
  simp only [XmlReader.stepOf, Node.toks, readHarmonyBody, XmlReader.name_start,
    TextBaseRW.readProperties_elem, PropertyRW.readPropertyTag_elem, XmlReader.unknown_elem, h,
    h1, h2, h3, h4, h5, h6, h7, h8, h9, h10, p1, p2, p3, p4, p5, p6, if_false]
  rfl

theorem stepOf_readTremoloBarBody_unknown (V : Env) (s : TremoloBar × Log) (n : String)
    (a : List (String × String)) (ks : List Node)
    (hu : (Node.elem n a ks).unknownToTremoloBar V) :
    XmlReader.stepOf (readTremoloBarBody V) s (Node.elem n a ks)
      = (s.1, s.2 ++ [Diag.unknownElement n]) := by
  obtain ⟨ht, hp, hw⟩ := hu
  simp only [Node.name] at hp hw
  simp only [Node.name, tremoloBarTags, List.mem_cons, List.mem_singleton, List.not_mem_nil,
    or_false, not_or] at ht
  obtain ⟨h1, h2, h3⟩ := ht
  have hfind : List.find? (fun pid => decide (n = V.propertyName pid))
      V.tremoloBarStyledProperties = none := by
    rw [List.find?_eq_none]
    intro pid hpid
    simp [hp pid hpid]
  simp only [XmlReader.stepOf, Node.toks, readTremoloBarBody, XmlReader.name_start,
    PropertyRW.readPropertyTag_elem, PropertyRW.readStyledProperty_elem, XmlReader.unknown_elem,
    hfind, h1, h2, h3, hw, if_false, Option.map_none']
  rfl

theorem stepOf_readStaffStateBody_unknown (V : Env) (s : StaffState × Log) (n : String)
    (a : List (String × String)) (ks : List Node)
    (hu : (Node.elem n a ks).unknownToStaffState V) :
    XmlReader.stepOf (readStaffStateBody V) s (Node.elem n a ks)
      = (s.1, s.2 ++ [Diag.unknownElement n]) := by
  obtain ⟨ht, hl⟩ := hu
  have h := hl s.1.toItemBase
  simp only [Node.name, Node.attrs, Node.kids] at h
  simp only [Node.name, staffStateTags, List.mem_cons, List.mem_singleton, List.not_mem_nil,
    or_false, not_or] at ht
  simp only [XmlReader.stepOf, Node.toks, readStaffStateBody, XmlReader.name_start,
    EngravingItemRW.readItemProperties_elem, XmlReader.unknown_elem, h, ht.1, ht.2, if_false]
  rfl

theorem stepOf_readInstrumentChangeBody_unknown (V : Env) (s : InstrumentChangeState)
    (n : String) (a : List (String × String)) (ks : List Node)
    (hu : (Node.elem n a ks).unknownToInstrumentChange V.toExt) :
    XmlReader.stepOf (readInstrumentChangeBody V) s (Node.elem n a ks)
      = { s with log := s.log ++ [Diag.unknownElement n] } := by
  obtain ⟨ht, hl⟩ := hu
  have h := hl s.c.toTextBase
  simp only [Node.name, Node.attrs, Node.kids] at h
  simp only [Node.name, instrumentChangeTags, List.mem_cons, List.mem_singleton,
    List.not_mem_nil, or_false, not_or] at ht
  simp only [XmlReader.stepOf, Node.toks, readInstrumentChangeBody, XmlReader.name_start,
    TextBaseRW.readProperties_elem, XmlReader.unknown_elem, h, ht.1, ht.2, if_false]
  rfl

theorem stepOf_readFiguredBassBody_unknown (X : Ext) (s : FiguredBassState)
    (n : String) (a : List (String × String)) (ks : List Node)
    (hu : (Node.elem n a ks).unknownToFiguredBass X) :
    XmlReader.stepOf (readFiguredBassBody X) s (Node.elem n a ks)
      = { s with log := s.log ++ [Diag.unknownElement n] } := by
  obtain ⟨ht, hl⟩ := hu
  have h := hl s.b.toTextBase
  simp only [Node.name, Node.attrs, Node.kids] at h
  simp only [Node.name, figuredBassTags, List.mem_cons, List.mem_singleton,
    List.not_mem_nil, or_false, not_or] at ht
  obtain ⟨h1, h2, h3⟩ := ht
  simp only [XmlReader.stepOf, Node.toks, readFiguredBassBody, XmlReader.name_start,
    TextBaseRW.readProperties_elem, XmlReader.unknown_elem, h, h1, h2, h3, if_false]
  rfl

theorem stepOf_readFretDiagramBody_unknown {D : Type} (F : FretOps D) (X : Ext)
    (s : FretState D) (hs : s.haveReadNew = false)
    (n : String) (a : List (String × String)) (ks : List Node)
    (hu : (Node.elem n a ks).unknownToFretDiagram F) :
    XmlReader.stepOf (readFretDiagramBody F X) s (Node.elem n a ks)
      = { s with log := s.log ++ [Diag.unknownElement n] } := by
  obtain ⟨ht, hl⟩ := hu
  have h := hl s.d
  simp only [Node.name, Node.attrs, Node.kids] at h
  simp only [Node.name, fretDiagramTags, List.mem_cons, List.mem_singleton,
    List.not_mem_nil, or_false, not_or] at ht
  obtain ⟨h1, h2, h3, h4, h5, h6, h7, h8, h9, h10⟩ := ht
  simp only [XmlReader.stepOf, Node.toks, readFretDiagramBody, XmlReader.name_start,
    XmlReader.attributes_start, XmlReader.body_elem, XmlReader.unknown_elem, h, hs,
    h1, h2, h3, h4, h5, h6, h7, h8, h9, h10, if_false, Bool.false_eq_true]
  rfl

theorem stepOf_readDegreeBody_unknown (X : Ext) (s : DegreeFields × Log)
    (n : String) (a : List (String × String)) (ks : List Node) (hu : n ∉ degreeTags) :
    XmlReader.stepOf (readDegreeBody X) s (Node.elem n a ks)
      = (s.1, s.2 ++ [Diag.unknownElement n]) := by
  simp only [degreeTags, List.mem_cons, List.mem_singleton, List.not_mem_nil,
    or_false, not_or] at hu
  obtain ⟨h1, h2, h3⟩ := hu
  simp only [XmlReader.stepOf, Node.toks, readDegreeBody, XmlReader.name_start,
    XmlReader.unknown_elem, h1, h2, h3, if_false]
  rfl

theorem stepOf_readOldStringBody_unknown {D : Type} (F : FretOps D) (X : Ext) (no : Int)
    (s : D × Log) (n : String) (a : List (String × String)) (ks : List Node)
    (hu : n ∉ oldStringTags) :
    XmlReader.stepOf (readOldStringBody F X no) s (Node.elem n a ks)
      = (s.1, s.2 ++ [Diag.unknownElement n]) := by
  simp only [oldStringTags, List.mem_cons, List.mem_singleton, List.not_mem_nil,
    or_false, not_or] at hu
  obtain ⟨h1, h2⟩ := hu
  simp only [XmlReader.stepOf, Node.toks, readOldStringBody, XmlReader.name_start,
    XmlReader.unknown_elem, h1, h2, if_false]
  rfl

end TRead

theorem Node.staffTextChildOk_of_unknown (X : Ext) (u : Node) (hu : u.unknownToStaffText X) :
    u.staffTextChildOk X := by
  obtain ⟨ht, _⟩ := hu
  simp only [staffTextTags, List.mem_cons, List.mem_singleton, List.not_mem_nil,
    or_false, not_or] at ht
  obtain ⟨h1, h2, h3, h4, h5, h6⟩ := ht
  constructor
  · intro hf
    simp only [staffTextFlagTags, List.mem_cons, List.mem_singleton, List.not_mem_nil,
      or_false] at hf
    rcases hf with h | h | h | h | h
    · exact absurd h h1
    · exact absurd h h2
    · exact absurd h h3
    · exact absurd h h5
    · exact absurd h h6
  · intro ha
    exact absurd ha h4

theorem Node.harmonyChildOk_of_unknown (X : Ext) (u : Node) (hu : u.unknownToHarmony X) :
    u.harmonyChildOk := by
  obtain ⟨ht, _, _⟩ := hu
  simp only [harmonyTags, List.mem_cons, List.mem_singleton, List.not_mem_nil,
    or_false, not_or] at ht
  intro hp
  rcases hp with h | h
  · exact absurd h ht.2.2.2.2.2.2.2.2.1
  · exact absurd h ht.2.2.2.2.2.2.2.2.2

theorem Node.tremoloBarChildOk_of_unknown (V : Env) (u : Node) (hu : u.unknownToTremoloBar V) :
    u.tremoloBarChildOk := by
  obtain ⟨ht, _, _⟩ := hu
  simp only [tremoloBarTags, List.mem_cons, List.mem_singleton, List.not_mem_nil,
    or_false, not_or] at ht
  intro hp
  exact absurd hp ht.1

theorem Node.fretDiagramChildOk_of_unknown {D : Type} (F : FretOps D) (u : Node)
    (hu : u.unknownToFretDiagram F) : u.fretDiagramChildOk := by
  obtain ⟨ht, _⟩ := hu
  simp only [fretDiagramTags, List.mem_cons, List.mem_singleton, List.not_mem_nil,
    or_false, not_or] at ht
  intro hp
  exact absurd hp ht.2.2.2.2.2.2.2.2.2

namespace TRead

/-! ## An unknown element among the children -/

theorem readTextBase_unknown_inserted (X : Ext) (t : TextBase) (log : Log) (nm : String)
    (a : List (String × String)) (pre post : List Node) (r : List Token)
    (n : String) (ua : List (String × String)) (uks : List Node)
    (hu : (Node.elem n ua uks).unknownToTextLayer X) :
    AddsOneDiagnostic (readTextBase X) t log (Node.elem nm a (pre ++ post))
      (Node.elem nm a (pre ++ Node.elem n ua uks :: post)) r (Diag.unknownElement n) := by
  obtain ⟨x1, l1, l2, h0, h1⟩ := XmlReader.forEachStartElement_insert_pair (readTextBaseBody X)
    (fun _ => True) (fun s n a ks r _ => readTextBaseBody_elem X s n a ks r)
    (readTextBaseBody_logFront X) (Diag.unknownElement n) nm a pre [] [Node.elem n ua uks] post
    (fun _ _ => trivial) (fun _ _ => trivial) (fun _ _ => trivial)
    (XmlReader.insert_unknown_pair _ _ _
      (fun s1 => stepOf_readTextBaseBody_unknown X s1 n ua uks hu)) t log r
  refine ⟨x1, Token.endElement nm :: r, l1, l2, ?_, ?_⟩
  · show readTextBase X t ((Node.elem nm a (pre ++ ([] ++ post))).toks ++ r) log = _
    unfold readTextBase
    rw [h0]
  · show readTextBase X t ((Node.elem nm a (pre ++ ([Node.elem n ua uks] ++ post))).toks ++ r) log
      = _
    unfold readTextBase
    rw [h1]

theorem readTempoText_unknown_inserted {R : Type} (T : TempoConv R) (X : Ext) (t : TempoText R)
    (log : Log) (nm : String)
    (a : List (String × String)) (pre post : List Node) (r : List Token)
    (n : String) (ua : List (String × String)) (uks : List Node)
    (hu : (Node.elem n ua uks).unknownToTempoText X) :
    AddsOneDiagnostic (readTempoText T X) t log (Node.elem nm a (pre ++ post))
      (Node.elem nm a (pre ++ Node.elem n ua uks :: post)) r (Diag.unknownElement n) := by
  obtain ⟨x1, l1, l2, h0, h1⟩ := XmlReader.forEachStartElement_insert_pair
    (readTempoTextBody T X)
    (fun _ => True) (fun s n a ks r _ => readTempoTextBody_elem T X s n a ks r)
    (readTempoTextBody_logFront T X) (Diag.unknownElement n) nm a pre [] [Node.elem n ua uks]
    post (fun _ _ => trivial) (fun _ _ => trivial) (fun _ _ => trivial)
    (XmlReader.insert_unknown_pair _ _ _
      (fun s1 => stepOf_readTempoTextBody_unknown T X s1 n ua uks hu)) t log r
  refine ⟨tempoSanity T x1, Token.endElement nm :: r, l1, l2, ?_, ?_⟩
  · show readTempoText T X t ((Node.elem nm a (pre ++ ([] ++ post))).toks ++ r) log = _
    unfold readTempoText
    rw [h0]
  · show readTempoText T X t
      ((Node.elem nm a (pre ++ ([Node.elem n ua uks] ++ post))).toks ++ r) log = _
    unfold readTempoText
    rw [h1]

theorem readStaffTextBase_unknown_inserted (V : Env) (t : StaffTextBase) (log : Log)
    (nm : String) (a : List (String × String)) (pre post : List Node) (r : List Token)
    (n : String) (ua : List (String × String)) (uks : List Node)
    (hu : (Node.elem n ua uks).unknownToStaffText V.toExt)
    (hg : ∀ k ∈ pre ++ post, k.staffTextChildOk V.toExt) :
    AddsOneDiagnostic (readStaffTextBase V) t log (Node.elem nm a (pre ++ post))
      (Node.elem nm a (pre ++ Node.elem n ua uks :: post)) r (Diag.unknownElement n) := by
  obtain ⟨x1, l1, l2, h0, h1⟩ := XmlReader.forEachStartElement_insert_pair
    (readStaffTextBaseBody V.toExt) (Node.staffTextChildOk V.toExt)
    (fun s n a ks r h => readStaffTextBaseBody_elem V.toExt s n a ks r h)
    (readStaffTextBaseBody_logFront V.toExt) (Diag.unknownElement n) nm a pre []
    [Node.elem n ua uks] post hg (fun _ h => absurd h (List.not_mem_nil _))
    (fun k hk => by
      rw [List.mem_singleton.1 hk]
      exact Node.staffTextChildOk_of_unknown V.toExt _ hu)
    (XmlReader.insert_unknown_pair _ _ _
      (fun s1 => stepOf_readStaffTextBaseBody_unknown V.toExt s1 n ua uks hu)) (V.clear t) log r
  refine ⟨x1, Token.endElement nm :: r, l1, l2, ?_, ?_⟩
  · show readStaffTextBase V t ((Node.elem nm a (pre ++ ([] ++ post))).toks ++ r) log = _
    unfold readStaffTextBase
    rw [h0]
  · show readStaffTextBase V t
      ((Node.elem nm a (pre ++ ([Node.elem n ua uks] ++ post))).toks ++ r) log = _
    unfold readStaffTextBase
    rw [h1]

theorem readPlayTech_unknown_inserted (X : Ext) (t : PlayTechAnnotation) (log : Log)
    (nm : String) (a : List (String × String)) (pre post : List Node) (r : List Token)
    (n : String) (ua : List (String × String)) (uks : List Node)
    (hu : (Node.elem n ua uks).unknownToPlayTech X)
    (hg : ∀ k ∈ pre ++ post, k.playTechChildOk X) :
    AddsOneDiagnostic (readPlayTech X) t log (Node.elem nm a (pre ++ post))
      (Node.elem nm a (pre ++ Node.elem n ua uks :: post)) r (Diag.unknownElement n) := by
  obtain ⟨x1, l1, l2, h0, h1⟩ := XmlReader.forEachStartElement_insert_pair
    (readPlayTechBody X) (Node.playTechChildOk X)
    (fun s n a ks r h => readPlayTechBody_elem X s n a ks r h)
    (readPlayTechBody_logFront X) (Diag.unknownElement n) nm a pre []
    [Node.elem n ua uks] post hg (fun _ h => absurd h (List.not_mem_nil _))
    (fun k hk => by
      rw [List.mem_singleton.1 hk]
      exact Or.inr (Node.staffTextChildOk_of_unknown X _ hu.2))
    (XmlReader.insert_unknown_pair _ _ _
      (fun s1 => stepOf_readPlayTechBody_unknown X s1 n ua uks hu)) t log r
  refine ⟨x1, Token.endElement nm :: r, l1, l2, ?_, ?_⟩
  · show readPlayTech X t ((Node.elem nm a (pre ++ ([] ++ post))).toks ++ r) log = _
    unfold readPlayTech
    rw [h0]
  · show readPlayTech X t
      ((Node.elem nm a (pre ++ ([Node.elem n ua uks] ++ post))).toks ++ r) log = _
    unfold readPlayTech
    rw [h1]

theorem readDynamic_unknown_inserted (V : Env) (t : Dynamic) (log : Log) (nm : String)
    (a : List (String × String)) (pre post : List Node) (r : List Token)
    (n : String) (ua : List (String × String)) (uks : List Node)
    (hu : (Node.elem n ua uks).unknownToDynamic V.toExt) :
    AddsOneDiagnostic (readDynamic V) t log (Node.elem nm a (pre ++ post))
      (Node.elem nm a (pre ++ Node.elem n ua uks :: post)) r (Diag.unknownElement n) := by
  obtain ⟨x1, l1, l2, h0, h1⟩ := XmlReader.forEachStartElement_insert_pair (readDynamicBody V)
    (fun _ => True) (fun s n a ks r _ => readDynamicBody_elem V s n a ks r)
    (readDynamicBody_logFront V) (Diag.unknownElement n) nm a pre [] [Node.elem n ua uks] post
    (fun _ _ => trivial) (fun _ _ => trivial) (fun _ _ => trivial)
    (XmlReader.insert_unknown_pair _ _ _
      (fun s1 => stepOf_readDynamicBody_unknown V s1 n ua uks hu)) t log r
  refine ⟨x1, Token.endElement nm :: r, l1, l2, ?_, ?_⟩
  · show readDynamic V t ((Node.elem nm a (pre ++ ([] ++ post))).toks ++ r) log = _
    unfold readDynamic
    rw [h0]
  · show readDynamic V t ((Node.elem nm a (pre ++ ([Node.elem n ua uks] ++ post))).toks ++ r) log
      = _
    unfold readDynamic
    rw [h1]

theorem readHarmony_unknown_inserted (X : Ext) (t : Harmony) (log : Log) (nm : String)
    (a : List (String × String)) (pre post : List Node) (r : List Token)
    (n : String) (ua : List (String × String)) (uks : List Node)
    (hu : (Node.elem n ua uks).unknownToHarmony X)
    (hg : ∀ k ∈ pre ++ post, k.harmonyChildOk) :
    AddsOneDiagnostic (readHarmony X) t log (Node.elem nm a (pre ++ post))
      (Node.elem nm a (pre ++ Node.elem n ua uks :: post)) r (Diag.unknownElement n) := by
  obtain ⟨x1, l1, l2, h0, h1⟩ := XmlReader.forEachStartElement_insert_pair
    (readHarmonyBody X) Node.harmonyChildOk
    (fun s n a ks r h => readHarmonyBody_elem X s n a ks r h)
    (readHarmonyBody_logFront X) (Diag.unknownElement n) nm a pre []
    [Node.elem n ua uks] post hg (fun _ h => absurd h (List.not_mem_nil _))
    (fun k hk => by
      rw [List.mem_singleton.1 hk]
      exact Node.harmonyChildOk_of_unknown X _ hu)
    (XmlReader.insert_unknown_pair _ _ _
      (fun s1 => stepOf_readHarmonyBody_unknown X s1 n ua uks hu)) t log r
  refine ⟨X.afterRead x1, Token.endElement nm :: r, l1, l2, ?_, ?_⟩
  · show readHarmony X t ((Node.elem nm a (pre ++ ([] ++ post))).toks ++ r) log = _
    unfold readHarmony
    rw [h0]
  · show readHarmony X t
      ((Node.elem nm a (pre ++ ([Node.elem n ua uks] ++ post))).toks ++ r) log = _
    unfold readHarmony
    rw [h1]

theorem readTremoloBar_unknown_inserted (V : Env) (t : TremoloBar) (log : Log) (nm : String)
    (a : List (String × String)) (pre post : List Node) (r : List Token)
    (n : String) (ua : List (String × String)) (uks : List Node)
    (hu : (Node.elem n ua uks).unknownToTremoloBar V)
    (hg : ∀ k ∈ pre ++ post, k.tremoloBarChildOk) :
    AddsOneDiagnostic (readTremoloBar V) t log (Node.elem nm a (pre ++ post))
      (Node.elem nm a (pre ++ Node.elem n ua uks :: post)) r (Diag.unknownElement n) := by
  obtain ⟨x1, l1, l2, h0, h1⟩ := XmlReader.forEachStartElement_insert_pair
    (readTremoloBarBody V) Node.tremoloBarChildOk
    (fun s n a ks r h => readTremoloBarBody_elem V s n a ks r h)
    (readTremoloBarBody_logFront V) (Diag.unknownElement n) nm a pre []
    [Node.elem n ua uks] post hg (fun _ h => absurd h (List.not_mem_nil _))
    (fun k hk => by
      rw [List.mem_singleton.1 hk]
      exact Node.tremoloBarChildOk_of_unknown V _ hu)
    (XmlReader.insert_unknown_pair _ _ _
      (fun s1 => stepOf_readTremoloBarBody_unknown V s1 n ua uks hu)) t log r
  refine ⟨x1, Token.endElement nm :: r, l1, l2, ?_, ?_⟩
  · show readTremoloBar V t ((Node.elem nm a (pre ++ ([] ++ post))).toks ++ r) log = _
    unfold readTremoloBar
    rw [h0]
  · show readTremoloBar V t
      ((Node.elem nm a (pre ++ ([Node.elem n ua uks] ++ post))).toks ++ r) log = _
    unfold readTremoloBar
    rw [h1]

theorem readStaffState_unknown_inserted (V : Env) (t : StaffState) (log : Log) (nm : String)
    (a : List (String × String)) (pre post : List Node) (r : List Token)
    (n : String) (ua : List (String × String)) (uks : List Node)
    (hu : (Node.elem n ua uks).unknownToStaffState V) :
    AddsOneDiagnostic (readStaffState V) t log (Node.elem nm a (pre ++ post))
      (Node.elem nm a (pre ++ Node.elem n ua uks :: post)) r (Diag.unknownElement n) := by
  obtain ⟨x1, l1, l2, h0, h1⟩ := XmlReader.forEachStartElement_insert_pair
    (readStaffStateBody V)
    (fun _ => True) (fun s n a ks r _ => readStaffStateBody_elem V s n a ks r)
    (readStaffStateBody_logFront V) (Diag.unknownElement n) nm a pre [] [Node.elem n ua uks] post
    (fun _ _ => trivial) (fun _ _ => trivial) (fun _ _ => trivial)
    (XmlReader.insert_unknown_pair _ _ _
      (fun s1 => stepOf_readStaffStateBody_unknown V s1 n ua uks hu)) t log r
  refine ⟨x1, Token.endElement nm :: r, l1, l2, ?_, ?_⟩
  · show readStaffState V t ((Node.elem nm a (pre ++ ([] ++ post))).toks ++ r) log = _
    unfold readStaffState
    rw [h0]
  · show readStaffState V t
      ((Node.elem nm a (pre ++ ([Node.elem n ua uks] ++ post))).toks ++ r) log = _
    unfold readStaffState
    rw [h1]

theorem readInstrumentChange_unknown_inserted (V : Env) (t : InstrumentChange) (log : Log)
    (nm : String) (a : List (String × String)) (pre post : List Node) (r : List Token)
    (n : String) (ua : List (String × String)) (uks : List Node)
    (hu : (Node.elem n ua uks).unknownToInstrumentChange V.toExt) :
    AddsOneDiagnostic (readInstrumentChange V) t log (Node.elem nm a (pre ++ post))
      (Node.elem nm a (pre ++ Node.elem n ua uks :: post)) r (Diag.unknownElement n) := by
  obtain ⟨l, s0, h0, h1⟩ := XmlReader.forEachStartElement_insert_elem InstrumentChangeState.pre
    (readInstrumentChangeBody V)
    (fun _ => True) (fun s n a ks r _ => readInstrumentChangeBody_elem V s n a ks r)
    (readInstrumentChangeBody_logFront V) (Diag.unknownElement n) nm a pre []
    [Node.elem n ua uks] post
    (fun _ _ => trivial) (fun _ _ => trivial) (fun _ _ => trivial) ⟨t, V.newInstrument, log⟩
    ⟨(pre.foldl (XmlReader.stepOf (readInstrumentChangeBody V)) ⟨t, V.newInstrument, log⟩).log,
      { pre.foldl (XmlReader.stepOf (readInstrumentChangeBody V)) ⟨t, V.newInstrument, log⟩
        with log := [] },
      by simp [InstrumentChangeState.pre],
      by simp [InstrumentChangeState.pre, stepOf_readInstrumentChangeBody_unknown V _ n ua uks hu]⟩
    r
  refine ⟨installInstrument V s0.c s0.inst, Token.endElement nm :: r, l, s0.log, ?_, ?_⟩
  · show readInstrumentChange V t ((Node.elem nm a (pre ++ ([] ++ post))).toks ++ r) log = _
    unfold readInstrumentChange
    rw [h0]
    rfl
  · show readInstrumentChange V t
      ((Node.elem nm a (pre ++ ([Node.elem n ua uks] ++ post))).toks ++ r) log = _
    unfold readInstrumentChange
    rw [h1]
    simp [InstrumentChangeState.pre]

theorem readFiguredBass_unknown_inserted (X : Ext) (t : FiguredBass) (log : Log)
    (nm : String) (a : List (String × String)) (pre post : List Node) (r : List Token)
    (n : String) (ua : List (String × String)) (uks : List Node)
    (hu : (Node.elem n ua uks).unknownToFiguredBass X) :
    AddsOneDiagnostic (readFiguredBass X) t log (Node.elem nm a (pre ++ post))
      (Node.elem nm a (pre ++ Node.elem n ua uks :: post)) r (Diag.unknownElement n) := by
  obtain ⟨l, s0, h0, h1⟩ := XmlReader.forEachStartElement_insert_elem FiguredBassState.pre
    (readFiguredBassBody X)
    (fun _ => True) (fun s n a ks r _ => readFiguredBassBody_elem X s n a ks r)
    (readFiguredBassBody_logFront X) (Diag.unknownElement n) nm a pre []
    [Node.elem n ua uks] post
    (fun _ _ => trivial) (fun _ _ => trivial) (fun _ _ => trivial) ⟨t, "", 0, log⟩
    ⟨(pre.foldl (XmlReader.stepOf (readFiguredBassBody X)) ⟨t, "", 0, log⟩).log,
      { pre.foldl (XmlReader.stepOf (readFiguredBassBody X)) ⟨t, "", 0, log⟩ with log := [] },
      by simp [FiguredBassState.pre],
      by simp [FiguredBassState.pre, stepOf_readFiguredBassBody_unknown X _ n ua uks hu]⟩
    r
  refine ⟨setNormalizedText s0.b s0.normalizedText, Token.endElement nm :: r, l, s0.log, ?_, ?_⟩
  · show readFiguredBass X t ((Node.elem nm a (pre ++ ([] ++ post))).toks ++ r) log = _
    unfold readFiguredBass
    rw [h0]
    rfl
  · show readFiguredBass X t
      ((Node.elem nm a (pre ++ ([Node.elem n ua uks] ++ post))).toks ++ r) log = _
    unfold readFiguredBass
    rw [h1]
    simp [FiguredBassState.pre]

end TRead

/-- An unknown element among the children that a loop with a pair state
runs over: the entity at the end is the same, and the log holds one more
diagnostic. -/
theorem XmlReader.foldl_stepOf_insert_pair {α : Type}
    (body : α × Log → XmlReader → Option ((α × Log) × XmlReader))
    (hb : XmlReader.LogFront Log.pre body) (u : Node) (d : Diag)
    (hu : ∀ s1 : α × Log, XmlReader.stepOf body s1 u = (s1.1, s1.2 ++ [d]))
    (pre post : List Node) (s : α × Log) :
    ∃ x1 la lb,
      (pre ++ post).foldl (XmlReader.stepOf body) s = (x1, s.2 ++ (la ++ lb))
      ∧ (pre ++ u :: post).foldl (XmlReader.stepOf body) s = (x1, s.2 ++ (la ++ d :: lb)) := by
  have hs : s = Log.pre s.2 (s.1, []) := by simp [Log.pre]
  have hpre : pre.foldl (XmlReader.stepOf body) s
      = ((pre.foldl (XmlReader.stepOf body) (s.1, [])).1,
          s.2 ++ (pre.foldl (XmlReader.stepOf body) (s.1, [])).2) := by
    conv_lhs => rw [hs]
    rw [XmlReader.foldl_stepOf_pre Log.pre body hb]
    rfl
  have hpost : ∀ (y : α) (l : Log), post.foldl (XmlReader.stepOf body) (y, l)
      = ((post.foldl (XmlReader.stepOf body) (y, [])).1,
          l ++ (post.foldl (XmlReader.stepOf body) (y, [])).2) := by
    intro y l
    have hy : (y, l) = Log.pre l (y, []) := by simp [Log.pre]
    rw [hy, XmlReader.foldl_stepOf_pre Log.pre body hb]
    rfl
  refine ⟨(post.foldl (XmlReader.stepOf body)
      ((pre.foldl (XmlReader.stepOf body) (s.1, [])).1, [])).1,
    (pre.foldl (XmlReader.stepOf body) (s.1, [])).2,
    (post.foldl (XmlReader.stepOf body)
      ((pre.foldl (XmlReader.stepOf body) (s.1, [])).1, [])).2, ?_, ?_⟩
  · rw [List.foldl_append, hpre, hpost]
    simp [List.append_assoc]
  · rw [List.foldl_append, List.foldl_cons, hpre, hu, hpost]
    simp [List.append_assoc]

namespace TRead

theorem readFretDiagramBody_haveReadNew {D : Type} (F : FretOps D) (X : Ext) (s : FretState D)
    (e : XmlReader) (s1 : FretState D) (e1 : XmlReader)
    (h : readFretDiagramBody F X s e = some (s1, e1)) (hn : e.name ≠ "fretDiagram") :
    s1.haveReadNew = s.haveReadNew := by
  unfold readFretDiagramBody at h
  by_cases h0 : s.haveReadNew = true
  · rw [if_pos h0] at h
    cases h; rfl
  rw [if_neg h0, if_neg hn] at h
  by_cases h2 : e.name = "showNut"
  · rw [if_pos h2] at h; cases h; rfl
  rw [if_neg h2] at h
  by_cases h3 : e.name = "orientation"
  · rw [if_pos h3] at h; cases h; rfl
  rw [if_neg h3] at h
  by_cases h4 : e.name = "strings"
  · rw [if_pos h4] at h; cases h; rfl
  rw [if_neg h4] at h
  by_cases h5 : e.name = "frets"
  · rw [if_pos h5] at h; cases h; rfl
  rw [if_neg h5] at h
  by_cases h6 : e.name = "fretOffset"
  · rw [if_pos h6] at h; cases h; rfl
  rw [if_neg h6] at h
  by_cases h7 : e.name = "string"
  · rw [if_pos h7] at h
    cases hl : XmlReader.forEachStartElement
        (readOldStringBody F X (e.intAttribute X.conv "no" 0)) (s.d, s.log) e with
    | none => simp only [hl] at h; cases h
    | some r => simp only [hl] at h; cases h; rfl
  rw [if_neg h7] at h
  by_cases h8 : e.name = "barre"
  · rw [if_pos h8] at h; cases h; rfl
  rw [if_neg h8] at h
  by_cases h9 : e.name = "mag"
  · rw [if_pos h9] at h; cases h; rfl
  rw [if_neg h9] at h
  by_cases h10 : e.name = "Harmony"
  · rw [if_pos h10] at h
    cases hl : readHarmony X (F.newHarmony s.d) e s.log with
    | none => rw [hl] at h; cases h
    | some r => rw [hl] at h; cases h; rfl
  rw [if_neg h10] at h
  cases hl : F.itemReadProperties s.d e.name e.attributes e.body with
  | none => rw [hl] at h; cases h; rfl
  | some r => rw [hl] at h; cases h; rfl

/-- Children other than the new-format container leave the local
`haveReadNew` as it is. -/
theorem foldl_stepOf_readFretDiagramBody_haveReadNew {D : Type} (F : FretOps D) (X : Ext) :
    ∀ (kids : List Node) (s : FretState D), (∀ k ∈ kids, k.name ≠ "fretDiagram") →
      (kids.foldl (XmlReader.stepOf (readFretDiagramBody F X)) s).haveReadNew = s.haveReadNew
  | [], _, _ => rfl
  | k :: ks, s, hk => by
    rw [List.foldl_cons, foldl_stepOf_readFretDiagramBody_haveReadNew F X ks _
      (fun k1 h1 => hk k1 (List.mem_cons_of_mem _ h1))]
    cases k with
    | text t => rfl
    | elem n a cs =>
      have hn : n ≠ "fretDiagram" := hk _ (List.mem_cons_self _ _)
      simp only [XmlReader.stepOf]
      cases hb : readFretDiagramBody F X s (Node.elem n a cs).toks with
      | none => rfl
      | some p => exact readFretDiagramBody_haveReadNew F X s _ p.1 p.2 hb hn

theorem readFretDiagram_unknown_inserted {D : Type} (F : FretOps D) (X : Ext) (t : D)
    (log : Log) (nm : String) (a : List (String × String)) (pre post : List Node)
    (r : List Token) (n : String) (ua : List (String × String)) (uks : List Node)
    (hu : (Node.elem n ua uks).unknownToFretDiagram F)
    (hpre : ∀ k ∈ pre, k.name ≠ "fretDiagram")
    (hg : ∀ k ∈ pre ++ post, k.fretDiagramChildOk) :
    AddsOneDiagnostic (readFretDiagram F X) t log (Node.elem nm a (pre ++ post))
      (Node.elem nm a (pre ++ Node.elem n ua uks :: post)) r (Diag.unknownElement n) := by
  have hs : (pre.foldl (XmlReader.stepOf (readFretDiagramBody F X))
      ⟨t, false, false, log⟩).haveReadNew = false :=
    foldl_stepOf_readFretDiagramBody_haveReadNew F X pre _ hpre
  obtain ⟨l, s0, h0, h1⟩ := XmlReader.forEachStartElement_insert_elem FretState.pre
    (readFretDiagramBody F X) Node.fretDiagramChildOk
    (fun s n a ks r h => readFretDiagramBody_elem F X s n a ks r h)
    (readFretDiagramBody_logFront F X) (Diag.unknownElement n) nm a pre []
    [Node.elem n ua uks] post hg (fun _ h => absurd h (List.not_mem_nil _))
    (fun k hk => by
      rw [List.mem_singleton.1 hk]
      exact Node.fretDiagramChildOk_of_unknown F _ hu)
    ⟨t, false, false, log⟩
    ⟨(pre.foldl (XmlReader.stepOf (readFretDiagramBody F X)) ⟨t, false, false, log⟩).log,
      { pre.foldl (XmlReader.stepOf (readFretDiagramBody F X)) ⟨t, false, false, log⟩
        with log := [] },
      by simp [FretState.pre],
      by simp [FretState.pre, stepOf_readFretDiagramBody_unknown F X _ hs n ua uks hu]⟩
    r
  refine ⟨oldBarre F s0.d s0.hasBarre, Token.endElement nm :: r, l, s0.log, ?_, ?_⟩
  · show readFretDiagram F X t ((Node.elem nm a (pre ++ ([] ++ post))).toks ++ r) log = _
    unfold readFretDiagram
    rw [h0]
    rfl
  · show readFretDiagram F X t
      ((Node.elem nm a (pre ++ ([Node.elem n ua uks] ++ post))).toks ++ r) log = _
    unfold readFretDiagram
    rw [h1]
    simp [FretState.pre]

/-- The legacy string branch of the FretDiagram reader on a string block. -/
theorem stepOf_readFretDiagramBody_string {D : Type} (F : FretOps D) (X : Ext)
    (s : FretState D) (hs : s.haveReadNew = false) (sa : List (String × String))
    (sks : List Node) :
    XmlReader.stepOf (readFretDiagramBody F X) s (Node.elem "string" sa sks)
      = { s with
          d := (sks.foldl (XmlReader.stepOf (readOldStringBody F X
            (XmlReader.intAttribute X.conv [Token.startElement "string" sa] "no" 0)))
              (s.d, s.log)).1,
          log := (sks.foldl (XmlReader.stepOf (readOldStringBody F X
            (XmlReader.intAttribute X.conv [Token.startElement "string" sa] "no" 0)))
              (s.d, s.log)).2 } := by
  have h1 : ¬ ("string" : String) = "fretDiagram" := by decide
  have h2 : ¬ ("string" : String) = "showNut" := by decide
  have h3 : ¬ ("string" : String) = "orientation" := by decide
  have h4 : ¬ ("string" : String) = "strings" := by decide
  have h5 : ¬ ("string" : String) = "frets" := by decide
  have h6 : ¬ ("string" : String) = "fretOffset" := by decide
  have hno : ∀ rest : List Token,
      XmlReader.intAttribute X.conv (Token.startElement "string" sa :: rest) "no" 0
        = XmlReader.intAttribute X.conv [Token.startElement "string" sa] "no" 0 :=
    fun _ => rfl
  simp only [XmlReader.stepOf, Node.toks, readFretDiagramBody, XmlReader.name_start, hs,
    h1, h2, h3, h4, h5, h6, if_false, if_true, Bool.false_eq_true, hno, readOldString_elem]
  rfl

theorem readFretDiagram_unknown_in_string {D : Type} (F : FretOps D) (X : Ext) (t : D)
    (log : Log) (nm : String) (a : List (String × String)) (pre post : List Node)
    (r : List Token) (sa : List (String × String)) (spre spost : List Node)
    (n : String) (ua : List (String × String)) (uks : List Node)
    (hu : n ∉ oldStringTags)
    (hpre : ∀ k ∈ pre, k.name ≠ "fretDiagram")
    (hg : ∀ k ∈ pre ++ post, k.fretDiagramChildOk) :
    AddsOneDiagnostic (readFretDiagram F X) t log
      (Node.elem nm a (pre ++ Node.elem "string" sa (spre ++ spost) :: post))
      (Node.elem nm a (pre ++ Node.elem "string" sa (spre ++ Node.elem n ua uks :: spost) :: post))
      r (Diag.unknownElement n) := by
  have hs : (pre.foldl (XmlReader.stepOf (readFretDiagramBody F X))
      ⟨t, false, false, log⟩).haveReadNew = false :=
    foldl_stepOf_readFretDiagramBody_haveReadNew F X pre _ hpre
  have hgs : ∀ ks : List Node, (Node.elem "string" sa ks).fretDiagramChildOk := by
    intro ks h
    have h2 : ("string" : String) = "Harmony" := h
    exact absurd h2 (by decide)
  obtain ⟨x1, la, lb, i0, i1⟩ := XmlReader.foldl_stepOf_insert_pair
    (readOldStringBody F X (XmlReader.intAttribute X.conv [Token.startElement "string" sa] "no" 0))
    (readOldStringBody_logFront F X _) (Node.elem n ua uks) (Diag.unknownElement n)
    (fun s1 => stepOf_readOldStringBody_unknown F X _ s1 n ua uks hu) spre spost
    ((pre.foldl (XmlReader.stepOf (readFretDiagramBody F X)) ⟨t, false, false, log⟩).d,
      (pre.foldl (XmlReader.stepOf (readFretDiagramBody F X)) ⟨t, false, false, log⟩).log)
  obtain ⟨l, s0, h0, h1⟩ := XmlReader.forEachStartElement_insert_elem FretState.pre
    (readFretDiagramBody F X) Node.fretDiagramChildOk
    (fun s n a ks r h => readFretDiagramBody_elem F X s n a ks r h)
    (readFretDiagramBody_logFront F X) (Diag.unknownElement n) nm a pre
    [Node.elem "string" sa (spre ++ spost)]
    [Node.elem "string" sa (spre ++ Node.elem n ua uks :: spost)] post hg
    (fun k hk => by rw [List.mem_singleton.1 hk]; exact hgs _)
    (fun k hk => by rw [List.mem_singleton.1 hk]; exact hgs _)
    ⟨t, false, false, log⟩
    ⟨(pre.foldl (XmlReader.stepOf (readFretDiagramBody F X)) ⟨t, false, false, log⟩).log ++ la,
      { pre.foldl (XmlReader.stepOf (readFretDiagramBody F X)) ⟨t, false, false, log⟩
        with d := x1, log := lb },
      by
        rw [List.foldl_cons, List.foldl_nil, stepOf_readFretDiagramBody_string F X _ hs, i0]
        simp [FretState.pre, List.append_assoc],
      by
        rw [List.foldl_cons, List.foldl_nil, stepOf_readFretDiagramBody_string F X _ hs, i1]
        simp [FretState.pre, List.append_assoc]⟩
    r
  refine ⟨oldBarre F s0.d s0.hasBarre, Token.endElement nm :: r, l, s0.log, ?_, ?_⟩
  · show readFretDiagram F X t
      ((Node.elem nm a (pre ++ ([Node.elem "string" sa (spre ++ spost)] ++ post))).toks ++ r) log
      = _
    unfold readFretDiagram
    rw [h0]
    rfl
  · show readFretDiagram F X t
      ((Node.elem nm a (pre
        ++ ([Node.elem "string" sa (spre ++ Node.elem n ua uks :: spost)] ++ post))).toks ++ r) log
      = _
    unfold readFretDiagram
    rw [h1]
    simp [FretState.pre]

/-- The degree branch of the Harmony reader on a degree block, in terms of
the inner loop. -/
theorem stepOf_readHarmonyBody_degree (X : Ext) (s : Harmony × Log)
    (da : List (String × String)) (dks : List Node) :
    XmlReader.stepOf (readHarmonyBody X) s (Node.elem "degree" da dks)
      = addReadDegree s.1
          (dks.foldl (XmlReader.stepOf (readDegreeBody X)) (⟨0, 0, ""⟩, s.2)).2
          (dks.foldl (XmlReader.stepOf (readDegreeBody X)) (⟨0, 0, ""⟩, s.2)).1 := by
  have h := readHarmonyBody_degree X s.1 s.2 da dks []
  simp only [XmlReader.stepOf, Node.toks]
  rw [h, readDegree_fields]
  rfl

theorem readHarmony_unknown_in_degree (X : Ext) (t : Harmony) (log : Log) (nm : String)
    (a : List (String × String)) (pre post : List Node) (r : List Token)
    (da : List (String × String)) (dpre dpost : List Node)
    (n : String) (ua : List (String × String)) (uks : List Node)
    (hu : n ∉ degreeTags)
    (hg : ∀ k ∈ pre ++ post, k.harmonyChildOk) :
    AddsOneDiagnostic (readHarmony X) t log
      (Node.elem nm a (pre ++ Node.elem "degree" da (dpre ++ dpost) :: post))
      (Node.elem nm a (pre ++ Node.elem "degree" da (dpre ++ Node.elem n ua uks :: dpost) :: post))
      r (Diag.unknownElement n) := by
  have hgd : ∀ ks : List Node, (Node.elem "degree" da ks).harmonyChildOk := by
    intro ks h
    have h2 : ("degree" : String) = "leftParen" ∨ ("degree" : String) = "rightParen" := h
    exact absurd h2 (by decide)
  obtain ⟨x1, l1, l2, h0, h1⟩ := XmlReader.forEachStartElement_insert_pair
    (readHarmonyBody X) Node.harmonyChildOk
    (fun s n a ks r h => readHarmonyBody_elem X s n a ks r h)
    (readHarmonyBody_logFront X) (Diag.unknownElement n) nm a pre
    [Node.elem "degree" da (dpre ++ dpost)]
    [Node.elem "degree" da (dpre ++ Node.elem n ua uks :: dpost)] post hg
    (fun k hk => by rw [List.mem_singleton.1 hk]; exact hgd _)
    (fun k hk => by rw [List.mem_singleton.1 hk]; exact hgd _)
    (fun s1 => by
      obtain ⟨dd, la, lb, i0, i1⟩ := XmlReader.foldl_stepOf_insert_pair (readDegreeBody X)
        (readDegreeBody_logFront X) (Node.elem n ua uks) (Diag.unknownElement n)
        (fun s2 => stepOf_readDegreeBody_unknown X s2 n ua uks hu) dpre dpost
        ((⟨0, 0, ""⟩ : DegreeFields), s1.2)
      have hadd : ∀ l : Log, addReadDegree s1.1 l dd
          = ((addReadDegree s1.1 [] dd).1, l ++ (addReadDegree s1.1 [] dd).2) := by
        intro l
        have h := addReadDegree_pre s1.1 l [] dd
        rw [List.append_nil] at h
        rw [h]
        rfl
      refine ⟨(addReadDegree s1.1 [] dd).1, la, lb ++ (addReadDegree s1.1 [] dd).2, ?_, ?_⟩
      · rw [List.foldl_cons, List.foldl_nil, stepOf_readHarmonyBody_degree, i0, hadd]
        simp [List.append_assoc]
      · rw [List.foldl_cons, List.foldl_nil, stepOf_readHarmonyBody_degree, i1, hadd]
        simp [List.append_assoc])
    t log r
  refine ⟨X.afterRead x1, Token.endElement nm :: r, l1, l2, ?_, ?_⟩
  · show readHarmony X t
      ((Node.elem nm a (pre ++ ([Node.elem "degree" da (dpre ++ dpost)] ++ post))).toks ++ r) log
      = _
    unfold readHarmony
    rw [h0]
  · show readHarmony X t
      ((Node.elem nm a (pre
        ++ ([Node.elem "degree" da (dpre ++ Node.elem n ua uks :: dpost)] ++ post))).toks ++ r) log
      = _
    unfold readHarmony
    rw [h1]

end TRead

/-- The loop does not look at the token it stands on. -/
theorem XmlReader.forEachStartElement_head {σ : Type}
    (body : σ → XmlReader → Option (σ × XmlReader)) (s : σ) (c c1 : Token) (r : List Token) :
    XmlReader.forEachStartElement body s (c :: r)
      = XmlReader.forEachStartElement body s (c1 :: r) := rfl

theorem XmlReader.forEachStartElement_unknown_next {σ : Type} (p : Log → σ → σ)
    (body : σ → XmlReader → Option (σ × XmlReader)) (hprog : XmlReader.Progress body)
    (hb : XmlReader.LogFront p body) (d : Diag) (s : σ) (l : Log) (s0 : σ) (hs : s = p l s0)
    (n : String) (ua : List (String × String)) (uks : List Node)
    (hstep : ∀ r, body s
        (Token.startElement n ua :: (Node.toksList uks ++ Token.endElement n :: r))
      = some (p (l ++ [d]) s0, Token.endElement n :: r)) :
    DiagnosesAndSkips p body s (Node.elem n ua uks) d := by
  intro c c1 r
  obtain ⟨s1, e1, _, h, _⟩ := XmlReader.forEachStartElement_progress body hprog s0 (c1 :: r)
  refine ⟨l, s1, e1, ?_, ?_⟩
  · rw [hs, XmlReader.forEachStartElement_pre p body hb, h]
    rfl
  · have htoks : c :: ((Node.elem n ua uks).toks ++ r)
        = c :: Token.startElement n ua :: (Node.toksList uks ++ Token.endElement n :: r) := by
      simp [Node.toks]
    rw [htoks, XmlReader.forEachStartElement_step body hprog s _ c n ua _ _ (hstep r),
      XmlReader.forEachStartElement_pre p body hb,
      XmlReader.forEachStartElement_head body s0 (Token.endElement n) c1 r, h]
    rfl

namespace TRead

/-! ## The loops return on every token sequence -/

theorem readTextBaseBody_progress (X : Ext) : XmlReader.Progress (readTextBaseBody X) := by
  intro s e
  unfold readTextBaseBody TextBaseRW.readProperties
  cases X.textBaseReadProperties s.1 (XmlReader.name e) (XmlReader.attributes e)
      (XmlReader.body e) with
  | none => exact ⟨_, _, rfl, XmlReader.unknown_length _ _⟩
  | some t1 => exact ⟨_, _, rfl, XmlReader.skipCurrentElement_length _⟩

theorem readPlayTechBody_progress (X : Ext) : XmlReader.Progress (readPlayTechBody X) := by
  intro s e
  unfold readPlayTechBody PropertyRW.readPropertyTag
  by_cases hp : XmlReader.name e = X.propertyName Pid.PLAY_TECH_TYPE
  · rw [if_pos hp]
    exact ⟨_, _, rfl, XmlReader.readText_length _⟩
  rw [if_neg hp]
  simp only
  split_ifs
  · exact ⟨_, _, rfl, readProperties_length X _ e⟩
  · exact ⟨_, _, rfl, le_trans (XmlReader.unknown_length _ _) (readProperties_length X _ e)⟩

theorem readDynamicBody_progress (V : Env) : XmlReader.Progress (readDynamicBody V) := by
  intro s e
  unfold readDynamicBody
  by_cases h1 : XmlReader.name e = "subtype"
  · rw [if_pos h1]; exact ⟨_, _, rfl, XmlReader.readText_length _⟩
  rw [if_neg h1]
  by_cases h2 : XmlReader.name e = "velocity"
  · rw [if_pos h2]; exact ⟨_, _, rfl, XmlReader.readInt_length _ _⟩
  rw [if_neg h2]
  by_cases h3 : XmlReader.name e = "dynType"
  · rw [if_pos h3]; exact ⟨_, _, rfl, XmlReader.readText_length _⟩
  rw [if_neg h3]
  by_cases h4 : XmlReader.name e = "veloChange"
  · rw [if_pos h4]; exact ⟨_, _, rfl, XmlReader.readInt_length _ _⟩
  rw [if_neg h4]
  by_cases h5 : XmlReader.name e = "veloChangeSpeed"
  · rw [if_pos h5]; exact ⟨_, _, rfl, XmlReader.readText_length _⟩
  rw [if_neg h5]
  unfold TextBaseRW.readProperties
  cases V.textBaseReadProperties s.1.toTextBase (XmlReader.name e) (XmlReader.attributes e)
      (XmlReader.body e) with
  | none => exact ⟨_, _, rfl, XmlReader.unknown_length _ _⟩
  | some t1 => exact ⟨_, _, rfl, XmlReader.skipCurrentElement_length _⟩

theorem readStaffStateBody_progress (V : Env) : XmlReader.Progress (readStaffStateBody V) := by
  intro s e
  unfold readStaffStateBody
  by_cases h1 : XmlReader.name e = "subtype"
  · rw [if_pos h1]; exact ⟨_, _, rfl, XmlReader.readInt_length _ _⟩
  rw [if_neg h1]
  by_cases h2 : XmlReader.name e = "Instrument"
  · rw [if_pos h2]; exact ⟨_, _, rfl, XmlReader.skipCurrentElement_length _⟩
  rw [if_neg h2]
  unfold EngravingItemRW.readProperties
  cases V.itemReadProperties s.1.toItemBase (XmlReader.name e) (XmlReader.attributes e)
      (XmlReader.body e) with
  | none => exact ⟨_, _, rfl, XmlReader.unknown_length _ _⟩
  | some t1 => exact ⟨_, _, rfl, XmlReader.skipCurrentElement_length _⟩

theorem readFiguredBassBody_progress (X : Ext) : XmlReader.Progress (readFiguredBassBody X) := by
  intro s e
  unfold readFiguredBassBody
  by_cases h1 : XmlReader.name e = "ticks"
  · rw [if_pos h1]; exact ⟨_, _, rfl, XmlReader.readText_length _⟩
  rw [if_neg h1]
  by_cases h2 : XmlReader.name e = "onNote"
  · rw [if_pos h2]; exact ⟨_, _, rfl, XmlReader.readInt_length _ _⟩
  rw [if_neg h2]
  by_cases h3 : XmlReader.name e = "FiguredBassItem"
  · rw [if_pos h3]; exact ⟨_, _, rfl, XmlReader.skipCurrentElement_length _⟩
  rw [if_neg h3]
  unfold TextBaseRW.readProperties
  cases X.textBaseReadProperties s.b.toTextBase (XmlReader.name e) (XmlReader.attributes e)
      (XmlReader.body e) with
  | none => exact ⟨_, _, rfl, XmlReader.unknown_length _ _⟩
  | some t1 => exact ⟨_, _, rfl, XmlReader.skipCurrentElement_length _⟩

end TRead

theorem XmlReader.diagnosesAndSkips_pair {α : Type}
    (body : α × Log → XmlReader → Option ((α × Log) × XmlReader))
    (hprog : XmlReader.Progress body) (hb : XmlReader.LogFront Log.pre body) (s : α × Log)
    (n : String) (ua : List (String × String)) (uks : List Node)
    (helem : ∀ r, body s
        (Token.startElement n ua :: (Node.toksList uks ++ Token.endElement n :: r))
      = some (XmlReader.stepOf body s (Node.elem n ua uks), Token.endElement n :: r))
    (hstep : XmlReader.stepOf body s (Node.elem n ua uks)
      = (s.1, s.2 ++ [Diag.unknownElement n])) :
    DiagnosesAndSkips Log.pre body s (Node.elem n ua uks) (Diag.unknownElement n) := by
  apply XmlReader.forEachStartElement_unknown_next Log.pre body hprog hb (Diag.unknownElement n)
    s s.2 (s.1, []) (by simp [Log.pre])
  intro r
  rw [helem r, hstep]
  simp [Log.pre]

namespace TRead

/-! ## The loop before an unknown element -/

theorem readTextBaseBody_skips (X : Ext) (s : TextBase × Log) (n : String)
    (ua : List (String × String)) (uks : List Node)
    (hu : (Node.elem n ua uks).unknownToTextLayer X) :
    DiagnosesAndSkips Log.pre (readTextBaseBody X) s (Node.elem n ua uks)
      (Diag.unknownElement n) :=
  XmlReader.diagnosesAndSkips_pair _ (readTextBaseBody_progress X) (readTextBaseBody_logFront X)
    s n ua uks (fun r => readTextBaseBody_elem X s n ua uks r)
    (stepOf_readTextBaseBody_unknown X s n ua uks hu)

theorem readTempoTextBody_skips {R : Type} (T : TempoConv R) (X : Ext) (s : TempoText R × Log)
    (n : String) (ua : List (String × String)) (uks : List Node)
    (hu : (Node.elem n ua uks).unknownToTempoText X) :
    DiagnosesAndSkips Log.pre (readTempoTextBody T X) s (Node.elem n ua uks)
      (Diag.unknownElement n) :=
  XmlReader.diagnosesAndSkips_pair _ (readTempoTextBody_progress T X)
    (readTempoTextBody_logFront T X) s n ua uks
    (fun r => readTempoTextBody_elem T X s n ua uks r)
    (stepOf_readTempoTextBody_unknown T X s n ua uks hu)

theorem readStaffTextBaseBody_skips (X : Ext) (s : StaffTextBase × Log) (n : String)
    (ua : List (String × String)) (uks : List Node)
    (hu : (Node.elem n ua uks).unknownToStaffText X) :
    DiagnosesAndSkips Log.pre (readStaffTextBaseBody X) s (Node.elem n ua uks)
      (Diag.unknownElement n) :=
  XmlReader.diagnosesAndSkips_pair _ (readStaffTextBaseBody_progress X)
    (readStaffTextBaseBody_logFront X) s n ua uks
    (fun r => readStaffTextBaseBody_elem X s n ua uks r
      (Node.staffTextChildOk_of_unknown X _ hu))
    (stepOf_readStaffTextBaseBody_unknown X s n ua uks hu)

theorem readPlayTechBody_skips (X : Ext) (s : PlayTechAnnotation × Log) (n : String)
    (ua : List (String × String)) (uks : List Node)
    (hu : (Node.elem n ua uks).unknownToPlayTech X) :
    DiagnosesAndSkips Log.pre (readPlayTechBody X) s (Node.elem n ua uks)
      (Diag.unknownElement n) :=
  XmlReader.diagnosesAndSkips_pair _ (readPlayTechBody_progress X)
    (readPlayTechBody_logFront X) s n ua uks
    (fun r => readPlayTechBody_elem X s n ua uks r
      (Or.inr (Node.staffTextChildOk_of_unknown X _ hu.2)))
    (stepOf_readPlayTechBody_unknown X s n ua uks hu)

theorem readDynamicBody_skips (V : Env) (s : Dynamic × Log) (n : String)
    (ua : List (String × String)) (uks : List Node)
    (hu : (Node.elem n ua uks).unknownToDynamic V.toExt) :
    DiagnosesAndSkips Log.pre (readDynamicBody V) s (Node.elem n ua uks)
      (Diag.unknownElement n) :=
  XmlReader.diagnosesAndSkips_pair _ (readDynamicBody_progress V) (readDynamicBody_logFront V)
    s n ua uks (fun r => readDynamicBody_elem V s n ua uks r)
    (stepOf_readDynamicBody_unknown V s n ua uks hu)

theorem readHarmonyBody_skips (X : Ext) (s : Harmony × Log) (n : String)
    (ua : List (String × String)) (uks : List Node)
    (hu : (Node.elem n ua uks).unknownToHarmony X) :
    DiagnosesAndSkips Log.pre (readHarmonyBody X) s (Node.elem n ua uks)
      (Diag.unknownElement n) :=
  XmlReader.diagnosesAndSkips_pair _ (readHarmonyBody_progress X) (readHarmonyBody_logFront X)
    s n ua uks
    (fun r => readHarmonyBody_elem X s n ua uks r (Node.harmonyChildOk_of_unknown X _ hu))
    (stepOf_readHarmonyBody_unknown X s n ua uks hu)

theorem readDegreeBody_skips (X : Ext) (s : DegreeFields × Log) (n : String)
    (ua : List (String × String)) (uks : List Node) (hu : n ∉ degreeTags) :
    DiagnosesAndSkips Log.pre (readDegreeBody X) s (Node.elem n ua uks)
      (Diag.unknownElement n) :=
  XmlReader.diagnosesAndSkips_pair _ (readDegreeBody_progress X) (readDegreeBody_logFront X)
    s n ua uks (fun r => readDegreeBody_elem X s n ua uks r)
    (stepOf_readDegreeBody_unknown X s n ua uks hu)

theorem readOldStringBody_skips {D : Type} (F : FretOps D) (X : Ext) (no : Int) (s : D × Log)
    (n : String) (ua : List (String × String)) (uks : List Node) (hu : n ∉ oldStringTags) :
    DiagnosesAndSkips Log.pre (readOldStringBody F X no) s (Node.elem n ua uks)
      (Diag.unknownElement n) :=
  XmlReader.diagnosesAndSkips_pair _ (readOldStringBody_progress F X no)
    (readOldStringBody_logFront F X no) s n ua uks
    (fun r => readOldStringBody_elem F X no s n ua uks r)
    (stepOf_readOldStringBody_unknown F X no s n ua uks hu)

theorem readTremoloBarBody_skips (V : Env) (s : TremoloBar × Log) (n : String)
    (ua : List (String × String)) (uks : List Node)
    (hu : (Node.elem n ua uks).unknownToTremoloBar V) :
    DiagnosesAndSkips Log.pre (readTremoloBarBody V) s (Node.elem n ua uks)
      (Diag.unknownElement n) :=
  XmlReader.diagnosesAndSkips_pair _ (readTremoloBarBody_progress V)
    (readTremoloBarBody_logFront V) s n ua uks
    (fun r => readTremoloBarBody_elem V s n ua uks r
      (Node.tremoloBarChildOk_of_unknown V _ hu))
    (stepOf_readTremoloBarBody_unknown V s n ua uks hu)

theorem readStaffStateBody_skips (V : Env) (s : StaffState × Log) (n : String)
    (ua : List (String × String)) (uks : List Node)
    (hu : (Node.elem n ua uks).unknownToStaffState V) :
    DiagnosesAndSkips Log.pre (readStaffStateBody V) s (Node.elem n ua uks)
      (Diag.unknownElement n) :=
  XmlReader.diagnosesAndSkips_pair _ (readStaffStateBody_progress V)
    (readStaffStateBody_logFront V) s n ua uks
    (fun r => readStaffStateBody_elem V s n ua uks r)
    (stepOf_readStaffStateBody_unknown V s n ua uks hu)

theorem readInstrumentChangeBody_skips (V : Env) (s : InstrumentChangeState) (n : String)
    (ua : List (String × String)) (uks : List Node)
    (hu : (Node.elem n ua uks).unknownToInstrumentChange V.toExt) :
    DiagnosesAndSkips InstrumentChangeState.pre (readInstrumentChangeBody V) s
      (Node.elem n ua uks) (Diag.unknownElement n) := by
  apply XmlReader.forEachStartElement_unknown_next InstrumentChangeState.pre _
    (readInstrumentChangeBody_progress V) (readInstrumentChangeBody_logFront V)
    (Diag.unknownElement n) s s.log { s with log := [] }
    (by simp [InstrumentChangeState.pre])
  intro r
  rw [readInstrumentChangeBody_elem V s n ua uks r,
    stepOf_readInstrumentChangeBody_unknown V s n ua uks hu]
  simp [InstrumentChangeState.pre]

theorem readFiguredBassBody_skips (X : Ext) (s : FiguredBassState) (n : String)
    (ua : List (String × String)) (uks : List Node)
    (hu : (Node.elem n ua uks).unknownToFiguredBass X) :
    DiagnosesAndSkips FiguredBassState.pre (readFiguredBassBody X) s
      (Node.elem n ua uks) (Diag.unknownElement n) := by
  apply XmlReader.forEachStartElement_unknown_next FiguredBassState.pre _
    (readFiguredBassBody_progress X) (readFiguredBassBody_logFront X)
    (Diag.unknownElement n) s s.log { s with log := [] }
    (by simp [FiguredBassState.pre])
  intro r
  rw [readFiguredBassBody_elem X s n ua uks r,
    stepOf_readFiguredBassBody_unknown X s n ua uks hu]
  simp [FiguredBassState.pre]

theorem readFretDiagramBody_skips {D : Type} (F : FretOps D) (X : Ext) (s : FretState D)
    (hs : s.haveReadNew = false) (n : String)
    (ua : List (String × String)) (uks : List Node)
    (hu : (Node.elem n ua uks).unknownToFretDiagram F) :
    DiagnosesAndSkips FretState.pre (readFretDiagramBody F X) s
      (Node.elem n ua uks) (Diag.unknownElement n) := by
  apply XmlReader.forEachStartElement_unknown_next FretState.pre _
    (readFretDiagramBody_progress F X) (readFretDiagramBody_logFront F X)
    (Diag.unknownElement n) s s.log { s with log := [] }
    (by simp [FretState.pre])
  intro r
  rw [readFretDiagramBody_elem F X s n ua uks r (Node.fretDiagramChildOk_of_unknown F _ hu),
    stepOf_readFretDiagramBody_unknown F X s hs n ua uks hu]
  simp [FretState.pre]

end TRead

/-- C13 (amended): an unknown tag never aborts a read and never changes the
result. For each reader of tread.cpp (TextBase, TempoText, StaffTextBase,
Dynamic, Harmony and its degree sub-block, FretDiagram before the new-format
container and its legacy string sub-blocks, TremoloBar, the
playing-technique text, InstrumentChange, StaffState, FiguredBass):

* in every element whose children read by a single `readNext` are empty
  elements, inserting among the children (of the element, of a degree block,
  of a legacy string block) a subtree `u` whose tag no layer of the fallback
  chain of that reader recognises gives a read that returns with the same
  entity and on the same token as the read of the element without `u`, and
  whose log is the log of that read with exactly one more entry, the
  unknown-element diagnostic of `u` (`AddsOneDiagnostic`);
* in every element and in every state, the tag loop of the reader that stands
  before such a subtree `u` returns, in the state and on the token of the loop
  that stands before the tokens behind `u`, with exactly the one diagnostic
  of `u` more in the log (`DiagnosesAndSkips`). -/
theorem C13_unknown_tag {R D : Type} (T : TempoConv R) (F : FretOps D) (V : Env)
    (nm : String) (a : List (String × String)) (pre post : List Node) (r : List Token)
    (log : Log) (n : String) (ua : List (String × String)) (uks : List Node) :
    ((Node.elem n ua uks).unknownToTextLayer V.toExt →
      ∀ t : TextBase,
        AddsOneDiagnostic (TRead.readTextBase V.toExt) t log (Node.elem nm a (pre ++ post))
          (Node.elem nm a (pre ++ Node.elem n ua uks :: post)) r (Diag.unknownElement n))
    ∧ ((Node.elem n ua uks).unknownToTempoText V.toExt →
      ∀ t : TempoText R,
        AddsOneDiagnostic (TRead.readTempoText T V.toExt) t log (Node.elem nm a (pre ++ post))
          (Node.elem nm a (pre ++ Node.elem n ua uks :: post)) r (Diag.unknownElement n))
    ∧ ((Node.elem n ua uks).unknownToStaffText V.toExt →
      (∀ k ∈ pre ++ post, k.staffTextChildOk V.toExt) →
      ∀ t : StaffTextBase,
        AddsOneDiagnostic (TRead.readStaffTextBase V) t log (Node.elem nm a (pre ++ post))
          (Node.elem nm a (pre ++ Node.elem n ua uks :: post)) r (Diag.unknownElement n))
    ∧ ((Node.elem n ua uks).unknownToDynamic V.toExt →
      ∀ d : Dynamic,
        AddsOneDiagnostic (TRead.readDynamic V) d log (Node.elem nm a (pre ++ post))
          (Node.elem nm a (pre ++ Node.elem n ua uks :: post)) r (Diag.unknownElement n))
    ∧ ((Node.elem n ua uks).unknownToHarmony V.toExt →
      (∀ k ∈ pre ++ post, k.harmonyChildOk) →
      ∀ h : Harmony,
        AddsOneDiagnostic (TRead.readHarmony V.toExt) h log (Node.elem nm a (pre ++ post))
          (Node.elem nm a (pre ++ Node.elem n ua uks :: post)) r (Diag.unknownElement n))
    ∧ (n ∉ degreeTags →
      (∀ k ∈ pre ++ post, k.harmonyChildOk) →
      ∀ (h : Harmony) (da : List (String × String)) (dpre dpost : List Node),
        AddsOneDiagnostic (TRead.readHarmony V.toExt) h log
          (Node.elem nm a (pre ++ Node.elem "degree" da (dpre ++ dpost) :: post))
          (Node.elem nm a
            (pre ++ Node.elem "degree" da (dpre ++ Node.elem n ua uks :: dpost) :: post))
          r (Diag.unknownElement n))
    ∧ ((Node.elem n ua uks).unknownToFretDiagram F →
      (∀ k ∈ pre, k.name ≠ "fretDiagram") →
      (∀ k ∈ pre ++ post, k.fretDiagramChildOk) →
      ∀ d : D,
        AddsOneDiagnostic (TRead.readFretDiagram F V.toExt) d log (Node.elem nm a (pre ++ post))
          (Node.elem nm a (pre ++ Node.elem n ua uks :: post)) r (Diag.unknownElement n))
    ∧ (n ∉ oldStringTags →
      (∀ k ∈ pre, k.name ≠ "fretDiagram") →
      (∀ k ∈ pre ++ post, k.fretDiagramChildOk) →
      ∀ (d : D) (sa : List (String × String)) (spre spost : List Node),
        AddsOneDiagnostic (TRead.readFretDiagram F V.toExt) d log
          (Node.elem nm a (pre ++ Node.elem "string" sa (spre ++ spost) :: post))
          (Node.elem nm a
            (pre ++ Node.elem "string" sa (spre ++ Node.elem n ua uks :: spost) :: post))
          r (Diag.unknownElement n))
    ∧ ((Node.elem n ua uks).unknownToTremoloBar V →
      (∀ k ∈ pre ++ post, k.tremoloBarChildOk) →
      ∀ b : TremoloBar,
        AddsOneDiagnostic (TRead.readTremoloBar V) b log (Node.elem nm a (pre ++ post))
          (Node.elem nm a (pre ++ Node.elem n ua uks :: post)) r (Diag.unknownElement n))
    ∧ ((Node.elem n ua uks).unknownToPlayTech V.toExt →
      (∀ k ∈ pre ++ post, k.playTechChildOk V.toExt) →
      ∀ t : PlayTechAnnotation,
        AddsOneDiagnostic (TRead.readPlayTech V.toExt) t log (Node.elem nm a (pre ++ post))
          (Node.elem nm a (pre ++ Node.elem n ua uks :: post)) r (Diag.unknownElement n))
    ∧ ((Node.elem n ua uks).unknownToInstrumentChange V.toExt →
      ∀ c : InstrumentChange,
        AddsOneDiagnostic (TRead.readInstrumentChange V) c log (Node.elem nm a (pre ++ post))
          (Node.elem nm a (pre ++ Node.elem n ua uks :: post)) r (Diag.unknownElement n))
    ∧ ((Node.elem n ua uks).unknownToStaffState V →
      ∀ s : StaffState,
        AddsOneDiagnostic (TRead.readStaffState V) s log (Node.elem nm a (pre ++ post))
          (Node.elem nm a (pre ++ Node.elem n ua uks :: post)) r (Diag.unknownElement n))
    ∧ ((Node.elem n ua uks).unknownToFiguredBass V.toExt →
      ∀ b : FiguredBass,
        AddsOneDiagnostic (TRead.readFiguredBass V.toExt) b log (Node.elem nm a (pre ++ post))
          (Node.elem nm a (pre ++ Node.elem n ua uks :: post)) r (Diag.unknownElement n))
    ∧ ((Node.elem n ua uks).unknownToTextLayer V.toExt →
      ∀ s : TextBase × Log,
        DiagnosesAndSkips Log.pre (TRead.readTextBaseBody V.toExt) s (Node.elem n ua uks)
          (Diag.unknownElement n))
    ∧ ((Node.elem n ua uks).unknownToTempoText V.toExt →
      ∀ s : TempoText R × Log,
        DiagnosesAndSkips Log.pre (TRead.readTempoTextBody T V.toExt) s (Node.elem n ua uks)
          (Diag.unknownElement n))
    ∧ ((Node.elem n ua uks).unknownToStaffText V.toExt →
      ∀ s : StaffTextBase × Log,
        DiagnosesAndSkips Log.pre (TRead.readStaffTextBaseBody V.toExt) s (Node.elem n ua uks)
          (Diag.unknownElement n))
    ∧ ((Node.elem n ua uks).unknownToDynamic V.toExt →
      ∀ s : Dynamic × Log,
        DiagnosesAndSkips Log.pre (TRead.readDynamicBody V) s (Node.elem n ua uks)
          (Diag.unknownElement n))
    ∧ ((Node.elem n ua uks).unknownToHarmony V.toExt →
      ∀ s : Harmony × Log,
        DiagnosesAndSkips Log.pre (TRead.readHarmonyBody V.toExt) s (Node.elem n ua uks)
          (Diag.unknownElement n))
    ∧ (n ∉ degreeTags →
      ∀ s : TRead.DegreeFields × Log,
        DiagnosesAndSkips Log.pre (TRead.readDegreeBody V.toExt) s (Node.elem n ua uks)
          (Diag.unknownElement n))
    ∧ ((Node.elem n ua uks).unknownToFretDiagram F →
      ∀ s : TRead.FretState D, s.haveReadNew = false →
        DiagnosesAndSkips TRead.FretState.pre (TRead.readFretDiagramBody F V.toExt) s
          (Node.elem n ua uks) (Diag.unknownElement n))
    ∧ (n ∉ oldStringTags →
      ∀ (no : Int) (s : D × Log),
        DiagnosesAndSkips Log.pre (TRead.readOldStringBody F V.toExt no) s (Node.elem n ua uks)
          (Diag.unknownElement n))
    ∧ ((Node.elem n ua uks).unknownToTremoloBar V →
      ∀ s : TremoloBar × Log,
        DiagnosesAndSkips Log.pre (TRead.readTremoloBarBody V) s (Node.elem n ua uks)
          (Diag.unknownElement n))
    ∧ ((Node.elem n ua uks).unknownToPlayTech V.toExt →
      ∀ s : PlayTechAnnotation × Log,
        DiagnosesAndSkips Log.pre (TRead.readPlayTechBody V.toExt) s (Node.elem n ua uks)
          (Diag.unknownElement n))
    ∧ ((Node.elem n ua uks).unknownToInstrumentChange V.toExt →
      ∀ s : TRead.InstrumentChangeState,
        DiagnosesAndSkips TRead.InstrumentChangeState.pre (TRead.readInstrumentChangeBody V) s
          (Node.elem n ua uks) (Diag.unknownElement n))
    ∧ ((Node.elem n ua uks).unknownToStaffState V →
      ∀ s : StaffState × Log,
        DiagnosesAndSkips Log.pre (TRead.readStaffStateBody V) s (Node.elem n ua uks)
          (Diag.unknownElement n))
    ∧ ((Node.elem n ua uks).unknownToFiguredBass V.toExt →
      ∀ s : TRead.FiguredBassState,
        DiagnosesAndSkips TRead.FiguredBassState.pre (TRead.readFiguredBassBody V.toExt) s
          (Node.elem n ua uks) (Diag.unknownElement n)) :=
  ⟨fun hu t => TRead.readTextBase_unknown_inserted V.toExt t log nm a pre post r n ua uks hu,
   fun hu t => TRead.readTempoText_unknown_inserted T V.toExt t log nm a pre post r n ua uks hu,
   fun hu hg t =>
     TRead.readStaffTextBase_unknown_inserted V t log nm a pre post r n ua uks hu hg,
   fun hu d => TRead.readDynamic_unknown_inserted V d log nm a pre post r n ua uks hu,
   fun hu hg h => TRead.readHarmony_unknown_inserted V.toExt h log nm a pre post r n ua uks hu hg,
   fun hu hg h da dpre dpost =>
     TRead.readHarmony_unknown_in_degree V.toExt h log nm a pre post r da dpre dpost n ua uks
       hu hg,
   fun hu hpre hg d =>
     TRead.readFretDiagram_unknown_inserted F V.toExt d log nm a pre post r n ua uks hu hpre hg,
   fun hu hpre hg d sa spre spost =>
     TRead.readFretDiagram_unknown_in_string F V.toExt d log nm a pre post r sa spre spost
       n ua uks hu hpre hg,
   fun hu hg b => TRead.readTremoloBar_unknown_inserted V b log nm a pre post r n ua uks hu hg,
   fun hu hg t => TRead.readPlayTech_unknown_inserted V.toExt t log nm a pre post r n ua uks hu hg,
   fun hu c => TRead.readInstrumentChange_unknown_inserted V c log nm a pre post r n ua uks hu,
   fun hu s => TRead.readStaffState_unknown_inserted V s log nm a pre post r n ua uks hu,
   fun hu b => TRead.readFiguredBass_unknown_inserted V.toExt b log nm a pre post r n ua uks hu,
   fun hu s => TRead.readTextBaseBody_skips V.toExt s n ua uks hu,
   fun hu s => TRead.readTempoTextBody_skips T V.toExt s n ua uks hu,
   fun hu s => TRead.readStaffTextBaseBody_skips V.toExt s n ua uks hu,
   fun hu s => TRead.readDynamicBody_skips V s n ua uks hu,
   fun hu s => TRead.readHarmonyBody_skips V.toExt s n ua uks hu,
   fun hu s => TRead.readDegreeBody_skips V.toExt s n ua uks hu,
   fun hu s hs => TRead.readFretDiagramBody_skips F V.toExt s hs n ua uks hu,
   fun hu no s => TRead.readOldStringBody_skips F V.toExt no s n ua uks hu,
   fun hu s => TRead.readTremoloBarBody_skips V s n ua uks hu,
   fun hu s => TRead.readPlayTechBody_skips V.toExt s n ua uks hu,
   fun hu s => TRead.readInstrumentChangeBody_skips V s n ua uks hu,
   fun hu s => TRead.readStaffStateBody_skips V s n ua uks hu,
   fun hu s => TRead.readFiguredBassBody_skips V.toExt s n ua uks hu⟩

/-- The unknown subtree of the examples, inserted into a Harmony element
between a root and an empty leftParen followed by the degree block with
value 0: the read with it ends with the same chord symbol, and its log holds
the one more diagnostic for the tag `bogus`. -/
theorem C13_unknown_tag_witness :
    (Node.elem "bogus" [("x", "1")] bogusSubtree.kids).unknownToHarmony exampleEnv.toExt
    ∧ (∀ k ∈ [Node.elem "root" [] [Node.text "14"]]
        ++ [Node.elem "leftParen" [] [], degreeZero], k.harmonyChildOk)
    ∧ AddsOneDiagnostic (TRead.readHarmony exampleEnv.toExt) emptyHarmony []
        (Node.elem "Harmony" []
          ([Node.elem "root" [] [Node.text "14"]] ++ [Node.elem "leftParen" [] [], degreeZero]))
        (Node.elem "Harmony" []
          ([Node.elem "root" [] [Node.text "14"]]
            ++ Node.elem "bogus" [("x", "1")] bogusSubtree.kids
              :: [Node.elem "leftParen" [] [], degreeZero]))
        [] (Diag.unknownElement "bogus") := by
  have hu : (Node.elem "bogus" [("x", "1")] bogusSubtree.kids).unknownToHarmony
      exampleEnv.toExt := ⟨by decide, by decide, fun _ => rfl⟩
  have hg : ∀ k ∈ [Node.elem "root" [] [Node.text "14"]]
      ++ [Node.elem "leftParen" [] [], degreeZero], k.harmonyChildOk := by decide
  exact ⟨hu, hg,
    (C13_unknown_tag exampleTempoConv exampleFretOps exampleEnv "Harmony" []
      [Node.elem "root" [] [Node.text "14"]] [Node.elem "leftParen" [] [], degreeZero] [] []
      "bogus" [("x", "1")] bogusSubtree.kids).2.2.2.2.1 hu hg emptyHarmony⟩

/-- C13, the claim as stated fails behind a child that is read by a single
`readNext` and carries a body: the read of the staff-text element ends on the
end tag of the swing child, so the unknown element inserted after that child
is never reached, and the read with it adds no diagnostic: both logs are
empty. -/
theorem C13_counterexample_unknown_not_reached :
    (Node.elem "bogus" [] []).unknownToStaffText exampleEnv.toExt
    ∧ TRead.readStaffTextBase exampleEnv emptyStaffText staffTextSwingWithBody.toks []
      = some ({ emptyStaffText with swing := true, swingUnit := 240, swingRatio := 60 },
          [Token.endElement "swing", Token.endElement "StaffText"], [])
    ∧ TRead.readStaffTextBase exampleEnv emptyStaffText staffTextSwingWithBodyBogus.toks []
      = some ({ emptyStaffText with swing := true, swingUnit := 240, swingRatio := 60 },
          [Token.endElement "swing", Token.startElement "bogus" [], Token.endElement "bogus",
           Token.endElement "StaffText"], [])
    ∧ ¬ AddsOneDiagnostic (TRead.readStaffTextBase exampleEnv) emptyStaffText []
        staffTextSwingWithBody staffTextSwingWithBodyBogus [] (Diag.unknownElement "bogus") := by
  have hev : TRead.readStaffTextBase exampleEnv emptyStaffText
      (staffTextSwingWithBodyBogus.toks ++ []) []
      = some ({ emptyStaffText with swing := true, swingUnit := 240, swingRatio := 60 },
          [Token.endElement "swing", Token.startElement "bogus" [], Token.endElement "bogus",
           Token.endElement "StaffText"], []) := by decide
  refine ⟨⟨by decide, fun _ => rfl⟩, by decide, by decide, ?_⟩
  rintro ⟨x1, e1, l1, l2, _, h1⟩
  rw [hev] at h1
  have h2 := (Prod.mk.inj (Prod.mk.inj (Option.some.inj h1)).2).2
  exact absurd h2.symm (by simp)

/-! ## The cursor only moves forward -/

theorem XmlReader.scanStart_suffix :
    ∀ l : List Token, (XmlReader.scanStart l).2 <:+ l
  | [] => by simp [XmlReader.scanStart]
  | Token.characters _ :: r =>
    List.IsSuffix.trans (XmlReader.scanStart_suffix r) (List.suffix_cons _ _)
  | Token.startElement _ _ :: r => List.suffix_refl _
  | Token.endElement _ :: r => List.suffix_refl _

theorem XmlReader.skipAux_suffix :
    ∀ (l : List Token) (d : Nat), XmlReader.skipAux d l <:+ l
  | [], d => by simp [XmlReader.skipAux]
  | Token.characters _ :: r, d =>
    List.IsSuffix.trans (XmlReader.skipAux_suffix r d) (List.suffix_cons _ _)
  | Token.startElement _ _ :: r, d =>
    List.IsSuffix.trans (XmlReader.skipAux_suffix r (d + 1)) (List.suffix_cons _ _)
  | Token.endElement n :: r, d => by
    simp only [XmlReader.skipAux]
    split
    · exact List.suffix_refl _
    · exact List.IsSuffix.trans (XmlReader.skipAux_suffix r (d - 1)) (List.suffix_cons _ _)

theorem XmlReader.skipCurrentElement_suffix (e : XmlReader) :
    XmlReader.skipCurrentElement e <:+ e :=
  List.IsSuffix.trans (XmlReader.skipAux_suffix e.tail 1) (List.tail_suffix e)

theorem XmlReader.readText_suffix (e : XmlReader) : (XmlReader.readText e).2 <:+ e := by
  unfold XmlReader.readText
  split
  · exact XmlReader.skipCurrentElement_suffix _
  · exact List.suffix_refl _

theorem XmlReader.readInt_suffix (C : Conv) (e : XmlReader) :
    (XmlReader.readInt C e).2 <:+ e := XmlReader.readText_suffix e

theorem XmlReader.readNext_suffix (e : XmlReader) : XmlReader.readNext e <:+ e :=
  List.tail_suffix e

theorem XmlReader.unknown_suffix (e : XmlReader) (log : Log) :
    (XmlReader.unknown e log).1 <:+ e := XmlReader.skipCurrentElement_suffix e

/-! ## Two loops run side by side -/

/-- Two loops over the same tokens whose bodies, on every start tag of a
cursor that satisfies `I`, keep the relation `R` between the loop states and
end on the same cursor, a suffix of the one they started on: for every
iteration bound both loops fail, or both return, on the same cursor and with
related states. -/
theorem XmlReader.whileStart_rel {σ τ : Type}
    (b1 : σ → XmlReader → Option (σ × XmlReader))
    (b2 : τ → XmlReader → Option (τ × XmlReader))
    (R : σ → τ → Prop) (I : XmlReader → Prop)
    (hI : ∀ e e1, I e → e1 <:+ e → I e1)
    (hstep : ∀ s t n a r, R s t → I (Token.startElement n a :: r) →
      ∃ s1 t1 e1, b1 s (Token.startElement n a :: r) = some (s1, e1)
        ∧ b2 t (Token.startElement n a :: r) = some (t1, e1)
        ∧ e1 <:+ Token.startElement n a :: r ∧ R s1 t1) :
    ∀ (fuel : Nat) (s : σ) (t : τ) (e : XmlReader), R s t → I e →
      (XmlReader.whileStart b1 fuel s e = none ∧ XmlReader.whileStart b2 fuel t e = none)
      ∨ ∃ s1 t1 e1, XmlReader.whileStart b1 fuel s e = some (s1, e1)
          ∧ XmlReader.whileStart b2 fuel t e = some (t1, e1) ∧ R s1 t1 := by
  intro fuel
  induction fuel with
  | zero =>
    intro s t e _ _
    exact Or.inl ⟨rfl, rfl⟩
  | succ f ih =>
    intro s t e hR hIe
    have hsuf : (XmlReader.scanStart e.tail).2 <:+ e :=
      List.IsSuffix.trans (XmlReader.scanStart_suffix e.tail) (List.tail_suffix e)
    cases hsc : XmlReader.scanStart e.tail with
    | mk b e1 =>
      rw [hsc] at hsuf
      cases b with
      | false =>
        right
        refine ⟨s, t, e1, ?_, ?_, hR⟩
        · simp [XmlReader.whileStart, XmlReader.readNextStartElement, hsc]
        · simp [XmlReader.whileStart, XmlReader.readNextStartElement, hsc]
      | true =>
        have hstart : ∃ n a r, e1 = Token.startElement n a :: r := by
          have h1 : (XmlReader.scanStart e.tail).1 = true := by rw [hsc]
          have h2 : (XmlReader.scanStart e.tail).2 = e1 := by rw [hsc]
          clear hsc hsuf
          revert h1 h2
          generalize e.tail = l
          induction l with
          | nil => intro h1; simp [XmlReader.scanStart] at h1
          | cons c l ihl =>
            cases c with
            | characters x => intro h1 h2; exact ihl h1 h2
            | startElement n a => intro _ h2; exact ⟨n, a, l, h2.symm⟩
            | endElement n => intro h1; simp [XmlReader.scanStart] at h1
        obtain ⟨n, a, r, he1⟩ := hstart
        subst he1
        have hI1 := hI e _ hIe hsuf
        obtain ⟨s1, t1, e2, h1, h2, hs2, hR2⟩ := hstep s t n a r hR hI1
        have hI2 := hI _ _ hI1 hs2
        simp only [XmlReader.whileStart, XmlReader.readNextStartElement, hsc, h1, h2]
        exact ih s1 t1 e2 hR2 hI2

/-- The side-by-side run for `forEachStartElement`, when the first body makes
progress: both loops return, on the same cursor, with related states. -/
theorem XmlReader.forEachStartElement_rel {σ τ : Type}
    (b1 : σ → XmlReader → Option (σ × XmlReader))
    (b2 : τ → XmlReader → Option (τ × XmlReader)) (hp : XmlReader.Progress b1)
    (R : σ → τ → Prop) (I : XmlReader → Prop)
    (hI : ∀ e e1, I e → e1 <:+ e → I e1)
    (hstep : ∀ s t n a r, R s t → I (Token.startElement n a :: r) →
      ∃ s1 t1 e1, b1 s (Token.startElement n a :: r) = some (s1, e1)
        ∧ b2 t (Token.startElement n a :: r) = some (t1, e1)
        ∧ e1 <:+ Token.startElement n a :: r ∧ R s1 t1)
    (s : σ) (t : τ) (e : XmlReader) (hR : R s t) (hIe : I e) :
    ∃ s1 t1 e1, XmlReader.forEachStartElement b1 s e = some (s1, e1)
      ∧ XmlReader.forEachStartElement b2 t e = some (t1, e1) ∧ R s1 t1 := by
  obtain ⟨s0, e0, _, h0, _⟩ := XmlReader.forEachStartElement_progress b1 hp s e
  rcases XmlReader.whileStart_rel b1 b2 R I hI hstep (e.length + 1) s t e hR hIe with h | h
  · unfold XmlReader.forEachStartElement at h0
    rw [h.1] at h0
    exact absurd h0 (by simp)
  · exact h

namespace TRead

theorem readProperties_suffix (X : Ext) (t : StaffTextBase) (e : XmlReader) :
    (readProperties X t e).2.2 <:+ e := by
  unfold readProperties
  by_cases h1 : XmlReader.name e = "MidiAction"
  · simp only [h1, if_true]; exact XmlReader.readNext_suffix _
  simp only [h1, if_false]
  by_cases h2 : XmlReader.name e = "channelSwitch" ∨ XmlReader.name e = "articulationChange"
  · rw [if_pos h2]
    split_ifs <;> exact XmlReader.readNext_suffix _
  rw [if_neg h2]
  by_cases h3 : XmlReader.name e = "aeolus"
  · rw [if_pos h3]
    split_ifs
    · exact XmlReader.readInt_suffix X.conv e
    · exact XmlReader.readNext_suffix _
  rw [if_neg h3]
  by_cases h4 : XmlReader.name e = "swing"
  · rw [if_pos h4]; exact XmlReader.readNext_suffix _
  rw [if_neg h4]
  by_cases h5 : XmlReader.name e = "capo"
  · rw [if_pos h5]; exact XmlReader.readNext_suffix _
  rw [if_neg h5]
  unfold TextBaseRW.readProperties
  cases X.textBaseReadProperties t.toTextBase (XmlReader.name e) (XmlReader.attributes e)
      (XmlReader.body e) with
  | none => exact List.suffix_refl _
  | some t1 => exact XmlReader.skipCurrentElement_suffix _

/-- The body of the staff-text loop always returns, on a suffix of the cursor
it was started on. -/
theorem readStaffTextBaseBody_suffix (X : Ext) (s : StaffTextBase × Log) (e : XmlReader) :
    ∃ s1 e1, readStaffTextBaseBody X s e = some (s1, e1) ∧ e1 <:+ e := by
  unfold readStaffTextBaseBody
  split_ifs
  · exact ⟨_, _, rfl, readProperties_suffix X s.1 e⟩
  · exact ⟨_, _, rfl,
      List.IsSuffix.trans (XmlReader.unknown_suffix _ _) (readProperties_suffix X s.1 e)⟩

/-- On a tag that is not the tag of the technique type, the body of the
playing-technique loop is the body of the staff-text loop on the staff-text
part of the entity. -/
theorem readPlayTechBody_eq_staffText (X : Ext) (s : PlayTechAnnotation × Log) (e : XmlReader)
    (hne : XmlReader.name e ≠ X.propertyName Pid.PLAY_TECH_TYPE) :
    readPlayTechBody X s e
      = (readStaffTextBaseBody X (s.1.toStaffTextBase, s.2) e).map
          (fun r => (({ s.1 with toStaffTextBase := r.1.1 }, r.1.2), r.2)) := by
  unfold readPlayTechBody readStaffTextBaseBody PropertyRW.readPropertyTag
  rw [if_neg hne]
  simp only
  split_ifs <;> rfl

end TRead

/-- C22: the reader of a tempo marking synthesizes text only when needed. The
tag loop of `TRead::read(TempoText)` returns on every token sequence; when the
display text is not empty after the loop, the sanity step after the loop
changes nothing: the reader returns the entity as the loop left it, so the
display text and the visibility are those after the loop (an entity that is
visible after the loop is visible after the read). -/
theorem C22_tempo_sanity_keeps_text {R : Type} (T : TempoConv R) (X : Ext) (t : TempoText R)
    (e : XmlReader) (log : Log) :
    ∃ t1 e1 log1,
      XmlReader.forEachStartElement (TRead.readTempoTextBody T X) (t, log) e
        = some ((t1, log1), e1)
      ∧ (t1.xmlText.isEmpty = false →
          (TRead.tempoSanity T t1).xmlText = t1.xmlText
          ∧ (TRead.tempoSanity T t1).visible = t1.visible
          ∧ TRead.readTempoText T X t e log = some (t1, e1, log1)) := by
  obtain ⟨⟨t1, log1⟩, e1, _, h, _⟩ := XmlReader.forEachStartElement_progress
    (TRead.readTempoTextBody T X) (TRead.readTempoTextBody_progress T X) (t, log) e
  refine ⟨t1, e1, log1, h, ?_⟩
  intro hne
  have hs : TRead.tempoSanity T t1 = t1 := by
    unfold TRead.tempoSanity
    rw [hne]
    rfl
  refine ⟨by rw [hs], by rw [hs], ?_⟩
  unfold TRead.readTempoText
  rw [h]
  simp only [hs]

/-- A tempo marking with the authored text `Allegro`, read from an element
with a tempo tag only: the text is kept and the entity stays visible. -/
theorem C22_tempo_sanity_keeps_text_witness :
    ∃ t1 e1 log1,
      XmlReader.forEachStartElement (TRead.readTempoTextBody exampleTempoConv exampleExt)
          ({ emptyTempoText with xmlText := "Allegro" }, []) tempoWithoutText.toks
        = some ((t1, log1), e1)
      ∧ t1.xmlText.isEmpty = false
      ∧ TRead.readTempoText exampleTempoConv exampleExt
          { emptyTempoText with xmlText := "Allegro" } tempoWithoutText.toks []
        = some (t1, e1, log1)
      ∧ t1.xmlText = "Allegro" ∧ t1.visible = true := by
  obtain ⟨t1, e1, log1, h, himp⟩ := C22_tempo_sanity_keeps_text exampleTempoConv exampleExt
    { emptyTempoText with xmlText := "Allegro" } tempoWithoutText.toks []
  have hev : XmlReader.forEachStartElement (TRead.readTempoTextBody exampleTempoConv exampleExt)
      ({ emptyTempoText with xmlText := "Allegro" }, []) tempoWithoutText.toks
      = some (({ emptyTempoText with xmlText := "Allegro", tempo := 2 }, []),
          [Token.endElement "Tempo"]) := by decide
  rw [hev] at h
  have h1 := Option.some.inj h
  have ht : t1 = { emptyTempoText with xmlText := "Allegro", tempo := 2 } :=
    ((Prod.mk.inj (Prod.mk.inj h1).1).1).symm
  have hne : t1.xmlText.isEmpty = false := by rw [ht]; decide
  refine ⟨t1, e1, log1, ?_, hne, (himp hne).2.2, ?_, ?_⟩
  · rw [hev, h1]
  · rw [ht]
  · rw [ht]; rfl

/-- C23: the reader of the playing-technique text agrees with
`TRead::read(StaffTextBase)` on the staff-text vocabulary. For every token
sequence with no start tag of the technique type (the tag of the property
PLAY_TECH_TYPE) and every entity whose staff-text part is in the cleared state
(`clear` leaves it as it is): the staff-text reader returns, and the
playing-technique reader returns with the same staff-text state (text state,
channel actions, channel names, aeolus stops, swing, capo), on the same
token and with the same diagnostics; its keyed properties are untouched. -/
theorem C23_play_tech_agrees_with_staff_text (V : Env) (a : PlayTechAnnotation)
    (e : XmlReader) (log : Log)
    (htag : XmlReader.hasStartTag (V.propertyName Pid.PLAY_TECH_TYPE) e = false)
    (hclear : V.clear a.toStaffTextBase = a.toStaffTextBase) :
    ∃ t1 e1 log1,
      TRead.readStaffTextBase V a.toStaffTextBase e log = some (t1, e1, log1)
      ∧ TRead.readPlayTech V.toExt a e log
          = some ({ a with toStaffTextBase := t1 }, e1, log1) := by
  obtain ⟨s1, t1, e1, h1, h2, hR⟩ := XmlReader.forEachStartElement_rel
    (TRead.readPlayTechBody V.toExt) (TRead.readStaffTextBaseBody V.toExt)
    (TRead.readPlayTechBody_progress V.toExt)
    (fun s t => s.1.toStaffTextBase = t.1 ∧ s.2 = t.2 ∧ s.1.properties = a.properties)
    (fun c => XmlReader.hasStartTag (V.propertyName Pid.PLAY_TECH_TYPE) c = false)
    (by
      intro c c1 hc hsuf
      unfold XmlReader.hasStartTag at hc ⊢
      rw [List.any_eq_false] at hc ⊢
      intro x hx
      exact hc x (hsuf.subset hx))
    (by
      intro s t n ats r hR hI
      have hne : XmlReader.name (Token.startElement n ats :: r)
          ≠ V.propertyName Pid.PLAY_TECH_TYPE := by
        intro hn
        simp only [XmlReader.name] at hn
        unfold XmlReader.hasStartTag at hI
        rw [List.any_eq_false] at hI
        have h0 := hI (Token.startElement n ats) (List.mem_cons_self _ _)
        simp only [hn, decide_True, not_true_eq_false] at h0
      obtain ⟨r1, c1, hb, hsuf⟩ := TRead.readStaffTextBaseBody_suffix V.toExt
        (s.1.toStaffTextBase, s.2) (Token.startElement n ats :: r)
      have ht : t = (s.1.toStaffTextBase, s.2) := Prod.ext hR.1.symm hR.2.1.symm
      refine ⟨(({ s.1 with toStaffTextBase := r1.1 }, r1.2)), r1, c1, ?_, ?_, hsuf, rfl, rfl,
        hR.2.2⟩
      · rw [TRead.readPlayTechBody_eq_staffText V.toExt s _ hne, hb]
        rfl
      · rw [ht, hb])
    (a, log) (a.toStaffTextBase, log) e ⟨rfl, rfl, rfl⟩ htag
  obtain ⟨hs, hl, hp⟩ := hR
  refine ⟨t1.1, e1, t1.2, ?_, ?_⟩
  · unfold TRead.readStaffTextBase
    rw [hclear, h2]
  · unfold TRead.readPlayTech
    rw [h1]
    obtain ⟨a1, l1⟩ := s1
    simp only at hs hl hp
    simp only
    rw [← hs, ← hl]
    cases a1
    simp only at hp
    rw [hp]

/-- The two readers on an element with a MidiAction tag, an unknown tag with
a body and a capo tag: the same staff-text state and the same one
diagnostic. -/
theorem C23_play_tech_agrees_with_staff_text_witness :
    XmlReader.hasStartTag (exampleEnv.propertyName Pid.PLAY_TECH_TYPE) playTechStaffTags.toks
      = false
    ∧ exampleEnv.clear emptyPlayTech.toStaffTextBase = emptyPlayTech.toStaffTextBase
    ∧ TRead.readStaffTextBase exampleEnv emptyPlayTech.toStaffTextBase playTechStaffTags.toks []
        = some ({ emptyStaffText with channelActions := [⟨1, ["mute"]⟩], capo := 2 },
            [Token.endElement "PlayTechAnnotation"], [Diag.unknownElement "bogus"])
    ∧ ∃ t1 e1 log1,
        TRead.readStaffTextBase exampleEnv emptyPlayTech.toStaffTextBase
            playTechStaffTags.toks [] = some (t1, e1, log1)
        ∧ TRead.readPlayTech exampleEnv.toExt emptyPlayTech playTechStaffTags.toks []
            = some ({ emptyPlayTech with toStaffTextBase := t1 }, e1, log1) :=
  ⟨by decide, by decide, by decide,
    C23_play_tech_agrees_with_staff_text exampleEnv emptyPlayTech playTechStaffTags.toks []
      (by decide) (by decide)⟩

namespace TRead

/-- One call of `readProperties` on two entities with the same settings: the
settings after the call are the same, the Channel Action Lists are the same
when they were before, and the loop body ends on the same token. -/
theorem readProperties_settings (X : Ext) (t u : StaffTextBase) (e : XmlReader)
    (h : t.settings = u.settings) :
    (readProperties X t e).2.1.settings = (readProperties X u e).2.1.settings
    ∧ (t.channelActions = u.channelActions →
        (readProperties X t e).2.1.channelActions = (readProperties X u e).2.1.channelActions)
    ∧ (if (readProperties X t e).1 then (readProperties X t e).2.2
        else (readProperties X t e).2.2.skipCurrentElement)
      = (if (readProperties X u e).1 then (readProperties X u e).2.2
        else (readProperties X u e).2.2.skipCurrentElement) := by
  simp only [StaffTextBase.settings, Prod.mk.injEq] at h
  obtain ⟨g1, g2, g3, g4, g5, g6, g7⟩ := h
  by_cases h1 : XmlReader.name e = "MidiAction"
  · have key : ∀ v : StaffTextBase, readProperties X v e
        = (true,
            { v with
              channelActions := midiAction (e.intAttribute X.conv "channel" 0) (e.attr "name")
                v.channelActions },
            e.readNext) := by
      intro v
      unfold readProperties
      simp only [h1, if_true]
    rw [key t, key u]
    refine ⟨?_, ?_, rfl⟩
    · simp only [StaffTextBase.settings, g1, g2, g3, g4, g5, g6, g7]
    · intro hc
      simp only [hc]
  by_cases h2 : XmlReader.name e = "channelSwitch" ∨ XmlReader.name e = "articulationChange"
  · by_cases hv : toVoiceIdx (e.intAttribute X.conv "voice" (-1)) < X.VOICES
    · have key : ∀ v : StaffTextBase, readProperties X v e
          = (true, v.setChannelName (toVoiceIdx (e.intAttribute X.conv "voice" (-1)))
              (e.attr "name"), e.readNext) := by
        intro v
        unfold readProperties
        simp only [h1, if_false]
        rw [if_pos h2, if_pos hv]
      rw [key t, key u]
      refine ⟨?_, ?_, rfl⟩
      · simp only [StaffTextBase.settings, StaffTextBase.setChannelName, g1, g2, g3, g4, g5,
          g6, g7]
      · intro hc
        simp only [StaffTextBase.setChannelName, hc]
    by_cases hn : toVoiceIdx (e.intAttribute X.conv "voice" (-1)) = nidx
    · have key : ∀ v : StaffTextBase, readProperties X v e
          = (true,
              { v with
                channelNames := (List.range X.VOICES).foldl
                  (fun (l1 : List String) i => l1.set i (e.attr "name")) v.channelNames },
              e.readNext) := by
        intro v
        unfold readProperties
        simp only [h1, if_false]
        rw [if_pos h2, if_neg hv, if_pos hn, foldl_setChannelName]
      rw [key t, key u]
      refine ⟨?_, ?_, rfl⟩
      · simp only [StaffTextBase.settings, g1, g2, g3, g4, g5, g6, g7]
      · intro hc
        simp only [hc]
    · have key : ∀ v : StaffTextBase, readProperties X v e = (true, v, e.readNext) := by
        intro v
        unfold readProperties
        simp only [h1, if_false]
        rw [if_pos h2, if_neg hv, if_neg hn]
      rw [key t, key u]
      refine ⟨?_, ?_, rfl⟩
      · simp only [StaffTextBase.settings, g1, g2, g3, g4, g5, g6, g7]
      · intro hc
        exact hc
  by_cases h3 : XmlReader.name e = "aeolus"
  · by_cases hg : e.intAttribute X.conv "group" (-1) ≥ 0 ∧ e.intAttribute X.conv "group" (-1) < 4
    · have key : ∀ v : StaffTextBase, readProperties X v e
          = (true, { v.setAeolusStop (e.intAttribute X.conv "group" (-1)) (e.readInt X.conv).1
              with setAeolusStops := true }, (e.readInt X.conv).2) := by
        intro v
        unfold readProperties
        simp only [h1, if_false]
        rw [if_neg h2, if_pos h3, if_pos hg]
      rw [key t, key u]
      refine ⟨?_, ?_, rfl⟩
      · simp only [StaffTextBase.settings, StaffTextBase.setAeolusStop, g1, g2, g4, g5, g6, g7]
      · intro hc
        simp only [StaffTextBase.setAeolusStop, hc]
    · have key : ∀ v : StaffTextBase, readProperties X v e
          = (true, { v with setAeolusStops := true }, e.readNext) := by
        intro v
        unfold readProperties
        simp only [h1, if_false]
        rw [if_neg h2, if_pos h3, if_neg hg]
      rw [key t, key u]
      refine ⟨?_, ?_, rfl⟩
      · simp only [StaffTextBase.settings, g1, g2, g4, g5, g6, g7]
      · intro hc
        exact hc
  by_cases h4 : XmlReader.name e = "swing"
  · have key : ∀ w : StaffTextBase, readProperties X w e
        = (true,
            { w with
              swing := true,
              swingUnit :=
                (if X.durationTypeFromXml (e.attr "unit") = DurationType.V_EIGHTH then
                  Int.tdiv X.division 2
                else if X.durationTypeFromXml (e.attr "unit") = DurationType.V_16TH then
                  Int.tdiv X.division 4
                else if X.durationTypeFromXml (e.attr "unit") = DurationType.V_ZERO then 0
                else 0),
              swingRatio := e.intAttribute X.conv "ratio" 60 },
            e.readNext) := by
      intro w
      unfold readProperties
      simp only [h1, if_false]
      rw [if_neg h2, if_neg h3, if_pos h4]
    rw [key t, key u]
    refine ⟨?_, ?_, rfl⟩
    · simp only [StaffTextBase.settings, g1, g2, g3, g7]
    · intro hc
      exact hc
  by_cases h5 : XmlReader.name e = "capo"
  · have key : ∀ v : StaffTextBase, readProperties X v e
        = (true, { v with capo := e.intAttribute X.conv "fretId" 0 }, e.readNext) := by
      intro v
      unfold readProperties
      simp only [h1, if_false]
      rw [if_neg h2, if_neg h3, if_neg h4, if_pos h5]
    rw [key t, key u]
    refine ⟨?_, ?_, rfl⟩
    · simp only [StaffTextBase.settings, g1, g2, g3, g4, g5, g6]
    · intro hc
      exact hc
  have key : ∀ v : StaffTextBase, readProperties X v e
      = match TextBaseRW.readProperties X v.toTextBase e with
        | none => (false, v, e)
        | some (tb, e1) => (true, { v with toTextBase := tb }, e1) := by
    intro v
    unfold readProperties
    simp only [h1, if_false]
    rw [if_neg h2, if_neg h3, if_neg h4, if_neg h5]
  rw [key t, key u]
  unfold TextBaseRW.readProperties
  cases X.textBaseReadProperties t.toTextBase (XmlReader.name e) (XmlReader.attributes e)
      (XmlReader.body e) with
  | none =>
    cases X.textBaseReadProperties u.toTextBase (XmlReader.name e) (XmlReader.attributes e)
        (XmlReader.body e) with
    | none =>
      refine ⟨?_, fun hc => hc, rfl⟩
      simp only [StaffTextBase.settings, g1, g2, g3, g4, g5, g6, g7]
    | some u1 =>
      refine ⟨?_, fun hc => hc, ?_⟩
      · simp only [StaffTextBase.settings, g1, g2, g3, g4, g5, g6, g7]
      · simp
  | some t1 =>
    cases X.textBaseReadProperties u.toTextBase (XmlReader.name e) (XmlReader.attributes e)
        (XmlReader.body e) with
    | none =>
      refine ⟨?_, fun hc => hc, ?_⟩
      · simp only [StaffTextBase.settings, g1, g2, g3, g4, g5, g6, g7]
      · simp
    | some u1 =>
      refine ⟨?_, fun hc => hc, rfl⟩
      simp only [StaffTextBase.settings, g1, g2, g3, g4, g5, g6, g7]

/-- The result of the body of the staff-text loop: the entity that
`readProperties` leaves, and the token on which the body ends. -/
theorem readStaffTextBaseBody_result (X : Ext) (s : StaffTextBase × Log) (e : XmlReader) :
    ∃ l, readStaffTextBaseBody X s e
      = some (((readProperties X s.1 e).2.1, l),
          if (readProperties X s.1 e).1 then (readProperties X s.1 e).2.2
          else (readProperties X s.1 e).2.2.skipCurrentElement) := by
  unfold readStaffTextBaseBody
  by_cases h : (readProperties X s.1 e).1 = true
  · rw [if_pos h, if_pos h]
    exact ⟨_, rfl⟩
  · rw [if_neg h, if_neg h]
    exact ⟨_, rfl⟩

/-- The staff-text loop on two entities with the same settings (`ca` says
whether the Channel Action Lists are to agree as well): both loops return, on
the same token, with the same settings. -/
theorem readStaffTextBase_loop_settings (X : Ext) (ca : Bool) (t u : StaffTextBase)
    (log logu : Log) (e : XmlReader) (h : t.settings = u.settings)
    (hc : ca = true → t.channelActions = u.channelActions) :
    ∃ t1 u1 e1 l1 l2,
      XmlReader.forEachStartElement (readStaffTextBaseBody X) (t, log) e = some ((t1, l1), e1)
      ∧ XmlReader.forEachStartElement (readStaffTextBaseBody X) (u, logu) e
          = some ((u1, l2), e1)
      ∧ t1.settings = u1.settings
      ∧ (ca = true → t1.channelActions = u1.channelActions) := by
  obtain ⟨s1, s2, e1, h1, h2, hR⟩ := XmlReader.forEachStartElement_rel
    (readStaffTextBaseBody X) (readStaffTextBaseBody X) (readStaffTextBaseBody_progress X)
    (fun s r => s.1.settings = r.1.settings ∧ (ca = true → s.1.channelActions = r.1.channelActions))
    (fun _ => True) (fun _ _ _ _ => trivial)
    (by
      intro s r n a rest hR _
      obtain ⟨hs, hca⟩ := hR
      obtain ⟨k1, k2, k3⟩ := readProperties_settings X s.1 r.1
        (Token.startElement n a :: rest) hs
      obtain ⟨l1, b1⟩ := readStaffTextBaseBody_result X s (Token.startElement n a :: rest)
      obtain ⟨l2, b2⟩ := readStaffTextBaseBody_result X r (Token.startElement n a :: rest)
      obtain ⟨s0, e0, b0, hsuf⟩ := readStaffTextBaseBody_suffix X s
        (Token.startElement n a :: rest)
      rw [b1] at b0
      have he0 := (Prod.mk.inj (Option.some.inj b0)).2
      rw [← he0] at hsuf
      refine ⟨_, ((readProperties X r.1 (Token.startElement n a :: rest)).2.1, l2), _, b1, ?_,
        hsuf, k1, fun hb => k2 (hca hb)⟩
      rw [b2, k3])
    (t, log) (u, logu) e ⟨h, hc⟩ trivial
  exact ⟨s1.1, s2.1, e1, s1.2, s2.2, h1, h2, hR.1, hR.2⟩

end TRead

theorem StaffTextBase.clear_settings (fresh t u : StaffTextBase) :
    (StaffTextBase.clear fresh t).settings = (StaffTextBase.clear fresh u).settings := rfl

/-- C21 (spec-modelled `clear`): `TRead::read(StaffTextBase)` clears the
target before any tag is processed, so a re-read replaces. With the `clear`
of the spec, which resets the settings (per-voice channel names, aeolus stops
and flag, swing parameters, capo) and keeps the Channel Action List: for
every token sequence and any two targets `t` and `u`, both reads return, on
the same token, with the same settings; the Channel Action Lists after the
reads are the same when they were the same before; and a second read of the
same tokens onto the result of the first leaves the settings as the single
read onto the other target `u` (any fresh target) does. -/
theorem C21_read_clears_first (V : Env) (fresh : StaffTextBase)
    (hclear : ∀ t, V.clear t = StaffTextBase.clear fresh t)
    (e : XmlReader) (t u : StaffTextBase) (log logu : Log) :
    ∃ t1 u1 e1 l1 l2,
      TRead.readStaffTextBase V t e log = some (t1, e1, l1)
      ∧ TRead.readStaffTextBase V u e logu = some (u1, e1, l2)
      ∧ t1.settings = u1.settings
      ∧ (t.channelActions = u.channelActions → t1.channelActions = u1.channelActions)
      ∧ ∃ t2 l3, TRead.readStaffTextBase V t1 e l1 = some (t2, e1, l3)
          ∧ t2.settings = u1.settings := by
  obtain ⟨t1, u1, e1, l1, l2, h1, h2, hs, _⟩ := TRead.readStaffTextBase_loop_settings V.toExt
    false (StaffTextBase.clear fresh t) (StaffTextBase.clear fresh u) log logu e rfl
    (fun hf => absurd hf (by decide))
  have hca : t.channelActions = u.channelActions → t1.channelActions = u1.channelActions := by
    intro hc
    obtain ⟨t1a, u1a, e1a, l1a, l2a, h1a, h2a, _, hcaa⟩ :=
      TRead.readStaffTextBase_loop_settings V.toExt true (StaffTextBase.clear fresh t)
        (StaffTextBase.clear fresh u) log logu e rfl (fun _ => hc)
    rw [h1] at h1a
    rw [h2] at h2a
    have ht := (Prod.mk.inj (Prod.mk.inj (Option.some.inj h1a)).1).1
    have hu := (Prod.mk.inj (Prod.mk.inj (Option.some.inj h2a)).1).1
    rw [ht, hu]
    exact hcaa rfl
  obtain ⟨t2, u2, e2, l3, l4, h3, h4, hs2, _⟩ := TRead.readStaffTextBase_loop_settings V.toExt
    false (StaffTextBase.clear fresh t1) (StaffTextBase.clear fresh u) l1 logu e rfl
    (fun hf => absurd hf (by decide))
  rw [h2] at h4
  have hu2 := (Prod.mk.inj (Prod.mk.inj (Option.some.inj h4)).1).1
  have he2 := (Prod.mk.inj (Option.some.inj h4)).2
  refine ⟨t1, u1, e1, l1, l2, ?_, ?_, hs, hca, t2, l3, ?_, ?_⟩
  · unfold TRead.readStaffTextBase
    rw [hclear, h1]
  · unfold TRead.readStaffTextBase
    rw [hclear, h2]
  · unfold TRead.readStaffTextBase
    rw [hclear, h3, he2]
  · rw [hs2, hu2]

/-- The read of a MidiAction tag and a capo tag onto a target with settings
and a channel action from an earlier read, and onto a cleared target, with
the `clear` of the spec: the settings after both reads are the same (capo 2,
all else cleared), and only the Channel Action List of the first target keeps
its earlier entry. -/
theorem C21_read_clears_first_witness :
    (∀ t, exampleEnvClearAll.clear t = StaffTextBase.clear emptyStaffText t)
    ∧ TRead.readStaffTextBase exampleEnvClearAll staffTextUsed staffTextActionCapo.toks []
        = some ({ emptyStaffText with channelActions := [⟨1, ["mute", "solo"]⟩], capo := 2 },
            [Token.endElement "StaffText"], [])
    ∧ TRead.readStaffTextBase exampleEnvClearAll emptyStaffText staffTextActionCapo.toks []
        = some ({ emptyStaffText with channelActions := [⟨1, ["solo"]⟩], capo := 2 },
            [Token.endElement "StaffText"], [])
    ∧ ∃ t1 u1 e1 l1 l2,
        TRead.readStaffTextBase exampleEnvClearAll staffTextUsed staffTextActionCapo.toks []
          = some (t1, e1, l1)
        ∧ TRead.readStaffTextBase exampleEnvClearAll emptyStaffText staffTextActionCapo.toks []
          = some (u1, e1, l2)
        ∧ t1.settings = u1.settings
        ∧ (staffTextUsed.channelActions = emptyStaffText.channelActions →
            t1.channelActions = u1.channelActions)
        ∧ ∃ t2 l3,
            TRead.readStaffTextBase exampleEnvClearAll t1 staffTextActionCapo.toks l1
              = some (t2, e1, l3)
            ∧ t2.settings = u1.settings :=
  ⟨fun _ => rfl, by decide, by decide,
    C21_read_clears_first exampleEnvClearAll emptyStaffText (fun _ => rfl)
      staffTextActionCapo.toks staffTextUsed emptyStaffText [] []⟩

/-- The hypothesis on `clear` is needed: with a `clear` that resets the
channel names and the stops only (the one of `exampleEnv`), the swing
parameters, the flag of the stops and the capo of the target carry over into
the result of the read. -/
theorem readStaffTextBase_partial_clear_carries_over :
    TRead.readStaffTextBase exampleEnv staffTextUsed
        (Node.elem "StaffText" [] []).toks []
      = some ({ staffTextUsed with
            channelNames := ["", "", "", ""], aeolusStops := [0, 0, 0, 0] },
          [Token.endElement "StaffText"], [])
    ∧ TRead.readStaffTextBase exampleEnv emptyStaffText
        (Node.elem "StaffText" [] []).toks []
      = some (emptyStaffText, [Token.endElement "StaffText"], []) := by
  constructor <;> decide

namespace InspectorListModel

theorem isModelAlreadyExists_iff (l : List AbstractInspectorModel) (t : InspectorSectionType) :
    isModelAlreadyExists l t = true ↔ t ∈ l.map (fun m => m.sectionType) := by
  induction l with
  | nil => simp [isModelAlreadyExists]
  | cons m ms ih =>
    unfold isModelAlreadyExists
    by_cases h : m.sectionType = t
    · simp [h]
    · rw [if_neg h, ih]
      simp only [List.map_cons, List.mem_cons]
      constructor
      · intro hm; exact Or.inr hm
      · intro hm
        rcases hm with hm | hm
        · exact absurd hm.symm h
        · exact hm

/-- One turn of the loop: the list grows by at most one model at its end; a
model that is added has the section type of the turn, which is not
SECTION_UNDEFINED and which no model of the list had; and after the turn a
section type with a model class has a model. -/
theorem createModel_list (M : InspectorListModel) (t : InspectorSectionType) :
    ∃ added, (createModel M t).m_modelList = M.m_modelList ++ added
      ∧ (added = [] ∨ ∃ m, added = [m] ∧ m.sectionType = t
          ∧ t ≠ InspectorSectionType.SECTION_UNDEFINED
          ∧ t ∉ M.m_modelList.map (fun m => m.sectionType))
      ∧ (t ∈ modelSectionTypes →
          t ∈ (createModel M t).m_modelList.map (fun m => m.sectionType)) := by
  unfold createModel
  by_cases h1 : t = InspectorSectionType.SECTION_UNDEFINED
  · rw [if_pos h1]
    refine ⟨[], by simp, Or.inl rfl, ?_⟩
    intro hm
    subst h1
    exact absurd hm (by decide)
  rw [if_neg h1]
  by_cases h2 : isModelAlreadyExists M.m_modelList t = true
  · rw [if_pos h2]
    exact ⟨[], by simp, Or.inl rfl, fun _ => (isModelAlreadyExists_iff _ _).1 h2⟩
  rw [if_neg h2]
  have h3 : t ∉ M.m_modelList.map (fun m => m.sectionType) :=
    fun hm => h2 ((isModelAlreadyExists_iff _ _).2 hm)
  cases t with
  | SECTION_UNDEFINED => exact absurd rfl h1
  | SECTION_GENERAL =>
    exact ⟨[_], rfl, Or.inr ⟨_, rfl, rfl, h1, h3⟩, fun _ => by simp [newModel]⟩
  | SECTION_TEXT =>
    exact ⟨[_], rfl, Or.inr ⟨_, rfl, rfl, h1, h3⟩, fun _ => by simp [newModel]⟩
  | SECTION_NOTATION =>
    exact ⟨[_], rfl, Or.inr ⟨_, rfl, rfl, h1, h3⟩, fun _ => by simp [newModel]⟩
  | SECTION_SCORE_DISPLAY =>
    exact ⟨[_], rfl, Or.inr ⟨_, rfl, rfl, h1, h3⟩, fun _ => by simp [newModel]⟩
  | SECTION_SCORE_APPEARANCE =>
    exact ⟨[_], rfl, Or.inr ⟨_, rfl, rfl, h1, h3⟩, fun _ => by simp [newModel]⟩
  | other n =>
    refine ⟨[], by simp, Or.inl rfl, ?_⟩
    intro hm
    simp [modelSectionTypes] at hm

/-- The loop: the list grows at its end, by models whose section types are
not SECTION_UNDEFINED; it stays free of two models with one section type; and
every section type of the request that has a model class has a model after
the loop. -/
theorem createModelsBySectionType_list (types : List InspectorSectionType) :
    ∀ M : InspectorListModel, (M.m_modelList.map (fun m => m.sectionType)).Nodup →
      ((createModelsBySectionType M types).m_modelList.map (fun m => m.sectionType)).Nodup
      ∧ (∃ added, (createModelsBySectionType M types).m_modelList = M.m_modelList ++ added
          ∧ ∀ m ∈ added, m.sectionType ≠ InspectorSectionType.SECTION_UNDEFINED)
      ∧ ∀ t ∈ types, t ∈ modelSectionTypes →
          t ∈ (createModelsBySectionType M types).m_modelList.map (fun m => m.sectionType) := by
  induction types with
  | nil =>
    intro M h
    exact ⟨h, ⟨[], by simp [createModelsBySectionType], by simp⟩, by simp⟩
  | cons t ts ih =>
    intro M h
    obtain ⟨added, hl, hadd, hin⟩ := createModel_list M t
    have hnd : ((createModel M t).m_modelList.map (fun m => m.sectionType)).Nodup := by
      rw [hl]
      rcases hadd with hadd | ⟨m, hadd, hm, _, hnot⟩
      · rw [hadd, List.append_nil]; exact h
      · rw [hadd, List.map_append, List.map_cons, List.map_nil, hm]
        exact List.Nodup.append h (List.nodup_singleton t)
          (by
            intro x hx1 hx2
            rw [List.mem_singleton] at hx2
            subst hx2
            exact hnot hx1)
    obtain ⟨r1, ⟨added2, hl2, hadd2⟩, r3⟩ := ih (createModel M t) hnd
    have hfold : createModelsBySectionType M (t :: ts)
        = createModelsBySectionType (createModel M t) ts := rfl
    rw [hfold]
    refine ⟨r1, ⟨added ++ added2, ?_, ?_⟩, ?_⟩
    · rw [hl2, hl, List.append_assoc]
    · intro m hm
      rcases List.mem_append.1 hm with hm | hm
      · rcases hadd with hadd | ⟨m0, hadd, hm0, hne, _⟩
        · rw [hadd] at hm; exact absurd hm (List.not_mem_nil _)
        · rw [hadd, List.mem_singleton] at hm
          rw [hm, hm0]; exact hne
      · exact hadd2 m hm
    · intro x hx hx5
      rcases List.mem_cons.1 hx with hx | hx
      · subst hx
        have h0 := hin hx5
        rw [hl2, List.map_append]
        exact List.mem_append_left _ h0
      · exact r3 x hx hx5

end InspectorListModel

/-- C24: `createModelsBySectionType` keeps the model list free of duplicates.
When no two models of the list have the same section type before the call,
then for every list of section types (with repeats, with SECTION_UNDEFINED,
with section types that have no model class): after the call no two models
have the same section type; the list after is the list before with models
added at its end, so every model is still at its position; no added model
has the section type SECTION_UNDEFINED; and each requested section type among
GENERAL, TEXT, NOTATION, SCORE_DISPLAY and SCORE_APPEARANCE is the section
type of exactly one model. -/
theorem C24_models_without_duplicates (M : InspectorListModel)
    (sectionTypeList : List InspectorSectionType)
    (h : (M.m_modelList.map (fun m => m.sectionType)).Nodup) :
    ((M.createModelsBySectionType sectionTypeList).m_modelList.map
        (fun m => m.sectionType)).Nodup
    ∧ (∃ added,
        (M.createModelsBySectionType sectionTypeList).m_modelList = M.m_modelList ++ added
        ∧ ∀ m ∈ added, m.sectionType ≠ InspectorSectionType.SECTION_UNDEFINED)
    ∧ ∀ t ∈ sectionTypeList, t ∈ modelSectionTypes →
        ((M.createModelsBySectionType sectionTypeList).m_modelList.map
          (fun m => m.sectionType)).count t = 1 := by
  obtain ⟨r1, r2, r3⟩ := InspectorListModel.createModelsBySectionType_list sectionTypeList M h
  exact ⟨r1, r2, fun t ht ht5 => List.count_eq_one_of_mem r1 (r3 t ht ht5)⟩

/-- An inspector with a text model and a general model, asked for GENERAL
twice, SECTION_UNDEFINED, a section type with no model class, and NOTATION:
the one notation model is added at the end. -/
theorem C24_models_without_duplicates_witness :
    (inspectorTextGeneral.m_modelList.map (fun m => m.sectionType)).Nodup
    ∧ (inspectorTextGeneral.createModelsBySectionType
        [InspectorSectionType.SECTION_GENERAL, InspectorSectionType.SECTION_UNDEFINED,
         InspectorSectionType.other 7, InspectorSectionType.SECTION_NOTATION,
         InspectorSectionType.SECTION_GENERAL]).m_modelList
      = inspectorTextGeneral.m_modelList ++ [⟨3, InspectorSectionType.SECTION_NOTATION⟩]
    ∧ ((inspectorTextGeneral.createModelsBySectionType
        [InspectorSectionType.SECTION_GENERAL, InspectorSectionType.SECTION_UNDEFINED,
         InspectorSectionType.other 7, InspectorSectionType.SECTION_NOTATION,
         InspectorSectionType.SECTION_GENERAL]).m_modelList.map
          (fun m => m.sectionType)).count InspectorSectionType.SECTION_GENERAL = 1 :=
  ⟨by decide, by decide,
    (C24_models_without_duplicates inspectorTextGeneral
      [InspectorSectionType.SECTION_GENERAL, InspectorSectionType.SECTION_UNDEFINED,
       InspectorSectionType.other 7, InspectorSectionType.SECTION_NOTATION,
       InspectorSectionType.SECTION_GENERAL] (by decide)).2.2
      InspectorSectionType.SECTION_GENERAL (by decide) (by decide)⟩

namespace InspectorListModel

/-- No row is moved when the list is the sorted list. -/
theorem moveSignals_self (s : List AbstractInspectorModel) :
    ∀ (l : List AbstractInspectorModel) (i : Nat), moveSignals s i l l = []
  | [], _ => rfl
  | m :: ms, i => by
    unfold moveSignals
    rw [if_neg (by simp)]
    exact moveSignals_self s ms (i + 1)

theorem sortModelsFrom_self (M : InspectorListModel) : M.sortModelsFrom M.m_modelList = M := by
  unfold sortModelsFrom
  simp only [moveSignals_self, List.append_nil, if_true]

/-- The sort by insertion is one of the results that `std::sort` may leave. -/
theorem stdSort_insertionSort (v : InspectorSectionType → Int)
    (l : List AbstractInspectorModel) :
    StdSort (sortModelsLess v) l
      (l.insertionSort (fun a b => v a.sectionType ≤ v b.sectionType)) := by
  haveI : IsTotal AbstractInspectorModel (fun a b => v a.sectionType ≤ v b.sectionType) :=
    ⟨fun a b => le_total _ _⟩
  haveI : IsTrans AbstractInspectorModel (fun a b => v a.sectionType ≤ v b.sectionType) :=
    ⟨fun a b c h1 h2 => le_trans h1 h2⟩
  refine ⟨List.perm_insertionSort _ l, ?_⟩
  have hs := List.sorted_insertionSort (fun a b => v a.sectionType ≤ v b.sectionType) l
  refine List.Pairwise.imp ?_ hs
  intro a b hab
  simp only [sortModelsLess, decide_eq_false_iff_not, not_lt]
  exact hab

/-- A rearrangement that is in non-decreasing order of a list that is in
increasing order is that list. -/
theorem eq_of_stdSort_of_increasing (v : InspectorSectionType → Int)
    (l sorted : List AbstractInspectorModel) (hs : StdSort (sortModelsLess v) l sorted)
    (hl : l.Pairwise (fun a b => v a.sectionType < v b.sectionType)) : sorted = l := by
  obtain ⟨hp, hsorted⟩ := hs
  have hle : sorted.Pairwise (fun a b => v a.sectionType ≤ v b.sectionType) := by
    refine List.Pairwise.imp ?_ hsorted
    intro a b hab
    simp only [sortModelsLess, decide_eq_false_iff_not, not_lt] at hab
    exact hab
  have hnd : (l.map (fun m => v m.sectionType)).Nodup := by
    rw [List.Nodup, List.pairwise_map]
    exact List.Pairwise.imp (fun h => ne_of_lt h) hl
  have hnd2 : (sorted.map (fun m => v m.sectionType)).Nodup :=
    (List.Perm.nodup_iff (List.Perm.map _ hp)).2 hnd
  have hne : sorted.Pairwise (fun a b => v a.sectionType ≠ v b.sectionType) := by
    rw [List.Nodup, List.pairwise_map] at hnd2
    exact hnd2
  have hlt : sorted.Pairwise (fun a b => v a.sectionType < v b.sectionType) :=
    List.Pairwise.imp₂ (fun a b h1 h2 => lt_of_le_of_ne h1 h2) hle hne
  haveI : IsAntisymm AbstractInspectorModel (fun a b => v a.sectionType < v b.sectionType) :=
    ⟨fun a b h1 h2 => absurd h2 (not_lt_of_lt h1)⟩
  exact List.eq_of_perm_of_sorted hp hlt hl

end InspectorListModel

namespace TRead

/-- The answer of `try_read<T>` when the cast fails: `false`, and nothing is
touched. -/
theorem try_read_none {α β : Type} (cast : β → Option α) (wrap : α → β)
    (rd : α → XmlReader → Log → Option (α × XmlReader × Log))
    (el : β) (e : XmlReader) (log : Log) (h : cast el = none) :
    try_read cast wrap rd el e log = some (false, el, e, log) := by
  unfold try_read
  rw [h]

/-- The answer of `try_read<T>` when the cast succeeds: one run of the
reader, and `true`. -/
theorem try_read_some {α β : Type} (cast : β → Option α) (wrap : α → β)
    (rd : α → XmlReader → Log → Option (α × XmlReader × Log))
    (el : β) (e : XmlReader) (log : Log) (t : α) (h : cast el = some t) :
    try_read cast wrap rd el e log
      = (rd t e log).map (fun r => (true, wrap r.1, r.2.1, r.2.2)) := by
  cases hr : rd t e log with
  | none => simp only [try_read, h, hr, Option.map_none']
  | some r =>
    obtain ⟨t1, e1, log1⟩ := r
    simp only [try_read, h, hr, Option.map_some']

/-- The chain of the dispatcher is the dispatch in the words of C14, for
every entity type and all casts and readers. -/
theorem readWith_eq_dispatchSpec {β : Type} (C : ReaderKind → Candidate β) (el : β)
    (e : XmlReader) (log : Log) :
    readWith (C ReaderKind.Sticking).tryRead (C ReaderKind.SystemText).tryRead
        (C ReaderKind.PlayTech).tryRead (C ReaderKind.RehearsalMark).tryRead
        (C ReaderKind.InstrumentChange).tryRead (C ReaderKind.StaffState).tryRead
        (C ReaderKind.FiguredBass).tryRead el e log
      = dispatchSpec C el e log := by
  unfold readWith dispatchSpec dispatchOrder Candidate.tryRead
  simp only [List.findSome?]
  cases h1 : (C ReaderKind.Sticking).cast el with
  | some t =>
    simp only [try_read_some _ _ _ _ _ _ t h1, Option.map_some']
    cases hr : (C ReaderKind.Sticking).rd t e log <;> simp
  | none =>
  simp only [try_read_none _ _ _ _ _ _ h1, Option.map_none']
  cases h2 : (C ReaderKind.SystemText).cast el with
  | some t =>
    simp only [try_read_some _ _ _ _ _ _ t h2, Option.map_some']
    cases hr : (C ReaderKind.SystemText).rd t e log <;> simp
  | none =>
  simp only [try_read_none _ _ _ _ _ _ h2, Option.map_none']
  cases h3 : (C ReaderKind.PlayTech).cast el with
  | some t =>
    simp only [try_read_some _ _ _ _ _ _ t h3, Option.map_some']
    cases hr : (C ReaderKind.PlayTech).rd t e log <;> simp
  | none =>
  simp only [try_read_none _ _ _ _ _ _ h3, Option.map_none']
  cases h4 : (C ReaderKind.RehearsalMark).cast el with
  | some t =>
    simp only [try_read_some _ _ _ _ _ _ t h4, Option.map_some']
    cases hr : (C ReaderKind.RehearsalMark).rd t e log <;> simp
  | none =>
  simp only [try_read_none _ _ _ _ _ _ h4, Option.map_none']
  cases h5 : (C ReaderKind.InstrumentChange).cast el with
  | some t =>
    simp only [try_read_some _ _ _ _ _ _ t h5, Option.map_some']
    cases hr : (C ReaderKind.InstrumentChange).rd t e log <;> simp
  | none =>
  simp only [try_read_none _ _ _ _ _ _ h5, Option.map_none']
  cases h6 : (C ReaderKind.StaffState).cast el with
  | some t =>
    simp only [try_read_some _ _ _ _ _ _ t h6, Option.map_some']
    cases hr : (C ReaderKind.StaffState).rd t e log <;> simp
  | none =>
  simp only [try_read_none _ _ _ _ _ _ h6, Option.map_none']
  cases h7 : (C ReaderKind.FiguredBass).cast el with
  | some t =>
    simp only [try_read_some _ _ _ _ _ _ t h7, Option.map_some']
    cases hr : (C ReaderKind.FiguredBass).rd t e log <;> simp
  | none =>
  simp only [try_read_none _ _ _ _ _ _ h7, Option.map_none']
  rfl

end TRead

/-- C14: `TRead::read(EngravingItem*)` tries the concrete readers in the
order Sticking, SystemText, PlayTechAnnotation, RehearsalMark,
InstrumentChange, StaffState, FiguredBass, and stops at the first that
accepts.

* For an entity of one of these seven kinds the call is one run of the reader
  of that kind on the entity (its result is the result of the call) and no
  other reader runs; for an entity of any other kind (TempoText, StaffText,
  Dynamic, Harmony, FretDiagram, TremoloBar) no reader runs and the call ends
  in the branch `UNREACHABLE`, with the entity, the cursor and the log as
  they were handed in.
* The order and the stop: for every type of entities and all casts and
  readers, also casts of which several succeed on one entity, the chain of
  the dispatcher is `dispatchSpec`: the reader of the first class in the
  order `dispatchOrder` whose cast succeeds runs once, on the cursor and the
  log as handed in, and no reader after it runs; `TRead.read` is that
  dispatch with the casts and readers of the file. -/
theorem C14_dispatch {R D : Type} (V : Env) (e : XmlReader) (log : Log) :
    (∀ s : Sticking,
      TRead.read V (EngravingItem.sticking s : EngravingItem R D) e log
        = (TRead.readSticking V.toExt s e log).map
            (fun r => Dispatched.done ReaderKind.Sticking (EngravingItem.sticking r.1) r.2.1 r.2.2))
    ∧ (∀ t : SystemText,
      TRead.read V (EngravingItem.systemText t : EngravingItem R D) e log
        = (TRead.readSystemText V t e log).map
            (fun r => Dispatched.done ReaderKind.SystemText (EngravingItem.systemText r.1)
              r.2.1 r.2.2))
    ∧ (∀ a : PlayTechAnnotation,
      TRead.read V (EngravingItem.playTech a : EngravingItem R D) e log
        = (TRead.readPlayTech V.toExt a e log).map
            (fun r => Dispatched.done ReaderKind.PlayTech (EngravingItem.playTech r.1) r.2.1 r.2.2))
    ∧ (∀ m : RehearsalMark,
      TRead.read V (EngravingItem.rehearsalMark m : EngravingItem R D) e log
        = (TRead.readRehearsalMark V.toExt m e log).map
            (fun r => Dispatched.done ReaderKind.RehearsalMark (EngravingItem.rehearsalMark r.1)
              r.2.1 r.2.2))
    ∧ (∀ c : InstrumentChange,
      TRead.read V (EngravingItem.instrumentChange c : EngravingItem R D) e log
        = (TRead.readInstrumentChange V c e log).map
            (fun r => Dispatched.done ReaderKind.InstrumentChange
              (EngravingItem.instrumentChange r.1) r.2.1 r.2.2))
    ∧ (∀ s : StaffState,
      TRead.read V (EngravingItem.staffState s : EngravingItem R D) e log
        = (TRead.readStaffState V s e log).map
            (fun r => Dispatched.done ReaderKind.StaffState (EngravingItem.staffState r.1)
              r.2.1 r.2.2))
    ∧ (∀ b : FiguredBass,
      TRead.read V (EngravingItem.figuredBass b : EngravingItem R D) e log
        = (TRead.readFiguredBass V.toExt b e log).map
            (fun r => Dispatched.done ReaderKind.FiguredBass (EngravingItem.figuredBass r.1)
              r.2.1 r.2.2))
    ∧ (∀ t : TempoText R,
      TRead.read V (EngravingItem.tempoText t : EngravingItem R D) e log
        = some (Dispatched.unreachable (EngravingItem.tempoText t) e log))
    ∧ (∀ t : StaffText,
      TRead.read V (EngravingItem.staffText t : EngravingItem R D) e log
        = some (Dispatched.unreachable (EngravingItem.staffText t) e log))
    ∧ (∀ d : Dynamic,
      TRead.read V (EngravingItem.dynamic d : EngravingItem R D) e log
        = some (Dispatched.unreachable (EngravingItem.dynamic d) e log))
    ∧ (∀ h : Harmony,
      TRead.read V (EngravingItem.harmony h : EngravingItem R D) e log
        = some (Dispatched.unreachable (EngravingItem.harmony h) e log))
    ∧ (∀ d : D,
      TRead.read V (EngravingItem.fretDiagram d : EngravingItem R D) e log
        = some (Dispatched.unreachable (EngravingItem.fretDiagram d) e log))
    ∧ (∀ b : TremoloBar,
      TRead.read V (EngravingItem.tremoloBar b : EngravingItem R D) e log
        = some (Dispatched.unreachable (EngravingItem.tremoloBar b) e log))
    ∧ (∀ (β : Type) (C : ReaderKind → Candidate β) (el : β) (e2 : XmlReader) (log2 : Log),
      TRead.readWith (C ReaderKind.Sticking).tryRead (C ReaderKind.SystemText).tryRead
          (C ReaderKind.PlayTech).tryRead (C ReaderKind.RehearsalMark).tryRead
          (C ReaderKind.InstrumentChange).tryRead (C ReaderKind.StaffState).tryRead
          (C ReaderKind.FiguredBass).tryRead el e2 log2
        = dispatchSpec C el e2 log2)
    ∧ (∀ el : EngravingItem R D,
      TRead.read V el e log = dispatchSpec (TRead.candidates V) el e log) := by
  refine ⟨?_, ?_, ?_, ?_, ?_, ?_, ?_, ?_, ?_, ?_, ?_, ?_, ?_, ?_, ?_⟩
  · intro s
    cases h : TRead.readSticking V.toExt s e log <;>
      simp [TRead.read, TRead.readWith, TRead.try_read, EngravingItem.asSticking, h]
  · intro t
    cases h : TRead.readSystemText V t e log <;>
      simp [TRead.read, TRead.readWith, TRead.try_read, EngravingItem.asSticking, EngravingItem.asSystemText, h]
  · intro a
    cases h : TRead.readPlayTech V.toExt a e log <;>
      simp [TRead.read, TRead.readWith, TRead.try_read, EngravingItem.asSticking, EngravingItem.asSystemText,
        EngravingItem.asPlayTech, h]
  · intro m
    cases h : TRead.readRehearsalMark V.toExt m e log <;>
      simp [TRead.read, TRead.readWith, TRead.try_read, EngravingItem.asSticking, EngravingItem.asSystemText,
        EngravingItem.asPlayTech, EngravingItem.asRehearsalMark, h]
  · intro c
    cases h : TRead.readInstrumentChange V c e log <;>
      simp [TRead.read, TRead.readWith, TRead.try_read, EngravingItem.asSticking, EngravingItem.asSystemText,
        EngravingItem.asPlayTech, EngravingItem.asRehearsalMark,
        EngravingItem.asInstrumentChange, h]
  · intro s
    cases h : TRead.readStaffState V s e log <;>
      simp [TRead.read, TRead.readWith, TRead.try_read, EngravingItem.asSticking, EngravingItem.asSystemText,
        EngravingItem.asPlayTech, EngravingItem.asRehearsalMark,
        EngravingItem.asInstrumentChange, EngravingItem.asStaffState, h]
  · intro b
    cases h : TRead.readFiguredBass V.toExt b e log <;>
      simp [TRead.read, TRead.readWith, TRead.try_read, EngravingItem.asSticking, EngravingItem.asSystemText,
        EngravingItem.asPlayTech, EngravingItem.asRehearsalMark,
        EngravingItem.asInstrumentChange, EngravingItem.asStaffState,
        EngravingItem.asFiguredBass, h]
  · intro x; rfl
  · intro x; rfl
  · intro x; rfl
  · intro x; rfl
  · intro x; rfl
  · intro x; rfl
  · intro β C el e2 log2
    exact TRead.readWith_eq_dispatchSpec C el e2 log2
  · intro el
    exact TRead.readWith_eq_dispatchSpec (TRead.candidates V) el e log

/-- An entity on which both the cast to SystemText and the cast to the
playing-technique text succeed, read from an element with a tag of the
technique type: the reader of SystemText, which comes first in the order,
runs (it reports the tag as unknown), and the reader of the
playing-technique text, which would have set the property, does not run. -/
theorem C14_dispatch_witness :
    ((overlappingCandidates exampleEnv ReaderKind.SystemText).cast emptyPlayTech).isSome = true
    ∧ ((overlappingCandidates exampleEnv ReaderKind.PlayTech).cast emptyPlayTech).isSome = true
    ∧ TRead.readWith (overlappingCandidates exampleEnv ReaderKind.Sticking).tryRead
        (overlappingCandidates exampleEnv ReaderKind.SystemText).tryRead
        (overlappingCandidates exampleEnv ReaderKind.PlayTech).tryRead
        (overlappingCandidates exampleEnv ReaderKind.RehearsalMark).tryRead
        (overlappingCandidates exampleEnv ReaderKind.InstrumentChange).tryRead
        (overlappingCandidates exampleEnv ReaderKind.StaffState).tryRead
        (overlappingCandidates exampleEnv ReaderKind.FiguredBass).tryRead
        emptyPlayTech playTechTypeTag.toks []
      = some (Dispatched.done ReaderKind.SystemText emptyPlayTech
          [Token.endElement "PlayTechAnnotation"] [Diag.unknownElement "playTechType"])
    ∧ TRead.readPlayTech exampleEnv.toExt emptyPlayTech playTechTypeTag.toks []
      = some ({ emptyPlayTech with properties := [(Pid.PLAY_TECH_TYPE, "1")] },
          [Token.endElement "PlayTechAnnotation"], []) := by
  have hread : TRead.readSystemText exampleEnv ⟨emptyStaffText⟩ playTechTypeTag.toks []
      = some (⟨emptyStaffText⟩, [Token.endElement "PlayTechAnnotation"],
          [Diag.unknownElement "playTechType"]) := by decide
  refine ⟨rfl, rfl, ?_, by decide⟩
  rw [(C14_dispatch (R := Int) (D := List FretCall) exampleEnv [] []).2.2.2.2.2.2.2.2.2.2.2.2.2.1
    PlayTechAnnotation (overlappingCandidates exampleEnv) emptyPlayTech playTechTypeTag.toks []]
  simp only [dispatchSpec, dispatchOrder, List.findSome?, overlappingCandidates, Option.map_none',
    Option.map_some']
  have hcast : ({ toStaffTextBase := emptyPlayTech.toStaffTextBase } : SystemText)
      = ⟨emptyStaffText⟩ := rfl
  rw [hcast, hread]
  rfl

namespace InspectorListModel

theorem removeModel_sublist (M : InspectorListModel) (model : AbstractInspectorModel) :
    (removeModel M model).m_modelList.Sublist M.m_modelList := by
  unfold removeModel
  simp only
  split_ifs
  · exact List.eraseIdx_sublist _ _
  · exact List.Sublist.refl _

/-- The list after `removeUnusedModels` holds models of the list before, in
their order. -/
theorem removeUnusedModels_sublist (unused : AbstractInspectorModel → Bool)
    (exclusions : List InspectorSectionType) (M : InspectorListModel) :
    (removeUnusedModels unused exclusions M).m_modelList.Sublist M.m_modelList := by
  unfold removeUnusedModels
  generalize modelsToRemove unused exclusions M.m_modelList = rem
  induction rem generalizing M with
  | nil => exact List.Sublist.refl _
  | cons m ms ih =>
    rw [List.foldl_cons]
    exact List.Sublist.trans (ih (removeModel M m)) (removeModel_sublist M m)

theorem sortModelsFrom_list (M : InspectorListModel) (sorted : List AbstractInspectorModel) :
    (M.sortModelsFrom sorted).m_modelList = sorted := by
  unfold sortModelsFrom
  by_cases h : M.m_modelList = sorted
  · simp only [h, if_true]
  · simp only [h, if_false]

/-- The invariant of the model list: in every state that the code can
produce no two models have the same section type. -/
theorem reachable_nodup (v : InspectorSectionType → Int) (M : InspectorListModel)
    (h : Reachable v M) : (M.m_modelList.map (fun m => m.sectionType)).Nodup := by
  induction h with
  | init signals => exact List.nodup_nil
  | removeUnusedModels unused exclusions M _ ih =>
    exact List.Nodup.sublist
      (List.Sublist.map _ (removeUnusedModels_sublist unused exclusions M)) ih
  | createModelsBySectionType types M _ ih =>
    exact (createModelsBySectionType_list types M ih).1
  | sortModels M Mafter _ hs ih =>
    obtain ⟨sorted, hsort, rfl⟩ := hs
    rw [sortModelsFrom_list]
    exact (List.Perm.nodup_iff (List.Perm.map _ hsort.1)).2 ih

/-- A list in non-decreasing order of the values in which no two models have
the same section type is in increasing order, the conversion to `int` being
one-to-one. -/
theorem increasing_of_nodup (v : InspectorSectionType → Int) (hv : Function.Injective v)
    (l : List AbstractInspectorModel)
    (hle : l.Pairwise (fun a b => v a.sectionType ≤ v b.sectionType))
    (hnd : (l.map (fun m => m.sectionType)).Nodup) :
    l.Pairwise (fun a b => v a.sectionType < v b.sectionType) := by
  rw [List.Nodup, List.pairwise_map] at hnd
  exact List.Pairwise.imp₂ (fun a b h1 h2 => lt_of_le_of_ne h1 (fun h => h2 (hv h))) hle hnd

/-- The list itself is a result that `std::sort` may leave for a list in
non-decreasing order. -/
theorem stdSort_self (v : InspectorSectionType → Int) (l : List AbstractInspectorModel)
    (hle : l.Pairwise (fun a b => v a.sectionType ≤ v b.sectionType)) :
    StdSort (sortModelsLess v) l l := by
  refine ⟨List.Perm.refl _, List.Pairwise.imp ?_ hle⟩
  intro a b hab
  simp only [sortModelsLess, decide_eq_false_iff_not, not_lt]
  exact hab

end InspectorListModel

theorem exampleSectionValue_injective : Function.Injective exampleSectionValue := by
  intro a b h
  cases a <;> cases b <;> simp only [exampleSectionValue] at h <;>
    first
    | rfl
    | (exfalso; omega)
    | (congr 1; omega)

/-- C25: `sortModels` sorts the model list by the integer value of the
section types. The call has a result, and whatever list `std::sort` leaves:
the model list after the call is a rearrangement of the list before (same
models, same multiplicities) and is in non-decreasing order of the integer
value of the section type of each model. When the list was already in that
order it is left unchanged, and no notification is sent: for every list that
the code can produce (`Reachable`; no two of its models have the same section
type, and the conversion to `int` is one-to-one), and for every list
whatever in increasing order. For a list in non-decreasing order, leaving it
as it is is always a result that `std::sort` may leave. -/
theorem C25_sort_models (v : InspectorSectionType → Int) (M : InspectorListModel) :
    (∃ Mafter, M.sortModels v Mafter)
    ∧ (∀ Mafter, M.sortModels v Mafter →
        Mafter.m_modelList.Perm M.m_modelList
        ∧ Mafter.m_modelList.Pairwise (fun a b => v a.sectionType ≤ v b.sectionType)
        ∧ (M.m_modelList.Pairwise (fun a b => v a.sectionType < v b.sectionType) →
            Mafter = M)
        ∧ (Function.Injective v → M.Reachable v →
            M.m_modelList.Pairwise (fun a b => v a.sectionType ≤ v b.sectionType) →
            Mafter = M))
    ∧ (M.m_modelList.Pairwise (fun a b => v a.sectionType ≤ v b.sectionType) →
        M.sortModels v M) := by
  refine ⟨?_, ?_, ?_⟩
  · exact ⟨_, _, InspectorListModel.stdSort_insertionSort v M.m_modelList, rfl⟩
  · rintro Mafter ⟨sorted, hs, rfl⟩
    have hstrict : M.m_modelList.Pairwise (fun a b => v a.sectionType < v b.sectionType) →
        M.sortModelsFrom sorted = M := by
      intro hl
      rw [InspectorListModel.eq_of_stdSort_of_increasing v M.m_modelList sorted hs hl]
      exact InspectorListModel.sortModelsFrom_self M
    refine ⟨?_, ?_, hstrict, ?_⟩
    · rw [InspectorListModel.sortModelsFrom_list]; exact hs.1
    · rw [InspectorListModel.sortModelsFrom_list]
      refine List.Pairwise.imp ?_ hs.2
      intro a b hab
      simp only [InspectorListModel.sortModelsLess, decide_eq_false_iff_not, not_lt] at hab
      exact hab
    · intro hv hr hle
      exact hstrict (InspectorListModel.increasing_of_nodup v hv _ hle
        (InspectorListModel.reachable_nodup v M hr))
  · intro hle
    exact ⟨M.m_modelList, InspectorListModel.stdSort_self v _ hle,
      (InspectorListModel.sortModelsFrom_self M).symm⟩

/-- The list with the text model before the general model is sorted into the
list with the general model first, with the notifications of the two moved
rows; the list that `createModelsBySectionType` makes of GENERAL and TEXT in
an empty inspector is a list that the code can produce, it is in order, and
every result of the call on it is the list itself. -/
theorem C25_sort_models_witness :
    inspectorTextGeneral.sortModels exampleSectionValue
      ⟨inspectorGeneralText.m_modelList,
        [RowSignal.beginMoveRows 0 0 1, RowSignal.beginMoveRows 1 1 0, RowSignal.endMoveRows]⟩
    ∧ inspectorGeneralText.m_modelList.Perm inspectorTextGeneral.m_modelList
    ∧ Function.Injective exampleSectionValue
    ∧ (emptyInspector.createModelsBySectionType
        [InspectorSectionType.SECTION_GENERAL, InspectorSectionType.SECTION_TEXT]).Reachable
          exampleSectionValue
    ∧ (emptyInspector.createModelsBySectionType
        [InspectorSectionType.SECTION_GENERAL, InspectorSectionType.SECTION_TEXT]).m_modelList
      = [⟨1, InspectorSectionType.SECTION_GENERAL⟩, ⟨2, InspectorSectionType.SECTION_TEXT⟩]
    ∧ ∀ Mafter,
        (emptyInspector.createModelsBySectionType
          [InspectorSectionType.SECTION_GENERAL, InspectorSectionType.SECTION_TEXT]).sortModels
            exampleSectionValue Mafter →
        Mafter = emptyInspector.createModelsBySectionType
          [InspectorSectionType.SECTION_GENERAL, InspectorSectionType.SECTION_TEXT] := by
  have h1 : inspectorTextGeneral.sortModels exampleSectionValue
      ⟨inspectorGeneralText.m_modelList,
        [RowSignal.beginMoveRows 0 0 1, RowSignal.beginMoveRows 1 1 0,
          RowSignal.endMoveRows]⟩ :=
    ⟨inspectorGeneralText.m_modelList, ⟨List.Perm.swap _ _ _, by decide⟩, by decide⟩
  have hr : (emptyInspector.createModelsBySectionType
      [InspectorSectionType.SECTION_GENERAL, InspectorSectionType.SECTION_TEXT]).Reachable
        exampleSectionValue :=
    InspectorListModel.Reachable.createModelsBySectionType _ _
      (InspectorListModel.Reachable.init [])
  refine ⟨h1, ((C25_sort_models exampleSectionValue inspectorTextGeneral).2.1 _ h1).1,
    exampleSectionValue_injective, hr, by decide, ?_⟩
  intro Mafter hs
  exact ((C25_sort_models exampleSectionValue _).2.1 Mafter hs).2.2.2
    exampleSectionValue_injective hr (by decide)

/-- The removal on the example: with GENERAL excluded and all models but the
notation model unused, the text model is taken out and the two others stay
in their order. -/
theorem removeUnusedModels_example :
    (inspectorThree.removeUnusedModels
        (fun m => decide (m.sectionType ≠ InspectorSectionType.SECTION_NOTATION))
        [InspectorSectionType.SECTION_GENERAL])
      = ⟨[⟨2, InspectorSectionType.SECTION_GENERAL⟩, ⟨3, InspectorSectionType.SECTION_NOTATION⟩],
          [RowSignal.beginRemoveRows 0 0, RowSignal.endRemoveRows]⟩ := by
  decide

end MuseScore
